import Mathlib

/-!
# MTCylinder: filament growth, fluctuation and cross-linking in a cylinder

A shallow embedding of `cylinder_freegrowth.cpp` (and of the parts it shares
with `cylinder.cpp`).

Conventions of the embedding
* `double` is an ordered field `R` (exact arithmetic); `sqrt` and `exp` of
  `<cmath>` are the fields of a `Libm R` value handed to every function that
  calls them. Theorems that need the real square root assume `Libm.IsSqrt`;
  `ratLibm` evaluates the code on rationals whose radicands are squares.
* `int` is `Int`; `(int) floor(x)` is `Int.floor`.
* A `node*` is a `NodePtr`: the slot of the filament in `Axon::filaments` and
  the slot of the node in `Filament::nodes`. `NULL` is `none`.
* The mutable globals `COLLISIONS`, `FORM_LINKS`, ... are the fields of `Flags`.
* Each call of `NR::ran2` is an explicit argument (one draw) or an entry of a
  stream of draws (`Nat → R`) read through a counter.
-/

namespace MTCylinder

/-! ## Numbers -/

/-- The `<cmath>` functions the engine calls. -/
structure Libm (R : Type) where
  sqrt : R → R
  exp : R → R

/-- The square root of `M` is the real one: non-negative, squaring back on
non-negative arguments. -/
def Libm.IsSqrt {R : Type} [LinearOrderedField R] (M : Libm R) : Prop :=
  (∀ x : R, 0 ≤ M.sqrt x) ∧ (∀ x : R, 0 ≤ x → M.sqrt x * M.sqrt x = x)

/-- Rational evaluation of `<cmath>`: `sqrt` is exact on squares of rationals;
`exp` is `1 + x` for `0 ≤ x` and `1 / (1 - x)` below, which agrees with the
real exponential at `0` and, like it, is `≥ 1` exactly on `0 ≤ x`. -/
def ratLibm : Libm ℚ where
  sqrt := Rat.sqrt
  exp := fun x => if 0 ≤ x then 1 + x else 1 / (1 - x)

/-! ## Constants (`cylinder_freegrowth.cpp`, lines 52-72) -/

section Constants
variable {R : Type} [LinearOrderedField R]

def LINK_INTERACTION_LEN : R := 1 / 10
def LINK_LEN : R := 25 / 1000
def LINK_FORM_PROB : R := 9 / 10
def LINK_RM_PROB : R := 5 / 10
def FILAMENT_RADIUS : R := 125 / 10000
def PERSISTENCE_LEN : R := 30

end Constants

def MAX_LINKS : Nat := 13
def NUM_STEPS : Nat := 2000
def MAX_NODES : Nat := NUM_STEPS
def MAX_FILAMENTS : Nat := NUM_STEPS

/-- The mutable global switches of the engine. -/
structure Flags where
  COLLISIONS : Bool
  FLUCTUATIONS : Bool
  FORM_LINKS : Bool
  BREAK_LINKS : Bool
  BUNDLE_FLUCT : Bool
deriving DecidableEq

/-! ## Point -/

structure Point (R : Type) where
  x : R
  y : R
  z : R
deriving DecidableEq

section PointOps
variable {R : Type} [LinearOrderedField R]

def Point.norm (M : Libm R) (p : Point R) : R :=
  M.sqrt (p.x * p.x + p.y * p.y + p.z * p.z)

def Point.scale (p : Point R) (s : R) : Point R :=
  ⟨p.x * s, p.y * s, p.z * s⟩

/-- `Point::normalize`, `scale(1.0/norm)`. For a vector of norm 0 the field
division gives the factor 0 here, where the machine gives an infinite factor
and NaN components; `Point.normalize_checked` follows the division. -/
def Point.normalize (M : Libm R) (p : Point R) : Point R :=
  p.scale (1 / p.norm M)

def Point.sum (a b : Point R) : Point R :=
  ⟨a.x + b.x, a.y + b.y, a.z + b.z⟩

def Point.difference (a b : Point R) : Point R :=
  ⟨a.x - b.x, a.y - b.y, a.z - b.z⟩

def Point.distance_to (M : Libm R) (p other : Point R) : R :=
  M.sqrt ((p.x - other.x) * (p.x - other.x) + (p.z - other.z) * (p.z - other.z)
    + (p.y - other.y) * (p.y - other.y))

def Point.cross (a b : Point R) : Point R :=
  ⟨a.y * b.z - a.z * b.y, a.z * b.x - a.x * b.z, a.x * b.y - a.y * b.x⟩

def Point.dot (a b : Point R) : R :=
  a.x * b.x + a.y * b.y + a.z * b.z

/-! ## Collision geometry -/

def clip (min max val : R) : R :=
  if val < min then min
  else if val > max then max
  else val

/-- `Axon::collision`: the capsule test between segments `[s,e]` and `[p,q]`,
in exact arithmetic. Where `denomv` or `denomu` is 0 (antiparallel or
degenerate segments) the quotient is the field's 0 here; on the machine it is
NaN or infinite, and a NaN distance answers false. -/
def Axon.collision (M : Libm R) (s e p q : Point R) (r : R) : Bool :=
  let es := Point.difference e s
  let qp := Point.difference q p
  let sp := Point.difference s p
  if |Point.dot es qp - es.norm M * qp.norm M| < 1 / 1000000000 then
    false
  else
    let numv := Point.dot es sp * Point.dot es qp - Point.dot sp qp * Point.dot es es
    let denomv := (Point.dot es qp) ^ 2 - Point.dot qp qp * Point.dot es es
    let v := clip 0 1 (numv / denomv)
    let numu := v * Point.dot es qp - Point.dot es sp
    let denomu := Point.dot es es
    let u := clip 0 1 (numu / denomu)
    let es1 := es.scale u
    let qp1 := qp.scale v
    let min_dist := Point.sum sp (Point.difference es1 qp1)
    decide (min_dist.norm M < 2 * r)

/-- The point at parameter `t` of the segment `[a,b]`. -/
def segPoint (a b : Point R) (t : R) : Point R :=
  Point.sum a ((Point.difference b a).scale t)

/-- The squared Euclidean distance between two points. -/
def distSq (a b : Point R) : R :=
  Point.dot (Point.difference a b) (Point.difference a b)

end PointOps

/-! ## Nodes, grids, filaments, the axon -/

/-- A `node*`: slot of the filament in `Axon::filaments`, slot of the node in
`Filament::nodes`. -/
abbrev NodePtr := Nat × Nat

/-- Cell indices of a grid (`struct triple`). -/
structure triple where
  i : Int
  j : Int
  k : Int
deriving DecidableEq

/-- A chain node. `links` is the memory of the `links` array, slot by slot
(`links s` is what `links[s]` holds, whatever was or was not written there);
the link list of the node is its first `num_links` slots. The back-pointers
`axon`, `link_grid`, `collide_grid` always refer to the one axon and its two
grids and are not stored. -/
structure node (R : Type) where
  point : Point R
  up : Option NodePtr
  down : Option NodePtr
  links : Nat → Option NodePtr
  linked_to_wall : Bool
  num_links : Nat
  filament_id : Int

/-- A uniform bucket grid; `cells ijk` is the `list<node*>` of cell `ijk`. -/
structure Grid3D (R : Type) where
  minx : R
  maxx : R
  miny : R
  maxy : R
  minz : R
  maxz : R
  xstep : R
  ystep : R
  zstep : R
  isize : Int
  jsize : Int
  ksize : Int
  cells : triple → List (Option NodePtr)

/-- A filament: the live prefix `nodes[0 .. num_nodes-1]` of its node array. -/
structure Filament (R : Type) where
  nodes : List (node R)
  id : Int

/-- The axon: the live prefix `filaments[0 .. num_filaments-1]`, the node
counter and the two grids. -/
structure Axon (R : Type) where
  r : R
  length : R
  filaments : List (Filament R)
  total_nodes : Int
  link_grid : Grid3D R
  collide_grid : Grid3D R

/-- Which of the two grids of the axon a `Grid3D*` points to. -/
inductive GridId where
  | link
  | collide
deriving DecidableEq

section Engine
variable {R : Type} [LinearOrderedField R] [FloorRing R]

def Filament.num_nodes (f : Filament R) : Nat := f.nodes.length

def Axon.num_filaments (A : Axon R) : Nat := A.filaments.length

/-- The node a pointer refers to, if it is a live node of the axon. -/
def Axon.deref (A : Axon R) (p : NodePtr) : Option (node R) :=
  match A.filaments[p.1]? with
  | none => none
  | some f => f.nodes[p.2]?

/-- Store through a node pointer: the pointee becomes `g pointee`. -/
def Axon.update (A : Axon R) (p : NodePtr) (g : node R → node R) : Axon R :=
  { A with filaments :=
      A.filaments.modify (fun f => { f with nodes := f.nodes.modify g p.2 }) p.1 }

def Axon.grid (A : Axon R) : GridId → Grid3D R
  | GridId.link => A.link_grid
  | GridId.collide => A.collide_grid

def Axon.setGrid (A : Axon R) (gid : GridId) (g : Grid3D R) : Axon R :=
  match gid with
  | GridId.link => { A with link_grid := g }
  | GridId.collide => { A with collide_grid := g }

/-! ### Construction -/

/-- `node::node(Point, int)`: no neighbours, no links. The `links` array is
freshly allocated; its slots read as `NULL` here. -/
def node.init (point0 : Point R) (filament_id0 : Int) : node R where
  point := point0
  up := none
  down := none
  links := fun _ => none
  linked_to_wall := false
  num_links := 0
  filament_id := filament_id0

/-- `Grid3D::init`: the extents, the cell counts `(int) ceil((max-min)/step)`
and empty buckets. -/
def Grid3D.init (minx0 maxx0 miny0 maxy0 minz0 maxz0 xstep0 ystep0 zstep0 : R) : Grid3D R where
  minx := minx0
  maxx := maxx0
  miny := miny0
  maxy := maxy0
  minz := minz0
  maxz := maxz0
  xstep := xstep0
  ystep := ystep0
  zstep := zstep0
  isize := Int.ceil ((maxx0 - minx0) / xstep0)
  jsize := Int.ceil ((maxy0 - miny0) / ystep0)
  ksize := Int.ceil ((maxz0 - minz0) / zstep0)
  cells := fun _ => []

/-- `Axon::init` of `cylinder_freegrowth.cpp`: both grids have cells of side
100, whatever steps are passed. -/
def Axon.init (radius length0 _xstep _ystep _zstep : R) : Axon R where
  r := radius
  length := length0
  filaments := []
  total_nodes := 0
  link_grid := Grid3D.init (-radius) radius (-radius) radius 0 length0 100 100 100
  collide_grid := Grid3D.init (-radius) radius (-radius) radius 0 length0 100 100 100

/-- `Axon::init` of `cylinder.cpp`: the link grid has the steps passed, the
collision grid has cells `0.3 × 0.3 × 1`. -/
def Axon.init_cylinder (radius length0 xstep ystep zstep : R) : Axon R where
  r := radius
  length := length0
  filaments := []
  total_nodes := 0
  link_grid := Grid3D.init (-radius) radius (-radius) radius 0 length0 xstep ystep zstep
  collide_grid := Grid3D.init (-radius) radius (-radius) radius 0 length0 (3 / 10) (3 / 10) 1

/-! ### node: link array -/

/-- The link list of a node: slots `0 .. num_links-1` of its `links` array. -/
def node.linkList (n : node R) : List (Option NodePtr) :=
  (List.range n.num_links).map n.links

def node.add_link (n : node R) (link : Option NodePtr) : node R :=
  let n1 : node R :=
    if n.num_links ≤ MAX_LINKS then
      { n with links := Function.update n.links n.num_links link }
    else n
  { n1 with num_links := n.num_links + 1 }

/-- The inner loop of `remove_link`: `for j = i .. i+cnt-1: links[j] = links[j+1]`. -/
def shiftSlots (links : Nat → Option NodePtr) : Nat → Nat → (Nat → Option NodePtr)
  | _, 0 => links
  | j, cnt + 1 => shiftSlots (Function.update links j (links (j + 1))) (j + 1) cnt

def node.remove_link (n : node R) (link : Option NodePtr) : node R :=
  match (List.range n.num_links).find? (fun i => decide (n.links i = link)) with
  | none => n
  | some i =>
    let shifted := shiftSlots n.links i (n.num_links - 1 - i)
    { n with links := Function.update shifted n.num_links none,
             num_links := n.num_links - 1 }

def node.contains_link (n : node R) (link : Option NodePtr) : Bool :=
  (List.range n.num_links).any (fun i => decide (n.links i = link))

/-! ### Grid3D -/

/-- `Grid3D::point_to_indices` in exact arithmetic: the difference and the
quotient are not rounded and the index is not bounded by the range of `int`.
`Double.point_to_indices` is the function in binary64 arithmetic. -/
def Grid3D.point_to_indices (g : Grid3D R) (p : Point R) : triple :=
  ⟨Int.floor ((p.x - g.minx) / g.xstep),
   Int.floor ((p.y - g.miny) / g.ystep),
   Int.floor ((p.z - g.minz) / g.zstep)⟩

def Grid3D.in_range (g : Grid3D R) (ijk : triple) : Bool :=
  decide (ijk.i < g.isize) && decide (ijk.i ≥ 0) &&
  decide (ijk.j < g.jsize) && decide (ijk.j ≥ 0) &&
  decide (ijk.k < g.ksize) && decide (ijk.k ≥ 0)

/-- `Grid3D::add_node`; `new_tip` is `new_node_ptr->point`. -/
def Grid3D.add_node (g : Grid3D R) (new_node_ptr : Option NodePtr) (new_tip : Point R) :
    Grid3D R :=
  match new_node_ptr with
  | none => g
  | some ptr =>
    let ijk := g.point_to_indices new_tip
    if g.in_range ijk then
      { g with cells := Function.update g.cells ijk (g.cells ijk ++ [some ptr]) }
    else g

/-- `Grid3D::move_node`; `pt` is `n->point`, already set to the new position.
`list::remove` deletes every entry equal to `n`. -/
def Grid3D.move_node (g : Grid3D R) (n : NodePtr) (pt : Point R) (ijk_old : triple) :
    Grid3D R :=
  let removed := (g.cells ijk_old).filter (fun e => decide (e ≠ some n))
  let g1 : Grid3D R := { g with cells := Function.update g.cells ijk_old removed }
  g1.add_node (some n) pt

/-! ### Axon: boundary, node movement -/

def Axon.in_cylinder (A : Axon R) (p : Point R) : Bool :=
  let eps : R := LINK_INTERACTION_LEN
  if p.y * p.y + p.x * p.x > (A.r - eps) * (A.r - eps) ∧ p.z ≥ 0 ∧ p.z ≤ A.length then
    false
  else true

/-- `node::move_within_grid` on the node `self` points to. A pointer that is
not a live node leaves the axon as it is (undefined in the source). -/
def node.move_within_grid (A : Axon R) (self : NodePtr) (new_loc : Point R) (gid : GridId) :
    Axon R × Bool :=
  match A.deref self with
  | none => (A, false)
  | some this =>
    let grid := A.grid gid
    let ijk_old := grid.point_to_indices this.point
    let ijk_new := grid.point_to_indices new_loc
    if grid.in_range (grid.point_to_indices new_loc) && A.in_cylinder new_loc then
      let A1 := A.update self (fun n => { n with point := new_loc })
      if ¬ (ijk_new.i = ijk_old.i ∧ ijk_new.j = ijk_old.j ∧ ijk_new.k = ijk_old.k) then
        (A1.setGrid gid (grid.move_node self new_loc ijk_old), true)
      else (A1, true)
    else (A, false)

/-- `node::move` (`cylinder_freegrowth.cpp`): each grid in use is moved in turn. -/
def node.move (F : Flags) (A : Axon R) (self : NodePtr) (new_loc : Point R) : Axon R × Bool :=
  let r1 : Axon R × Bool :=
    if F.FORM_LINKS then node.move_within_grid A self new_loc GridId.link else (A, false)
  let r2 : Axon R × Bool :=
    if F.COLLISIONS then node.move_within_grid r1.1 self new_loc GridId.collide
    else (r1.1, false)
  (r2.1, (r1.2 || !F.FORM_LINKS) && (r2.2 || !F.COLLISIONS))


/-! ### Bundle discovery -/

/-- The `for` loop of `node::neighbors` over the link list of the popped node:
an entry not yet in `R` is pushed on the queue and inserted into `R`. -/
def neighbors_scan (links : List (Option NodePtr)) (Q R : List (Option NodePtr)) :
    List (Option NodePtr) × List (Option NodePtr) :=
  links.foldl (fun QR l => if l ∈ QR.2 then QR else (QR.1 ++ [l], QR.2 ++ [l])) (Q, R)

/-- The link list read through a queue entry; a pointer that is not a live
node has none (the read is undefined in the source). -/
def Axon.linksOf (A : Axon R) (n : Option NodePtr) : List (Option NodePtr) :=
  match n.bind A.deref with
  | none => []
  | some nd => nd.linkList

/-- The `while (Q.size() != 0)` loop of `node::neighbors`; `none` when the
iteration budget is used up with the queue not empty. -/
def neighbors_loop (A : Axon R) :
    Nat → List (Option NodePtr) → List (Option NodePtr) → Option (List (Option NodePtr))
  | _, [], Rs => some Rs
  | 0, _ :: _, _ => none
  | fuel + 1, n :: Q, Rs =>
    let QR := neighbors_scan (A.linksOf n) Q Rs
    neighbors_loop A fuel QR.1 QR.2

/-- Number of live nodes of the axon. -/
def Axon.node_count (A : Axon R) : Nat :=
  (A.filaments.map (fun f => f.nodes.length)).sum

/-- `node::neighbors` with an explicit iteration budget. The `set<node*>` is
a duplicate-free list in order of insertion. -/
def node.neighbors_fuel (A : Axon R) (fuel : Nat) (self : NodePtr)
    (Rs : List (Option NodePtr)) : Option (List (Option NodePtr)) :=
  neighbors_loop A fuel [some self] (if some self ∈ Rs then Rs else Rs ++ [some self])

/-- `node::neighbors`: one loop iteration per live node is budget enough
(`neighbors_fuel_enough`). -/
def node.neighbors (A : Axon R) (self : NodePtr) (Rs : List (Option NodePtr)) :
    Option (List (Option NodePtr)) :=
  node.neighbors_fuel A A.node_count self Rs

/-! ### Curvature Hamiltonian -/

def origin : Point R := ⟨0, 0, 0⟩

/-- The `for (i = 2; i < points.size(); i++)` loop of `curve_hamiltonian`,
`cnt` iterations from index `i` on. -/
def curve_hamiltonian_loop (M : Libm R) (points : List (Point R)) :
    Nat → Nat → Point R → R → R → R
  | _, 0, _, _, h => h
  | i, cnt + 1, t1, b1, h =>
    let q := points.getD i origin
    let p := points.getD (i - 1) origin
    let t2 := Point.difference q p
    let b2 := t2.norm M
    let t2 := t2.normalize M
    curve_hamiltonian_loop M points (i + 1) cnt t2 b2 (h + (1 - Point.dot t1 t2) / b1)

def curve_hamiltonian (M : Libm R) (points : List (Point R)) : R :=
  if points.length ≤ 2 then 0
  else
    let p := points.getD 0 origin
    let q := points.getD 1 origin
    let t1 := Point.difference q p
    let b1 := t1.norm M
    let t1 := t1.normalize M
    let h := curve_hamiltonian_loop M points 2 (points.length - 2) t1 b1 0
    h * PERSISTENCE_LEN

/-! ### Collision query -/

/-- The values `lo, lo+1, ..., hi` of a `for (i = lo; i <= hi; i++)` loop. -/
def intRange (lo hi : Int) : List Int :=
  (List.range (hi + 1 - lo).toNat).map (fun (n : Nat) => lo + (n : Int))

/-- One pass of the `while` body of `check_collisions` for the list entry `e`:
`true` when the body executes `return true`. Entries that are `NULL` are
skipped; so is a pointer that is not a live node (undefined in the source). -/
def check_entry (M : Libm R) (A : Axon R) (p q : Point R) (filament_id : Int)
    (e : Option NodePtr) : Bool :=
  match e.bind A.deref with
  | none => false
  | some it =>
    let up_hit : Bool :=
      match it.up.bind A.deref with
      | none => false
      | some up =>
        decide (it.filament_id ≠ filament_id) &&
          Axon.collision M p q up.point it.point FILAMENT_RADIUS
    let down_hit : Bool :=
      match it.down.bind A.deref with
      | none => false
      | some down =>
        decide (it.filament_id ≠ filament_id) &&
          Axon.collision M p q down.point it.point FILAMENT_RADIUS
    up_hit || down_hit

def Axon.check_collisions (M : Libm R) (A : Axon R) (p q : Point R) (filament_id : Int) :
    Bool :=
  let ijk_p := A.collide_grid.point_to_indices p
  let ijk_q := A.collide_grid.point_to_indices q
  let mini := min (ijk_p.i - 1) (ijk_q.i - 1)
  let maxi := max (ijk_p.i + 1) (ijk_q.i + 1)
  let minj := min (ijk_p.j - 1) (ijk_q.j - 1)
  let maxj := max (ijk_p.j + 1) (ijk_q.j + 1)
  let mink := min (ijk_p.k - 1) (ijk_q.k - 1)
  let maxk := max (ijk_p.k + 1) (ijk_q.k + 1)
  (intRange mini maxi).any fun i =>
    (intRange minj maxj).any fun j =>
      (intRange mink maxk).any fun k =>
        (decide (i < A.collide_grid.isize) && decide (i ≥ 0) &&
         decide (j < A.collide_grid.jsize) && decide (j ≥ 0) &&
         decide (k < A.collide_grid.ksize) && decide (k ≥ 0)) &&
        (A.collide_grid.cells ⟨i, j, k⟩).any (check_entry M A p q filament_id)


/-! ### Link formation and dissociation -/

/-- The current position of the node `p` points to (`origin` for a pointer
that is not a live node). -/
def Axon.pointOf (A : Axon R) (p : NodePtr) : Point R :=
  match A.deref p with
  | none => origin
  | some n => n.point

/-- `Axon::link`; `u` is the value of the `NR::ran2` draw (made only when the
distance test passes). Pointers that are not live nodes leave the axon as it is. -/
def Axon.link (M : Libm R) (F : Flags) (A : Axon R) (node_ptr new_node_ptr : NodePtr)
    (u : R) : Axon R × Bool :=
  match A.deref node_ptr, A.deref new_node_ptr with
  | some n, some m =>
    if node_ptr ≠ new_node_ptr ∧ n.filament_id ≠ m.filament_id then
      let distance := n.point.distance_to M m.point
      if distance ≤ LINK_INTERACTION_LEN then
        if u < LINK_FORM_PROB then
          if (MAX_LINKS : Int) - (n.num_links : Int) ≥ 1 ∧
              (MAX_LINKS : Int) - (m.num_links : Int) ≥ 1 then
            if ¬ n.contains_link (some new_node_ptr) then
              let delta := Point.difference n.point m.point
              let shift := (1 / 2) * ((LINK_LEN + 2 * FILAMENT_RADIUS) - distance)
              let delta := delta.normalize M
              let delta_tmp := delta
              let moved : Axon R × Bool :=
                if n.num_links = 0 ∧ m.num_links = 0 then
                  let delta_tmp := delta_tmp.scale shift
                  let A1 := (node.move F A node_ptr (Point.sum delta_tmp (A.pointOf node_ptr))).1
                  let delta_tmp := delta_tmp.scale (-1)
                  let A2 :=
                    (node.move F A1 new_node_ptr
                      (Point.sum (A1.pointOf new_node_ptr) delta_tmp)).1
                  (A2, true)
                else if n.num_links > 0 ∧ m.num_links = 0 then
                  let delta_tmp := delta_tmp.scale (shift * 2)
                  let delta_tmp := delta_tmp.scale (-1)
                  let A1 :=
                    (node.move F A new_node_ptr
                      (Point.sum (A.pointOf new_node_ptr) delta_tmp)).1
                  (A1, true)
                else if m.num_links > 0 ∧ n.num_links = 0 then
                  let delta_tmp := delta_tmp.scale (shift * 2)
                  let A1 :=
                    (node.move F A node_ptr (Point.sum (A.pointOf node_ptr) delta_tmp)).1
                  (A1, true)
                else (A, false)
              let A3 := moved.1.update node_ptr (fun x => x.add_link (some new_node_ptr))
              let A4 := A3.update new_node_ptr (fun x => x.add_link (some node_ptr))
              (A4, moved.2)
            else (A, false)
          else (A, false)
        else (A, false)
      else (A, false)
    else (A, false)
  | _, _ => (A, false)

/-- The link list of the node `p` points to. -/
def Axon.linkListOf (A : Axon R) (p : NodePtr) : List (Option NodePtr) :=
  match A.deref p with
  | none => []
  | some n => n.linkList

/-- The slot `links[k]` of the node `p` points to. -/
def Axon.linkSlot (A : Axon R) (p : NodePtr) (k : Nat) : Option NodePtr :=
  match A.deref p with
  | none => none
  | some n => n.links k

/-- The body of the innermost loop of `Axon::break_links` for node `j` of
filament `i`, slot `k` and draw `u`. The second statement reads `links[k]`
again, after the first removal. -/
def break_links_step (A : Axon R) (i j k : Nat) (u : R) : Axon R :=
  if u < LINK_RM_PROB then
    let A1 : Axon R :=
      match A.linkSlot (i, j) k with
      | none => A
      | some t => A.update t (fun x => x.remove_link (some (i, j)))
    A1.update (i, j) (fun x => x.remove_link (A1.linkSlot (i, j) k))
  else A

/-- `for (k = ..; k < f->nodes[j].num_links; k++)`, the bound read again at
every test; `c` counts the draws made so far. The loop makes at most as many
passes as the node has links when it starts, which is the budget `fuel`. -/
def break_links_k (rand : Nat → R) (i j : Nat) : Nat → Nat → Nat → Axon R → Axon R × Nat
  | 0, _, c, A => (A, c)
  | fuel + 1, k, c, A =>
    match A.deref (i, j) with
    | none => (A, c)
    | some nd =>
      if k < nd.num_links then
        break_links_k rand i j fuel (k + 1) (c + 1) (break_links_step A i j k (rand c))
      else (A, c)

/-- The number of links of the node `p` points to. -/
def Axon.numLinksOf (A : Axon R) (p : NodePtr) : Nat :=
  match A.deref p with
  | none => 0
  | some n => n.num_links

/-- `for (j = 0; j < f->num_nodes; j++)` of `Axon::break_links`. -/
def break_links_j (rand : Nat → R) (i : Nat) (js : List Nat) (c : Nat) (A : Axon R) :
    Axon R × Nat :=
  js.foldl (fun Ac j => break_links_k rand i j (Ac.1.numLinksOf (i, j)) 0 Ac.2 Ac.1) (A, c)

/-- `Axon::break_links`, the draws taken from the stream `rand` starting at
draw `c`; returns the new axon and the number of draws made. -/
def Axon.break_links (rand : Nat → R) (c : Nat) (A : Axon R) : Axon R × Nat :=
  (List.range A.num_filaments).foldl
    (fun Ac i =>
      match Ac.1.filaments[i]? with
      | none => Ac
      | some f => break_links_j rand i (List.range f.num_nodes) Ac.2 Ac.1)
    (A, c)


/-! ### Fluctuation -/

def rotate_sample (M : Libm R) (sample q1 q2 q3 : Point R) : Point R :=
  let q3 := q3.normalize M
  let q2 := q2.normalize M
  let q1 := q1.normalize M
  let q1 := q1.scale sample.x
  let q2 := q2.scale sample.y
  let q3 := q3.scale sample.z
  let result := Point.sum q1 q2
  Point.sum result q3

/-- The frame `(q1, q2, q3)` built at the start of `node::fluctuate`, before
normalisation; `none` on the path that returns at once. -/
def fluct_frame (A : Axon R) (this : node R) : Option (Point R × Point R × Point R) :=
  match this.up.bind A.deref, this.down.bind A.deref with
  | some up, some down =>
    let r := up.point
    let q := this.point
    let p := down.point
    let pr := Point.difference r p
    let rq := Point.difference q r
    let q1 := Point.cross pr rq
    let q2 := Point.cross pr q1
    some (q1, q2, pr)
  | none, some down =>
    match down.down.bind A.deref with
    | some dd =>
      let r := this.point
      let q := down.point
      let p := dd.point
      let pq := Point.difference q p
      let qr := Point.difference r q
      let q1 := Point.cross pq qr
      let q2 := Point.cross q1 qr
      some (q1, q2, qr)
    | none => none
  | _, none => none

/-- The displacement proposed for the 2D Gaussian sample `xy`
(the value `NR::sample_gauss2` returned). -/
def fluct_proposed (M : Libm R) (A : Axon R) (this : node R) (xy : R × R) :
    Option (Point R) :=
  match fluct_frame A this with
  | none => none
  | some (q1, q2, q3) =>
    some (rotate_sample M ⟨xy.1, xy.2, 0⟩ (q1.normalize M) (q2.normalize M) (q3.normalize M))

/-- One pass of the pre-check loop for the bundle member `it`: the new values
of `(collision, out_of_bounds)`. -/
def fluct_precheck_member (M : Libm R) (F : Flags) (A : Axon R) (proposed : Point R)
    (it : node R) : Bool × Bool :=
  let new_point := Point.sum proposed it.point
  let collision : Bool :=
    match it.up.bind A.deref with
    | none => false
    | some up => F.COLLISIONS && A.check_collisions M up.point new_point it.filament_id
  let collision : Bool :=
    if !collision then
      match it.down.bind A.deref with
      | none => collision
      | some down =>
        if F.COLLISIONS then A.check_collisions M down.point new_point it.filament_id
        else collision
    else collision
  let out_of_bounds : Bool := !collision && !A.in_cylinder new_point
  (collision, out_of_bounds)

/-- The pre-check loop `while (it != bundle.end() && !collision && !out_of_bounds)`. -/
def fluct_precheck (M : Libm R) (F : Flags) (A : Axon R) (proposed : Point R) :
    List (Option NodePtr) → Bool × Bool
  | [] => (false, false)
  | e :: rest =>
    match e.bind A.deref with
    | none => fluct_precheck M F A proposed rest
    | some it =>
      let co := fluct_precheck_member M F A proposed it
      if !co.1 && !co.2 then fluct_precheck M F A proposed rest else co

/-- The chain of up to five points around the member `it`, its own position
replaced by `centre`. -/
def fluct_chain (A : Axon R) (it : node R) (centre : Point R) : List (Point R) :=
  let below : List (Point R) :=
    match it.down.bind A.deref with
    | none => []
    | some down =>
      match down.down.bind A.deref with
      | some dd => [dd.point, down.point]
      | none => [down.point]
  let above : List (Point R) :=
    match it.up.bind A.deref with
    | none => []
    | some up =>
      match up.up.bind A.deref with
      | some uu => [up.point, uu.point]
      | none => [up.point]
  below ++ [centre] ++ above

/-- The energy loop: `(energy_old, energy_new)` summed over the bundle. -/
def fluct_energies (hamiltonian : List (Point R) → R) (A : Axon R) (proposed : Point R)
    (bundle : List (Option NodePtr)) : R × R :=
  bundle.foldl
    (fun e ent =>
      match ent.bind A.deref with
      | none => e
      | some it =>
        let new_point := Point.sum proposed it.point
        (e.1 + hamiltonian (fluct_chain A it it.point),
         e.2 + hamiltonian (fluct_chain A it new_point)))
    (0, 0)

/-- The commit loop: `(*it)->move(proposed + (*it)->point)` for every member,
the result of `move` dropped. -/
def fluct_commit (F : Flags) (A : Axon R) (proposed : Point R)
    (bundle : List (Option NodePtr)) : Axon R :=
  bundle.foldl
    (fun A1 ent =>
      match ent with
      | none => A1
      | some p => (node.move F A1 p (Point.sum proposed (A1.pointOf p))).1)
    A

/-- The Metropolis test `rand < min(1.0, exp(-(energy_new - energy_old)))`. -/
def fluct_accept (M : Libm R) (energy_old energy_new u : R) : Bool :=
  decide (u < min 1 (M.exp (-(energy_new - energy_old))))

/-- What a call of `node::fluctuate` did. -/
inductive FluctOutcome where
  | no_frame
  | collided
  | out_of_bounds
  | rejected
  | accepted
deriving DecidableEq

/-- `node::fluctuate` on the node `self` points to. `xy` is the sample
returned by `NR::sample_gauss2`, `u` the draw of the Metropolis test; the
counters and the energy log are not part of the state. The bundle is walked
in order of discovery (`set<node*>` walks it in address order). -/
def node.fluctuate (M : Libm R) (F : Flags) (hamiltonian : List (Point R) → R)
    (A : Axon R) (self : NodePtr) (xy : R × R) (u : R) : Axon R × FluctOutcome :=
  match A.deref self with
  | none => (A, FluctOutcome.no_frame)
  | some this =>
    match fluct_proposed M A this xy with
    | none => (A, FluctOutcome.no_frame)
    | some proposed =>
      match node.neighbors A self [] with
      | none => (A, FluctOutcome.no_frame)
      | some bundle =>
        let co := fluct_precheck M F A proposed bundle
        if !co.1 then
          if !co.2 then
            let e := fluct_energies hamiltonian A proposed bundle
            if fluct_accept M e.1 e.2 u then
              (fluct_commit F A proposed bundle, FluctOutcome.accepted)
            else (A, FluctOutcome.rejected)
          else (A, FluctOutcome.out_of_bounds)
        else (A, FluctOutcome.collided)

end Engine

/-! ## Concrete inputs -/

section Inputs

/-- First segment `[c1_s, c1_e]` of the collision example. -/
def c1_s : Point ℚ := ⟨0, 0, 0⟩
def c1_e : Point ℚ := ⟨1, 0, 0⟩
/-- Second segment `[c1_p, c1_q]`: direction `(3,4,0)`, length 5. -/
def c1_p : Point ℚ := ⟨3 / 2, -2, 0⟩
def c1_q : Point ℚ := ⟨9 / 2, 2, 0⟩

/-- All switches on, as in `cylinder.cpp`. -/
def flagsOn : Flags := ⟨true, true, true, true, true⟩

/-- The axon of `run()`: radius 200, length `MAX_NODES * MEAN_LEN_GROWTH = 200`. -/
def axon0 : Axon ℚ := Axon.init 200 200 (1 / 10) (1 / 10) (1 / 10)

/-- A two-node filament just left of the cell boundary `x = 0`: the seed and
one grown node, the grown node indexed in both grids (cell `(1,2,0)`). -/
def moveAxon : Axon ℚ :=
  let seed : node ℚ := { node.init ⟨-1 / 1000, 0, 0⟩ 0 with up := some (0, 1) }
  let tip : node ℚ := { node.init ⟨-1 / 1000, 0, 1 / 10⟩ 0 with down := some (0, 0) }
  { axon0 with
    filaments := [⟨[seed, tip], 0⟩]
    total_nodes := 1
    link_grid := axon0.link_grid.add_node (some (0, 1)) tip.point
    collide_grid := axon0.collide_grid.add_node (some (0, 1)) tip.point }

/-- The target of the move: just right of the cell boundary `x = 0`. -/
def moveTarget : Point ℚ := ⟨1 / 1000, 0, 1 / 10⟩

/-- A two-node filament with id `fid` in slot `slot` above `(x, y, 0)`: the
seed and one grown node at height `1/10` that is linked to `other`. -/
def linkedFilament (slot : Nat) (fid : Int) (x y : ℚ) (other : NodePtr) : Filament ℚ :=
  let seed : node ℚ := { node.init ⟨x, y, 0⟩ fid with up := some (slot, 1) }
  let tip : node ℚ := { node.init ⟨x, y, 1 / 10⟩ fid with down := some (slot, 0) }
  ⟨[seed, tip.add_link (some other)], fid⟩

/-- Four filaments; the grown nodes of filaments 0 and 2 are linked to each
other, so are those of filaments 1 and 3. The grown nodes of filaments 0 and 1
are `1/20` apart and not linked. All grown nodes are indexed in both grids. -/
def linkAxon : Axon ℚ :=
  let fs : List (Filament ℚ) :=
    [linkedFilament 0 0 0 0 (2, 1), linkedFilament 1 1 (1 / 20) 0 (3, 1),
     linkedFilament 2 2 0 (1 / 20) (0, 1), linkedFilament 3 3 (1 / 20) (1 / 20) (1, 1)]
  let g : Grid3D ℚ :=
    (((axon0.link_grid.add_node (some (0, 1)) ⟨0, 0, 1 / 10⟩).add_node
      (some (1, 1)) ⟨1 / 20, 0, 1 / 10⟩).add_node
      (some (2, 1)) ⟨0, 1 / 20, 1 / 10⟩).add_node (some (3, 1)) ⟨1 / 20, 1 / 20, 1 / 10⟩
  { axon0 with filaments := fs, total_nodes := 4, link_grid := g, collide_grid := g }

end Inputs

section BundleDefs
variable {R : Type}

/-- `linked A x y`: `y` is an entry of the link list of the node `x` points to. -/
def Axon.linked (A : Axon R) (x y : Option NodePtr) : Prop := y ∈ A.linksOf x

/-- Reachability by following zero or more link entries. -/
def Axon.reach (A : Axon R) : Option NodePtr → Option NodePtr → Prop :=
  Relation.ReflTransGen A.linked

/-- The pointers to the live nodes of filaments `fs`, stored from slot `i` on. -/
def allPtrsFrom : Nat → List (Filament R) → List NodePtr
  | _, [] => []
  | i, f :: fs => (List.range f.nodes.length).map (fun j => (i, j)) ++ allPtrsFrom (i + 1) fs

/-- The pointers to all live nodes of the axon. -/
def Axon.allPtrs (A : Axon R) : List NodePtr := allPtrsFrom 0 A.filaments

/-- Every entry of every link list points to a live node. -/
def Axon.LinksLive (A : Axon R) : Prop :=
  ∀ p nd, A.deref p = some nd → ∀ l ∈ nd.linkList, ∃ q nd1, l = some q ∧ A.deref q = some nd1

/-- Executable form of `LinksLive`. -/
def Axon.linksLiveB (A : Axon R) : Bool :=
  A.allPtrs.all fun p => (A.linkListOf p).all fun l => (l.bind A.deref).isSome

end BundleDefs

section BundleDefs2
variable {R : Type}

/-- A pointer to a live node. -/
def Axon.live (A : Axon R) (x : Option NodePtr) : Prop :=
  ∃ p nd, x = some p ∧ A.deref p = some nd

/-- The link relation is symmetric: `y` is in the link list of `x` only if
`x` is in the link list of `y`. -/
def Axon.LinksSymmetric (A : Axon R) : Prop :=
  ∀ x y : NodePtr, some y ∈ A.linkListOf x → some x ∈ A.linkListOf y

/-- Executable form of `LinksSymmetric`. -/
def Axon.linksSymmetricB (A : Axon R) : Bool :=
  A.allPtrs.all fun x => (A.linkListOf x).all fun l =>
    match l with
    | none => true
    | some y => decide (some x ∈ A.linkListOf y)

end BundleDefs2

section HamiltonianSpec
variable {R : Type} [LinearOrderedField R]

/-- Spec: the segment length `b_i = |p_{i+1} - p_i|` (points counted from 0). -/
def spec_b (M : Libm R) (points : List (Point R)) (i : Nat) : R :=
  (Point.difference (points.getD (i + 1) origin) (points.getD i origin)).norm M

/-- Spec: the unit tangent `t_i = (p_{i+1} - p_i) / b_i`. -/
def spec_t (M : Libm R) (points : List (Point R)) (i : Nat) : Point R :=
  let d := Point.difference (points.getD (i + 1) origin) (points.getD i origin)
  ⟨d.x / spec_b M points i, d.y / spec_b M points i, d.z / spec_b M points i⟩

/-- Spec: the energy of `n` points is `0` for `n ≤ 2` and otherwise
`PERSISTENCE_LEN * Σ (1 - t_i · t_{i+1}) / b_i` over the `n - 2` consecutive
tangent pairs. -/
def curve_hamiltonian_spec (M : Libm R) (points : List (Point R)) : R :=
  if points.length ≤ 2 then 0
  else
    PERSISTENCE_LEN *
      ∑ i in Finset.range (points.length - 2),
        (1 - Point.dot (spec_t M points i) (spec_t M points (i + 1))) / spec_b M points i

end HamiltonianSpec

section CollisionSpec
variable {R : Type} [LinearOrderedField R] [FloorRing R]

/-- The node `n` has an up-segment `[n.up, n]` or a down-segment `[n.down, n]`
on which `Axon::collision` with `[p,q]` at `FILAMENT_RADIUS` is true. -/
def Axon.segmentHit (M : Libm R) (A : Axon R) (p q : Point R) (n : node R) : Prop :=
  (∃ up, n.up.bind A.deref = some up ∧
      Axon.collision M p q up.point n.point FILAMENT_RADIUS = true) ∨
  (∃ down, n.down.bind A.deref = some down ∧
      Axon.collision M p q down.point n.point FILAMENT_RADIUS = true)

/-- The cell `c` lies in the box of cells that `check_collisions` scans for
endpoints in cells `a` and `b`: on each axis from one below the smaller index
to one above the larger index. -/
def inScanBox (a b c : triple) : Prop :=
  (min (a.i - 1) (b.i - 1) ≤ c.i ∧ c.i ≤ max (a.i + 1) (b.i + 1)) ∧
  (min (a.j - 1) (b.j - 1) ≤ c.j ∧ c.j ≤ max (a.j + 1) (b.j + 1)) ∧
  (min (a.k - 1) (b.k - 1) ≤ c.k ∧ c.k ≤ max (a.k + 1) (b.k + 1))

/-- The 3×3×3 block of cells around `c`. -/
def nbhd (c : triple) : List triple :=
  (intRange (c.i - 1) (c.i + 1)).flatMap fun i =>
    (intRange (c.j - 1) (c.j + 1)).flatMap fun j =>
      (intRange (c.k - 1) (c.k + 1)).map fun k => ⟨i, j, k⟩

end CollisionSpec

section CollisionInputs

/-- The axon of `cylinder.cpp`: radius 2, length 2, link cells of side `1/10`,
collision cells `0.3 × 0.3 × 1` (cell corners at `-2 + 0.3 i`). -/
def axonCyl : Axon ℚ := Axon.init_cylinder 2 2 (1 / 10) (1 / 10) (1 / 10)

/-- A proposed segment of length `1/5` across the cell corner `(-1.4, -1.4)`. -/
def box_p : Point ℚ := ⟨-146 / 100, -148 / 100, 0⟩
def box_q : Point ℚ := ⟨-134 / 100, -132 / 100, 0⟩

/-- One two-node filament (id 1) whose only segment, from `(-0.96,-1.73,0)` to
`(-1.84,-1.07,0)`, crosses `[box_p, box_q]` at right angles in the corner
`(-1.4,-1.4,0)`; its grown node is stored in cell `(0,3,0)` of the collision
grid. -/
def boxAxon : Axon ℚ :=
  let seed : node ℚ := { node.init ⟨-96 / 100, -173 / 100, 0⟩ 1 with up := some (0, 1) }
  let tip : node ℚ := { node.init ⟨-184 / 100, -107 / 100, 0⟩ 1 with down := some (0, 0) }
  { axonCyl with
    filaments := [⟨[seed, tip], 1⟩]
    total_nodes := 1
    link_grid := axonCyl.link_grid.add_node (some (0, 1)) tip.point
    collide_grid := axonCyl.collide_grid.add_node (some (0, 1)) tip.point }

end CollisionInputs

section MoveDefs
variable {R : Type} [LinearOrderedField R] [FloorRing R]

/-- `A1` has the cylinder and the grid geometry of `A`: the tests `in_cylinder`,
`point_to_indices` and `in_range` give the same answers. -/
def Axon.sameFrame (A A1 : Axon R) : Prop :=
  (∀ p, A1.in_cylinder p = A.in_cylinder p) ∧
  (∀ gid p, (A1.grid gid).point_to_indices p = (A.grid gid).point_to_indices p) ∧
  (∀ gid c, (A1.grid gid).in_range c = (A.grid gid).in_range c)

/-- The target `t` is in range of a grid that is in use. -/
def Axon.inRangeOfUsedGrid (F : Flags) (A : Axon R) (t : Point R) : Prop :=
  (F.FORM_LINKS = true ∧ A.link_grid.in_range (A.link_grid.point_to_indices t) = true) ∨
  (F.COLLISIONS = true ∧ A.collide_grid.in_range (A.collide_grid.point_to_indices t) = true)

end MoveDefs

section FluctInputs

/-- A three-node filament at height `z0` with a right-angle bend: seed
`(0,0,z0)`, then `(0,1/2,z0)`, then the tip `(3/2,1/2,z0)`; the two grown nodes
are indexed in both grids of `axon0`. The frame of the tip is
`q1 = (0,0,-1)`, `q2 = (0,-1,0)`, `q3 = (1,0,0)`. -/
def fluctAxon (z0 : ℚ) : Axon ℚ :=
  let seed : node ℚ := { node.init ⟨0, 0, z0⟩ 0 with up := some (0, 1) }
  let mid : node ℚ :=
    { node.init ⟨0, 1 / 2, z0⟩ 0 with down := some (0, 0), up := some (0, 2) }
  let tip : node ℚ := { node.init ⟨3 / 2, 1 / 2, z0⟩ 0 with down := some (0, 1) }
  let g : Grid3D ℚ := (axon0.link_grid.add_node (some (0, 1)) mid.point).add_node
    (some (0, 2)) tip.point
  { axon0 with
    filaments := [⟨[seed, mid, tip], 0⟩]
    total_nodes := 2
    link_grid := g
    collide_grid := g }

end FluctInputs

section LinkInputs

/-- A two-node filament with id `fid` in slot `slot` above `(x, y, 0)`: the
seed and one grown node at height `1/10`, neither with a link. -/
def freeFilament (slot : Nat) (fid : Int) (x y : ℚ) : Filament ℚ :=
  let seed : node ℚ := { node.init ⟨x, y, 0⟩ fid with up := some (slot, 1) }
  let tip : node ℚ := { node.init ⟨x, y, 1 / 10⟩ fid with down := some (slot, 0) }
  ⟨[seed, tip], fid⟩

/-- Two filaments whose grown nodes are `d` apart along `x` and have no links;
both grown nodes are indexed in both grids. -/
def freeAxon (d : ℚ) : Axon ℚ :=
  let g : Grid3D ℚ := (axon0.link_grid.add_node (some (0, 1)) ⟨0, 0, 1 / 10⟩).add_node
    (some (1, 1)) ⟨d, 0, 1 / 10⟩
  { axon0 with
    filaments := [freeFilament 0 0 0 0, freeFilament 1 1 d 0]
    total_nodes := 2
    link_grid := g
    collide_grid := g }

end LinkInputs

section LinkDefs
variable {R : Type} [LinearOrderedField R] [FloorRing R]

/-- The value of `shift` in `Axon::link` for nodes `n` (`node_ptr`) and `m`
(`new_node_ptr`). -/
def link_shift (M : Libm R) (n m : node R) : R :=
  (1 / 2) * ((LINK_LEN + 2 * FILAMENT_RADIUS) - n.point.distance_to M m.point)

/-- The value of `delta` in `Axon::link` after `delta.normalize()`. -/
def link_delta (M : Libm R) (n m : node R) : Point R :=
  (Point.difference n.point m.point).normalize M

/-- All guards of `Axon::link` in front of the repositioning branches pass. -/
def link_guards (M : Libm R) (a b : NodePtr) (n m : node R) (u : R) : Prop :=
  (a ≠ b ∧ n.filament_id ≠ m.filament_id) ∧
  n.point.distance_to M m.point ≤ LINK_INTERACTION_LEN ∧
  u < LINK_FORM_PROB ∧
  ((MAX_LINKS : Int) - (n.num_links : Int) ≥ 1 ∧ (MAX_LINKS : Int) - (m.num_links : Int) ≥ 1) ∧
  ¬ (n.contains_link (some b) = true)

/-- The axon after the repositioning branch of `Axon::link` and the value of
`linked` it sets. -/
def link_moved (M : Libm R) (F : Flags) (A : Axon R) (a b : NodePtr) (n m : node R) :
    Axon R × Bool :=
  if n.num_links = 0 ∧ m.num_links = 0 then
    let d1 := (link_delta M n m).scale (link_shift M n m)
    let A1 := (node.move F A a (Point.sum d1 (A.pointOf a))).1
    ((node.move F A1 b (Point.sum (A1.pointOf b) (d1.scale (-1)))).1, true)
  else if n.num_links > 0 ∧ m.num_links = 0 then
    ((node.move F A b
      (Point.sum (A.pointOf b) (((link_delta M n m).scale (link_shift M n m * 2)).scale (-1)))).1,
      true)
  else if m.num_links > 0 ∧ n.num_links = 0 then
    ((node.move F A a
      (Point.sum (A.pointOf a) ((link_delta M n m).scale (link_shift M n m * 2)))).1, true)
  else (A, false)

end LinkDefs

section RestDefs
variable {R : Type} [LinearOrderedField R] [FloorRing R]

/-- The function `sqrt` of `M` is exact at `x`: its value is the non-negative
square root of `x`. -/
def Libm.exactAt (M : Libm R) (x : R) : Prop :=
  0 ≤ M.sqrt x ∧ M.sqrt x * M.sqrt x = x

/-- The radicand of `Point::distance_to`. -/
def distRadicand (p other : Point R) : R :=
  (p.x - other.x) * (p.x - other.x) + (p.z - other.z) * (p.z - other.z)
    + (p.y - other.y) * (p.y - other.y)

/-- The commit checks of `node::move` pass for the target `t`: it is in the
cylinder and in range of a grid in use. -/
def Axon.accepts (F : Flags) (A : Axon R) (t : Point R) : Prop :=
  A.in_cylinder t = true ∧ A.inRangeOfUsedGrid F t

/-- The position `Axon::link` moves `node_ptr` (node `n`) to when it is free. -/
def link_target_a (M : Libm R) (n m : node R) : Point R :=
  if m.num_links = 0 then
    Point.sum ((link_delta M n m).scale (link_shift M n m)) n.point
  else Point.sum n.point ((link_delta M n m).scale (link_shift M n m * 2))

/-- The position `Axon::link` moves `new_node_ptr` (node `m`) to when it is free. -/
def link_target_b (M : Libm R) (n m : node R) : Point R :=
  if n.num_links = 0 then
    Point.sum m.point (((link_delta M n m).scale (link_shift M n m)).scale (-1))
  else Point.sum m.point (((link_delta M n m).scale (link_shift M n m * 2)).scale (-1))

end RestDefs

section BreakInputs

/-- A two-node filament with id `fid` in slot `slot` above `(x, 0, 0)`: the
seed and one grown node at height `1/10` whose link list is `ls`. -/
def listFilament (slot : Nat) (fid : Int) (x : ℚ) (ls : List NodePtr) : Filament ℚ :=
  let seed : node ℚ := { node.init ⟨x, 0, 0⟩ fid with up := some (slot, 1) }
  let tip : node ℚ := { node.init ⟨x, 0, 1 / 10⟩ fid with down := some (slot, 0) }
  ⟨[seed, ls.foldl (fun n l => n.add_link (some l)) tip], fid⟩

/-- Four filaments with grown nodes `X = (0,1)`, `Y = (1,1)`, `P = (2,1)`,
`Q = (3,1)` and the links `X–P`, `X–Y`, `Y–Q`; the link lists are
`X: [P, Y]`, `Y: [Q, X]`, `P: [X]`, `Q: [Y]`. -/
def skipAxon : Axon ℚ :=
  { axon0 with
    filaments := [listFilament 0 0 0 [(2, 1), (1, 1)], listFilament 1 1 (1 / 20) [(3, 1), (0, 1)],
      listFilament 2 2 (2 / 20) [(0, 1)], listFilament 3 3 (3 / 20) [(1, 1)]]
    total_nodes := 4 }

/-- A node whose link array is full: `num_links = MAX_LINKS = 13`, slot `i`
holding a pointer to the grown node of filament `i + 1`. -/
def fullNode : node ℚ :=
  { node.init ⟨0, 0, 1 / 10⟩ 0 with links := fun i => some (i + 1, 1), num_links := 13 }

end BreakInputs

section GrowDefs
variable {R : Type} [LinearOrderedField R] [FloorRing R]

/-- `Filament::grow` (`cylinder_freegrowth.cpp`); `slot` is the place of the
filament in `Axon::filaments`, from which the addresses of its nodes are made. -/
def Filament.grow (f : Filament R) (slot : Nat) (delta_tip : Point R) : Filament R :=
  if f.num_nodes ≥ MAX_NODES then f
  else
    let tip := (f.nodes.getD (f.num_nodes - 1) (node.init origin f.id)).point
    let new_tip := Point.sum tip delta_tip
    let new_node : node R := node.init new_tip f.id
    if f.num_nodes = 0 then
      { f with nodes := f.nodes ++ [{ new_node with down := none }] }
    else
      let stored : node R := { new_node with down := some (slot, f.num_nodes - 1) }
      let linked_up :=
        f.nodes.modify (fun x => { x with up := some (slot, f.num_nodes) }) (f.num_nodes - 1)
      { f with nodes := linked_up ++ [stored] }

/-- Whether `Axon::link` makes its `NR::ran2` draw: the pointer and filament
tests and the distance test pass. -/
def Axon.link_draws (M : Libm R) (A : Axon R) (node_ptr new_node_ptr : NodePtr) : Bool :=
  match A.deref node_ptr, A.deref new_node_ptr with
  | some n, some m =>
    decide (node_ptr ≠ new_node_ptr ∧ n.filament_id ≠ m.filament_id) &&
      decide (n.point.distance_to M m.point ≤ LINK_INTERACTION_LEN)
  | _, _ => false

/-- The `while` loop of `seek_links_for_node` over one bucket: `link` is tried
on the entries in turn until it returns true. `c` counts the draws made. -/
def seek_cell (M : Libm R) (F : Flags) (rand : Nat → R) (new_node_ptr : NodePtr) :
    List (Option NodePtr) → Nat → Axon R → Axon R × Nat
  | [], c, A => (A, c)
  | none :: rest, c, A => seek_cell M F rand new_node_ptr rest c A
  | some it :: rest, c, A =>
    let r := Axon.link M F A it new_node_ptr (rand c)
    let c1 := if A.link_draws M it new_node_ptr then c + 1 else c
    if r.2 then (r.1, c1) else seek_cell M F rand new_node_ptr rest c1 r.1

/-- `Axon::seek_links_for_node`: the 3×3×3 block of link-grid cells around the
cell of the node, each bucket read when its turn comes. The arguments
`link_len` and `link_prob` are not used by the body. -/
def Axon.seek_links_for_node (M : Libm R) (F : Flags) (rand : Nat → R) (A : Axon R)
    (new_node_ptr : NodePtr) (_link_len _link_prob : R) (c : Nat) : Axon R × Nat :=
  let ijk := A.link_grid.point_to_indices (A.pointOf new_node_ptr)
  ([-1, 0, 1] : List Int).foldl
    (fun Ac off_i =>
      ([-1, 0, 1] : List Int).foldl
        (fun Ac off_j =>
          ([-1, 0, 1] : List Int).foldl
            (fun Ac off_k =>
              let i := ijk.i + off_i
              let j := ijk.j + off_j
              let k := ijk.k + off_k
              if i < Ac.1.link_grid.isize ∧ i ≥ 0 ∧ j < Ac.1.link_grid.jsize ∧ j ≥ 0 ∧
                  k < Ac.1.link_grid.ksize ∧ k ≥ 0 then
                seek_cell M F rand new_node_ptr (Ac.1.link_grid.cells ⟨i, j, k⟩) Ac.2 Ac.1
              else Ac)
            Ac)
        Ac)
    (A, c)

/-- The position of the tip of filament `index` (`origin` if there is none). -/
def Axon.tipOf (A : Axon R) (index : Nat) : Point R :=
  match A.filaments[index]? with
  | none => origin
  | some f => (f.nodes.getD (f.num_nodes - 1) (node.init origin f.id)).point

/-- The test of `grow_filaments` that lets the sampled filament grow by
`delta_tip`: the new tip is in the cylinder, in range of both grids, and no
collision was reported (`collision` is computed only with `COLLISIONS` on). -/
def Axon.may_grow (M : Libm R) (F : Flags) (A : Axon R) (index : Nat) (delta_tip : Point R) :
    Bool :=
  match A.filaments[index]? with
  | none => false
  | some f =>
    let new_tip := Point.sum (A.tipOf index) delta_tip
    let collision := F.COLLISIONS && A.check_collisions M (A.tipOf index) new_tip f.id
    A.in_cylinder new_tip &&
      A.link_grid.in_range (A.link_grid.point_to_indices new_tip) &&
      A.collide_grid.in_range (A.collide_grid.point_to_indices new_tip) &&
      !collision

/-- One pass of the `for` loop of `Axon::grow_filaments` for the sampled
filament `index` and the displacement `delta_tip` that `f->delta_tip()`
returned. The node registered in the grids is `f->nodes[f->num_nodes - 1]`
as it is after `f->grow`. -/
def Axon.grow_attempt (M : Libm R) (F : Flags) (rand : Nat → R) (A : Axon R) (index : Nat)
    (delta_tip : Point R) (c : Nat) : Axon R × Nat :=
  if A.may_grow M F index delta_tip then
    let A1 : Axon R :=
      { A with filaments := A.filaments.modify (fun f => f.grow index delta_tip) index }
    let num_nodes := match A1.filaments[index]? with
      | none => 0
      | some f => f.num_nodes
    let new_node_ptr : NodePtr := (index, num_nodes - 1)
    let A2 : Axon R :=
      { A1 with
        link_grid := A1.link_grid.add_node (some new_node_ptr) (A1.pointOf new_node_ptr)
        collide_grid := A1.collide_grid.add_node (some new_node_ptr) (A1.pointOf new_node_ptr)
        total_nodes := A1.total_nodes + 1 }
    if F.FORM_LINKS then A2.seek_links_for_node M F rand new_node_ptr LINK_LEN LINK_FORM_PROB c
    else (A2, c)
  else (A, c)

end GrowDefs

section GrowInputs

/-- Node `k` of a straight vertical chain of `n` nodes with spacing `1/10` in
filament slot `slot`. -/
def chainNode (slot : Nat) (fid : Int) (n k : Nat) : node ℚ :=
  { node.init ⟨0, 0, (k : ℚ) / 10⟩ fid with
    up := if k + 1 < n then some (slot, k + 1) else none
    down := if 0 < k then some (slot, k - 1) else none }

/-- One filament that has reached `MAX_NODES = 2000` nodes, straight up the
axis from the origin; its tip `(0, 0, 1999/10)` is indexed in both grids. -/
def fullAxon : Axon ℚ :=
  { axon0 with
    filaments := [⟨(List.range MAX_NODES).map (chainNode 0 0 MAX_NODES), 0⟩]
    total_nodes := 1999
    link_grid := axon0.link_grid.add_node (some (0, 1999)) ⟨0, 0, 1999 / 10⟩
    collide_grid := axon0.collide_grid.add_node (some (0, 1999)) ⟨0, 0, 1999 / 10⟩ }

/-- Filament 0 has a grown node at `(0, 0, 1/10)`; filament 1 is a seed at
`(1/10, 0, 0)` about to grow by `(0, 0, 1/10)`. -/
def growAxon : Axon ℚ :=
  { axon0 with
    filaments := [freeFilament 0 0 0 0, ⟨[node.init ⟨1 / 10, 0, 0⟩ 1], 1⟩]
    total_nodes := 1
    link_grid := axon0.link_grid.add_node (some (0, 1)) ⟨0, 0, 1 / 10⟩
    collide_grid := axon0.collide_grid.add_node (some (0, 1)) ⟨0, 0, 1 / 10⟩ }

end GrowInputs

section GrowInputs2

/-- Collision checking on, link formation off. -/
def flagsNoLinks : Flags := ⟨true, true, false, true, true⟩

end GrowInputs2

section CylInputs

/-- An axon of radius 0 and length 1. -/
def thinAxon : Axon ℚ := Axon.init 0 1 (1 / 10) (1 / 10) (1 / 10)

end CylInputs

section CollisionInputs

/-- Two perpendicular segments of length `10⁻⁵` with the common end point
`(0,0,0)`. -/
def tiny_s : Point ℚ := ⟨0, 0, 0⟩
def tiny_e : Point ℚ := ⟨1 / 100000, 0, 0⟩
def tiny_p : Point ℚ := ⟨0, 0, 0⟩
def tiny_q : Point ℚ := ⟨0, 1 / 100000, 0⟩

end CollisionInputs

section SliceDefs
variable {R : Type} [LinearOrderedField R] [FloorRing R]

/-- The node `nodes[i]` for an `int` index, if it is in the live prefix. -/
def Filament.nodeAt (f : Filament R) (i : Int) : Option (node R) :=
  if i < 0 then none else f.nodes.get? i.toNat

/-- The `while (!(start == end - 1))` loop of `Filament::slice`, with an
iteration budget; `none` when the budget runs out or a node outside the live
prefix is read. -/
def Filament.slice_loop (f : Filament R) (z : R) : Nat → Int → Int → Option Int
  | 0, start, end_ => if start = end_ - 1 then some start else none
  | fuel + 1, start, end_ =>
    if start = end_ - 1 then some start
    else
      let mid := (start + end_).tdiv 2
      match f.nodeAt mid with
      | none => none
      | some nd =>
        if nd.point.z > z then Filament.slice_loop f z fuel start mid
        else Filament.slice_loop f z fuel mid end_

/-- `Filament::slice`: binary search for the index of the node immediately
below height `z`. -/
def Filament.slice (f : Filament R) (z : R) : Option Int :=
  let start : Int := 0
  let end_ : Int := (f.num_nodes : Int) - 1
  if start ≠ end_ then Filament.slice_loop f z f.num_nodes start end_
  else some start

/-- The height of node `i` of a filament (0 outside the live prefix). -/
def Filament.zOf (f : Filament R) (i : Nat) : R :=
  match f.nodes.get? i with
  | some nd => nd.point.z
  | none => 0

/-- A filament of four nodes at heights `0, 1, 2, 3`. -/
def sliceFilament : Filament ℚ :=
  ⟨[node.init ⟨0, 0, 0⟩ 0, node.init ⟨0, 0, 1⟩ 0, node.init ⟨0, 0, 2⟩ 0, node.init ⟨0, 0, 3⟩ 0], 0⟩

/-- The link grid of `axon0` with a stale entry for node `(0,1)` in cell
`(0,0,0)`. -/
def staleGrid : Grid3D ℚ :=
  { axon0.link_grid with cells := Function.update axon0.link_grid.cells ⟨0, 0, 0⟩ [some (0, 1)] }

end SliceDefs

section InvariantDefs
variable {R : Type}

/-- Every link list is duplicate-free, checked on the live nodes. -/
def Axon.linksNodupB (A : Axon R) : Bool :=
  A.allPtrs.all fun p => decide (A.linkListOf p).Nodup

/-- The invariant of the link relation: every link list is duplicate-free
and `b` is in the link list of `a` exactly when `a` is in that of `b`. -/
def Axon.LinksConsistent (A : Axon R) : Prop :=
  (∀ p : NodePtr, (A.linkListOf p).Nodup) ∧ A.LinksSymmetric

/-- No node has itself in its link list. -/
def Axon.NoSelfLinks (A : Axon R) : Prop :=
  ∀ x : NodePtr, some x ∉ A.linkListOf x

/-- Executable form of `NoSelfLinks`. -/
def Axon.noSelfLinksB (A : Axon R) : Bool :=
  A.allPtrs.all fun p => decide (some p ∉ A.linkListOf p)

/-- Two filaments with grown nodes `X = (0,1)` and `Y = (1,1)`; the link
lists are `X: [X, Y]` and `Y: [X]`: symmetric and duplicate-free, with `X`
linked to itself. -/
def selfAxon : Axon ℚ :=
  { axon0 with
    filaments := [listFilament 0 0 0 [(0, 1), (1, 1)], listFilament 1 1 (1 / 20) [(0, 1)]]
    total_nodes := 2 }

/-- A stream of draws: the first removes a link, the others do not. -/
def selfRand : Nat → ℚ := fun c => if c = 0 then 0 else 1

end InvariantDefs

section GrowthRunDefs
variable {R : Type} [LinearOrderedField R] [FloorRing R]

def PI : R := 314159265 / 100000000
def MEAN_LEN_GROWTH : R := 1 / 10

/-- The functions `sin` and `cos` of `<cmath>`. -/
structure Trig (R : Type) where
  sin : R → R
  cos : R → R

/-- The random values one pass of the loop of `grow_filaments` consumes: the
`ran2` draw for the filament index, the values of
`sample_gauss(STD_LEN_GROWTH)` and `sample_gauss(STD_THETA_GROWTH)`, the `ran2`
draw for `phi`, and the three `ran2` draws for the auxiliary vector. -/
structure GrowDraws (R : Type) where
  u_index : R
  gauss_len : R
  u_phi : R
  gauss_theta : R
  ranx : R
  rany : R
  ranz : R

/-- `Filament::delta_tip`: the displacement proposed for the tip. -/
def Filament.delta_tip (M : Libm R) (T : Trig R) (f : Filament R) (d : GrowDraws R) : Point R :=
  let r := d.gauss_len + MEAN_LEN_GROWTH
  let phi := 2 * PI * d.u_phi
  let theta := d.gauss_theta
  if (f.num_nodes : Int) - 2 ≥ 0 then
    let last := (f.nodes.getD (f.num_nodes - 1) (node.init origin f.id)).point
    let before := (f.nodes.getD (f.num_nodes - 2) (node.init origin f.id)).point
    let prev_dir := (Point.difference last before).normalize M
    let init : Point R :=
      ⟨r * T.sin theta * T.sin phi, r * T.sin theta * T.cos phi, r * T.cos theta⟩
    let rand : Point R := ⟨d.ranx, d.rany, d.ranz⟩
    let q1 := (Point.cross rand prev_dir).normalize M
    let q2 := (Point.cross q1 prev_dir).normalize M
    rotate_sample M init q1 q2 prev_dir
  else
    ⟨r * T.sin theta * T.sin phi, r * T.sin theta * T.cos phi, r * T.cos theta⟩

/-- One pass of the `for` loop of `Axon::grow_filaments`: the filament index
is `(int) floor(num_filaments * ran2)`; an index outside the live filaments
leaves the axon as it is. -/
def Axon.grow_pass (M : Libm R) (T : Trig R) (F : Flags) (rand : Nat → R) (A : Axon R)
    (d : GrowDraws R) (c : Nat) : Axon R × Nat :=
  let index : Int := Int.floor ((A.num_filaments : R) * d.u_index)
  if index < 0 then (A, c)
  else
    match A.filaments[index.toNat]? with
    | none => (A, c)
    | some f => A.grow_attempt M F rand index.toNat (f.delta_tip M T d) c

/-- `Axon::grow_filaments`: `num_filaments` passes, pass `i` consuming
`draws i`; `rand` is the stream of draws of `Axon::link`, read from `c` on. -/
def Axon.grow_filaments (M : Libm R) (T : Trig R) (F : Flags) (rand : Nat → R)
    (draws : Nat → GrowDraws R) (A : Axon R) (c : Nat) : Axon R × Nat :=
  (List.range A.num_filaments).foldl
    (fun Ac i => Ac.1.grow_pass M T F rand (draws i) Ac.2) (A, c)

/-- `N` successive calls of `Axon::grow_filaments`, call `k` consuming
`draws k` and the link draws `rands k`. -/
def Axon.grow_calls (M : Libm R) (T : Trig R) (F : Flags) (rands : Nat → Nat → R)
    (draws : Nat → Nat → GrowDraws R) : Nat → Axon R → Axon R
  | 0, A => A
  | N + 1, A =>
    ((Axon.grow_calls M T F rands draws N A).grow_filaments M T F (rands N) (draws N) 0).1

/-- An axon of the given radius and length (`Axon::init`) holding one
filament, seeded at `(0,0,0)` (`Filament(Point start)` and `add_filament`). -/
def Axon.seeded (radius length0 : R) (fid : Int) : Axon R :=
  { Axon.init radius length0 LINK_INTERACTION_LEN LINK_INTERACTION_LEN LINK_INTERACTION_LEN with
    filaments := [⟨[node.init ⟨0, 0, 0⟩ fid], fid⟩] }

/-- The state reached by straight growth: one filament of `n + 1` unlinked
nodes, node `k` at `(0, 0, k · MEAN_LEN_GROWTH)`, in the frame of the seeded
axon. -/
def Axon.Straight (radius length0 : R) (fid : Int) (A : Axon R) (n : Nat) : Prop :=
  ∃ f : Filament R, A.filaments = [f] ∧ f.nodes.length = n + 1 ∧
    (∀ k, k ≤ n → ∃ nd : node R, f.nodes[k]? = some nd ∧
      nd.point = ⟨0, 0, (k : R) * MEAN_LEN_GROWTH⟩ ∧ nd.num_links = 0) ∧
    (Axon.seeded radius length0 fid).sameFrame A

/-- Rational stand-ins for `sin` and `cos`, exact at `0`. -/
def ratTrig : Trig ℚ where
  sin := fun x => x
  cos := fun x => 1 - x * x / 2

/-- Draws with no length noise and no angular noise. -/
def straightDraws : Nat → Nat → GrowDraws ℚ :=
  fun _ _ => ⟨1 / 2, 0, 1 / 4, 0, 1 / 2, 1 / 3, 1 / 5⟩

/-- Switches with link formation and collision checking off. -/
def flagsGrowOnly : Flags := ⟨false, false, false, false, false⟩

end GrowthRunDefs

section SlotDefs
variable {R : Type} [LinearOrderedField R] [FloorRing R]

/-- The slots of the `links` array that `node::remove_link` reads or writes,
in order: the comparisons `links[i] == link` up to the first match `i`, then
for `j = i .. num_links-2` the read of `links[j+1]` and the write of
`links[j]`, then the write `links[num_links] = NULL`. -/
def node.remove_link_slots (n : node R) (link : Option NodePtr) : List Nat :=
  match (List.range n.num_links).find? (fun i => decide (n.links i = link)) with
  | none => List.range n.num_links
  | some i =>
    List.range (i + 1) ++
      (List.range (n.num_links - 1 - i)).flatMap (fun d => [i + d + 1, i + d]) ++
      [n.num_links]

/-- The segment pair on which the order of the arguments of `collision`
matters. -/
def sym_s : Point ℚ := ⟨-2, -2, 0⟩
def sym_e : Point ℚ := ⟨-2, -1, 0⟩
def sym_p : Point ℚ := ⟨-2, 1, 0⟩
def sym_q : Point ℚ := ⟨2, -2, 0⟩

end SlotDefs

section FrameInputs

/-- The interior node of `fluctAxon 1` and its two chain neighbours. -/
def bendMid : node ℚ := ⟨⟨0, 1 / 2, 1⟩, some (0, 2), some (0, 0), fun _ => none, false, 0, 0⟩
def bendTip : node ℚ := ⟨⟨3 / 2, 1 / 2, 1⟩, none, some (0, 1), fun _ => none, false, 0, 0⟩
def bendSeed : node ℚ := ⟨⟨0, 0, 1⟩, some (0, 1), none, fun _ => none, false, 0, 0⟩

end FrameInputs

section MoveCylinderDefs
variable {R : Type} [LinearOrderedField R] [FloorRing R]

/-- `node::move` of `cylinder.cpp`: both grids are moved in turn, whatever
the first call returned, and the results are combined with `&&`. -/
def node.move_cylinder (A : Axon R) (self : NodePtr) (new_loc : Point R) : Axon R × Bool :=
  let m1 := node.move_within_grid A self new_loc GridId.link
  let m2 := node.move_within_grid m1.1 self new_loc GridId.collide
  (m2.1, m1.2 && m2.2)

/-- An axon of `cylinder.cpp` with radius 1 and length `1/2`, link-grid steps
`1/10`: the link grid covers the heights `[0, 1/2)`, the collision grid
(steps `3/10, 3/10, 1`) the heights `[0, 1)`. One filament, its grown node at
`(0, 0, 1/10)` indexed in both grids. -/
def cylMoveAxon : Axon ℚ :=
  let base : Axon ℚ := Axon.init_cylinder 1 (1 / 2) (1 / 10) (1 / 10) (1 / 10)
  let seed : node ℚ := { node.init ⟨0, 0, 0⟩ 0 with up := some (0, 1) }
  let tip : node ℚ := { node.init ⟨0, 0, 1 / 10⟩ 0 with down := some (0, 0) }
  { base with
    filaments := [⟨[seed, tip], 0⟩]
    total_nodes := 1
    link_grid := base.link_grid.add_node (some (0, 1)) tip.point
    collide_grid := base.collide_grid.add_node (some (0, 1)) tip.point }

end MoveCylinderDefs

section LocalityDefs
variable {R : Type} [LinearOrderedField R] [FloorRing R]

/-- The term of the curvature energy at the bend `a — b — c`:
`(1 - t1 · t2) / b1` with `t1`, `t2` the unit tangents and `b1 = |b - a|`. -/
def bendTerm (M : Libm R) (a b c : Point R) : R :=
  (1 - Point.dot ((Point.difference b a).normalize M) ((Point.difference c b).normalize M))
    / (Point.difference b a).norm M

/-- The sum of the bend terms over the consecutive triples of a chain. -/
def bendSum (M : Libm R) : List (Point R) → R
  | a :: b :: c :: rest => bendTerm M a b c + bendSum M (b :: c :: rest)
  | _ => 0

/-- The last two elements of a list (all of it when it is shorter). -/
def lastTwo {α : Type} (l : List α) : List α := l.drop (l.length - 2)

/-- The `up`/`down` pointers of the filament stored in slot `slot` are those
`Filament::grow` sets: node `k` points down to node `k-1` and up to node
`k+1`, the seed has no `down` and the tip no `up`. -/
def Filament.Chained (slot : Nat) (f : Filament R) : Prop :=
  ∀ k nd, f.nodes[k]? = some nd →
    nd.down = (if k = 0 then none else some (slot, k - 1)) ∧
    nd.up = (if k + 1 < f.nodes.length then some (slot, k + 1) else none)

/-- Executable form of `Chained`. -/
def Filament.chainedB (slot : Nat) (f : Filament R) : Bool :=
  (List.range f.nodes.length).all fun k =>
    match f.nodes[k]? with
    | none => true
    | some nd =>
      decide (nd.down = (if k = 0 then none else some (slot, k - 1))) &&
        decide (nd.up = (if k + 1 < f.nodes.length then some (slot, k + 1) else none))

end LocalityDefs

section RunDefs
variable {R : Type} [LinearOrderedField R] [FloorRing R]

def FILAMENT_BIRTH_PROB : R := 1

/-- `Axon::add_filament`. -/
def Axon.add_filament (A : Axon R) (f : Filament R) : Axon R :=
  if A.num_filaments < MAX_FILAMENTS then { A with filaments := A.filaments ++ [f] } else A

/-- The seed position of `Filament(axon_radius)` for the sample `disk` that
`NR::sample_circle` returned. -/
def seed_point (axon_radius : R) (disk : R × R) : Point R :=
  ⟨(axon_radius - LINK_INTERACTION_LEN) * disk.1,
   (axon_radius - LINK_INTERACTION_LEN) * disk.2, 0⟩

/-- `Axon::new_filament`: `u` is the `ran2` draw of the birth test, `disk`
the disk sample, `fid` the value of `next_id()`. The filament is built by
`Filament(.2)`, whatever the radius of the axon. -/
def Axon.new_filament (M : Libm R) (A : Axon R) (u : R) (disk : R × R) (fid : Int) : Axon R :=
  if u < FILAMENT_BIRTH_PROB then
    let start := seed_point (2 / 10) disk
    let f : Filament R := ⟨[node.init start fid], fid⟩
    let end_ := Point.sum start ⟨0, 0, 1 / 100⟩
    if A.check_collisions M start end_ fid then A else A.add_filament f
  else A

/-- The random values one pass of the loop of `fluctuate_filaments`
consumes: the `ran2` draws for the filament and the node, the sample of
`sample_gauss2`, the draw of the Metropolis test, and the draws of
`Axon::link` in `seek_links_for_node`. -/
structure FluctDraws (R : Type) where
  u_filament : R
  u_node : R
  xy : R × R
  u_accept : R
  link_rand : Nat → R

/-- One pass of the `for` loop of `Axon::fluctuate_filaments`. An index that
is not a live filament or node leaves the axon as it is. -/
def Axon.fluctuate_pass (M : Libm R) (F : Flags) (A : Axon R) (d : FluctDraws R) : Axon R :=
  let findex : Int := Int.floor (d.u_filament * (A.num_filaments : R))
  if findex < 0 then A
  else
    match A.filaments[findex.toNat]? with
    | none => A
    | some f =>
      let nindex : Int := Int.floor (d.u_node * (f.num_nodes : R))
      if nindex ≥ 1 then
        match A.deref (findex.toNat, nindex.toNat) with
        | none => A
        | some fluct_node =>
          if F.BUNDLE_FLUCT || decide (fluct_node.num_links = 0) then
            let A1 :=
              (node.fluctuate M F (curve_hamiltonian M) A (findex.toNat, nindex.toNat) d.xy
                d.u_accept).1
            if F.FORM_LINKS then
              (A1.seek_links_for_node M F d.link_rand (findex.toNat, nindex.toNat) LINK_LEN
                LINK_FORM_PROB 0).1
            else A1
          else A
      else A

/-- `Axon::fluctuate_filaments`: `total_nodes` passes, pass `m` consuming
`draws m`. -/
def Axon.fluctuate_filaments (M : Libm R) (F : Flags) (draws : Nat → FluctDraws R)
    (A : Axon R) : Axon R :=
  (List.range A.total_nodes.toNat).foldl (fun A1 m => A1.fluctuate_pass M F (draws m)) A

/-- The axon after `f->grow(delta_tip)` and the registration of the new node
in both grids, as in `grow_filaments` before the link search. -/
def Axon.grown (A : Axon R) (index : Nat) (delta_tip : Point R) : Axon R :=
  let A1 : Axon R :=
    { A with filaments := A.filaments.modify (fun f => f.grow index delta_tip) index }
  let num_nodes := match A1.filaments[index]? with
    | none => 0
    | some f => f.num_nodes
  let new_node_ptr : NodePtr := (index, num_nodes - 1)
  { A1 with
    link_grid := A1.link_grid.add_node (some new_node_ptr) (A1.pointOf new_node_ptr)
    collide_grid := A1.collide_grid.add_node (some new_node_ptr) (A1.pointOf new_node_ptr)
    total_nodes := A1.total_nodes + 1 }

/-- The pointer `&f->nodes[num_nodes - 1]` that `grow_filaments` registers. -/
def Axon.grown_ptr (A : Axon R) (index : Nat) (delta_tip : Point R) : NodePtr :=
  let fs := A.filaments.modify (fun f => f.grow index delta_tip) index
  let num_nodes := match fs[index]? with
    | none => 0
    | some f => f.num_nodes
  (index, num_nodes - 1)

/-- One call of the engine, with the random values it consumes. -/
inductive Op (R : Type) where
  | new_filament (u : R) (disk : R × R) (fid : Int)
  | grow_filaments (rand : Nat → R) (draws : Nat → GrowDraws R)
  | fluctuate_filaments (draws : Nat → FluctDraws R)
  | break_links (rand : Nat → R)

def Axon.step (M : Libm R) (T : Trig R) (F : Flags) (A : Axon R) : Op R → Axon R
  | Op.new_filament u disk fid => A.new_filament M u disk fid
  | Op.grow_filaments rand draws => (A.grow_filaments M T F rand draws 0).1
  | Op.fluctuate_filaments draws => A.fluctuate_filaments M F draws
  | Op.break_links rand => (A.break_links rand 0).1

/-- A sequence of calls, applied in order. -/
def Axon.run (M : Libm R) (T : Trig R) (F : Flags) (ops : List (Op R)) (A : Axon R) : Axon R :=
  ops.foldl (fun A1 op => A1.step M T F op) A

/-- A property `P` of the axon and a set `Tch` of node pointers such that:
the pointers the engine picks (entries of the link grid, entries of link
lists, nodes of index at least 1, the node just grown) are in `Tch`, and `P`
survives every elementary change the engine makes to nodes in `Tch`. -/
structure EngineInvariant (M : Libm R) (F : Flags) (ops : List (Op R)) (P : Axon R → Prop)
    (Tch : NodePtr → Prop) : Prop where
  of_grid : ∀ (A : Axon R) c p, P A → some p ∈ A.link_grid.cells c → Tch p
  of_links : ∀ (A : Axon R) p q, P A → some q ∈ A.linkListOf p → Tch q
  of_index : ∀ i j : Nat, 1 ≤ j → Tch (i, j)
  move : ∀ (A : Axon R) p t gid, P A → Tch p → P (node.move_within_grid A p t gid).1
  add : ∀ (A : Axon R) p q, P A → Tch p → Tch q → P (A.update p (fun x => x.add_link (some q)))
  remove : ∀ (A : Axon R) p l, P A → P (A.update p (fun x => x.remove_link l))
  grow : ∀ (A : Axon R) index d, P A → A.may_grow M F index d = true →
    P (A.grown index d) ∧ Tch (A.grown_ptr index d)
  birth : ∀ (A : Axon R) u disk fid, P A → Op.new_filament u disk fid ∈ ops →
    P (A.new_filament M u disk fid)

end RunDefs

section BoundaryDefs
variable {R : Type} [LinearOrderedField R] [FloorRing R]

/-- Every node of `A` is inside the cylinder of `A0` and between its end
planes, and `A` has the cylinder and grid geometry of `A0`. -/
def Axon.Inside (A0 A : Axon R) : Prop :=
  A0.sameFrame A ∧
  ∀ p nd, A.deref p = some nd →
    A0.in_cylinder nd.point = true ∧ 0 ≤ nd.point.z ∧ nd.point.z ≤ A0.length

/-- A birth with disk sample `(4/5, 0)` in an axon of radius `3/20`. -/
def thinOps : List (Op ℚ) := [Op.new_filament 0 (4 / 5, 0) 0]

/-- A birth on the axis and one call of `grow_filaments` without noise. -/
def shortOps : List (Op ℚ) :=
  [Op.new_filament 0 (0, 0) 0, Op.grow_filaments (fun _ => 0) (straightDraws 0)]

end BoundaryDefs

section SeedDefs
variable {R : Type} [LinearOrderedField R] [FloorRing R]

/-- What keeps the seeds out of reach of the engine: no filament is empty,
every seed (node 0) has zero links, no bucket of the link grid holds a
pointer to a seed, and no slot of any link array does. -/
def Axon.SeedsClean (A : Axon R) : Prop :=
  (∀ (i : Nat) (f : Filament R), A.filaments[i]? = some f → 0 < f.nodes.length) ∧
  (∀ (i : Nat) (nd : node R), A.deref (i, 0) = some nd → nd.num_links = 0) ∧
  (∀ (c : triple) (i : Nat), some (i, 0) ∉ A.link_grid.cells c) ∧
  (∀ (p : NodePtr) (nd : node R) (i k : Nat), A.deref p = some nd → nd.links k ≠ some (i, 0))

/-- Every seed of `S` is a seed of `A`, at the same position. -/
def Axon.KeepsSeeds (S A : Axon R) : Prop :=
  ∀ (i : Nat) (nd : node R), S.deref (i, 0) = some nd →
    ∃ nd1, A.deref (i, 0) = some nd1 ∧ nd1.point = nd.point

/-- Two births, then growth, fluctuation and dissociation with all switches
on. -/
def seedOps1 : List (Op ℚ) := [Op.new_filament 0 (0, 0) 0, Op.new_filament 0 (1 / 2, 0) 1]

def seedFluctDraws : Nat → FluctDraws ℚ :=
  fun _ => ⟨1 / 4, 3 / 4, (1 / 100, 0), 0, fun _ => 0⟩

def seedOps2 : List (Op ℚ) :=
  [Op.grow_filaments (fun _ => 0) (straightDraws 0),
   Op.grow_filaments (fun _ => 0) (straightDraws 0),
   Op.fluctuate_filaments seedFluctDraws, Op.break_links (fun _ => 0)]

end SeedDefs

/-! ### Binary64 arithmetic for the grid index

`Grid3D::point_to_indices` evaluated with the rounding of the machine: every
subtraction and division is followed by rounding to the nearest binary64
number, ties to even (exponent range unbounded: no overflow or underflow). -/

namespace Double

/-- `2^k` for an integer exponent. -/
def pow2 (k : Int) : ℚ :=
  if 0 ≤ k then ((2 ^ k.toNat : Nat) : ℚ) else 1 / ((2 ^ (-k).toNat : Nat) : ℚ)

/-- Halving until the number is below 2, at most `fuel` times. -/
def log2Aux : Nat → Nat → Nat
  | 0, _ => 0
  | fuel + 1, n => if 2 ≤ n then log2Aux fuel (n / 2) + 1 else 0

/-- The position of the leading bit of `n`. -/
def ilog2 (n : Nat) : Nat := log2Aux n n

/-- The binade of a non-zero rational: the integer `e` with `2^e ≤ |x| < 2^(e+1)`. -/
def binade (x : ℚ) : Int :=
  let e0 : Int := (ilog2 x.num.natAbs : Int) - (ilog2 x.den : Int)
  if pow2 e0 ≤ |x| then e0 else e0 - 1

/-- Rounding of a rational to the nearest integer, ties to the even one. -/
def roundEven (m : ℚ) : Int :=
  if m - ⌊m⌋ < 1 / 2 then ⌊m⌋
  else if 1 / 2 < m - ⌊m⌋ then ⌊m⌋ + 1
  else if ⌊m⌋ % 2 = 0 then ⌊m⌋ else ⌊m⌋ + 1

/-- Rounding to the nearest binary64 number: 53 significant bits, ties to even. -/
def rnd (x : ℚ) : ℚ :=
  if x = 0 then 0 else (roundEven (x * pow2 (52 - binade x)) : ℚ) * pow2 (binade x - 52)

/-- The conversion `(int)` of a double that holds the integer `z`: defined when
`z` fits a 32-bit `int`. -/
def toInt (z : Int) : Option Int :=
  if -2147483648 ≤ z ∧ z ≤ 2147483647 then some z else none

/-- One coordinate of `Grid3D::point_to_indices`, `(int) floor((p - min)/step)`,
in binary64 arithmetic. -/
def cell (p min step : ℚ) : Option Int := toInt ⌊rnd (rnd (p - min) / step)⌋

/-- `Grid3D::point_to_indices` in binary64 arithmetic; `none` when an index
does not fit an `int`. -/
def point_to_indices (g : Grid3D ℚ) (p : Point ℚ) : Option triple :=
  match cell p.x g.minx g.xstep, cell p.y g.miny g.ystep, cell p.z g.minz g.zstep with
  | some i, some j, some k => some ⟨i, j, k⟩
  | _, _, _ => none

/-- The double nearest to `0.7`. -/
def d07 : ℚ := rnd (7 / 10)

/-- The double nearest to `0.1`. -/
def d01 : ℚ := rnd (1 / 10)

/-- The link grid that `Axon::init` of `cylinder.cpp` builds for radius `0.7`,
length `2.1` and steps `0.7` (in doubles): minimum `(-0.7, -0.7, 0)`. -/
def grid07 : Grid3D ℚ := (Axon.init_cylinder d07 (rnd (21 / 10)) d07 d07 d07).link_grid

/-- The link grid that `Axon::init` of `cylinder.cpp` builds for radius 2,
length 4 and its default steps `LINK_INTERACTION_LEN = 0.1` (in doubles):
minimum `(-2, -2, 0)`. -/
def grid01 : Grid3D ℚ := (Axon.init_cylinder 2 4 d01 d01 d01).link_grid

end Double

section CheckedFrame
variable {R : Type} [LinearOrderedField R] [FloorRing R]

/-- `Point::normalize` with the division followed: for a vector of norm 0 the
factor `1.0/norm` is infinite and the scaled components are not finite numbers
(`0·∞` is NaN); `none` stands for such a vector. -/
def Point.normalize_checked (M : Libm R) (p : Point R) : Option (Point R) :=
  if p.norm M = 0 then none else some (p.normalize M)

/-- `rotate_sample` on vectors that may hold NaN: every arithmetic operation
on a NaN gives a NaN. -/
def rotate_sample_checked (M : Libm R) (sample : Point R) (q1 q2 q3 : Option (Point R)) :
    Option (Point R) :=
  match q3.bind (Point.normalize_checked M), q2.bind (Point.normalize_checked M),
      q1.bind (Point.normalize_checked M) with
  | some q3, some q2, some q1 =>
    some (Point.sum (Point.sum (q1.scale sample.x) (q2.scale sample.y)) (q3.scale sample.z))
  | _, _, _ => none

/-- The displacement proposed by `node::fluctuate` with the divisions
followed: `none` when there is no frame, `some none` when the proposal holds
NaN, `some (some d)` when it is the vector `d`. -/
def fluct_proposed_checked (M : Libm R) (A : Axon R) (this : node R) (xy : R × R) :
    Option (Option (Point R)) :=
  match fluct_frame A this with
  | none => none
  | some (q1, q2, q3) =>
    some (rotate_sample_checked M ⟨xy.1, xy.2, 0⟩ (q1.normalize_checked M)
      (q2.normalize_checked M) (q3.normalize_checked M))

end CheckedFrame

section StraightChain

/-- A birth on the axis and two growth calls without noise, link formation
and collision checking off: the straight chain `(0,0,0)`, `(0,0,1/10)`,
`(0,0,1/5)`. -/
def straightOps : List (Op ℚ) :=
  [Op.new_filament 0 (0, 0) 0, Op.grow_filaments (fun _ => 0) (straightDraws 0),
   Op.grow_filaments (fun _ => 0) (straightDraws 0)]

def straightAxon : Axon ℚ := Axon.run ratLibm ratTrig flagsGrowOnly straightOps axon0

end StraightChain

section ChainDefs
variable {R : Type} [LinearOrderedField R] [FloorRing R]

/-- The chain data of a node: its chain neighbours and its filament id. -/
def node.chain (n : node R) : Option NodePtr × Option NodePtr × Int :=
  (n.up, n.down, n.filament_id)

/-- `A` has the chains of `B`: the same node counter, the same filaments with
the same ids and node counts, and every node with the same chain data. -/
def Axon.sameChains (B A : Axon R) : Prop :=
  A.total_nodes = B.total_nodes ∧ A.filaments.length = B.filaments.length ∧
  (∀ i : Nat, (A.filaments[i]?).map (fun g => (g.id, g.num_nodes))
    = (B.filaments[i]?).map (fun g => (g.id, g.num_nodes))) ∧
  ∀ p : NodePtr, (A.deref p).map node.chain = (B.deref p).map node.chain

end ChainDefs

section CapInputs

end CapInputs

section AcrossDefs
variable {R : Type} [LinearOrderedField R] [FloorRing R]

/-- The links of the data model: every link of a live node goes to a node of
another chain (a node with another filament id). -/
def Axon.LinksAcross (A : Axon R) : Prop :=
  ∀ (x y : NodePtr) (nx ny : node R), A.deref x = some nx → A.deref y = some ny →
    some y ∈ A.linkListOf x → nx.filament_id ≠ ny.filament_id

end AcrossDefs

/-! ## Theorems -/

set_option linter.unusedSectionVars false
set_option linter.unnecessarySeqFocus false

/-- C1 (code defect). `Axon::collision` clamps `v`, derives `u` from it and
clamps `u`, but never recomputes `v` for the clamped `u`. For the non-parallel
segments `[(0,0,0),(1,0,0)]` and `[(3/2,-2,0),(9/2,2,0)]` and `r = 7/8` it
measures the distance 2 and returns `false`, although the points at parameters
`u = 1` and `v = 13/50` are at distance `8/5 < 2r = 7/4`. -/
theorem collision_skips_reclamp :
    c1_s ≠ c1_e ∧ c1_p ≠ c1_q ∧
    ¬ (|Point.dot (Point.difference c1_e c1_s) (Point.difference c1_q c1_p)
        - (Point.difference c1_e c1_s).norm ratLibm
          * (Point.difference c1_q c1_p).norm ratLibm| < 1 / 1000000000) ∧
    Axon.collision ratLibm c1_s c1_e c1_p c1_q (7 / 8) = false ∧
    ((0 : ℚ) ≤ 13 / 50 ∧ (13 / 50 : ℚ) ≤ 1) ∧
    distSq (segPoint c1_s c1_e 1) (segPoint c1_p c1_q (13 / 50)) = (8 / 5) ^ 2 ∧
    ((8 / 5 : ℚ) < 2 * (7 / 8)) := by
  decide!

/-- C3 (code defect). With both grids in use `node::move` moves the node in
the link grid first, which already stores the new position in the node; the
call for the collision grid then computes the "old" cell from the new position,
finds it equal to the new cell and never calls `move_node`. Moving the node of
`moveAxon` across the cell boundary `x = 0` returns `true` and sets the
position, the link grid holds the node in the new cell `(2,2,0)` only, but the
collision grid still holds it in the old cell `(1,2,0)` and not in `(2,2,0)`. -/
theorem move_leaves_collide_grid_stale :
    moveAxon.link_grid.cells (moveAxon.link_grid.point_to_indices (moveAxon.pointOf (0, 1)))
      = [some (0, 1)] ∧
    moveAxon.collide_grid.cells
      (moveAxon.collide_grid.point_to_indices (moveAxon.pointOf (0, 1))) = [some (0, 1)] ∧
    (node.move flagsOn moveAxon (0, 1) moveTarget).2 = true ∧
    (node.move flagsOn moveAxon (0, 1) moveTarget).1.pointOf (0, 1) = moveTarget ∧
    moveAxon.collide_grid.point_to_indices moveTarget = ⟨2, 2, 0⟩ ∧
    (node.move flagsOn moveAxon (0, 1) moveTarget).1.link_grid.cells ⟨2, 2, 0⟩ = [some (0, 1)] ∧
    (node.move flagsOn moveAxon (0, 1) moveTarget).1.link_grid.cells ⟨1, 2, 0⟩ = [] ∧
    (node.move flagsOn moveAxon (0, 1) moveTarget).1.collide_grid.cells ⟨2, 2, 0⟩ = [] ∧
    (node.move flagsOn moveAxon (0, 1) moveTarget).1.collide_grid.cells ⟨1, 2, 0⟩
      = [some (0, 1)] := by
  decide!

/-- C2 (code defect). In `Axon::link` the branch "both nodes are linked
somewhere" only sets `linked = false`; the two `add_link` calls that follow
the branches run all the same. For the nodes `(0,1)` and `(1,1)` of `linkAxon`
(different filaments, one link each, distance `1/20`, draw `1/2`, spare
capacity, not yet linked) the call returns `false` and moves nothing, yet both
link lists have grown by the other node. -/
theorem link_records_refused_link :
    linkAxon.linkListOf (0, 1) = [some (2, 1)] ∧
    linkAxon.linkListOf (1, 1) = [some (3, 1)] ∧
    (linkAxon.pointOf (0, 1)).distance_to ratLibm (linkAxon.pointOf (1, 1)) = 1 / 20 ∧
    ((1 / 20 : ℚ) ≤ LINK_INTERACTION_LEN ∧ (1 / 2 : ℚ) < LINK_FORM_PROB) ∧
    (Axon.link ratLibm flagsOn linkAxon (0, 1) (1, 1) (1 / 2)).2 = false ∧
    (Axon.link ratLibm flagsOn linkAxon (0, 1) (1, 1) (1 / 2)).1.pointOf (0, 1)
      = linkAxon.pointOf (0, 1) ∧
    (Axon.link ratLibm flagsOn linkAxon (0, 1) (1, 1) (1 / 2)).1.pointOf (1, 1)
      = linkAxon.pointOf (1, 1) ∧
    (Axon.link ratLibm flagsOn linkAxon (0, 1) (1, 1) (1 / 2)).1.linkListOf (0, 1)
      = [some (2, 1), some (1, 1)] ∧
    (Axon.link ratLibm flagsOn linkAxon (0, 1) (1, 1) (1 / 2)).1.linkListOf (1, 1)
      = [some (3, 1), some (0, 1)] ∧
    (Axon.link ratLibm flagsOn linkAxon (0, 1) (1, 1) (1 / 2)).1.numLinksOf (0, 1) = 2 ∧
    (Axon.link ratLibm flagsOn linkAxon (0, 1) (1, 1) (1 / 2)).1.numLinksOf (1, 1) = 2 := by
  decide!

/-! ### Pointers and stores -/

section Basics
variable {R : Type}

theorem deref_update (A : Axon R) (p q : NodePtr) (g : node R → node R) :
    (A.update p g).deref q = if q = p then (A.deref q).map g else A.deref q := by
  obtain ⟨p1, p2⟩ := p
  obtain ⟨q1, q2⟩ := q
  simp only [Axon.deref, Axon.update, List.getElem?_modify, Prod.mk.injEq]
  by_cases h1 : p1 = q1
  · subst h1
    cases hf : A.filaments[p1]? with
    | none => simp
    | some f =>
      simp only [if_true, Option.map_eq_map, Option.map_some', List.getElem?_modify, true_and]
      by_cases h2 : p2 = q2
      · subst h2; simp
      · have h2' : ¬ q2 = p2 := fun h => h2 h.symm
        simp [h2, h2']
  · have h1' : ¬ q1 = p1 := fun h => h1 h.symm
    cases hf : A.filaments[q1]? <;> simp [h1, h1']

@[simp] theorem update_link_grid (A : Axon R) (p : NodePtr) (g : node R → node R) :
    (A.update p g).link_grid = A.link_grid := rfl

@[simp] theorem update_collide_grid (A : Axon R) (p : NodePtr) (g : node R → node R) :
    (A.update p g).collide_grid = A.collide_grid := rfl

@[simp] theorem setGrid_deref (A : Axon R) (gid : GridId) (g : Grid3D R) (q : NodePtr) :
    (A.setGrid gid g).deref q = A.deref q := by
  cases gid <;> rfl

end Basics

/-! ### Enumeration of the live nodes -/

section BundleLemmas
variable {R : Type}

theorem allPtrsFrom_length (i : Nat) (fs : List (Filament R)) :
    (allPtrsFrom i fs).length = (fs.map (fun f => f.nodes.length)).sum := by
  induction fs generalizing i with
  | nil => simp [allPtrsFrom]
  | cons f fs ih => simp [allPtrsFrom, ih]

theorem mem_allPtrsFrom (i : Nat) (fs : List (Filament R)) (a b : Nat) (f : Filament R)
    (nd : node R) (hf : fs[a]? = some f) (hn : f.nodes[b]? = some nd) :
    (i + a, b) ∈ allPtrsFrom i fs := by
  induction fs generalizing i a with
  | nil => simp at hf
  | cons g gs ih =>
    cases a with
    | zero =>
      simp only [List.getElem?_cons_zero, Option.some.injEq] at hf
      subst hf
      simp only [allPtrsFrom, List.mem_append, List.mem_map, List.mem_range]
      left
      refine ⟨b, ?_, by simp⟩
      exact (List.getElem?_eq_some_iff.mp hn).1
    | succ a =>
      simp only [List.getElem?_cons_succ] at hf
      simp only [allPtrsFrom, List.mem_append]
      right
      have := ih (i + 1) a hf
      have e : i + (a + 1) = i + 1 + a := by omega
      rw [e]; exact this

theorem mem_allPtrs_of_deref (A : Axon R) (p : NodePtr) (nd : node R)
    (h : A.deref p = some nd) : p ∈ A.allPtrs := by
  obtain ⟨a, b⟩ := p
  unfold Axon.deref at h
  cases hf : A.filaments[a]? with
  | none => simp [hf] at h
  | some f =>
    simp only [hf] at h
    have := mem_allPtrsFrom 0 A.filaments a b f nd hf h
    simpa [Axon.allPtrs] using this

theorem allPtrs_length (A : Axon R) : A.allPtrs.length = A.node_count := by
  simp [Axon.allPtrs, Axon.node_count, allPtrsFrom_length]

theorem linksLive_of_check (A : Axon R) (h : A.linksLiveB = true) : A.LinksLive := by
  intro p nd hp l hl
  simp only [Axon.linksLiveB, List.all_eq_true] at h
  have h1 := h p (mem_allPtrs_of_deref A p nd hp) l (by simpa [Axon.linkListOf, hp] using hl)
  cases l with
  | none => simp at h1
  | some q =>
    cases hq : A.deref q with
    | none => simp [hq] at h1
    | some nd1 => exact ⟨q, nd1, rfl, hq⟩

end BundleLemmas

/-! ### Bundle discovery -/

section BundleSearch
variable {R : Type}

theorem neighbors_scan_cons (l : Option NodePtr) (ls Q Rs : List (Option NodePtr)) :
    neighbors_scan (l :: ls) Q Rs =
      if l ∈ Rs then neighbors_scan ls Q Rs else neighbors_scan ls (Q ++ [l]) (Rs ++ [l]) := by
  unfold neighbors_scan
  simp only [List.foldl_cons]
  split <;> rfl

theorem neighbors_scan_mem_R (links Q Rs : List (Option NodePtr)) (x : Option NodePtr) :
    x ∈ (neighbors_scan links Q Rs).2 ↔ x ∈ Rs ∨ x ∈ links := by
  induction links generalizing Q Rs with
  | nil => simp [neighbors_scan]
  | cons l ls ih =>
    rw [neighbors_scan_cons]
    split
    · rename_i h
      rw [ih]
      constructor
      · rintro (h1 | h1)
        · exact Or.inl h1
        · exact Or.inr (List.mem_cons_of_mem _ h1)
      · rintro (h1 | h1)
        · exact Or.inl h1
        · rcases List.mem_cons.mp h1 with h2 | h2
          · exact Or.inl (h2 ▸ h)
          · exact Or.inr h2
    · rw [ih]
      simp only [List.mem_append, List.mem_singleton, List.mem_cons]
      tauto

theorem neighbors_scan_mem_Q (links Q Rs : List (Option NodePtr)) (x : Option NodePtr) :
    x ∈ (neighbors_scan links Q Rs).1 ↔ x ∈ Q ∨ (x ∈ links ∧ x ∉ Rs) := by
  induction links generalizing Q Rs with
  | nil => simp [neighbors_scan]
  | cons l ls ih =>
    rw [neighbors_scan_cons]
    split
    · rename_i h
      rw [ih]
      constructor
      · rintro (h1 | ⟨h1, h2⟩)
        · exact Or.inl h1
        · exact Or.inr ⟨List.mem_cons_of_mem _ h1, h2⟩
      · rintro (h1 | ⟨h1, h2⟩)
        · exact Or.inl h1
        · rcases List.mem_cons.mp h1 with h3 | h3
          · exact absurd (h3 ▸ h) h2
          · exact Or.inr ⟨h3, h2⟩
    · rename_i h
      rw [ih]
      simp only [List.mem_append, List.mem_singleton, List.mem_cons, List.not_mem_nil, or_false]
      constructor
      · rintro ((h1 | h1) | ⟨h1, h2⟩)
        · exact Or.inl h1
        · exact Or.inr ⟨Or.inl h1, h1 ▸ h⟩
        · exact Or.inr ⟨Or.inr h1, fun h3 => h2 (Or.inl h3)⟩
      · rintro (h1 | ⟨h1, h2⟩)
        · exact Or.inl (Or.inl h1)
        · by_cases hx : x = l
          · exact Or.inl (Or.inr hx)
          · rcases h1 with h1 | h1
            · exact absurd h1 hx
            · exact Or.inr ⟨h1, fun h3 => h3.elim h2 hx⟩

theorem neighbors_scan_nodup (links Q Rs : List (Option NodePtr)) (h : Rs.Nodup) :
    (neighbors_scan links Q Rs).2.Nodup := by
  induction links generalizing Q Rs with
  | nil => simpa [neighbors_scan] using h
  | cons l ls ih =>
    rw [neighbors_scan_cons]
    split
    · exact ih Q Rs h
    · rename_i hl
      apply ih
      rw [List.nodup_append]
      refine ⟨h, List.nodup_singleton l, ?_⟩
      intro a ha hb
      simp only [List.mem_singleton] at hb
      subst hb
      exact hl ha

theorem neighbors_scan_length (links Q Rs : List (Option NodePtr)) :
    (neighbors_scan links Q Rs).1.length + Rs.length
      = Q.length + (neighbors_scan links Q Rs).2.length := by
  induction links generalizing Q Rs with
  | nil => simp [neighbors_scan]
  | cons l ls ih =>
    rw [neighbors_scan_cons]
    split
    · exact ih Q Rs
    · have := ih (Q ++ [l]) (Rs ++ [l])
      simp only [List.length_append, List.length_singleton] at this
      omega

theorem live_count (A : Axon R) (l : List (Option NodePtr)) (hn : l.Nodup)
    (hl : ∀ x ∈ l, A.live x) : l.length ≤ A.node_count := by
  rw [← allPtrs_length, ← List.length_map A.allPtrs some]
  apply List.Subperm.length_le
  apply List.subperm_of_subset hn
  intro x hx
  obtain ⟨p, nd, rfl, hp⟩ := hl x hx
  exact List.mem_map.mpr ⟨p, mem_allPtrs_of_deref A p nd hp, rfl⟩

theorem linked_live (A : Axon R) (hwf : A.LinksLive) (x y : Option NodePtr)
    (h : A.linked x y) : A.live x ∧ A.live y := by
  unfold Axon.linked Axon.linksOf at h
  cases x with
  | none => simp at h
  | some p =>
    cases hp : A.deref p with
    | none => simp [hp] at h
    | some nd =>
      simp only [Option.some_bind, hp] at h
      refine ⟨⟨p, nd, rfl, hp⟩, ?_⟩
      obtain ⟨q, nd1, rfl, hq⟩ := hwf p nd hp y h
      exact ⟨q, nd1, rfl, hq⟩

theorem neighbors_loop_spec (A : Axon R) (hwf : A.LinksLive) (start : Option NodePtr) :
    ∀ (fuel : Nat) (Q Rs : List (Option NodePtr)),
      Rs.Nodup → (∀ x ∈ Rs, A.live x) → (∀ x ∈ Q, x ∈ Rs) → start ∈ Rs →
      (∀ x ∈ Rs, A.reach start x) →
      (∀ x ∈ Rs, x ∉ Q → ∀ y, A.linked x y → y ∈ Rs) →
      Q.length + A.node_count ≤ fuel + Rs.length →
      ∃ B, neighbors_loop A fuel Q Rs = some B ∧ B.Nodup ∧ (∀ x, x ∈ B ↔ A.reach start x) := by
  intro fuel
  induction fuel with
  | zero =>
    intro Q Rs hnd hlive hQ hs hreach hclosed hfuel
    cases Q with
    | nil =>
      refine ⟨Rs, rfl, hnd, fun x => ⟨hreach x, fun hx => ?_⟩⟩
      induction hx with
      | refl => exact hs
      | tail _ hbc ih => exact hclosed _ ih (List.not_mem_nil _) _ hbc
    | cons n Q =>
      have := live_count A Rs hnd hlive
      simp only [List.length_cons] at hfuel
      omega
  | succ fuel ih =>
    intro Q Rs hnd hlive hQ hs hreach hclosed hfuel
    cases Q with
    | nil =>
      refine ⟨Rs, rfl, hnd, fun x => ⟨hreach x, fun hx => ?_⟩⟩
      induction hx with
      | refl => exact hs
      | tail _ hbc ih => exact hclosed _ ih (List.not_mem_nil _) _ hbc
    | cons n Q =>
      have hnR : n ∈ Rs := hQ n (List.mem_cons_self _ _)
      show ∃ B, neighbors_loop A fuel (neighbors_scan (A.linksOf n) Q Rs).1
        (neighbors_scan (A.linksOf n) Q Rs).2 = some B ∧ _
      apply ih
      · exact neighbors_scan_nodup _ _ _ hnd
      · intro x hx
        rcases (neighbors_scan_mem_R _ _ _ _).mp hx with h | h
        · exact hlive x h
        · exact (linked_live A hwf n x h).2
      · intro x hx
        rcases (neighbors_scan_mem_Q _ _ _ _).mp hx with h | h
        · exact (neighbors_scan_mem_R _ _ _ _).mpr (Or.inl (hQ x (List.mem_cons_of_mem _ h)))
        · exact (neighbors_scan_mem_R _ _ _ _).mpr (Or.inr h.1)
      · exact (neighbors_scan_mem_R _ _ _ _).mpr (Or.inl hs)
      · intro x hx
        rcases (neighbors_scan_mem_R _ _ _ _).mp hx with h | h
        · exact hreach x h
        · exact Relation.ReflTransGen.tail (hreach n hnR) h
      · intro x hx hxQ y hxy
        rcases (neighbors_scan_mem_R _ _ _ _).mp hx with h | h
        · by_cases hxn : x = n
          · subst hxn
            exact (neighbors_scan_mem_R _ _ _ _).mpr (Or.inr hxy)
          · have hxQ0 : x ∉ Q := fun h1 => hxQ ((neighbors_scan_mem_Q _ _ _ _).mpr (Or.inl h1))
            have : x ∉ n :: Q := by
              intro h1
              rcases List.mem_cons.mp h1 with h2 | h2
              · exact hxn h2
              · exact hxQ0 h2
            exact (neighbors_scan_mem_R _ _ _ _).mpr (Or.inl (hclosed x h this y hxy))
        · by_cases hxR : x ∈ Rs
          · by_cases hxn : x = n
            · subst hxn
              exact (neighbors_scan_mem_R _ _ _ _).mpr (Or.inr hxy)
            · have hxQ0 : x ∉ Q :=
                fun h1 => hxQ ((neighbors_scan_mem_Q _ _ _ _).mpr (Or.inl h1))
              have : x ∉ n :: Q := by
                intro h1
                rcases List.mem_cons.mp h1 with h2 | h2
                · exact hxn h2
                · exact hxQ0 h2
              exact (neighbors_scan_mem_R _ _ _ _).mpr (Or.inl (hclosed x hxR this y hxy))
          · exact absurd ((neighbors_scan_mem_Q _ _ _ _).mpr (Or.inr ⟨h, hxR⟩)) hxQ
      · have := neighbors_scan_length (A.linksOf n) Q Rs
        simp only [List.length_cons] at hfuel
        omega

theorem linkListOf_eq_nil_of_dead (A : Axon R) (p : NodePtr) (h : A.deref p = none) :
    A.linkListOf p = [] := by
  simp [Axon.linkListOf, h]

theorem linksSymmetric_of_check (A : Axon R) (h : A.linksSymmetricB = true) :
    A.LinksSymmetric := by
  intro x y hxy
  cases hx : A.deref x with
  | none => simp [linkListOf_eq_nil_of_dead A x hx] at hxy
  | some nd =>
    simp only [Axon.linksSymmetricB, List.all_eq_true] at h
    have := h x (mem_allPtrs_of_deref A x nd hx) (some y) hxy
    simpa using this

theorem linksOf_some (A : Axon R) (p : NodePtr) : A.linksOf (some p) = A.linkListOf p := by
  simp only [Axon.linksOf, Axon.linkListOf, Option.some_bind]

theorem linked_symm (A : Axon R) (hwf : A.LinksLive) (hsym : A.LinksSymmetric)
    (x y : Option NodePtr) (h : A.linked x y) : A.linked y x := by
  obtain ⟨⟨p, _, rfl, _⟩, ⟨q, _, rfl, _⟩⟩ := linked_live A hwf x y h
  unfold Axon.linked at h ⊢
  rw [linksOf_some] at h ⊢
  exact hsym p q h

/-- C7. On an axon whose link entries all point to live nodes, `node::neighbors`
called on a live node with an empty set terminates (the budget of one loop pass
per live node is never exhausted) and returns a duplicate-free collection whose
members are exactly the pointers reachable from the node by following zero or
more link entries, the node itself included. -/
theorem neighbors_is_reachable_set (A : Axon R) (self : NodePtr)
    (hself : (A.deref self).isSome = true) (hwf : A.LinksLive) :
    ∃ B, node.neighbors A self [] = some B ∧ B.Nodup ∧
      ∀ x, x ∈ B ↔ A.reach (some self) x := by
  obtain ⟨nd, hnd⟩ := Option.isSome_iff_exists.mp hself
  unfold node.neighbors node.neighbors_fuel
  simp only [List.not_mem_nil, if_false, List.nil_append]
  apply neighbors_loop_spec A hwf (some self)
  · exact List.nodup_singleton _
  · intro x hx
    rw [List.mem_singleton] at hx
    exact ⟨self, nd, hx, hnd⟩
  · intro x hx; exact hx
  · exact List.mem_singleton_self _
  · intro x hx
    rw [List.mem_singleton] at hx
    rw [hx]
    exact Relation.ReflTransGen.refl
  · intro x hx hxQ
    exact absurd hx hxQ
  · simp only [List.length_singleton]
    omega

/-- Witness of C7 on `linkAxon`: the bundle of the grown node of filament 0 is
that node and its link partner in filament 2. -/
theorem neighbors_is_reachable_set_witness :
    (linkAxon.deref (0, 1)).isSome = true ∧ linkAxon.linksLiveB = true ∧
    node.neighbors linkAxon (0, 1) [] = some [some (0, 1), some (2, 1)] ∧
    ∃ B, node.neighbors linkAxon (0, 1) [] = some B ∧ B.Nodup ∧
      ∀ x, x ∈ B ↔ linkAxon.reach (some (0, 1)) x :=
  ⟨by decide!, by decide!, by decide!,
    neighbors_is_reachable_set linkAxon (0, 1) (by decide!)
      (linksLive_of_check linkAxon (by decide!))⟩

/-- C8. On an axon whose link entries point to live nodes and whose link
relation is symmetric, two nodes joined by a path of links have the same
bundle: `node::neighbors` returns for both, and the two results have the same
members. -/
theorem neighbors_same_for_connected (A : Axon R) (a b : NodePtr)
    (hwf : A.LinksLive) (hsym : A.LinksSymmetric)
    (ha : (A.deref a).isSome = true) (hpath : A.reach (some a) (some b)) :
    ∃ Ba Bb, node.neighbors A a [] = some Ba ∧ node.neighbors A b [] = some Bb ∧
      ∀ x, x ∈ Ba ↔ x ∈ Bb := by
  have hb : (A.deref b).isSome = true := by
    rcases Relation.ReflTransGen.cases_tail hpath with h | ⟨c, _, hcb⟩
    · simp only [Option.some.injEq] at h
      rw [h]; exact ha
    · obtain ⟨q, nd1, hq, hd⟩ := (linked_live A hwf c (some b) hcb).2
      simp only [Option.some.injEq] at hq
      subst hq
      simp [hd]
  obtain ⟨Ba, hBa, _, hmemA⟩ := neighbors_is_reachable_set A a ha hwf
  obtain ⟨Bb, hBb, _, hmemB⟩ := neighbors_is_reachable_set A b hb hwf
  have hrsym : Symmetric A.linked := fun x y h => linked_symm A hwf hsym x y h
  have hback : A.reach (some b) (some a) := Relation.ReflTransGen.symmetric hrsym hpath
  refine ⟨Ba, Bb, hBa, hBb, fun x => ?_⟩
  rw [hmemA, hmemB]
  exact ⟨fun h => hback.trans h, fun h => hpath.trans h⟩

/-- Witness of C8 on `linkAxon`: the linked grown nodes of filaments 0 and 2. -/
theorem neighbors_same_for_connected_witness :
    linkAxon.linksLiveB = true ∧ linkAxon.linksSymmetricB = true ∧
    (linkAxon.deref (0, 1)).isSome = true ∧
    some (2, 1) ∈ linkAxon.linksOf (some (0, 1)) ∧
    ∃ Ba Bb, node.neighbors linkAxon (0, 1) [] = some Ba ∧
      node.neighbors linkAxon (2, 1) [] = some Bb ∧ ∀ x, x ∈ Ba ↔ x ∈ Bb :=
  ⟨by decide!, by decide!, by decide!, by decide!,
    neighbors_same_for_connected linkAxon (0, 1) (2, 1)
      (linksLive_of_check linkAxon (by decide!))
      (linksSymmetric_of_check linkAxon (by decide!)) (by decide!)
      (Relation.ReflTransGen.single
        (show some (2, 1) ∈ linkAxon.linksOf (some (0, 1)) by decide!))⟩

end BundleSearch

/-! ### Curvature Hamiltonian -/

section Hamiltonian
variable {R : Type} [LinearOrderedField R]

theorem normalize_eq_spec_t (M : Libm R) (points : List (Point R)) (i : Nat) :
    (Point.difference (points.getD (i + 1) origin) (points.getD i origin)).normalize M
      = spec_t M points i := by
  simp only [Point.normalize, Point.scale, spec_t, spec_b, mul_one_div]

theorem curve_hamiltonian_loop_eq (M : Libm R) (points : List (Point R)) :
    ∀ (cnt j : Nat) (h : R),
      curve_hamiltonian_loop M points (j + 2) cnt (spec_t M points j) (spec_b M points j) h
        = h + ∑ k in Finset.range cnt,
            (1 - Point.dot (spec_t M points (j + k)) (spec_t M points (j + k + 1)))
              / spec_b M points (j + k) := by
  intro cnt
  induction cnt with
  | zero => intro j h; simp [curve_hamiltonian_loop]
  | succ cnt ih =>
    intro j h
    rw [curve_hamiltonian_loop]
    have e1 : j + 2 - 1 = j + 1 := by omega
    rw [e1, normalize_eq_spec_t M points (j + 1)]
    have e2 : (Point.difference (points.getD (j + 2) origin)
        (points.getD (j + 1) origin)).norm M = spec_b M points (j + 1) := rfl
    rw [e2]
    have e3 : j + 2 + 1 = (j + 1) + 2 := by omega
    rw [e3, ih (j + 1), Finset.sum_range_succ']
    simp only [Nat.add_zero]
    have e4 : ∀ k, j + 1 + k = j + (k + 1) := fun k => by omega
    simp only [e4]
    ring

/-- C9. `curve_hamiltonian` returns `0` for at most two points and otherwise
`PERSISTENCE_LEN * Σ_{i} (1 - t_i · t_{i+1}) / b_i` over the `n - 2` consecutive
tangent pairs, with `b_i = |p_{i+1} - p_i|` and `t_i = (p_{i+1} - p_i) / b_i`:
the loop of the source computes the formula of the specification, for every
sequence of points (in particular when consecutive points are distinct). -/
theorem curve_hamiltonian_eq_spec (M : Libm R) (points : List (Point R)) :
    curve_hamiltonian M points = curve_hamiltonian_spec M points := by
  unfold curve_hamiltonian curve_hamiltonian_spec
  split
  · rfl
  · have h0 := normalize_eq_spec_t M points 0
    have h1 := curve_hamiltonian_loop_eq M points (points.length - 2) 0 0
    simp only [Nat.zero_add] at h0 h1
    have e2 : (Point.difference (points.getD 1 origin) (points.getD 0 origin)).norm M
        = spec_b M points 0 := rfl
    simp only [h0, e2, h1]
    ring

end Hamiltonian

/-! ### Collision query -/

section CollisionQuery
variable {R : Type} [LinearOrderedField R] [FloorRing R]

theorem mem_intRange (lo hi x : Int) : x ∈ intRange lo hi ↔ lo ≤ x ∧ x ≤ hi := by
  unfold intRange
  simp only [List.mem_map, List.mem_range]
  constructor
  · rintro ⟨n, hn, rfl⟩
    omega
  · rintro ⟨h1, h2⟩
    refine ⟨(x - lo).toNat, ?_, ?_⟩ <;> omega

theorem check_entry_iff (M : Libm R) (A : Axon R) (p q : Point R) (filament_id : Int)
    (e : Option NodePtr) :
    check_entry M A p q filament_id e = true ↔
      ∃ ptr n, e = some ptr ∧ A.deref ptr = some n ∧ n.filament_id ≠ filament_id ∧
        A.segmentHit M p q n := by
  unfold check_entry Axon.segmentHit
  cases e with
  | none => simp
  | some ptr =>
    cases hd : A.deref ptr with
    | none => simp [hd]
    | some n =>
      simp only [Option.some_bind, hd, Option.some.injEq, exists_and_left, exists_eq_left',
        Bool.or_eq_true]
      cases hu : n.up.bind A.deref <;> cases hdn : n.down.bind A.deref <;>
        simp [hu, hdn] <;> tauto

/-- C10 (amended). `Axon::check_collisions(p,q,id)` returns true if and only
if some node stored in the collision grid, in an in-range cell of the box of
cells scanned (on each axis from `min(p_cell, q_cell) - 1` to
`max(p_cell, q_cell) + 1`), belongs to a filament other than `id` and has an
up-segment or a down-segment on which `Axon::collision` with `[p,q]` at
`FILAMENT_RADIUS` is true. -/
theorem check_collisions_iff_box (M : Libm R) (A : Axon R) (p q : Point R)
    (filament_id : Int) :
    A.check_collisions M p q filament_id = true ↔
      ∃ c : triple,
        inScanBox (A.collide_grid.point_to_indices p) (A.collide_grid.point_to_indices q) c ∧
        A.collide_grid.in_range c = true ∧
        ∃ ptr n, some ptr ∈ A.collide_grid.cells c ∧ A.deref ptr = some n ∧
          n.filament_id ≠ filament_id ∧ A.segmentHit M p q n := by
  unfold Axon.check_collisions inScanBox Grid3D.in_range
  simp only [List.any_eq_true, mem_intRange, Bool.and_eq_true, decide_eq_true_eq,
    check_entry_iff]
  constructor
  · rintro ⟨i, hi, j, hj, k, hk, hr, e, he, ptr, n, rfl, h⟩
    exact ⟨⟨i, j, k⟩, ⟨hi, hj, hk⟩, hr, ptr, n, he, h⟩
  · rintro ⟨⟨i, j, k⟩, ⟨hi, hj, hk⟩, hr, ptr, n, he, h⟩
    exact ⟨i, hi, j, hj, k, hk, hr, some ptr, he, ptr, n, rfl, h⟩

/-- C10 as stated fails: for the segment `[box_p, box_q]`, whose endpoints lie
in cells `(1,1,0)` and `(2,2,0)`, `check_collisions` on `boxAxon` returns true
because of the node stored in cell `(0,3,0)`, a cell of the scanned box that is
in neither 3×3×3 neighbourhood: every cell of the two neighbourhoods is empty. -/
theorem check_collisions_scans_box_not_union :
    boxAxon.collide_grid.point_to_indices box_p = ⟨1, 1, 0⟩ ∧
    boxAxon.collide_grid.point_to_indices box_q = ⟨2, 2, 0⟩ ∧
    boxAxon.check_collisions ratLibm box_p box_q 0 = true ∧
    (∀ c ∈ nbhd ⟨1, 1, 0⟩ ++ nbhd ⟨2, 2, 0⟩, boxAxon.collide_grid.cells c = []) ∧
    boxAxon.collide_grid.cells ⟨0, 3, 0⟩ = [some (0, 1)] := by
  decide!

end CollisionQuery

/-! ### Node movement -/

section Move
variable {R : Type} [LinearOrderedField R] [FloorRing R]

theorem sameFrame_refl (A : Axon R) : A.sameFrame A :=
  ⟨fun _ => rfl, fun _ _ => rfl, fun _ _ => rfl⟩

theorem sameFrame_trans {A B C : Axon R} (h1 : A.sameFrame B) (h2 : B.sameFrame C) :
    A.sameFrame C :=
  ⟨fun p => (h2.1 p).trans (h1.1 p), fun g p => (h2.2.1 g p).trans (h1.2.1 g p),
    fun g c => (h2.2.2 g c).trans (h1.2.2 g c)⟩

theorem sameFrame_update (A : Axon R) (p : NodePtr) (g : node R → node R) :
    A.sameFrame (A.update p g) :=
  ⟨fun _ => rfl, fun gid _ => by cases gid <;> rfl, fun gid _ => by cases gid <;> rfl⟩

theorem add_node_frame (g : Grid3D R) (n : Option NodePtr) (pt : Point R) :
    (∀ p, (g.add_node n pt).point_to_indices p = g.point_to_indices p) ∧
    (∀ c, (g.add_node n pt).in_range c = g.in_range c) := by
  unfold Grid3D.add_node
  cases n with
  | none => exact ⟨fun _ => rfl, fun _ => rfl⟩
  | some ptr =>
    simp only
    split
    · exact ⟨fun _ => rfl, fun _ => rfl⟩
    · exact ⟨fun _ => rfl, fun _ => rfl⟩

theorem move_node_frame (g : Grid3D R) (n : NodePtr) (pt : Point R) (old : triple) :
    (∀ p, (g.move_node n pt old).point_to_indices p = g.point_to_indices p) ∧
    (∀ c, (g.move_node n pt old).in_range c = g.in_range c) := by
  unfold Grid3D.move_node
  simp only
  constructor
  · intro p; rw [(add_node_frame _ _ _).1]; rfl
  · intro c; rw [(add_node_frame _ _ _).2]; rfl

theorem sameFrame_setGrid (A : Axon R) (gid : GridId) (g : Grid3D R)
    (h1 : ∀ p, g.point_to_indices p = (A.grid gid).point_to_indices p)
    (h2 : ∀ c, g.in_range c = (A.grid gid).in_range c) :
    A.sameFrame (A.setGrid gid g) := by
  refine ⟨fun _ => by cases gid <;> rfl, fun gid1 p => ?_, fun gid1 c => ?_⟩
  · cases gid <;> cases gid1 <;> first | rfl | exact h1 p
  · cases gid <;> cases gid1 <;> first | rfl | exact h2 c

/-- What `move_within_grid` does to the nodes: on success the position of the
node is the target and nothing else about any node changes; on failure the
axon is unchanged. -/
theorem move_within_grid_spec (A : Axon R) (self : NodePtr) (t : Point R) (gid : GridId) :
    A.sameFrame (node.move_within_grid A self t gid).1 ∧
    (∀ q, (node.move_within_grid A self t gid).1.deref q
        = if q = self ∧ (node.move_within_grid A self t gid).2 = true
          then (A.deref q).map (fun n => { n with point := t }) else A.deref q) ∧
    ((node.move_within_grid A self t gid).2 = true ↔
      (A.deref self).isSome = true ∧
      (A.grid gid).in_range ((A.grid gid).point_to_indices t) = true ∧
      A.in_cylinder t = true) ∧
    ((node.move_within_grid A self t gid).2 = false →
      (node.move_within_grid A self t gid).1 = A) := by
  unfold node.move_within_grid
  cases hd : A.deref self with
  | none => simp [sameFrame_refl]
  | some this =>
    simp only
    by_cases hc : ((A.grid gid).in_range ((A.grid gid).point_to_indices t) &&
        A.in_cylinder t) = true
    · rw [if_pos hc]
      have hc' := hc
      simp only [Bool.and_eq_true] at hc'
      split
      · refine ⟨?_, ?_, ?_, ?_⟩
        · refine sameFrame_trans (sameFrame_update A self _) (sameFrame_setGrid _ gid _ ?_ ?_)
          · intro p; rw [(move_node_frame _ _ _ _).1]; cases gid <;> rfl
          · intro c; rw [(move_node_frame _ _ _ _).2]; cases gid <;> rfl
        · intro q
          rw [setGrid_deref, deref_update]
          simp
        · simp [hc'.1, hc'.2]
        · simp
      · refine ⟨sameFrame_update A self _, ?_, ?_, ?_⟩
        · intro q
          rw [deref_update]
          simp
        · simp [hc'.1, hc'.2]
        · simp
    · rw [if_neg hc]
      refine ⟨sameFrame_refl A, ?_, ?_, ?_⟩
      · intro q; simp
      · simp only [Bool.and_eq_true] at hc
        simp only [Bool.false_eq_true, Option.isSome_some, true_and, false_iff]
        exact hc
      · simp

end Move

/-! ### Fluctuation: paths that change nothing -/

section FluctReject
variable {R : Type} [LinearOrderedField R] [FloorRing R]

/-- C5. If `node::fluctuate` does not accept its proposal, because the
pre-check loop over the bundle ended with `collision` set (some member's
displaced segment collides), or with `out_of_bounds` set (some member's
displaced position fails `in_cylinder`), or because the draw `u` is not below
`min(1, exp(-(energy_new - energy_old)))`, then the axon after the call is the
axon before it: every node position, every link list and every bucket of both
grids. -/
theorem fluctuate_reject_changes_nothing (M : Libm R) (F : Flags)
    (hamiltonian : List (Point R) → R) (A : Axon R) (self : NodePtr) (xy : R × R) (u : R)
    (this : node R) (proposed : Point R) (bundle : List (Option NodePtr))
    (h1 : A.deref self = some this) (h2 : fluct_proposed M A this xy = some proposed)
    (h3 : node.neighbors A self [] = some bundle)
    (hrej : (fluct_precheck M F A proposed bundle).1 = true ∨
      (fluct_precheck M F A proposed bundle).2 = true ∨
      ¬ (u < min 1 (M.exp (-((fluct_energies hamiltonian A proposed bundle).2
            - (fluct_energies hamiltonian A proposed bundle).1))))) :
    (node.fluctuate M F hamiltonian A self xy u).1 = A := by
  unfold node.fluctuate
  simp only [h1, h2, h3]
  rcases hrej with h | h | h
  · simp [h]
  · cases hc : (fluct_precheck M F A proposed bundle).1 <;> simp [h]
  · have hacc : fluct_accept M (fluct_energies hamiltonian A proposed bundle).1
        (fluct_energies hamiltonian A proposed bundle).2 u = false := by
      simp only [fluct_accept, decide_eq_false_iff_not]
      exact h
    cases hc : (fluct_precheck M F A proposed bundle).1 <;>
      cases ho : (fluct_precheck M F A proposed bundle).2 <;>
      simp [hacc]

/-- Witness of C5: the tip of `fluctAxon 1` with the sample `(-2, 0)` (proposed
displacement `(0,0,2)`, equal energies) and the draw `u = 1`, which is not
below `min(1, exp(0)) = 1`. -/
theorem fluctuate_reject_changes_nothing_witness :
    (fluctAxon 1).deref (0, 2) = some ⟨⟨3 / 2, 1 / 2, 1⟩, none, some (0, 1), fun _ => none,
      false, 0, 0⟩ ∧
    fluct_proposed ratLibm (fluctAxon 1) ⟨⟨3 / 2, 1 / 2, 1⟩, none, some (0, 1), fun _ => none,
      false, 0, 0⟩ (-2, 0) = some ⟨0, 0, 2⟩ ∧
    node.neighbors (fluctAxon 1) (0, 2) [] = some [some (0, 2)] ∧
    fluct_energies (curve_hamiltonian ratLibm) (fluctAxon 1) ⟨0, 0, 2⟩ [some (0, 2)]
      = (60, 60) ∧
    (node.fluctuate ratLibm flagsOn (curve_hamiltonian ratLibm) (fluctAxon 1) (0, 2)
      (-2, 0) 1).1 = fluctAxon 1 :=
  ⟨rfl, by decide!, by decide!, by decide!,
    fluctuate_reject_changes_nothing ratLibm flagsOn (curve_hamiltonian ratLibm)
      (fluctAxon 1) (0, 2) (-2, 0) 1 _ ⟨0, 0, 2⟩ [some (0, 2)] rfl (by decide!) (by decide!)
      (Or.inr (Or.inr (by decide!)))⟩

/-- C29. `node::fluctuate` on a node that has no down neighbour, or that has no
up neighbour and whose down neighbour has no down neighbour, takes the path
that returns at once: whatever the Gaussian sample and the uniform draw would
be (the return precedes every call of the random generator), the axon is left
as it is, with every node position, link list and grid bucket. -/
theorem fluctuate_without_frame (M : Libm R) (F : Flags)
    (hamiltonian : List (Point R) → R) (A : Axon R) (self : NodePtr) (this : node R)
    (h1 : A.deref self = some this)
    (hcase : this.down = none ∨
      (this.up = none ∧ ∃ d, this.down.bind A.deref = some d ∧ d.down = none)) :
    ∀ (xy : R × R) (u : R),
      node.fluctuate M F hamiltonian A self xy u = (A, FluctOutcome.no_frame) := by
  intro xy u
  have hf : fluct_frame A this = none := by
    unfold fluct_frame
    rcases hcase with h | ⟨hu, d, hd, hdd⟩
    · rw [h]
      cases this.up.bind A.deref <;> rfl
    · rw [hu, hd]
      simp [hdd]
  unfold node.fluctuate
  simp [h1, fluct_proposed, hf]

/-- Witness of C29: the tip of the two-node filament of `moveAxon`. -/
theorem fluctuate_without_frame_witness :
    moveAxon.deref (0, 1) = some ⟨⟨-1 / 1000, 0, 1 / 10⟩, none, some (0, 0), fun _ => none,
      false, 0, 0⟩ ∧
    ∀ (xy : ℚ × ℚ) (u : ℚ),
      node.fluctuate ratLibm flagsOn (curve_hamiltonian ratLibm) moveAxon (0, 1) xy u
        = (moveAxon, FluctOutcome.no_frame) :=
  ⟨rfl, fluctuate_without_frame ratLibm flagsOn (curve_hamiltonian ratLibm) moveAxon (0, 1) _
    rfl (Or.inr ⟨rfl, _, rfl, rfl⟩)⟩

end FluctReject

/-! ### node::move -/

section MoveNode
variable {R : Type} [LinearOrderedField R] [FloorRing R]

theorem move_fst (F : Flags) (A : Axon R) (self : NodePtr) (t : Point R) :
    (node.move F A self t).1 =
      if F.COLLISIONS = true then
        (node.move_within_grid
          (if F.FORM_LINKS = true then (node.move_within_grid A self t GridId.link).1 else A)
          self t GridId.collide).1
      else if F.FORM_LINKS = true then (node.move_within_grid A self t GridId.link).1 else A := by
  unfold node.move
  cases F.FORM_LINKS <;> cases F.COLLISIONS <;> rfl

theorem move_sameFrame (F : Flags) (A : Axon R) (self : NodePtr) (t : Point R) :
    A.sameFrame (node.move F A self t).1 := by
  rw [move_fst]
  split
  · split
    · exact sameFrame_trans (move_within_grid_spec A self t GridId.link).1
        (move_within_grid_spec _ self t GridId.collide).1
    · exact (move_within_grid_spec A self t GridId.collide).1
  · split
    · exact (move_within_grid_spec A self t GridId.link).1
    · exact sameFrame_refl A

theorem move_within_grid_deref (B : Axon R) (self : NodePtr) (t : Point R) (gid : GridId)
    (q : NodePtr) :
    (node.move_within_grid B self t gid).1.deref q = B.deref q ∨
    (q = self ∧ (node.move_within_grid B self t gid).1.deref q
      = (B.deref q).map (fun n => { n with point := t })) := by
  rw [(move_within_grid_spec B self t gid).2.1 q]
  split
  · rename_i h; exact Or.inr ⟨h.1, rfl⟩
  · exact Or.inl rfl

/-- `node::move` changes nothing about any node except, possibly, the position
of the node moved, which becomes the target. -/
theorem move_deref (F : Flags) (A : Axon R) (self : NodePtr) (t : Point R) (q : NodePtr) :
    (node.move F A self t).1.deref q = A.deref q ∨
    (q = self ∧ (node.move F A self t).1.deref q
      = (A.deref q).map (fun n => { n with point := t })) := by
  rw [move_fst]
  split
  · split
    · rcases move_within_grid_deref (node.move_within_grid A self t GridId.link).1 self t
        GridId.collide q with h2 | ⟨hq, h2⟩
      · rw [h2]; exact move_within_grid_deref A self t GridId.link q
      · rcases move_within_grid_deref A self t GridId.link q with h1 | ⟨_, h1⟩
        · rw [h2, h1]; exact Or.inr ⟨hq, rfl⟩
        · rw [h2, h1]
          refine Or.inr ⟨hq, ?_⟩
          cases A.deref q <;> rfl
    · exact move_within_grid_deref A self t GridId.collide q
  · split
    · exact move_within_grid_deref A self t GridId.link q
    · exact Or.inl rfl

theorem move_deref_ne (F : Flags) (A : Axon R) (self : NodePtr) (t : Point R) (q : NodePtr)
    (h : q ≠ self) : (node.move F A self t).1.deref q = A.deref q := by
  rcases move_deref F A self t q with h1 | ⟨h1, _⟩
  · exact h1
  · exact absurd h1 h

theorem pointOf_some (A : Axon R) (p : NodePtr) (n : node R) (h : A.deref p = some n) :
    A.pointOf p = n.point := by
  simp [Axon.pointOf, h]

theorem pointOf_none (A : Axon R) (p : NodePtr) (h : A.deref p = none) :
    A.pointOf p = origin := by
  simp [Axon.pointOf, h]

theorem pointOf_congr (A B : Axon R) (p : NodePtr) (h : B.deref p = A.deref p) :
    B.pointOf p = A.pointOf p := by
  unfold Axon.pointOf
  rw [h]

/-- Moving a node to the position it has changes nothing about any node. -/
theorem move_deref_same (F : Flags) (A : Axon R) (self : NodePtr) (q : NodePtr) :
    (node.move F A self (A.pointOf self)).1.deref q = A.deref q := by
  rcases move_deref F A self (A.pointOf self) q with h1 | ⟨h1, h2⟩
  · exact h1
  · rw [h2, h1]
    cases hd : A.deref self with
    | none => rfl
    | some n => rw [pointOf_some A self n hd]; rfl

theorem pointOf_update (A : Axon R) (p q : NodePtr) (g : node R → node R)
    (hg : ∀ n, (g n).point = n.point) : (A.update p g).pointOf q = A.pointOf q := by
  cases hd : A.deref q with
  | none =>
    have : (A.update p g).deref q = none := by rw [deref_update, hd]; simp
    rw [pointOf_none _ _ this, pointOf_none _ _ hd]
  | some n =>
    by_cases hqp : q = p
    · have : (A.update p g).deref q = some (g n) := by rw [deref_update, hd]; simp [hqp]
      rw [pointOf_some _ _ _ this, pointOf_some _ _ _ hd, hg]
    · have : (A.update p g).deref q = some n := by rw [deref_update, hd]; simp [hqp]
      rw [pointOf_some _ _ _ this, pointOf_some _ _ _ hd]

theorem move_within_grid_sets_point (B : Axon R) (self : NodePtr) (t : Point R) (gid : GridId)
    (hl : (B.deref self).isSome = true) (hc : B.in_cylinder t = true)
    (hrg : (B.grid gid).in_range ((B.grid gid).point_to_indices t) = true) :
    (node.move_within_grid B self t gid).1.pointOf self = t := by
  have h2 := (move_within_grid_spec B self t gid).2.2.1.mpr ⟨hl, hrg, hc⟩
  obtain ⟨n, hn⟩ := Option.isSome_iff_exists.mp hl
  have : (node.move_within_grid B self t gid).1.deref self
      = some { n with point := t } := by
    rw [(move_within_grid_spec B self t gid).2.1 self, if_pos ⟨rfl, h2⟩, hn]; rfl
  rw [pointOf_some _ _ _ this]

theorem move_within_grid_keeps_point (B : Axon R) (self : NodePtr) (t : Point R)
    (gid : GridId) (hl : (B.deref self).isSome = true) (hB : B.pointOf self = t) :
    (node.move_within_grid B self t gid).1.pointOf self = t := by
  obtain ⟨n, hn⟩ := Option.isSome_iff_exists.mp hl
  rcases move_within_grid_deref B self t gid self with h | ⟨_, h⟩
  · rw [pointOf_congr _ _ _ h]; exact hB
  · rw [hn] at h
    rw [pointOf_some _ _ _ h]

theorem move_within_grid_live (B : Axon R) (self : NodePtr) (t : Point R) (gid : GridId)
    (q : NodePtr) :
    ((node.move_within_grid B self t gid).1.deref q).isSome = (B.deref q).isSome := by
  rcases move_within_grid_deref B self t gid q with h | ⟨_, h⟩
  · rw [h]
  · rw [h]; cases B.deref q <;> rfl

theorem move_live (F : Flags) (A : Axon R) (self : NodePtr) (t : Point R) (q : NodePtr) :
    ((node.move F A self t).1.deref q).isSome = (A.deref q).isSome := by
  rcases move_deref F A self t q with h | ⟨_, h⟩
  · rw [h]
  · rw [h]; cases A.deref q <;> rfl

/-- When the target is in the cylinder and in range of a grid in use, `move`
sets the position of a live node to the target. -/
theorem move_sets_point (F : Flags) (A : Axon R) (self : NodePtr) (t : Point R)
    (hlive : (A.deref self).isSome = true) (hcyl : A.in_cylinder t = true)
    (hr : A.inRangeOfUsedGrid F t) : (node.move F A self t).1.pointOf self = t := by
  rw [move_fst]
  rcases hr with ⟨hF, hrg⟩ | ⟨hC, hrg⟩
  · rw [if_pos hF]
    split
    · apply move_within_grid_keeps_point
      · rw [move_within_grid_live]; exact hlive
      · exact move_within_grid_sets_point A self t GridId.link hlive hcyl hrg
    · exact move_within_grid_sets_point A self t GridId.link hlive hcyl hrg
  · rw [if_pos hC]
    split
    · have sf := (move_within_grid_spec A self t GridId.link).1
      apply move_within_grid_sets_point
      · rw [move_within_grid_live]; exact hlive
      · rw [sf.1]; exact hcyl
      · have e1 := sf.2.1 GridId.collide t
        have e2 := sf.2.2 GridId.collide
        simp only [Axon.grid] at e1 e2 ⊢
        rw [e1, e2]; exact hrg
    · exact move_within_grid_sets_point A self t GridId.collide hlive hcyl hrg

end MoveNode

/-! ### Axon::link -/

section LinkThms
variable {R : Type} [LinearOrderedField R] [FloorRing R]

/-- C14. For two nodes with equal `filament_id`, at any distance and for any
draw, `Axon::link` returns false and leaves the axon as it is (link lists, link
counts, positions, grids); so `link` never connects two nodes of one filament. -/
theorem link_same_filament_refused (M : Libm R) (F : Flags) (A : Axon R)
    (a b : NodePtr) (n m : node R) (hn : A.deref a = some n) (hm : A.deref b = some m)
    (hid : n.filament_id = m.filament_id) :
    ∀ u : R, Axon.link M F A a b u = (A, false) := by
  intro u
  unfold Axon.link
  simp only [hn, hm]
  rw [if_neg]
  exact fun h => h.2 hid

/-- Witness of C14: the seed and the grown node of filament 0 of `linkAxon`. -/
theorem link_same_filament_refused_witness :
    linkAxon.deref (0, 0) = some ⟨⟨0, 0, 0⟩, some (0, 1), none, fun _ => none, false, 0, 0⟩ ∧
    linkAxon.deref (0, 1) = some (({ node.init ⟨0, 0, 1 / 10⟩ 0 with down := some (0, 0) } :
      node ℚ).add_link (some (2, 1))) ∧
    ∀ u : ℚ, Axon.link ratLibm flagsOn linkAxon (0, 0) (0, 1) u = (linkAxon, false) :=
  ⟨rfl, rfl, link_same_filament_refused ratLibm flagsOn linkAxon (0, 0) (0, 1) _ _ rfl rfl rfl⟩

end LinkThms

section LinkThms2
variable {R : Type} [LinearOrderedField R] [FloorRing R]

/-- `Axon::link` in two cases: a guard fails and nothing happens, or all guards
pass and the two `add_link` calls follow the repositioning branch. -/
theorem link_eq (M : Libm R) (F : Flags) (A : Axon R) (a b : NodePtr) (n m : node R)
    (hn : A.deref a = some n) (hm : A.deref b = some m) (u : R) :
    (¬ link_guards M a b n m u ∧ Axon.link M F A a b u = (A, false)) ∨
    (link_guards M a b n m u ∧
      Axon.link M F A a b u =
        (((link_moved M F A a b n m).1.update a (fun x => x.add_link (some b))).update b
          (fun x => x.add_link (some a)), (link_moved M F A a b n m).2)) := by
  unfold Axon.link link_guards
  simp only [hn, hm]
  by_cases h1 : a ≠ b ∧ n.filament_id ≠ m.filament_id
  · rw [if_pos h1]
    by_cases h2 : n.point.distance_to M m.point ≤ LINK_INTERACTION_LEN
    · rw [if_pos h2]
      by_cases h3 : u < LINK_FORM_PROB
      · rw [if_pos h3]
        by_cases h4 : (MAX_LINKS : Int) - (n.num_links : Int) ≥ 1 ∧
            (MAX_LINKS : Int) - (m.num_links : Int) ≥ 1
        · rw [if_pos h4]
          by_cases h5 : ¬ (n.contains_link (some b) = true)
          · rw [if_pos h5]
            refine Or.inr ⟨⟨h1, h2, h3, h4, h5⟩, ?_⟩
            unfold link_moved link_delta link_shift
            rfl
          · rw [if_neg h5]
            exact Or.inl ⟨fun h => h5 h.2.2.2.2, rfl⟩
        · rw [if_neg h4]
          exact Or.inl ⟨fun h => h4 h.2.2.2.1, rfl⟩
      · rw [if_neg h3]
        exact Or.inl ⟨fun h => h3 h.2.2.1, rfl⟩
    · rw [if_neg h2]
      exact Or.inl ⟨fun h => h2 h.2.1, rfl⟩
  · rw [if_neg h1]
    exact Or.inl ⟨fun h => h1 h.1, rfl⟩

end LinkThms2

section LinkThms3
variable {R : Type} [LinearOrderedField R] [FloorRing R]

theorem add_link_point (n : node R) (l : Option NodePtr) : (n.add_link l).point = n.point := by
  unfold node.add_link
  simp only
  split <;> rfl

theorem pointOf_update_add_link (A : Axon R) (p q : NodePtr) (l : Option NodePtr) :
    (A.update p (fun x => x.add_link l)).pointOf q = A.pointOf q :=
  pointOf_update A p q _ (fun n => add_link_point n l)

theorem pointOf_move_ne (F : Flags) (A : Axon R) (self : NodePtr) (t : Point R) (q : NodePtr)
    (h : q ≠ self) : (node.move F A self t).1.pointOf q = A.pointOf q :=
  pointOf_congr _ _ _ (move_deref_ne F A self t q h)

/-- C13. In `Axon::link(a,b)` a node that has at least one link before the
call has the same position after the call, whatever the state of the other
node and whatever the draw: only a node with zero links is ever repositioned. -/
theorem link_keeps_linked_node_in_place (M : Libm R) (F : Flags) (A : Axon R)
    (a b : NodePtr) (n m : node R) (hn : A.deref a = some n) (hm : A.deref b = some m)
    (u : R) :
    (1 ≤ n.num_links → (Axon.link M F A a b u).1.pointOf a = A.pointOf a) ∧
    (1 ≤ m.num_links → (Axon.link M F A a b u).1.pointOf b = A.pointOf b) := by
  rcases link_eq M F A a b n m hn hm u with ⟨_, h⟩ | ⟨hg, h⟩
  · rw [h]; exact ⟨fun _ => rfl, fun _ => rfl⟩
  · rw [h]
    simp only [pointOf_update_add_link]
    have hab : a ≠ b := hg.1.1
    unfold link_moved
    split_ifs with c1 c2 c3
    · exact ⟨fun hl => by omega, fun hl => by omega⟩
    · exact ⟨fun _ => pointOf_move_ne F A b _ a hab, fun hl => by omega⟩
    · exact ⟨fun hl => by omega, fun _ => pointOf_move_ne F A a _ b (Ne.symm hab)⟩
    · exact ⟨fun _ => rfl, fun _ => rfl⟩

/-- Witness of C13: the two singly linked grown nodes of `linkAxon`
(filaments 0 and 1). -/
theorem link_keeps_linked_node_in_place_witness :
    linkAxon.numLinksOf (0, 1) = 1 ∧ linkAxon.numLinksOf (1, 1) = 1 ∧
    ((1 ≤ 1 → (Axon.link ratLibm flagsOn linkAxon (0, 1) (1, 1) (1 / 2)).1.pointOf (0, 1)
        = linkAxon.pointOf (0, 1)) ∧
     (1 ≤ 1 → (Axon.link ratLibm flagsOn linkAxon (0, 1) (1, 1) (1 / 2)).1.pointOf (1, 1)
        = linkAxon.pointOf (1, 1))) :=
  ⟨by decide!, by decide!,
    link_keeps_linked_node_in_place ratLibm flagsOn linkAxon (0, 1) (1, 1)
      (({ node.init ⟨0, 0, 1 / 10⟩ 0 with down := some (0, 0) } : node ℚ).add_link (some (2, 1)))
      (({ node.init ⟨1 / 20, 0, 1 / 10⟩ 1 with down := some (1, 0) } : node ℚ).add_link
        (some (3, 1))) rfl rfl (1 / 2)⟩

end LinkThms3

section LinkThms4
variable {R : Type} [LinearOrderedField R] [FloorRing R]

theorem sum_scale_zero_left (d p : Point R) : Point.sum (d.scale 0) p = p := by
  cases p; simp [Point.sum, Point.scale]

theorem sum_scale_zero_right (d p : Point R) : Point.sum p ((d.scale 0).scale (-1)) = p := by
  cases p; simp [Point.sum, Point.scale]

theorem deref_link_updates (X : Axon R) (a b : NodePtr) (hab : a ≠ b)
    (f g : node R → node R) :
    ((X.update a f).update b g).deref a = (X.deref a).map f ∧
    ((X.update a f).update b g).deref b = (X.deref b).map g := by
  constructor
  · rw [deref_update, if_neg hab, deref_update, if_pos rfl]
  · rw [deref_update, if_pos rfl, deref_update, if_neg (Ne.symm hab)]

theorem linkListOf_some (A : Axon R) (p : NodePtr) (n : node R) (h : A.deref p = some n) :
    A.linkListOf p = n.linkList := by
  simp [Axon.linkListOf, h]

/-- C15. For two nodes of different filaments, each with zero links, at
distance exactly `LINK_LEN + 2 * FILAMENT_RADIUS`, and a successful draw
(`u < LINK_FORM_PROB`), `Axon::link` returns true; afterwards the link list of
each node consists of exactly the other node and neither position has changed. -/
theorem link_at_rest_length (M : Libm R) (F : Flags) (A : Axon R)
    (a b : NodePtr) (n m : node R) (hn : A.deref a = some n) (hm : A.deref b = some m)
    (hid : n.filament_id ≠ m.filament_id) (hn0 : n.num_links = 0) (hm0 : m.num_links = 0)
    (hd : n.point.distance_to M m.point = LINK_LEN + 2 * FILAMENT_RADIUS)
    (u : R) (hu : u < LINK_FORM_PROB) :
    (Axon.link M F A a b u).2 = true ∧
    (Axon.link M F A a b u).1.linkListOf a = [some b] ∧
    (Axon.link M F A a b u).1.linkListOf b = [some a] ∧
    (Axon.link M F A a b u).1.pointOf a = A.pointOf a ∧
    (Axon.link M F A a b u).1.pointOf b = A.pointOf b := by
  have hab : a ≠ b := by
    intro h
    rw [h, hm] at hn
    exact hid (by rw [Option.some.inj hn])
  have hg : link_guards M a b n m u := by
    refine ⟨⟨hab, hid⟩, ?_, hu, ?_, ?_⟩
    · rw [hd]; unfold LINK_LEN FILAMENT_RADIUS LINK_INTERACTION_LEN; norm_num
    · rw [hn0, hm0]; unfold MAX_LINKS; norm_num
    · simp [node.contains_link, hn0]
  rcases link_eq M F A a b n m hn hm u with ⟨hng, _⟩ | ⟨_, h⟩
  · exact absurd hg hng
  · have hshift : link_shift M n m = 0 := by
      unfold link_shift; rw [hd]; ring
    have hmoved : ∀ q, (link_moved M F A a b n m).1.deref q = A.deref q := by
      intro q
      unfold link_moved
      rw [if_pos ⟨hn0, hm0⟩]
      simp only [hshift, sum_scale_zero_left, sum_scale_zero_right]
      rw [move_deref_same, move_deref_same]
    have hm2 : (link_moved M F A a b n m).2 = true := by
      unfold link_moved
      rw [if_pos ⟨hn0, hm0⟩]
    have hda := (deref_link_updates (link_moved M F A a b n m).1 a b hab
      (fun x => x.add_link (some b)) (fun x => x.add_link (some a))).1
    have hdb := (deref_link_updates (link_moved M F A a b n m).1 a b hab
      (fun x => x.add_link (some b)) (fun x => x.add_link (some a))).2
    rw [hmoved, hn] at hda
    rw [hmoved, hm] at hdb
    rw [h]
    refine ⟨hm2, ?_, ?_, ?_, ?_⟩
    · rw [linkListOf_some _ _ _ hda]
      simp [node.linkList, node.add_link, hn0, MAX_LINKS, List.range_succ]
    · rw [linkListOf_some _ _ _ hdb]
      simp [node.linkList, node.add_link, hm0, MAX_LINKS, List.range_succ]
    · simp only [pointOf_update_add_link]
      exact pointOf_congr _ _ _ (hmoved a)
    · simp only [pointOf_update_add_link]
      exact pointOf_congr _ _ _ (hmoved b)

/-- Witness of C15: the grown nodes of `freeAxon (1/20)`, exactly
`LINK_LEN + 2 * FILAMENT_RADIUS = 1/20` apart, with the draw `1/2`. -/
theorem link_at_rest_length_witness :
    ((0 : Int) ≠ 1 ∧ (0 : Nat) = 0 ∧
      (⟨0, 0, 1 / 10⟩ : Point ℚ).distance_to ratLibm ⟨1 / 20, 0, 1 / 10⟩
        = LINK_LEN + 2 * FILAMENT_RADIUS ∧ (1 / 2 : ℚ) < LINK_FORM_PROB) ∧
    ((Axon.link ratLibm flagsOn (freeAxon (1 / 20)) (0, 1) (1, 1) (1 / 2)).2 = true ∧
    (Axon.link ratLibm flagsOn (freeAxon (1 / 20)) (0, 1) (1, 1) (1 / 2)).1.linkListOf (0, 1)
      = [some (1, 1)] ∧
    (Axon.link ratLibm flagsOn (freeAxon (1 / 20)) (0, 1) (1, 1) (1 / 2)).1.linkListOf (1, 1)
      = [some (0, 1)] ∧
    (Axon.link ratLibm flagsOn (freeAxon (1 / 20)) (0, 1) (1, 1) (1 / 2)).1.pointOf (0, 1)
      = (freeAxon (1 / 20)).pointOf (0, 1) ∧
    (Axon.link ratLibm flagsOn (freeAxon (1 / 20)) (0, 1) (1, 1) (1 / 2)).1.pointOf (1, 1)
      = (freeAxon (1 / 20)).pointOf (1, 1)) :=
  ⟨by decide!,
    link_at_rest_length ratLibm flagsOn (freeAxon (1 / 20)) (0, 1) (1, 1)
      ({ node.init ⟨0, 0, 1 / 10⟩ 0 with down := some (0, 0) } : node ℚ)
      ({ node.init ⟨1 / 20, 0, 1 / 10⟩ 1 with down := some (1, 0) } : node ℚ)
      rfl rfl (by decide) rfl rfl (by decide!) (1 / 2) (by decide!)⟩

end LinkThms4

section LinkRest
variable {R : Type} [LinearOrderedField R] [FloorRing R]

theorem accepts_of_sameFrame (F : Flags) (A B : Axon R) (t : Point R) (h : A.sameFrame B)
    (ha : A.accepts F t) : B.accepts F t := by
  obtain ⟨hc, hr⟩ := ha
  refine ⟨by rw [h.1]; exact hc, ?_⟩
  have e1 := h.2.1 GridId.link t
  have e2 := h.2.2 GridId.link
  have e3 := h.2.1 GridId.collide t
  have e4 := h.2.2 GridId.collide
  simp only [Axon.grid] at e1 e2 e3 e4
  rcases hr with ⟨hF, hrg⟩ | ⟨hC, hrg⟩
  · exact Or.inl ⟨hF, by rw [e1, e2]; exact hrg⟩
  · exact Or.inr ⟨hC, by rw [e3, e4]; exact hrg⟩

theorem distance_to_eq (M : Libm R) (p q : Point R) :
    p.distance_to M q = M.sqrt (distRadicand p q) := rfl

theorem distRadicand_pos (p q : Point R) (h : p ≠ q) : 0 < distRadicand p q := by
  unfold distRadicand
  by_contra hc
  have h1 := mul_self_nonneg (p.x - q.x)
  have h2 := mul_self_nonneg (p.y - q.y)
  have h3 := mul_self_nonneg (p.z - q.z)
  have hx : (p.x - q.x) * (p.x - q.x) = 0 := by linarith
  have hy : (p.y - q.y) * (p.y - q.y) = 0 := by linarith
  have hz : (p.z - q.z) * (p.z - q.z) = 0 := by linarith
  apply h
  cases p; cases q
  simp only [Point.mk.injEq]
  simp only [mul_self_eq_zero, sub_eq_zero] at hx hy hz
  exact ⟨hx, hy, hz⟩

/-- The two targets of `Axon::link` are at the rest separation. -/
theorem link_targets_distance (M : Libm R) (p q : Point R) (c : R) (hpq : p ≠ q)
    (hsq : M.exactAt (distRadicand p q))
    (hrest : M.sqrt ((LINK_LEN + 2 * FILAMENT_RADIUS) * (LINK_LEN + 2 * FILAMENT_RADIUS))
      = LINK_LEN + 2 * FILAMENT_RADIUS)
    (ta tb : Point R)
    (hx : ta.x - tb.x = (p.x - q.x) * ((LINK_LEN + 2 * FILAMENT_RADIUS) / c))
    (hy : ta.y - tb.y = (p.y - q.y) * ((LINK_LEN + 2 * FILAMENT_RADIUS) / c))
    (hz : ta.z - tb.z = (p.z - q.z) * ((LINK_LEN + 2 * FILAMENT_RADIUS) / c))
    (hc : c = M.sqrt (distRadicand p q)) :
    ta.distance_to M tb = LINK_LEN + 2 * FILAMENT_RADIUS := by
  have hpos := distRadicand_pos p q hpq
  have hcc : c * c = distRadicand p q := by rw [hc]; exact hsq.2
  have hc0 : c ≠ 0 := by
    intro h0
    rw [h0] at hcc
    simp at hcc
    linarith
  rw [distance_to_eq]
  have : distRadicand ta tb
      = (LINK_LEN + 2 * FILAMENT_RADIUS) * (LINK_LEN + 2 * FILAMENT_RADIUS) := by
    unfold distRadicand at hcc ⊢
    rw [hx, hy, hz]
    have e : ∀ r : R, (p.x - q.x) * (r / c) * ((p.x - q.x) * (r / c))
        + (p.z - q.z) * (r / c) * ((p.z - q.z) * (r / c))
        + (p.y - q.y) * (r / c) * ((p.y - q.y) * (r / c))
        = ((p.x - q.x) * (p.x - q.x) + (p.z - q.z) * (p.z - q.z)
            + (p.y - q.y) * (p.y - q.y)) * (r * r) / (c * c) := by
      intro r; field_simp; ring
    rw [e, ← hcc]
    field_simp
  rw [this, hrest]

end LinkRest

section LinkRest2
variable {R : Type} [LinearOrderedField R] [FloorRing R]

theorem norm_difference_eq (M : Libm R) (p q : Point R) :
    (Point.difference p q).norm M = M.sqrt (distRadicand p q) := by
  unfold Point.norm Point.difference distRadicand
  congr 1
  ring

theorem sqrt_ne_zero_of_exact (M : Libm R) (p q : Point R) (hpq : p ≠ q)
    (hsq : M.exactAt (distRadicand p q)) : M.sqrt (distRadicand p q) ≠ 0 := by
  intro h0
  have := hsq.2
  rw [h0] at this
  have hpos := distRadicand_pos p q hpq
  simp at this
  linarith

/-- C12. Whenever `Axon::link(a,b)` returns true for two nodes at distinct
positions and every repositioning move it performs is accepted (the target of
each free node is in the cylinder and in range of a grid in use), the distance
between the two nodes afterwards equals the rest separation
`LINK_LEN + 2 * FILAMENT_RADIUS`. The square root is taken exact at the two
radicands involved (the squared distance before and the squared rest length). -/
theorem link_reaches_rest_length (M : Libm R) (F : Flags) (A : Axon R)
    (a b : NodePtr) (n m : node R) (hn : A.deref a = some n) (hm : A.deref b = some m)
    (u : R) (hlinked : (Axon.link M F A a b u).2 = true) (hpts : n.point ≠ m.point)
    (hsq : M.exactAt (distRadicand n.point m.point))
    (hrest : M.sqrt ((LINK_LEN + 2 * FILAMENT_RADIUS) * (LINK_LEN + 2 * FILAMENT_RADIUS))
      = LINK_LEN + 2 * FILAMENT_RADIUS)
    (ha : n.num_links = 0 → A.accepts F (link_target_a M n m))
    (hb : m.num_links = 0 → A.accepts F (link_target_b M n m)) :
    ((Axon.link M F A a b u).1.pointOf a).distance_to M ((Axon.link M F A a b u).1.pointOf b)
      = LINK_LEN + 2 * FILAMENT_RADIUS := by
  have hc0 := sqrt_ne_zero_of_exact M n.point m.point hpts hsq
  have hla : (A.deref a).isSome = true := by simp [hn]
  have hlb : (A.deref b).isSome = true := by simp [hm]
  have hpa : A.pointOf a = n.point := pointOf_some A a n hn
  have hpb : A.pointOf b = m.point := pointOf_some A b m hm
  rcases link_eq M F A a b n m hn hm u with ⟨_, h⟩ | ⟨hg, h⟩
  · rw [h] at hlinked; exact absurd hlinked (by simp)
  · rw [h] at hlinked ⊢
    simp only [pointOf_update_add_link]
    have hab : a ≠ b := hg.1.1
    unfold link_moved at hlinked ⊢
    split_ifs at hlinked ⊢ with c1 c2 c3
    · -- both nodes are free
      have hta := ha c1.1
      have htb := hb c1.2
      simp only [link_target_a, link_target_b, if_pos c1.1, if_pos c1.2] at hta htb
      have e1 : (node.move F A a (Point.sum ((link_delta M n m).scale (link_shift M n m))
          (A.pointOf a))).1.pointOf a
          = Point.sum ((link_delta M n m).scale (link_shift M n m)) n.point := by
        rw [hpa]
        exact move_sets_point F A a _ hla hta.1 hta.2
      have e2 : (node.move F A a (Point.sum ((link_delta M n m).scale (link_shift M n m))
          (A.pointOf a))).1.pointOf b = m.point := by
        rw [pointOf_move_ne F A a _ b (Ne.symm hab), hpb]
      dsimp only
      rw [pointOf_move_ne _ _ b _ a hab, e1, e2]
      have htb1 := accepts_of_sameFrame F A _ _ (move_sameFrame F A a
        (Point.sum ((link_delta M n m).scale (link_shift M n m)) (A.pointOf a))) htb
      rw [move_sets_point F _ b _ (by rw [move_live]; exact hlb) htb1.1 htb1.2]
      apply link_targets_distance M n.point m.point _ hpts hsq hrest _ _ _ _ _ rfl
      all_goals
        simp only [link_delta, link_shift, Point.normalize, norm_difference_eq, distance_to_eq]
        simp only [Point.sum, Point.scale, Point.difference]
        field_simp
        ring
    · -- only new_node_ptr is free
      dsimp only
      have htb := hb c2.2
      have hn0 : ¬ n.num_links = 0 := by omega
      simp only [link_target_b, if_neg hn0] at htb
      rw [pointOf_move_ne F A b _ a hab, hpa, hpb,
        move_sets_point F A b _ hlb (by rw [hpb] at *; exact htb.1)
          (by rw [hpb] at *; exact htb.2)]
      apply link_targets_distance M n.point m.point _ hpts hsq hrest _ _ _ _ _ rfl
      all_goals
        simp only [link_delta, link_shift, Point.normalize, norm_difference_eq, distance_to_eq]
        simp only [Point.sum, Point.scale, Point.difference]
        field_simp
        ring
    · -- only node_ptr is free
      dsimp only
      have hta := ha c3.2
      have hm0 : ¬ m.num_links = 0 := by omega
      simp only [link_target_a, if_neg hm0] at hta
      rw [pointOf_move_ne F A a _ b (Ne.symm hab), hpa, hpb,
        move_sets_point F A a _ hla (by rw [hpa] at *; exact hta.1)
          (by rw [hpa] at *; exact hta.2)]
      apply link_targets_distance M n.point m.point _ hpts hsq hrest _ _ _ _ _ rfl
      all_goals
        simp only [link_delta, link_shift, Point.normalize, norm_difference_eq, distance_to_eq]
        simp only [Point.sum, Point.scale, Point.difference]
        field_simp
        ring

/-- Witness of C12: the free grown nodes of `freeAxon (1/10)`, `1/10` apart;
`link` pulls both to `x = 1/40` and `x = 3/40`, `1/20` apart. -/
theorem link_reaches_rest_length_witness :
    (Axon.link ratLibm flagsOn (freeAxon (1 / 10)) (0, 1) (1, 1) (1 / 2)).2 = true ∧
    (Axon.link ratLibm flagsOn (freeAxon (1 / 10)) (0, 1) (1, 1) (1 / 2)).1.pointOf (0, 1)
      = ⟨1 / 40, 0, 1 / 10⟩ ∧
    (Axon.link ratLibm flagsOn (freeAxon (1 / 10)) (0, 1) (1, 1) (1 / 2)).1.pointOf (1, 1)
      = ⟨3 / 40, 0, 1 / 10⟩ ∧
    ((Axon.link ratLibm flagsOn (freeAxon (1 / 10)) (0, 1) (1, 1) (1 / 2)).1.pointOf
        (0, 1)).distance_to ratLibm
      ((Axon.link ratLibm flagsOn (freeAxon (1 / 10)) (0, 1) (1, 1) (1 / 2)).1.pointOf (1, 1))
      = LINK_LEN + 2 * FILAMENT_RADIUS :=
  ⟨by decide!, by decide!, by decide!,
    link_reaches_rest_length ratLibm flagsOn (freeAxon (1 / 10)) (0, 1) (1, 1)
      ({ node.init ⟨0, 0, 1 / 10⟩ 0 with down := some (0, 0) } : node ℚ)
      ({ node.init ⟨1 / 10, 0, 1 / 10⟩ 1 with down := some (1, 0) } : node ℚ)
      rfl rfl (1 / 2) (by decide!) (by decide!)
      (by unfold Libm.exactAt; decide!) (by decide!)
      (fun _ => by unfold Axon.accepts Axon.inRangeOfUsedGrid; decide!)
      (fun _ => by unfold Axon.accepts Axon.inRangeOfUsedGrid; decide!)⟩

end LinkRest2

/-! ### Fluctuation: the commit loop -/

section FluctCommit
variable {R : Type} [LinearOrderedField R] [FloorRing R]

theorem neighbors_loop_nodup (A : Axon R) :
    ∀ (fuel : Nat) (Q Rs B : List (Option NodePtr)), Rs.Nodup →
      neighbors_loop A fuel Q Rs = some B → B.Nodup := by
  intro fuel
  induction fuel with
  | zero =>
    intro Q Rs B hnd h
    cases Q with
    | nil => simp only [neighbors_loop, Option.some.injEq] at h; rw [← h]; exact hnd
    | cons n Q => simp [neighbors_loop] at h
  | succ fuel ih =>
    intro Q Rs B hnd h
    cases Q with
    | nil => simp only [neighbors_loop, Option.some.injEq] at h; rw [← h]; exact hnd
    | cons n Q =>
      simp only [neighbors_loop] at h
      exact ih _ _ B (neighbors_scan_nodup _ _ _ hnd) h

theorem neighbors_nodup (A : Axon R) (self : NodePtr) (B : List (Option NodePtr))
    (h : node.neighbors A self [] = some B) : B.Nodup := by
  unfold node.neighbors node.neighbors_fuel at h
  simp only [List.not_mem_nil, if_false, List.nil_append] at h
  exact neighbors_loop_nodup A _ _ _ B (List.nodup_singleton _) h

theorem precheck_member_out (M : Libm R) (F : Flags) (A : Axon R) (proposed : Point R)
    (it : node R) :
    (fluct_precheck_member M F A proposed it).2
      = (!(fluct_precheck_member M F A proposed it).1 &&
          !A.in_cylinder (Point.sum proposed it.point)) := rfl

/-- A pre-check that ends with neither flag set has found every member's
displaced position inside the cylinder. -/
theorem precheck_passed (M : Libm R) (F : Flags) (A : Axon R) (proposed : Point R) :
    ∀ (bundle : List (Option NodePtr)),
      fluct_precheck M F A proposed bundle = (false, false) →
      ∀ (q : NodePtr) (it : node R), some q ∈ bundle → A.deref q = some it →
        A.in_cylinder (Point.sum proposed it.point) = true := by
  intro bundle
  induction bundle with
  | nil => intro _ q it hq; simp at hq
  | cons e rest ih =>
    intro h q it hq hd
    unfold fluct_precheck at h
    cases he : e.bind A.deref with
    | none =>
      simp only [he] at h
      rcases List.mem_cons.mp hq with hq1 | hq1
      · rw [← hq1] at he
        simp [hd] at he
      · exact ih h q it hq1 hd
    | some it0 =>
      simp only [he] at h
      by_cases hc : (!(fluct_precheck_member M F A proposed it0).1 &&
          !(fluct_precheck_member M F A proposed it0).2) = true
      · rw [if_pos hc] at h
        rcases List.mem_cons.mp hq with hq1 | hq1
        · rw [← hq1] at he
          simp only [Option.some_bind, hd, Option.some.injEq] at he
          subst he
          simp only [Bool.and_eq_true, Bool.not_eq_true'] at hc
          have h2 := precheck_member_out M F A proposed it
          rw [hc.1, hc.2] at h2
          simpa using h2
        · exact ih h q it hq1 hd
      · rw [if_neg hc] at h
        rw [h] at hc
        simp at hc

/-- The commit loop of `node::fluctuate`: every live member of a duplicate-free
bundle whose target passes the checks of `move` ends at its target; nodes
outside the bundle keep their positions. -/
theorem fluct_commit_spec (F : Flags) (proposed : Point R) :
    ∀ (bundle : List (Option NodePtr)) (A : Axon R), bundle.Nodup →
      A.sameFrame (fluct_commit F A proposed bundle) ∧
      (∀ q, ((fluct_commit F A proposed bundle).deref q).isSome = (A.deref q).isSome) ∧
      (∀ q, some q ∉ bundle → (fluct_commit F A proposed bundle).pointOf q = A.pointOf q) ∧
      (∀ q, some q ∈ bundle → (A.deref q).isSome = true →
        A.accepts F (Point.sum proposed (A.pointOf q)) →
        (fluct_commit F A proposed bundle).pointOf q = Point.sum proposed (A.pointOf q)) := by
  intro bundle
  induction bundle with
  | nil =>
    intro A _
    exact ⟨sameFrame_refl A, fun _ => rfl, fun _ _ => rfl, fun q hq => by simp at hq⟩
  | cons e rest ih =>
    intro A hnd
    have hrest : rest.Nodup := (List.nodup_cons.mp hnd).2
    have he : e ∉ rest := (List.nodup_cons.mp hnd).1
    cases e with
    | none =>
      have hfold : fluct_commit F A proposed (none :: rest) = fluct_commit F A proposed rest := rfl
      rw [hfold]
      obtain ⟨i1, i2, i3, i4⟩ := ih A hrest
      refine ⟨i1, i2, fun q hq => i3 q (fun h => hq (List.mem_cons_of_mem _ h)), ?_⟩
      intro q hq
      rcases List.mem_cons.mp hq with h | h
      · simp at h
      · exact i4 q h
    | some p =>
      have hfold : fluct_commit F A proposed (some p :: rest)
          = fluct_commit F (node.move F A p (Point.sum proposed (A.pointOf p))).1 proposed
              rest := rfl
      rw [hfold]
      obtain ⟨i1, i2, i3, i4⟩ :=
        ih (node.move F A p (Point.sum proposed (A.pointOf p))).1 hrest
      have sf := move_sameFrame F A p (Point.sum proposed (A.pointOf p))
      refine ⟨sameFrame_trans sf i1, fun q => by rw [i2, move_live], ?_, ?_⟩
      · intro q hq
        have hqp : q ≠ p := fun h => hq (by rw [h]; exact List.mem_cons_self _ _)
        rw [i3 q (fun h => hq (List.mem_cons_of_mem _ h)), pointOf_move_ne F A p _ q hqp]
      · intro q hq hl hacc
        by_cases hqp : q = p
        · subst hqp
          rw [i3 q he]
          exact move_sets_point F A q _ hl hacc.1 hacc.2
        · have hq1 : some q ∈ rest := by
            rcases List.mem_cons.mp hq with h | h
            · exact absurd (Option.some.inj h) hqp
            · exact h
          have hpt := pointOf_move_ne F A p (Point.sum proposed (A.pointOf p)) q hqp
          rw [i4 q hq1 (by rw [move_live]; exact hl)
            (by rw [hpt]; exact accepts_of_sameFrame F A _ _ sf hacc), hpt]

end FluctCommit

section FluctAccept
variable {R : Type} [LinearOrderedField R] [FloorRing R]

/-- C4 (amended). When `node::fluctuate` accepts a proposal (the pre-check loop
ended with neither `collision` nor `out_of_bounds` set and the draw `u` is
below `min(1, exp(-(energy_new - energy_old)))`), every member of the bundle
whose displaced position is in range of a grid in use (the link grid with
`FORM_LINKS`, the collision grid with `COLLISIONS`) ends at its previous
position plus the proposed displacement; the offset between two such members
is unchanged. -/
theorem fluctuate_accept_moves_members (M : Libm R) (F : Flags)
    (hamiltonian : List (Point R) → R) (A : Axon R) (self : NodePtr) (xy : R × R) (u : R)
    (this : node R) (proposed : Point R) (bundle : List (Option NodePtr))
    (h1 : A.deref self = some this) (h2 : fluct_proposed M A this xy = some proposed)
    (h3 : node.neighbors A self [] = some bundle)
    (hpre : fluct_precheck M F A proposed bundle = (false, false))
    (hu : u < min 1 (M.exp (-((fluct_energies hamiltonian A proposed bundle).2
            - (fluct_energies hamiltonian A proposed bundle).1))))
    (p : NodePtr) (hp : some p ∈ bundle) (hlive : (A.deref p).isSome = true)
    (hr : A.inRangeOfUsedGrid F (Point.sum proposed (A.pointOf p))) :
    (node.fluctuate M F hamiltonian A self xy u).1.pointOf p
        = Point.sum proposed (A.pointOf p) ∧
    ∀ q, some q ∈ bundle → (A.deref q).isSome = true →
      A.inRangeOfUsedGrid F (Point.sum proposed (A.pointOf q)) →
      Point.difference ((node.fluctuate M F hamiltonian A self xy u).1.pointOf p)
          ((node.fluctuate M F hamiltonian A self xy u).1.pointOf q)
        = Point.difference (A.pointOf p) (A.pointOf q) := by
  have hacc : fluct_accept M (fluct_energies hamiltonian A proposed bundle).1
      (fluct_energies hamiltonian A proposed bundle).2 u = true := by
    simp only [fluct_accept, decide_eq_true_eq]
    exact hu
  have hres : (node.fluctuate M F hamiltonian A self xy u).1
      = fluct_commit F A proposed bundle := by
    unfold node.fluctuate
    simp only [h1, h2, h3, hpre, hacc]
    rfl
  rw [hres]
  have spec := fluct_commit_spec F proposed bundle A (neighbors_nodup A self bundle h3)
  have moved : ∀ q, some q ∈ bundle → (A.deref q).isSome = true →
      A.inRangeOfUsedGrid F (Point.sum proposed (A.pointOf q)) →
      (fluct_commit F A proposed bundle).pointOf q = Point.sum proposed (A.pointOf q) := by
    intro q hq hl hrq
    obtain ⟨it, hit⟩ := Option.isSome_iff_exists.mp hl
    refine spec.2.2.2 q hq hl ⟨?_, hrq⟩
    rw [pointOf_some A q it hit]
    exact precheck_passed M F A proposed bundle hpre q it hq hit
  refine ⟨moved p hp hlive hr, fun q hq hl hrq => ?_⟩
  rw [moved p hp hlive hr, moved q hq hl hrq]
  simp only [Point.difference, Point.sum, Point.mk.injEq]
  refine ⟨by ring, by ring, by ring⟩

/-- Witness of C4 (amended): the tip of `fluctAxon 1`, sample `(-2, 0)`
(displacement `(0,0,2)`, equal energies), draw `1/2`: the tip ends at
`(3/2, 1/2, 3)`. -/
theorem fluctuate_accept_moves_members_witness :
    fluct_precheck ratLibm flagsOn (fluctAxon 1) ⟨0, 0, 2⟩ [some (0, 2)] = (false, false) ∧
    (node.fluctuate ratLibm flagsOn (curve_hamiltonian ratLibm) (fluctAxon 1) (0, 2)
      (-2, 0) (1 / 2)).1.pointOf (0, 2) = ⟨3 / 2, 1 / 2, 3⟩ ∧
    ((node.fluctuate ratLibm flagsOn (curve_hamiltonian ratLibm) (fluctAxon 1) (0, 2)
      (-2, 0) (1 / 2)).1.pointOf (0, 2)
        = Point.sum ⟨0, 0, 2⟩ ((fluctAxon 1).pointOf (0, 2)) ∧
    ∀ q, some q ∈ [some (0, 2)] → ((fluctAxon 1).deref q).isSome = true →
      (fluctAxon 1).inRangeOfUsedGrid flagsOn (Point.sum ⟨0, 0, 2⟩ ((fluctAxon 1).pointOf q)) →
      Point.difference ((node.fluctuate ratLibm flagsOn (curve_hamiltonian ratLibm)
          (fluctAxon 1) (0, 2) (-2, 0) (1 / 2)).1.pointOf (0, 2))
          ((node.fluctuate ratLibm flagsOn (curve_hamiltonian ratLibm)
          (fluctAxon 1) (0, 2) (-2, 0) (1 / 2)).1.pointOf q)
        = Point.difference ((fluctAxon 1).pointOf (0, 2)) ((fluctAxon 1).pointOf q)) :=
  ⟨by decide!, by decide!,
    fluctuate_accept_moves_members ratLibm flagsOn (curve_hamiltonian ratLibm) (fluctAxon 1)
      (0, 2) (-2, 0) (1 / 2)
      ⟨⟨3 / 2, 1 / 2, 1⟩, none, some (0, 1), fun _ => none, false, 0, 0⟩ ⟨0, 0, 2⟩
      [some (0, 2)] rfl (by decide!) (by decide!) (by decide!) (by decide!) (0, 2)
      (by decide!) (by decide!) (by unfold Axon.inRangeOfUsedGrid; decide!)⟩

/-- C4 as stated fails: for the tip of `fluctAxon 1` (height 1), the sample
`(2, 0)` proposes the displacement `(0,0,-2)`; the displaced position
`(3/2, 1/2, -1)` passes `in_cylinder` (it is below the base) and the energies
are equal, so the draw `1/2` accepts; but cell index `k = -1` is out of range
of both grids, `move` refuses, and the tip stays where it was. -/
theorem fluctuate_accept_may_not_move :
    fluct_proposed ratLibm (fluctAxon 1)
      ⟨⟨3 / 2, 1 / 2, 1⟩, none, some (0, 1), fun _ => none, false, 0, 0⟩ (2, 0)
      = some ⟨0, 0, -2⟩ ∧
    node.neighbors (fluctAxon 1) (0, 2) [] = some [some (0, 2)] ∧
    fluct_precheck ratLibm flagsOn (fluctAxon 1) ⟨0, 0, -2⟩ [some (0, 2)] = (false, false) ∧
    fluct_energies (curve_hamiltonian ratLibm) (fluctAxon 1) ⟨0, 0, -2⟩ [some (0, 2)]
      = (60, 60) ∧
    (node.fluctuate ratLibm flagsOn (curve_hamiltonian ratLibm) (fluctAxon 1) (0, 2)
      (2, 0) (1 / 2)).2 = FluctOutcome.accepted ∧
    (node.fluctuate ratLibm flagsOn (curve_hamiltonian ratLibm) (fluctAxon 1) (0, 2)
      (2, 0) (1 / 2)).1.pointOf (0, 2) = ⟨3 / 2, 1 / 2, 1⟩ ∧
    Point.sum ⟨0, 0, -2⟩ ((fluctAxon 1).pointOf (0, 2)) = ⟨3 / 2, 1 / 2, -1⟩ ∧
    (fluctAxon 1).link_grid.point_to_indices ⟨3 / 2, 1 / 2, -1⟩ = ⟨2, 2, -1⟩ := by
  decide!

end FluctAccept

/-! ### Link capacity and dissociation: evaluations -/

/-- C16 (code defect). `Axon::break_links` removes `links[k]` and then
increments `k`, so the entry that slid into slot `k` is never tried. On
`skipAxon` (symmetric, duplicate-free link lists `X: [P, Y]`, `Y: [Q, X]`,
`P: [X]`, `Q: [Y]`) with every draw `0 < LINK_RM_PROB`, the pass over `X`
removes `P` and skips `Y`, the pass over `Y` removes `Q` and skips `X`: only
two draws are made and the link `X–Y` survives. -/
theorem break_links_skips_entries :
    skipAxon.linksSymmetricB = true ∧
    skipAxon.linkListOf (0, 1) = [some (2, 1), some (1, 1)] ∧
    skipAxon.linkListOf (1, 1) = [some (3, 1), some (0, 1)] ∧
    skipAxon.linkListOf (2, 1) = [some (0, 1)] ∧
    skipAxon.linkListOf (3, 1) = [some (1, 1)] ∧
    ((0 : ℚ) < LINK_RM_PROB) ∧
    (Axon.break_links (fun _ => (0 : ℚ)) 0 skipAxon).2 = 2 ∧
    (Axon.break_links (fun _ => (0 : ℚ)) 0 skipAxon).1.linkListOf (0, 1) = [some (1, 1)] ∧
    (Axon.break_links (fun _ => (0 : ℚ)) 0 skipAxon).1.linkListOf (1, 1) = [some (0, 1)] ∧
    (Axon.break_links (fun _ => (0 : ℚ)) 0 skipAxon).1.numLinksOf (0, 1) = 1 := by
  decide!

/-- The function `node::add_link` by itself has no capacity test of its own
that holds: it tests `num_links <= MAX_LINKS` and increments `num_links`
outside the test, so that, called on a node with `MAX_LINKS = 13` links (which
`Axon::link`, its only caller, never does), it would write slot 13 and set
`num_links` to 14. -/
theorem add_link_on_full_node :
    fullNode.num_links = MAX_LINKS ∧
    fullNode.links 13 = some (14, 1) ∧
    (fullNode.add_link (some (20, 1))).num_links = MAX_LINKS + 1 ∧
    (fullNode.add_link (some (20, 1))).links MAX_LINKS = some (20, 1) ∧
    (fullNode.add_link (some (20, 1))).linkList.length = 14 := by
  decide!

/-! ### Growth -/

/-- C18 (code defect). On a filament that already holds `MAX_NODES` nodes
`Filament::grow` returns at once, but `grow_filaments` goes on as if a node had
been added: it takes `&f->nodes[num_nodes - 1]`, which is the old tip, appends
it to its bucket in both grids a second time and increments `total_nodes`.
(`cylinder.cpp` has no capacity test in `grow` at all and writes past the node
array.) -/
theorem grow_at_capacity_registers_tip_again :
    (fullAxon.filaments.map (fun f => f.num_nodes)) = [MAX_NODES] ∧
    fullAxon.may_grow ratLibm flagsOn 0 ⟨0, 0, 1 / 20⟩ = true ∧
    fullAxon.link_grid.cells ⟨2, 2, 1⟩ = [some (0, 1999)] ∧
    ((Axon.grow_attempt ratLibm flagsOn (fun _ => 0) fullAxon 0 ⟨0, 0, 1 / 20⟩ 0).1.filaments.map
      (fun f => f.num_nodes)) = [MAX_NODES] ∧
    (Axon.grow_attempt ratLibm flagsOn (fun _ => 0) fullAxon 0 ⟨0, 0, 1 / 20⟩ 0).1.total_nodes
      = fullAxon.total_nodes + 1 ∧
    (Axon.grow_attempt ratLibm flagsOn (fun _ => 0) fullAxon 0 ⟨0, 0, 1 / 20⟩ 0).1.link_grid.cells
      ⟨2, 2, 1⟩ = [some (0, 1999), some (0, 1999)] ∧
    (Axon.grow_attempt ratLibm flagsOn (fun _ => 0) fullAxon 0
      ⟨0, 0, 1 / 20⟩ 0).1.collide_grid.cells ⟨2, 2, 1⟩ = [some (0, 1999), some (0, 1999)] := by
  decide!

section GrowThms
variable {R : Type} [LinearOrderedField R] [FloorRing R]

theorem add_node_cells (g : Grid3D R) (n : NodePtr) (pt : Point R)
    (h : g.in_range (g.point_to_indices pt) = true) (c : triple) :
    (g.add_node (some n) pt).cells c
      = if c = g.point_to_indices pt then g.cells c ++ [some n] else g.cells c := by
  unfold Grid3D.add_node
  simp only [h, if_true]
  by_cases hc : c = g.point_to_indices pt
  · rw [if_pos hc, hc]; simp
  · rw [if_neg hc]; simp [Function.update, hc]

/-- C11 as stated fails when link formation is on: filament 1 of `growAxon`
grows by `(0, 0, 1/10)` to `(1/10, 0, 1/10)`, all growth tests passing; the
link search that ends the attempt links the new node to the node of filament 0
at distance `1/10` and pulls it to `(3/40, 0, 1/10)`. -/
theorem grow_attempt_link_moves_new_node :
    growAxon.may_grow ratLibm flagsOn 1 ⟨0, 0, 1 / 10⟩ = true ∧
    Point.sum (growAxon.tipOf 1) ⟨0, 0, 1 / 10⟩ = ⟨1 / 10, 0, 1 / 10⟩ ∧
    (Axon.grow_attempt ratLibm flagsOn (fun _ => 1 / 2) growAxon 1
      ⟨0, 0, 1 / 10⟩ 0).1.pointOf (1, 1) = ⟨3 / 40, 0, 1 / 10⟩ ∧
    (Axon.grow_attempt ratLibm flagsOn (fun _ => 1 / 2) growAxon 1
      ⟨0, 0, 1 / 10⟩ 0).1.linkListOf (1, 1) = [some (0, 1)] := by
  decide!

end GrowThms

/-! ### Boundary test and grid indexing -/

section Boundary
variable {R : Type} [LinearOrderedField R] [FloorRing R]

/-- C19. For every axon (radius `r`, any length) and every point whose radial
distance `sqrt(x² + y²)` is below `r - ε`, `ε = LINK_INTERACTION_LEN`,
`Axon::in_cylinder` is true (in particular for `0 ≤ z ≤ length`). The square
root is taken exact at the radicand `x² + y²`. -/
theorem in_cylinder_inside (M : Libm R) (A : Axon R) (p : Point R)
    (hsq : M.exactAt (p.x * p.x + p.y * p.y))
    (hrad : M.sqrt (p.x * p.x + p.y * p.y) < A.r - LINK_INTERACTION_LEN) :
    A.in_cylinder p = true := by
  unfold Axon.in_cylinder
  simp only
  rw [if_neg]
  intro h
  have h1 := hsq.1
  have h2 := hsq.2
  nlinarith [h.1]

/-- Witness of C19: the point `(3, 4, 1)`, radial distance 5, in the axon of
radius 200. -/
theorem in_cylinder_inside_witness :
    (ratLibm.sqrt (3 * 3 + 4 * 4) = 5 ∧
      ratLibm.sqrt (3 * 3 + 4 * 4) < axon0.r - LINK_INTERACTION_LEN) ∧
    axon0.in_cylinder ⟨3, 4, 1⟩ = true :=
  ⟨by decide!, in_cylinder_inside ratLibm axon0 ⟨3, 4, 1⟩
    (by unfold Libm.exactAt; decide!) (by decide!)⟩

/-- C20 (amended). For every axon with radius `r ≥ ε / 2`,
`ε = LINK_INTERACTION_LEN`, and every point with radial distance
`sqrt(x² + y²) > r` and `0 ≤ z ≤ length`, `Axon::in_cylinder` is false. -/
theorem in_cylinder_outside (M : Libm R) (A : Axon R) (p : Point R)
    (hr : LINK_INTERACTION_LEN / 2 ≤ A.r)
    (hsq : M.exactAt (p.x * p.x + p.y * p.y))
    (hrad : A.r < M.sqrt (p.x * p.x + p.y * p.y))
    (hz : 0 ≤ p.z ∧ p.z ≤ A.length) :
    A.in_cylinder p = false := by
  unfold Axon.in_cylinder
  simp only
  rw [if_pos]
  refine ⟨?_, hz.1, hz.2⟩
  have h2 := hsq.2
  have he : (LINK_INTERACTION_LEN : R) = 1 / 10 := rfl
  rw [he] at hr ⊢
  nlinarith

/-- Witness of C20 (amended): the point `(0, 3, 1)` outside an axon of
radius 2 and length 2. -/
theorem in_cylinder_outside_witness :
    ((LINK_INTERACTION_LEN : ℚ) / 2 ≤ axonCyl.r ∧
      axonCyl.r < ratLibm.sqrt (0 * 0 + 3 * 3) ∧ ((0 : ℚ) ≤ 1 ∧ (1 : ℚ) ≤ axonCyl.length)) ∧
    axonCyl.in_cylinder ⟨0, 3, 1⟩ = false :=
  ⟨by decide!, in_cylinder_outside ratLibm axonCyl ⟨0, 3, 1⟩ (by decide!)
    (by unfold Libm.exactAt; decide!) (by decide!) (by decide!)⟩

/-- C20 as stated fails for radii below `ε / 2`: in an axon of radius 0 the
point `(1/20, 0, 0)` has radial distance `1/20 > 0` and height in range, yet
`in_cylinder` compares `x² + y² = 1/400` with `(r - ε)² = 1/100` and answers
true. -/
theorem in_cylinder_tiny_radius :
    (0 : ℚ) ≤ thinAxon.r ∧
    ratLibm.sqrt ((1 / 20) * (1 / 20) + 0 * 0) = 1 / 20 ∧
    thinAxon.r < ratLibm.sqrt ((1 / 20) * (1 / 20) + 0 * 0) ∧
    ((0 : ℚ) ≤ 0 ∧ (0 : ℚ) ≤ thinAxon.length) ∧
    thinAxon.in_cylinder ⟨1 / 20, 0, 0⟩ = true := by
  decide!

/-- C26. `Grid3D::add_node(n)` changes the grid exactly by appending `n` to
the end of bucket `point_to_indices(n.point)` when those indices satisfy
`in_range`; it returns the grid unchanged when they do not, and when `n` is
null. -/
theorem add_node_spec (g : Grid3D R) (n : NodePtr) (pt : Point R) :
    (g.in_range (g.point_to_indices pt) = true →
      (g.add_node (some n) pt).in_range = g.in_range ∧
      (g.add_node (some n) pt).point_to_indices = g.point_to_indices ∧
      (g.add_node (some n) pt).cells (g.point_to_indices pt)
        = g.cells (g.point_to_indices pt) ++ [some n] ∧
      ∀ c, c ≠ g.point_to_indices pt → (g.add_node (some n) pt).cells c = g.cells c) ∧
    (g.in_range (g.point_to_indices pt) = false → g.add_node (some n) pt = g) ∧
    g.add_node none pt = g := by
  refine ⟨fun h => ⟨?_, ?_, ?_, ?_⟩, fun h => ?_, rfl⟩
  · unfold Grid3D.add_node
    simp only [h, if_true]
    rfl
  · unfold Grid3D.add_node
    simp only [h, if_true]
    rfl
  · rw [add_node_cells g n pt h, if_pos rfl]
  · intro c hc
    rw [add_node_cells g n pt h, if_neg hc]
  · unfold Grid3D.add_node
    simp only [h, Bool.false_eq_true, if_false]

/-- Witness of C26 on the link grid of `axon0`: an in-range and an
out-of-range position. -/
theorem add_node_spec_witness :
    (axon0.link_grid.in_range (axon0.link_grid.point_to_indices ⟨0, 0, 1⟩) = true ∧
      axon0.link_grid.in_range (axon0.link_grid.point_to_indices ⟨0, 0, -1⟩) = false) ∧
    (axon0.link_grid.add_node (some (0, 1)) ⟨0, 0, 1⟩).cells
        (axon0.link_grid.point_to_indices ⟨0, 0, 1⟩)
      = axon0.link_grid.cells (axon0.link_grid.point_to_indices ⟨0, 0, 1⟩) ++ [some (0, 1)] ∧
    axon0.link_grid.add_node (some (0, 1)) ⟨0, 0, -1⟩ = axon0.link_grid :=
  ⟨by decide!,
    ((add_node_spec axon0.link_grid (0, 1) ⟨0, 0, 1⟩).1 (by decide!)).2.2.1,
    (add_node_spec axon0.link_grid (0, 1) ⟨0, 0, -1⟩).2.1 (by decide!)⟩

/-- In exact arithmetic (no rounding of the difference and of the quotient),
in a grid with positive steps, `Grid3D::point_to_indices` maps the point
`(minx + a·xstep, miny + b·ystep, minz + c·zstep)` to the cell `(a, b, c)` for
all natural numbers `a`, `b`, `c`, and the grid minimum to `(0,0,0)`. -/
theorem point_to_indices_lattice (g : Grid3D R) (hx : 0 < g.xstep) (hy : 0 < g.ystep)
    (hz : 0 < g.zstep) (a b c : Nat) :
    g.point_to_indices ⟨g.minx + a * g.xstep, g.miny + b * g.ystep, g.minz + c * g.zstep⟩
        = ⟨a, b, c⟩ ∧
    g.point_to_indices ⟨g.minx, g.miny, g.minz⟩ = ⟨0, 0, 0⟩ := by
  unfold Grid3D.point_to_indices
  simp only [add_sub_cancel_left, sub_self, zero_div, Int.floor_zero]
  rw [mul_div_assoc, mul_div_assoc, mul_div_assoc, div_self (ne_of_gt hx),
    div_self (ne_of_gt hy), div_self (ne_of_gt hz)]
  simp

/-- On the link grid of `axon0` (steps 100, minimum `(-200,-200,0)`) the
point `(-100, 0, 100)` is in cell `(1, 2, 1)`. -/
theorem point_to_indices_lattice_witness :
    ((0 : ℚ) < axon0.link_grid.xstep ∧ (0 : ℚ) < axon0.link_grid.ystep ∧
      (0 : ℚ) < axon0.link_grid.zstep) ∧
    (axon0.link_grid.point_to_indices
        ⟨axon0.link_grid.minx + (1 : Nat) * axon0.link_grid.xstep,
          axon0.link_grid.miny + (2 : Nat) * axon0.link_grid.ystep,
          axon0.link_grid.minz + (1 : Nat) * axon0.link_grid.zstep⟩ = ⟨(1 : Nat), (2 : Nat), (1 : Nat)⟩ ∧
      axon0.link_grid.point_to_indices
        ⟨axon0.link_grid.minx, axon0.link_grid.miny, axon0.link_grid.minz⟩ = ⟨0, 0, 0⟩) :=
  ⟨by decide!, point_to_indices_lattice axon0.link_grid (by decide!) (by decide!) (by decide!)
    1 2 1⟩

end Boundary

/-! ### Collision test and curvature energy on simple configurations -/

section CollisionFacts
variable {R : Type} [LinearOrderedField R]

theorem clip_mem (x : R) : 0 ≤ clip 0 1 x ∧ clip 0 1 x ≤ 1 := by
  unfold clip
  split_ifs with h1 h2
  · exact ⟨le_refl _, zero_le_one⟩
  · exact ⟨zero_le_one, le_refl _⟩
  · exact ⟨not_lt.mp h1, not_lt.mp h2⟩

theorem clip_of_mem (x : R) (h0 : 0 ≤ x) (h1 : x ≤ 1) : clip 0 1 x = x := by
  unfold clip
  rw [if_neg (not_lt.mpr h0), if_neg (not_lt.mpr h1)]

theorem min_dist_eq (s e p q : Point R) (u v : R) :
    Point.sum (Point.difference s p)
        (Point.difference ((Point.difference e s).scale u) ((Point.difference q p).scale v))
      = Point.difference (segPoint s e u) (segPoint p q v) := by
  simp only [Point.sum, Point.difference, Point.scale, segPoint, Point.mk.injEq]
  refine ⟨by ring, by ring, by ring⟩

/-- C21. For all `s, e, p, q` and `r`: if every point of `[s,e]` is at
Euclidean distance at least `2r` from every point of `[p,q]` (distances taken
with the same `sqrt` as the code), then `Axon::collision(s,e,p,q,r)` returns
false. -/
theorem collision_false_of_far (M : Libm R) (s e p q : Point R) (r : R)
    (h : ∀ u v : R, 0 ≤ u → u ≤ 1 → 0 ≤ v → v ≤ 1 →
      2 * r ≤ (Point.difference (segPoint s e u) (segPoint p q v)).norm M) :
    Axon.collision M s e p q r = false := by
  unfold Axon.collision
  simp only
  split_ifs with hpar
  · rfl
  · rw [min_dist_eq, decide_eq_false_iff_not, not_lt]
    exact h _ _ (clip_mem _).1 (clip_mem _).2 (clip_mem _).1 (clip_mem _).2

/-- Witness of C21 over the real numbers: the unit segments from `(0,0,0)` to
`(1,0,0)` and from `(0,3,5)` to `(1,4,5)` are everywhere at distance at least
5, so no collision is reported with `r = 1`. -/
theorem collision_false_of_far_witness :
    Axon.collision ⟨Real.sqrt, Real.exp⟩ (⟨0, 0, 0⟩ : Point ℝ) ⟨1, 0, 0⟩ ⟨0, 3, 5⟩ ⟨1, 4, 5⟩ 1
      = false :=
  collision_false_of_far ⟨Real.sqrt, Real.exp⟩ ⟨0, 0, 0⟩ ⟨1, 0, 0⟩ ⟨0, 3, 5⟩ ⟨1, 4, 5⟩ 1
    (by
      intro u v _ _ _ _
      simp only [Point.norm, Point.difference, segPoint, Point.sum, Point.scale]
      apply Real.le_sqrt_of_sq_le
      nlinarith [sq_nonneg (0 + (1 - 0) * u - (0 + (1 - 0) * v)),
        sq_nonneg ((0 : ℝ) + (0 - 0) * u - (3 + (4 - 3) * v))])

theorem es_ne_zero_of_denom (es qp : Point R)
    (hden : (Point.dot es qp) ^ 2 - Point.dot qp qp * Point.dot es es ≠ 0) :
    Point.dot es es ≠ 0 := by
  intro hE
  apply hden
  simp only [Point.dot] at hE ⊢
  have hx : es.x = 0 := by nlinarith [sq_nonneg es.x, sq_nonneg es.y, sq_nonneg es.z]
  have hy : es.y = 0 := by nlinarith [sq_nonneg es.x, sq_nonneg es.y, sq_nonneg es.z]
  have hz : es.z = 0 := by nlinarith [sq_nonneg es.x, sq_nonneg es.y, sq_nonneg es.z]
  rw [hx, hy, hz]
  ring

/-- C22 (amended). For every `r > 0` and every two segments `[s,e]`, `[p,q]`
that are non-degenerate and non-parallel (`(es·qp)² ≠ |es|²|qp|²`), share a
common point, and are not flagged parallel by the absolute test
`|es·qp − |es||qp|| < 10⁻⁹` of the code, `Axon::collision(s,e,p,q,r)` returns
true (`sqrt 0 = 0`). -/
theorem collision_true_of_crossing (M : Libm R) (s e p q : Point R) (r u0 v0 : R)
    (hr : 0 < r) (h0 : M.exactAt 0)
    (hden : (Point.dot (Point.difference e s) (Point.difference q p)) ^ 2
      - Point.dot (Point.difference q p) (Point.difference q p)
        * Point.dot (Point.difference e s) (Point.difference e s) ≠ 0)
    (hflag : ¬ |Point.dot (Point.difference e s) (Point.difference q p)
      - (Point.difference e s).norm M * (Point.difference q p).norm M| < 1 / 1000000000)
    (hu : 0 ≤ u0 ∧ u0 ≤ 1) (hv : 0 ≤ v0 ∧ v0 ≤ 1)
    (hcommon : segPoint s e u0 = segPoint p q v0) :
    Axon.collision M s e p q r = true := by
  have hE := es_ne_zero_of_denom _ _ hden
  simp only [segPoint, Point.sum, Point.difference, Point.scale, Point.mk.injEq] at hcommon
  obtain ⟨hx, hy, hz⟩ := hcommon
  have hvv : (Point.dot (Point.difference e s) (Point.difference s p)
        * Point.dot (Point.difference e s) (Point.difference q p)
      - Point.dot (Point.difference s p) (Point.difference q p)
        * Point.dot (Point.difference e s) (Point.difference e s))
      / ((Point.dot (Point.difference e s) (Point.difference q p)) ^ 2
      - Point.dot (Point.difference q p) (Point.difference q p)
        * Point.dot (Point.difference e s) (Point.difference e s)) = v0 := by
    rw [div_eq_iff hden]
    simp only [Point.dot, Point.difference]
    linear_combination
      ((e.x - s.x) * ((e.x - s.x) * (q.x - p.x) + (e.y - s.y) * (q.y - p.y)
          + (e.z - s.z) * (q.z - p.z))
        - (q.x - p.x) * ((e.x - s.x) * (e.x - s.x) + (e.y - s.y) * (e.y - s.y)
          + (e.z - s.z) * (e.z - s.z))) * hx
      + ((e.y - s.y) * ((e.x - s.x) * (q.x - p.x) + (e.y - s.y) * (q.y - p.y)
          + (e.z - s.z) * (q.z - p.z))
        - (q.y - p.y) * ((e.x - s.x) * (e.x - s.x) + (e.y - s.y) * (e.y - s.y)
          + (e.z - s.z) * (e.z - s.z))) * hy
      + ((e.z - s.z) * ((e.x - s.x) * (q.x - p.x) + (e.y - s.y) * (q.y - p.y)
          + (e.z - s.z) * (q.z - p.z))
        - (q.z - p.z) * ((e.x - s.x) * (e.x - s.x) + (e.y - s.y) * (e.y - s.y)
          + (e.z - s.z) * (e.z - s.z))) * hz
  have huu : (v0 * Point.dot (Point.difference e s) (Point.difference q p)
        - Point.dot (Point.difference e s) (Point.difference s p))
      / Point.dot (Point.difference e s) (Point.difference e s) = u0 := by
    rw [div_eq_iff hE]
    simp only [Point.dot, Point.difference]
    linear_combination (-(e.x - s.x)) * hx + (-(e.y - s.y)) * hy + (-(e.z - s.z)) * hz
  have hmin : Point.sum (Point.difference s p)
        (Point.difference ((Point.difference e s).scale u0) ((Point.difference q p).scale v0))
      = ⟨0, 0, 0⟩ := by
    simp only [Point.sum, Point.difference, Point.scale, Point.mk.injEq]
    refine ⟨by linear_combination hx, by linear_combination hy, by linear_combination hz⟩
  have hs0 : M.sqrt 0 = 0 := by
    have h1 := h0.2
    exact mul_self_eq_zero.mp h1
  unfold Axon.collision
  simp only
  rw [if_neg hflag, hvv, clip_of_mem v0 hv.1 hv.2, huu, clip_of_mem u0 hu.1 hu.2, hmin]
  simp only [Point.norm, mul_zero, add_zero, hs0, decide_eq_true_eq]
  linarith

/-- Witness of C22 (amended): the segments from `(0,0,0)` to `(2,0,0)` and
from `(1,-1,0)` to `(1,1,0)` cross at `(1,0,0)`. -/
theorem collision_true_of_crossing_witness :
    ((0 : ℚ) < 1 ∧ ratLibm.sqrt 0 = 0 ∧
      segPoint (⟨0, 0, 0⟩ : Point ℚ) ⟨2, 0, 0⟩ (1 / 2) = segPoint ⟨1, -1, 0⟩ ⟨1, 1, 0⟩ (1 / 2)) ∧
    Axon.collision ratLibm ⟨0, 0, 0⟩ ⟨2, 0, 0⟩ ⟨1, -1, 0⟩ ⟨1, 1, 0⟩ 1 = true :=
  ⟨by decide!,
    collision_true_of_crossing ratLibm ⟨0, 0, 0⟩ ⟨2, 0, 0⟩ ⟨1, -1, 0⟩ ⟨1, 1, 0⟩ 1 (1 / 2) (1 / 2)
      (by decide!) (by unfold Libm.exactAt; decide!) (by decide!) (by decide!) (by decide!)
      (by decide!) (by decide!)⟩

theorem sqrt_tiny : Rat.sqrt (1 / 10000000000) = 1 / 100000 := by
  rw [show (1 / 10000000000 : ℚ) = (1 / 100000) * (1 / 100000) by norm_num, Rat.sqrt_eq]
  rw [abs_of_pos (by norm_num)]

/-- C22 as stated fails for short segments: the perpendicular segments from
`(0,0,0)` to `(10⁻⁵,0,0)` and from `(0,0,0)` to `(0,10⁻⁵,0)` are
non-degenerate, non-parallel and share the point `(0,0,0)`, but
`|es·qp − |es||qp|| = 10⁻¹⁰ < 10⁻⁹`, so the code treats them as parallel and
returns false. -/
theorem collision_misses_short_crossing :
    tiny_s ≠ tiny_e ∧ tiny_p ≠ tiny_q ∧
    Point.cross (Point.difference tiny_e tiny_s) (Point.difference tiny_q tiny_p) ≠ ⟨0, 0, 0⟩ ∧
    Point.dot (Point.difference tiny_e tiny_s) (Point.difference tiny_q tiny_p) = 0 ∧
    segPoint tiny_s tiny_e 0 = segPoint tiny_p tiny_q 0 ∧
    (0 : ℚ) < 1 ∧
    Axon.collision ratLibm tiny_s tiny_e tiny_p tiny_q 1 = false := by
  refine ⟨by decide!, by decide!, by decide!, by decide!, by decide!, by decide!, ?_⟩
  unfold Axon.collision
  simp only
  rw [if_pos]
  have h1 : (Point.difference tiny_e tiny_s).norm ratLibm = 1 / 100000 := by
    simp only [Point.norm, Point.difference, tiny_e, tiny_s, ratLibm]
    norm_num
    exact sqrt_tiny
  have h2 : (Point.difference tiny_q tiny_p).norm ratLibm = 1 / 100000 := by
    simp only [Point.norm, Point.difference, tiny_q, tiny_p, ratLibm]
    norm_num
    exact sqrt_tiny
  rw [h1, h2]
  simp only [Point.dot, Point.difference, tiny_e, tiny_s, tiny_q, tiny_p]
  norm_num [abs_lt]

end CollisionFacts

section HamiltonianFacts
variable {R : Type} [LinearOrderedField R]

theorem difference_sum_left (p d : Point R) : Point.difference (Point.sum p d) p = d := by
  cases d
  simp [Point.difference, Point.sum]

theorem difference_sum_scale_two (p d : Point R) :
    Point.difference (Point.sum p (d.scale 2)) (Point.sum p d) = d := by
  cases d
  simp only [Point.difference, Point.sum, Point.scale, Point.mk.injEq]
  refine ⟨by ring, by ring, by ring⟩

/-- C24. For every point `p` and every non-zero vector `d`,
`curve_hamiltonian` on the three collinear equally spaced points `p`,
`p + d`, `p + 2d` equals 0 (`sqrt` exact at `|d|²`). -/
theorem curve_hamiltonian_straight (M : Libm R) (p d : Point R) (hd : d ≠ ⟨0, 0, 0⟩)
    (hsq : M.exactAt (d.x * d.x + d.y * d.y + d.z * d.z)) :
    curve_hamiltonian M [p, Point.sum p d, Point.sum p (d.scale 2)] = 0 := by
  have hne : d.x * d.x + d.y * d.y + d.z * d.z ≠ 0 := by
    intro h
    apply hd
    have hx : d.x = 0 := by nlinarith [sq_nonneg d.x, sq_nonneg d.y, sq_nonneg d.z]
    have hy : d.y = 0 := by nlinarith [sq_nonneg d.x, sq_nonneg d.y, sq_nonneg d.z]
    have hz : d.z = 0 := by nlinarith [sq_nonneg d.x, sq_nonneg d.y, sq_nonneg d.z]
    cases d
    simp only [Point.mk.injEq]
    exact ⟨hx, hy, hz⟩
  have hb : M.sqrt (d.x * d.x + d.y * d.y + d.z * d.z) ≠ 0 := by
    intro h
    apply hne
    rw [← hsq.2, h, mul_zero]
  have hdot : Point.dot (d.normalize M) (d.normalize M) = 1 := by
    simp only [Point.dot, Point.normalize, Point.scale, Point.norm]
    field_simp
    nlinarith [hsq.2]
  simp only [curve_hamiltonian, curve_hamiltonian_loop, List.length_cons, List.length_nil,
    List.getD_cons_zero, List.getD_cons_succ, difference_sum_left, difference_sum_scale_two,
    hdot]
  norm_num

/-- Witness of C24: the points `(0,0,0)`, `(0,0,2)`, `(0,0,4)`. -/
theorem curve_hamiltonian_straight_witness :
    ((⟨0, 0, 2⟩ : Point ℚ) ≠ ⟨0, 0, 0⟩ ∧ ratLibm.sqrt (0 * 0 + 0 * 0 + 2 * 2) = 2) ∧
    curve_hamiltonian ratLibm
      [⟨0, 0, 0⟩, Point.sum ⟨0, 0, 0⟩ ⟨0, 0, 2⟩, Point.sum ⟨0, 0, 0⟩ (Point.scale ⟨0, 0, 2⟩ 2)]
      = 0 :=
  ⟨by decide!, curve_hamiltonian_straight ratLibm ⟨0, 0, 0⟩ ⟨0, 0, 2⟩ (by decide!)
    (by unfold Libm.exactAt; decide!)⟩

theorem difference_sum_scale (p a : Point R) (L : R) :
    Point.difference (Point.sum p (a.scale L)) p = a.scale L := by
  simp [Point.difference, Point.sum, Point.scale]

theorem norm_scale_unit (M : Libm R) (a : Point R) (L : R) (ha : Point.dot a a = 1)
    (hL : 0 < L) (hsq : M.exactAt (L * L)) : (a.scale L).norm M = L := by
  have hrad : a.x * L * (a.x * L) + a.y * L * (a.y * L) + a.z * L * (a.z * L) = L * L := by
    simp only [Point.dot] at ha
    linear_combination (L * L) * ha
  simp only [Point.norm, Point.scale]
  rw [hrad]
  have h1 := hsq.1
  have h2 := hsq.2
  have h3 : (M.sqrt (L * L) - L) * (M.sqrt (L * L) + L) = 0 := by linear_combination h2
  rcases mul_eq_zero.mp h3 with h | h
  · linarith
  · linarith

/-- C23. For every point `p0`, every `L > 0` and every pair of orthogonal
unit vectors `a`, `b`, `curve_hamiltonian` on the three points `p0`,
`p0 + L·a`, `p0 + L·a + L·b` equals `PERSISTENCE_LEN / L` (`sqrt` exact at
`L²`). -/
theorem curve_hamiltonian_right_angle (M : Libm R) (p0 a b : Point R) (L : R) (hL : 0 < L)
    (ha : Point.dot a a = 1) (hb : Point.dot b b = 1) (hab : Point.dot a b = 0)
    (hsq : M.exactAt (L * L)) :
    curve_hamiltonian M
        [p0, Point.sum p0 (a.scale L), Point.sum (Point.sum p0 (a.scale L)) (b.scale L)]
      = PERSISTENCE_LEN / L := by
  have hna := norm_scale_unit M a L ha hL hsq
  have hnb := norm_scale_unit M b L hb hL hsq
  have hLne : L ≠ 0 := ne_of_gt hL
  have hdot : Point.dot ((a.scale L).scale (1 / L)) ((b.scale L).scale (1 / L)) = 0 := by
    simp only [Point.dot, Point.scale] at hab ⊢
    field_simp
    linear_combination hab
  simp only [curve_hamiltonian, curve_hamiltonian_loop, List.length_cons, List.length_nil,
    List.getD_cons_zero, List.getD_cons_succ, difference_sum_scale, Point.normalize, hna, hnb,
    hdot]
  norm_num
  unfold PERSISTENCE_LEN
  field_simp

/-- Witness of C23: the bend `(0,0,0)`, `(2,0,0)`, `(2,2,0)` with `L = 2`. -/
theorem curve_hamiltonian_right_angle_witness :
    ((0 : ℚ) < 2 ∧ Point.dot (⟨1, 0, 0⟩ : Point ℚ) ⟨1, 0, 0⟩ = 1 ∧
      Point.dot (⟨0, 1, 0⟩ : Point ℚ) ⟨0, 1, 0⟩ = 1 ∧
      Point.dot (⟨1, 0, 0⟩ : Point ℚ) ⟨0, 1, 0⟩ = 0 ∧ ratLibm.sqrt (2 * 2) = 2) ∧
    curve_hamiltonian ratLibm
        [⟨0, 0, 0⟩, Point.sum ⟨0, 0, 0⟩ (Point.scale ⟨1, 0, 0⟩ 2),
          Point.sum (Point.sum ⟨0, 0, 0⟩ (Point.scale ⟨1, 0, 0⟩ 2)) (Point.scale ⟨0, 1, 0⟩ 2)]
      = PERSISTENCE_LEN / 2 :=
  ⟨by decide!,
    curve_hamiltonian_right_angle ratLibm ⟨0, 0, 0⟩ ⟨1, 0, 0⟩ ⟨0, 1, 0⟩ 2 (by decide!)
      (by decide!) (by decide!) (by decide!) (by unfold Libm.exactAt; decide!)⟩

end HamiltonianFacts

/-! ### Binary search and grid round trip -/

section SliceFacts
variable {R : Type} [LinearOrderedField R] [FloorRing R]

theorem nodeAt_natCast (f : Filament R) (i : Nat) (h : i < f.nodes.length) :
    ∃ nd, f.nodeAt (i : Int) = some nd ∧ nd.point.z = f.zOf i := by
  obtain ⟨nd, hnd⟩ : ∃ nd, f.nodes.get? i = some nd :=
    ⟨f.nodes.get ⟨i, h⟩, List.get?_eq_get h⟩
  refine ⟨nd, ?_, ?_⟩
  · unfold Filament.nodeAt
    rw [if_neg (by omega), Int.toNat_ofNat, hnd]
  · unfold Filament.zOf
    rw [hnd]

theorem slice_loop_spec (f : Filament R) (z : R) :
    ∀ (fuel s e : Nat), s < e → e < f.nodes.length → f.zOf s ≤ z → z < f.zOf e →
      e - s ≤ fuel + 1 →
      ∃ i : Nat, f.slice_loop z fuel (s : Int) (e : Int) = some (i : Int) ∧ s ≤ i ∧ i < e ∧
        f.zOf i ≤ z ∧ z < f.zOf (i + 1) := by
  intro fuel
  induction fuel with
  | zero =>
    intro s e hse _ hs he hfuel
    have h1 : e = s + 1 := by omega
    subst h1
    refine ⟨s, ?_, le_refl _, Nat.lt_succ_self _, hs, he⟩
    unfold Filament.slice_loop
    rw [if_pos (by push_cast; ring)]
  | succ fuel ih =>
    intro s e hse hlen hs he hfuel
    unfold Filament.slice_loop
    by_cases h1 : e = s + 1
    · subst h1
      rw [if_pos (by push_cast; ring)]
      exact ⟨s, rfl, le_refl _, Nat.lt_succ_self _, hs, he⟩
    · rw [if_neg (by omega)]
      have hmid : ((s : Int) + (e : Int)).tdiv 2 = (((s + e) / 2 : Nat) : Int) := by
        rw [Int.tdiv_eq_ediv (by omega) (by omega)]
        push_cast
        rfl
      simp only [hmid]
      have hm1 : s < (s + e) / 2 := by omega
      have hm2 : (s + e) / 2 < e := by omega
      obtain ⟨nd, hnd, hz⟩ := nodeAt_natCast f ((s + e) / 2) (by omega)
      rw [hnd]
      simp only
      by_cases hgt : nd.point.z > z
      · rw [if_pos hgt]
        obtain ⟨i, hi, h2, h3, h4⟩ :=
          ih s ((s + e) / 2) hm1 (by omega) hs (by rw [← hz]; exact hgt) (by omega)
        exact ⟨i, hi, h2, by omega, h4⟩
      · rw [if_neg hgt]
        obtain ⟨i, hi, h2, h3, h4⟩ :=
          ih ((s + e) / 2) e hm2 hlen (by rw [← hz]; exact not_lt.mp hgt) he (by omega)
        exact ⟨i, hi, by omega, h3, h4⟩

/-- C28. For every filament with `n ≥ 2` nodes and every height `z` with
`nodes[0].z ≤ z < nodes[n−1].z`, `Filament::slice(z)` terminates (within `n`
iterations) and returns an index `i` with `0 ≤ i ≤ n−2` and
`nodes[i].z ≤ z < nodes[i+1].z`. -/
theorem slice_brackets (f : Filament R) (z : R) (hn : 2 ≤ f.num_nodes)
    (hlo : f.zOf 0 ≤ z) (hhi : z < f.zOf (f.num_nodes - 1)) :
    ∃ i : Nat, f.slice z = some (i : Int) ∧ i + 2 ≤ f.num_nodes ∧
      f.zOf i ≤ z ∧ z < f.zOf (i + 1) := by
  unfold Filament.num_nodes at hn hhi ⊢
  obtain ⟨i, hi, _, h2, h3⟩ :=
    slice_loop_spec f z f.nodes.length 0 (f.nodes.length - 1) (by omega) (by omega) hlo hhi
      (by omega)
  refine ⟨i, ?_, by omega, h3⟩
  unfold Filament.slice Filament.num_nodes
  simp only
  rw [if_pos (by omega)]
  have hc : ((f.nodes.length : Int) - 1) = ((f.nodes.length - 1 : Nat) : Int) := by omega
  rw [hc]
  exact hi

/-- Witness of C28: in the filament with heights `0, 1, 2, 3` the height
`3/2` is bracketed by nodes 1 and 2. -/
theorem slice_brackets_witness :
    (2 ≤ sliceFilament.num_nodes ∧ sliceFilament.zOf 0 ≤ 3 / 2 ∧
      (3 / 2 : ℚ) < sliceFilament.zOf (sliceFilament.num_nodes - 1)) ∧
    sliceFilament.slice (3 / 2) = some 1 ∧
    ∃ i : Nat, sliceFilament.slice (3 / 2) = some (i : Int) ∧ i + 2 ≤ sliceFilament.num_nodes ∧
      sliceFilament.zOf i ≤ 3 / 2 ∧ (3 / 2 : ℚ) < sliceFilament.zOf (i + 1) :=
  ⟨by decide!, by decide!,
    slice_brackets sliceFilament (3 / 2) (by decide!) (by decide!) (by decide!)⟩

theorem count_filter_ne_self (l : List (Option NodePtr)) (n : NodePtr) :
    (l.filter (fun e => decide (e ≠ some n))).count (some n) = 0 := by
  rw [List.count_eq_zero]
  intro h
  have := (List.mem_filter.mp h).2
  simp at this

theorem count_filter_ne_other (l : List (Option NodePtr)) (n : NodePtr) (e : Option NodePtr)
    (he : e ≠ some n) :
    (l.filter (fun e => decide (e ≠ some n))).count e = l.count e := by
  induction l with
  | nil => rfl
  | cons a l ih =>
    by_cases ha : a = some n
    · subst ha
      rw [List.filter_cons_of_neg (by simp), ih, List.count_cons_of_ne he]
    · rw [List.filter_cons_of_pos (by simpa using ha), List.count_cons, List.count_cons, ih]

theorem move_node_cells (g : Grid3D R) (n : NodePtr) (pt : Point R) (ijk_old : triple)
    (h : g.in_range (g.point_to_indices pt) = true) (c : triple) :
    (g.move_node n pt ijk_old).cells c
      = if c = g.point_to_indices pt then
          Function.update g.cells ijk_old
            ((g.cells ijk_old).filter (fun e => decide (e ≠ some n))) c ++ [some n]
        else
          Function.update g.cells ijk_old
            ((g.cells ijk_old).filter (fun e => decide (e ≠ some n))) c := by
  unfold Grid3D.move_node
  let g1 : Grid3D R := { g with cells := Function.update g.cells ijk_old ((g.cells ijk_old).filter (fun e => decide (e ≠ some n))) }
  exact add_node_cells g1 n pt h c

theorem round_trip_cells (g : Grid3D R) (n : NodePtr) (pt : Point R)
    (h : g.in_range (g.point_to_indices pt) = true) (c : triple) :
    ((g.add_node (some n) pt).move_node n pt (g.point_to_indices pt)).cells c
      = if c = g.point_to_indices pt then
          (g.cells c).filter (fun e => decide (e ≠ some n)) ++ [some n]
        else g.cells c := by
  let ga : Grid3D R := { g with cells := Function.update g.cells (g.point_to_indices pt) (g.cells (g.point_to_indices pt) ++ [some n]) }
  have ha : g.add_node (some n) pt = ga := by
    unfold Grid3D.add_node
    simp only [h, if_true]
  rw [ha]
  refine (move_node_cells ga n pt _ h c).trans ?_
  show (if c = g.point_to_indices pt then _ else _) = _
  simp only [ga]
  by_cases hc : c = g.point_to_indices pt
  · rw [if_pos hc, if_pos hc, hc]
    simp only [Function.update_same, List.filter_append]
    simp
  · rw [if_neg hc, if_neg hc]
    simp only [Function.update_noteq hc]

/-- C25 (amended). Grid round trip: for every grid and every node `n` whose
position is in range and which is not already stored in a bucket other than
`point_to_indices(n.point)`, `add_node(n)` followed by
`move_node(n, point_to_indices(n.point))` leaves `n` stored exactly once in
bucket `point_to_indices(n.point)` and in no other bucket, and leaves the
number of occurrences of every other entry in every bucket unchanged. -/
theorem add_then_move_node (g : Grid3D R) (n : NodePtr) (pt : Point R)
    (h : g.in_range (g.point_to_indices pt) = true)
    (hfresh : ∀ c, c ≠ g.point_to_indices pt → some n ∉ g.cells c) :
    (((g.add_node (some n) pt).move_node n pt (g.point_to_indices pt)).cells
        (g.point_to_indices pt)).count (some n) = 1 ∧
    (∀ c, c ≠ g.point_to_indices pt →
      some n ∉ ((g.add_node (some n) pt).move_node n pt (g.point_to_indices pt)).cells c) ∧
    ∀ c e, e ≠ some n →
      (((g.add_node (some n) pt).move_node n pt (g.point_to_indices pt)).cells c).count e
        = (g.cells c).count e := by
  refine ⟨?_, ?_, ?_⟩
  · rw [round_trip_cells g n pt h, if_pos rfl, List.count_append, count_filter_ne_self]
    simp
  · intro c hc
    rw [round_trip_cells g n pt h, if_neg hc]
    exact hfresh c hc
  · intro c e he
    rw [round_trip_cells g n pt h]
    split_ifs with hc
    · rw [List.count_append, count_filter_ne_other _ _ _ he]
      simp [List.count_cons, he.symm]
    · rfl

/-- Witness of C25 (amended): node `(0,1)` at `(0,0,1)` in the empty link
grid of `axon0`. -/
theorem add_then_move_node_witness :
    axon0.link_grid.in_range (axon0.link_grid.point_to_indices ⟨0, 0, 1⟩) = true ∧
    (((axon0.link_grid.add_node (some (0, 1)) ⟨0, 0, 1⟩).move_node (0, 1) ⟨0, 0, 1⟩
        (axon0.link_grid.point_to_indices ⟨0, 0, 1⟩)).cells
        (axon0.link_grid.point_to_indices ⟨0, 0, 1⟩)).count (some (0, 1)) = 1 :=
  ⟨by decide!,
    (add_then_move_node axon0.link_grid (0, 1) ⟨0, 0, 1⟩ (by decide!)
      (fun _ _ => List.not_mem_nil _)).1⟩

/-- C25 as stated fails when the grid already holds `n` in another bucket (a
stale entry, as `node::move` leaves in the collision grid): after the round
trip node `(0,1)`, positioned in cell `(2,2,0)`, is stored there once and
still stored in cell `(0,0,0)`. -/
theorem round_trip_keeps_stale_entry :
    staleGrid.in_range (staleGrid.point_to_indices ⟨0, 0, 1⟩) = true ∧
    staleGrid.point_to_indices ⟨0, 0, 1⟩ = ⟨2, 2, 0⟩ ∧
    ((staleGrid.add_node (some (0, 1)) ⟨0, 0, 1⟩).move_node (0, 1) ⟨0, 0, 1⟩
        (staleGrid.point_to_indices ⟨0, 0, 1⟩)).cells ⟨2, 2, 0⟩ = [some (0, 1)] ∧
    some (0, 1) ∈ ((staleGrid.add_node (some (0, 1)) ⟨0, 0, 1⟩).move_node (0, 1) ⟨0, 0, 1⟩
        (staleGrid.point_to_indices ⟨0, 0, 1⟩)).cells ⟨0, 0, 0⟩ := by
  decide!

end SliceFacts

/-! ### Link symmetry is preserved -/

section InvariantFacts
variable {R : Type} [LinearOrderedField R] [FloorRing R]

theorem shiftSlots_apply (links : Nat → Option NodePtr) (s c j : Nat) :
    shiftSlots links s c j = if s ≤ j ∧ j < s + c then links (j + 1) else links j := by
  induction c generalizing links s with
  | zero =>
    rw [shiftSlots, if_neg (by omega)]
  | succ c ih =>
    rw [shiftSlots, ih]
    by_cases h1 : s + 1 ≤ j ∧ j < s + 1 + c
    · rw [if_pos h1, if_pos (by omega), Function.update_noteq (by omega)]
    · rw [if_neg h1]
      by_cases h2 : j = s
      · subst h2
        rw [Function.update_same, if_pos (by omega)]
      · rw [Function.update_noteq h2, if_neg (by omega)]

theorem map_range_eraseIdx {α : Type} (f g : Nat → α) (N i : Nat) (hi : i < N)
    (hg : ∀ j, j < N - 1 → g j = if j < i then f j else f (j + 1)) :
    (List.range (N - 1)).map g = ((List.range N).map f).eraseIdx i := by
  apply List.ext_getElem?
  intro j
  rw [List.getElem?_eraseIdx]
  by_cases hj : j < N - 1
  · rw [List.getElem?_map, List.getElem?_range hj, Option.map_some', hg j hj]
    by_cases hji : j < i
    · rw [if_pos hji, if_pos hji, List.getElem?_map, List.getElem?_range (by omega),
        Option.map_some']
    · rw [if_neg hji, if_neg hji, List.getElem?_map, List.getElem?_range (by omega),
        Option.map_some']
  · rw [List.getElem?_eq_none (by simp; omega)]
    by_cases hji : j < i
    · omega
    · rw [if_neg hji, List.getElem?_eq_none (by simp; omega)]

theorem remove_link_found (n : node R) (l : Option NodePtr) (i : Nat)
    (hfind : (List.range n.num_links).find? (fun i => decide (n.links i = l)) = some i) :
    (n.remove_link l).linkList = n.linkList.eraseIdx i ∧ i < n.num_links ∧ n.links i = l := by
  have h1 := List.find?_range_eq_some.mp hfind
  have hi : i < n.num_links := List.mem_range.mp h1.2.1
  have hl : n.links i = l := by simpa using h1.1
  refine ⟨?_, hi, hl⟩
  unfold node.remove_link
  rw [hfind]
  simp only [node.linkList]
  apply map_range_eraseIdx _ _ _ _ hi
  intro j hj
  rw [Function.update_noteq (by omega), shiftSlots_apply]
  by_cases hji : j < i
  · rw [if_pos hji, if_neg (by omega)]
  · rw [if_neg hji, if_pos (by omega)]

theorem remove_link_spec (n : node R) (l : Option NodePtr) (hnd : n.linkList.Nodup) :
    (n.remove_link l).linkList.Nodup ∧
    ∀ z, z ∈ (n.remove_link l).linkList ↔ z ∈ n.linkList ∧ z ≠ l := by
  cases hfind : (List.range n.num_links).find? (fun i => decide (n.links i = l)) with
  | none =>
    have e : n.remove_link l = n := by
      unfold node.remove_link
      rw [hfind]
    rw [e]
    refine ⟨hnd, fun z => ⟨fun hz => ⟨hz, ?_⟩, fun hz => hz.1⟩⟩
    intro hzl
    subst hzl
    simp only [node.linkList, List.mem_map, List.mem_range] at hz
    obtain ⟨i, hi, hzi⟩ := hz
    have := List.find?_range_eq_none.mp hfind i hi
    simp [hzi] at this
  | some i =>
    obtain ⟨e, hi, hl⟩ := remove_link_found n l i hfind
    have hlen : i < n.linkList.length := by simp [node.linkList, hi]
    have hget : n.linkList[i] = l := by simp [node.linkList, hl]
    rw [e]
    refine ⟨hnd.eraseIdx i, fun z => ?_⟩
    rw [List.mem_eraseIdx_iff_getElem?]
    constructor
    · rintro ⟨j, hji, hj⟩
      refine ⟨List.getElem?_mem hj, ?_⟩
      intro hzl
      obtain ⟨hjl, hj2⟩ := List.getElem?_eq_some.mp hj
      apply hji
      exact (hnd.getElem_inj_iff).mp (by rw [hj2, hget, hzl])
    · rintro ⟨hz, hzl⟩
      obtain ⟨j, hj⟩ := List.mem_iff_getElem?.mp hz
      refine ⟨j, ?_, hj⟩
      intro hji
      subst hji
      obtain ⟨_, hj2⟩ := List.getElem?_eq_some.mp hj
      exact hzl (hj2.symm.trans hget)

theorem add_link_linkList (n : node R) (l : Option NodePtr) (h : n.num_links ≤ MAX_LINKS) :
    (n.add_link l).linkList = n.linkList ++ [l] := by
  unfold node.add_link node.linkList
  simp only [h, if_true, List.range_succ, List.map_append, List.map_cons, List.map_nil,
    Function.update_same]
  congr 1
  apply List.map_congr_left
  intro j hj
  rw [Function.update_noteq (by have := List.mem_range.mp hj; omega)]

theorem linkListOf_update (A : Axon R) (p q : NodePtr) (g : node R → node R) :
    (A.update p g).linkListOf q
      = if q = p then
          (match A.deref q with
            | none => []
            | some n => (g n).linkList)
        else A.linkListOf q := by
  unfold Axon.linkListOf
  rw [deref_update]
  split_ifs
  · cases A.deref q <;> rfl
  · rfl

theorem update_remove_spec (A : Axon R) (p : NodePtr) (l : Option NodePtr)
    (hnd : ∀ q, (A.linkListOf q).Nodup) :
    (∀ q, ((A.update p (fun x => x.remove_link l)).linkListOf q).Nodup) ∧
    ∀ q z, z ∈ (A.update p (fun x => x.remove_link l)).linkListOf q ↔
      z ∈ A.linkListOf q ∧ ¬ (q = p ∧ z = l) := by
  have key : ∀ q, ((A.update p (fun x => x.remove_link l)).linkListOf q).Nodup ∧
      ∀ z, z ∈ (A.update p (fun x => x.remove_link l)).linkListOf q ↔
        z ∈ A.linkListOf q ∧ ¬ (q = p ∧ z = l) := by
    intro q
    rw [linkListOf_update]
    by_cases hq : q = p
    · rw [if_pos hq]
      cases hd : A.deref q with
      | none =>
        simp only [linkListOf_eq_nil_of_dead A q hd]
        exact ⟨List.nodup_nil, fun z => by simp⟩
      | some n =>
        simp only
        have hn := hnd q
        rw [linkListOf_some A q n hd] at hn ⊢
        obtain ⟨h1, h2⟩ := remove_link_spec n l hn
        refine ⟨h1, fun z => ?_⟩
        rw [h2 z]
        exact ⟨fun h => ⟨h.1, fun h3 => h.2 h3.2⟩, fun h => ⟨h.1, fun h3 => h.2 ⟨hq, h3⟩⟩⟩
    · rw [if_neg hq]
      exact ⟨hnd q, fun z => ⟨fun h => ⟨h, fun h3 => hq h3.1⟩, fun h => h.1⟩⟩
  exact ⟨fun q => (key q).1, fun q => (key q).2⟩

theorem break_links_step_inv (A : Axon R) (i j k : Nat) (u : R) (nd : node R)
    (hd : A.deref (i, j) = some nd) (hk : k < nd.num_links)
    (h : A.LinksConsistent) (hs : A.NoSelfLinks) :
    (break_links_step A i j k u).LinksConsistent ∧ (break_links_step A i j k u).NoSelfLinks := by
  unfold break_links_step
  split_ifs with hu
  swap
  · exact ⟨h, hs⟩
  have hslot : A.linkSlot (i, j) k = nd.links k := by simp [Axon.linkSlot, hd]
  have hmem : nd.links k ∈ A.linkListOf (i, j) := by
    rw [linkListOf_some A _ nd hd]
    simp only [node.linkList, List.mem_map, List.mem_range]
    exact ⟨k, hk, rfl⟩
  cases he : nd.links k with
  | none =>
    rw [hslot, he]
    simp only
    rw [hslot, he]
    obtain ⟨s1, s2⟩ := update_remove_spec A (i, j) none h.1
    refine ⟨⟨s1, ?_⟩, ?_⟩
    · intro x y hxy
      have h1 := (s2 x (some y)).mp hxy
      exact (s2 y (some x)).mpr ⟨h.2 x y h1.1, fun h3 => by simp at h3⟩
    · intro x hx
      exact hs x ((s2 x (some x)).mp hx).1
  | some t =>
    rw [he] at hmem
    have hta : t ≠ (i, j) := by
      intro e
      rw [e] at hmem
      exact hs _ hmem
    rw [hslot, he]
    simp only
    have hslot1 : (A.update t (fun x => x.remove_link (some (i, j)))).linkSlot (i, j) k
        = some t := by
      unfold Axon.linkSlot
      rw [deref_update, if_neg (Ne.symm hta), hd]
      exact he
    rw [hslot1]
    obtain ⟨s1, s2⟩ := update_remove_spec A t (some (i, j)) h.1
    obtain ⟨r1, r2⟩ := update_remove_spec (A.update t (fun x => x.remove_link (some (i, j))))
      (i, j) (some t) s1
    refine ⟨⟨r1, ?_⟩, ?_⟩
    · intro x y hxy
      have h1 := (r2 x (some y)).mp hxy
      have h2 := (s2 x (some y)).mp h1.1
      refine (r2 y (some x)).mpr ⟨(s2 y (some x)).mpr ⟨h.2 x y h2.1, ?_⟩, ?_⟩
      · rintro ⟨e1, e2⟩
        apply h1.2
        simp only [Option.some.injEq] at e2
        exact ⟨e2, by rw [e1]⟩
      · rintro ⟨e1, e2⟩
        apply h2.2
        simp only [Option.some.injEq] at e2
        exact ⟨e2, by rw [e1]⟩
    · intro x hx
      exact hs x ((s2 x (some x)).mp ((r2 x (some x)).mp hx).1).1

theorem break_links_k_inv (rand : Nat → R) (i j : Nat) :
    ∀ (fuel k c : Nat) (A : Axon R), A.LinksConsistent → A.NoSelfLinks →
      (break_links_k rand i j fuel k c A).1.LinksConsistent ∧
      (break_links_k rand i j fuel k c A).1.NoSelfLinks := by
  intro fuel
  induction fuel with
  | zero =>
    intro k c A h hs
    exact ⟨h, hs⟩
  | succ fuel ih =>
    intro k c A h hs
    unfold break_links_k
    cases hd : A.deref (i, j) with
    | none => exact ⟨h, hs⟩
    | some nd =>
      simp only
      split_ifs with hk
      · obtain ⟨h1, h2⟩ := break_links_step_inv A i j k (rand c) nd hd hk h hs
        exact ih _ _ _ h1 h2
      · exact ⟨h, hs⟩

theorem foldl_preserves {σ ι : Type} (P : σ → Prop) (f : σ → ι → σ)
    (hf : ∀ s x, P s → P (f s x)) : ∀ (l : List ι) (s : σ), P s → P (l.foldl f s) := by
  intro l
  induction l with
  | nil => intro s hs; exact hs
  | cons a l ih => intro s hs; exact ih _ (hf s a hs)

theorem break_links_inv (rand : Nat → R) (c : Nat) (A : Axon R)
    (h : A.LinksConsistent) (hs : A.NoSelfLinks) :
    (A.break_links rand c).1.LinksConsistent ∧ (A.break_links rand c).1.NoSelfLinks := by
  unfold Axon.break_links
  apply foldl_preserves (fun Ac : Axon R × Nat => Ac.1.LinksConsistent ∧ Ac.1.NoSelfLinks)
  · intro s i hP
    cases s.1.filaments[i]? with
    | none => exact hP
    | some f =>
      simp only
      unfold break_links_j
      apply foldl_preserves (fun Ac : Axon R × Nat => Ac.1.LinksConsistent ∧ Ac.1.NoSelfLinks)
      · intro s1 j hP1
        exact break_links_k_inv rand i j _ _ _ _ hP1.1 hP1.2
      · exact hP
  · exact ⟨h, hs⟩

theorem linkListOf_move (F : Flags) (A : Axon R) (self : NodePtr) (t : Point R) (q : NodePtr) :
    (node.move F A self t).1.linkListOf q = A.linkListOf q := by
  unfold Axon.linkListOf
  rcases move_deref F A self t q with h | ⟨_, h⟩
  · rw [h]
  · rw [h]
    cases A.deref q <;> rfl

theorem linkListOf_link_moved (M : Libm R) (F : Flags) (A : Axon R) (a b : NodePtr)
    (n m : node R) (q : NodePtr) :
    (link_moved M F A a b n m).1.linkListOf q = A.linkListOf q := by
  unfold link_moved
  split_ifs <;> simp only [linkListOf_move]

theorem link_moved_live (M : Libm R) (F : Flags) (A : Axon R) (a b : NodePtr)
    (n m : node R) (q : NodePtr) :
    ((link_moved M F A a b n m).1.deref q).isSome = (A.deref q).isSome := by
  unfold link_moved
  split_ifs <;> simp only [move_live]

theorem update_add_spec (X : Axon R) (p : NodePtr) (l : Option NodePtr)
    (hlive : (X.deref p).isSome = true) (hcap : (X.linkListOf p).length ≤ MAX_LINKS)
    (q : NodePtr) :
    (X.update p (fun x => x.add_link l)).linkListOf q
      = if q = p then X.linkListOf q ++ [l] else X.linkListOf q := by
  rw [linkListOf_update]
  by_cases hq : q = p
  · subst hq
    rw [if_pos rfl, if_pos rfl]
    cases hd : X.deref q with
    | none => rw [hd] at hlive; simp at hlive
    | some n =>
      simp only
      rw [linkListOf_some X q n hd] at hcap ⊢
      exact add_link_linkList n l (by simpa [node.linkList] using hcap)
  · rw [if_neg hq, if_neg hq]

theorem link_inv (M : Libm R) (F : Flags) (A : Axon R) (a b : NodePtr) (u : R)
    (h : A.LinksConsistent) (hs : A.NoSelfLinks) :
    (A.link M F a b u).1.LinksConsistent ∧ (A.link M F a b u).1.NoSelfLinks := by
  cases hda : A.deref a with
  | none =>
    have e : A.link M F a b u = (A, false) := by
      unfold Axon.link
      rw [hda]
    rw [e]
    exact ⟨h, hs⟩
  | some n =>
    cases hdb : A.deref b with
    | none =>
      have e : A.link M F a b u = (A, false) := by
        unfold Axon.link
        rw [hda, hdb]
      rw [e]
      exact ⟨h, hs⟩
    | some m =>
      rcases link_eq M F A a b n m hda hdb u with ⟨_, e⟩ | ⟨hg, e⟩
      · rw [e]
        exact ⟨h, hs⟩
      · rw [e]
        simp only
        have hab : a ≠ b := hg.1.1
        have hmax : (MAX_LINKS : Nat) = 13 := rfl
        have hcn : n.num_links ≤ MAX_LINKS := by
          have := hg.2.2.2.1.1
          omega
        have hcm : m.num_links ≤ MAX_LINKS := by
          have := hg.2.2.2.1.2
          omega
        have hLa : A.linkListOf a = n.linkList := linkListOf_some A a n hda
        have hLb : A.linkListOf b = m.linkList := linkListOf_some A b m hdb
        have hnb : some b ∉ A.linkListOf a := by
          intro hin
          apply hg.2.2.2.2
          rw [hLa] at hin
          simp only [node.linkList, List.mem_map, List.mem_range] at hin
          obtain ⟨i, hi, hi2⟩ := hin
          simp only [node.contains_link, List.any_eq_true, List.mem_range, decide_eq_true_eq]
          exact ⟨i, hi, hi2⟩
        have hna : some a ∉ A.linkListOf b := fun hin => hnb (h.2 b a hin)
        have hX := linkListOf_link_moved M F A a b n m
        have hXl := link_moved_live M F A a b n m
        have h3 := update_add_spec (link_moved M F A a b n m).1 a (some b)
          (by rw [hXl, hda]; rfl) (by rw [hX, hLa]; simpa [node.linkList] using hcn)
        have h4 := update_add_spec
          ((link_moved M F A a b n m).1.update a (fun x => x.add_link (some b))) b (some a)
          (by rw [deref_update, if_neg (Ne.symm hab), hXl, hdb]; rfl)
          (by rw [h3, if_neg (Ne.symm hab), hX, hLb]; simpa [node.linkList] using hcm)
        have hL : ∀ q, (((link_moved M F A a b n m).1.update a
            (fun x => x.add_link (some b))).update b (fun x => x.add_link (some a))).linkListOf q
            = if q = b then A.linkListOf q ++ [some a]
              else if q = a then A.linkListOf q ++ [some b] else A.linkListOf q := by
          intro q
          rw [h4, h3, hX]
          by_cases hqb : q = b
          · rw [if_pos hqb, if_pos hqb, if_neg (by rw [hqb]; exact Ne.symm hab)]
          · rw [if_neg hqb, if_neg hqb]
        have hmem : ∀ q z, z ∈ (((link_moved M F A a b n m).1.update a
            (fun x => x.add_link (some b))).update b (fun x => x.add_link (some a))).linkListOf q
            ↔ z ∈ A.linkListOf q ∨ (q = a ∧ z = some b) ∨ (q = b ∧ z = some a) := by
          intro q z
          rw [hL]
          by_cases hqb : q = b
          · rw [if_pos hqb, List.mem_append, List.mem_singleton]
            constructor
            · rintro (h1 | h1)
              · exact Or.inl h1
              · exact Or.inr (Or.inr ⟨hqb, h1⟩)
            · rintro (h1 | ⟨h1, _⟩ | ⟨_, h1⟩)
              · exact Or.inl h1
              · exact absurd (h1.symm.trans hqb) hab
              · exact Or.inr h1
          · rw [if_neg hqb]
            by_cases hqa : q = a
            · rw [if_pos hqa, List.mem_append, List.mem_singleton]
              constructor
              · rintro (h1 | h1)
                · exact Or.inl h1
                · exact Or.inr (Or.inl ⟨hqa, h1⟩)
              · rintro (h1 | ⟨_, h1⟩ | ⟨h1, _⟩)
                · exact Or.inl h1
                · exact Or.inr h1
                · exact absurd h1 hqb
            · rw [if_neg hqa]
              constructor
              · exact fun h1 => Or.inl h1
              · rintro (h1 | ⟨h1, _⟩ | ⟨h1, _⟩)
                · exact h1
                · exact absurd h1 hqa
                · exact absurd h1 hqb
        refine ⟨⟨?_, ?_⟩, ?_⟩
        · intro q
          rw [hL]
          by_cases hqb : q = b
          · rw [if_pos hqb, hqb]
            exact List.Nodup.append (h.1 b) (List.nodup_singleton _)
              (fun z hz hz2 => hna (by rw [List.mem_singleton] at hz2; rw [← hz2]; exact hz))
          · rw [if_neg hqb]
            by_cases hqa : q = a
            · rw [if_pos hqa, hqa]
              exact List.Nodup.append (h.1 a) (List.nodup_singleton _)
                (fun z hz hz2 => hnb (by rw [List.mem_singleton] at hz2; rw [← hz2]; exact hz))
            · rw [if_neg hqa]
              exact h.1 q
        · intro x y hxy
          rcases (hmem x (some y)).mp hxy with h1 | ⟨h1, h2⟩ | ⟨h1, h2⟩
          · exact (hmem y (some x)).mpr (Or.inl (h.2 x y h1))
          · simp only [Option.some.injEq] at h2
            exact (hmem y (some x)).mpr (Or.inr (Or.inr ⟨h2, by rw [h1]⟩))
          · simp only [Option.some.injEq] at h2
            exact (hmem y (some x)).mpr (Or.inr (Or.inl ⟨h2, by rw [h1]⟩))
        · intro x hx
          rcases (hmem x (some x)).mp hx with h1 | ⟨h1, h2⟩ | ⟨h1, h2⟩
          · exact hs x h1
          · simp only [Option.some.injEq] at h2
            exact hab (h1.symm.trans h2)
          · simp only [Option.some.injEq] at h2
            exact hab (h2.symm.trans h1)

theorem linksNodup_of_check (A : Axon R) (h : A.linksNodupB = true) :
    ∀ p : NodePtr, (A.linkListOf p).Nodup := by
  intro p
  cases hp : A.deref p with
  | none =>
    rw [linkListOf_eq_nil_of_dead A p hp]
    exact List.nodup_nil
  | some nd =>
    simp only [Axon.linksNodupB, List.all_eq_true] at h
    simpa using h p (mem_allPtrs_of_deref A p nd hp)

theorem noSelfLinks_of_check (A : Axon R) (h : A.noSelfLinksB = true) : A.NoSelfLinks := by
  intro p
  cases hp : A.deref p with
  | none =>
    rw [linkListOf_eq_nil_of_dead A p hp]
    exact List.not_mem_nil _
  | some nd =>
    simp only [Axon.noSelfLinksB, List.all_eq_true] at h
    simpa using h p (mem_allPtrs_of_deref A p nd hp)

/-- Link symmetry under the weakest condition the proof uses, that no node is
in its own link list: from a state in which, besides, every node's link list
is duplicate-free and `b` is in `links(a)` exactly when `a` is in `links(b)`,
the same holds after any call of `Axon::link` and after any call of
`Axon::break_links`, for every sequence of random draws. -/
theorem link_symmetry_invariant (M : Libm R) (F : Flags) (A : Axon R)
    (h : A.LinksConsistent) (hs : A.NoSelfLinks) :
    (∀ (a b : NodePtr) (u : R),
      (A.link M F a b u).1.LinksConsistent ∧ (A.link M F a b u).1.NoSelfLinks) ∧
    (∀ (rand : Nat → R) (c : Nat),
      (A.break_links rand c).1.LinksConsistent ∧ (A.break_links rand c).1.NoSelfLinks) :=
  ⟨fun a b u => link_inv M F A a b u h hs, fun rand c => break_links_inv rand c A h hs⟩

/-- On the four-filament axon with links `X–P`, `X–Y`, `Y–Q`: one pass of
`break_links` whose first draw succeeds, and a `link` call on `X` and `Q`. -/
theorem link_symmetry_invariant_witness :
    (skipAxon.linksNodupB = true ∧ skipAxon.linksSymmetricB = true ∧
      skipAxon.noSelfLinksB = true) ∧
    ((skipAxon.link ratLibm flagsOn (0, 1) (3, 1) 0).1.LinksConsistent ∧
      (skipAxon.link ratLibm flagsOn (0, 1) (3, 1) 0).1.NoSelfLinks) ∧
    ((skipAxon.break_links selfRand 0).1.LinksConsistent ∧
      (skipAxon.break_links selfRand 0).1.NoSelfLinks) :=
  ⟨by decide!,
    (link_symmetry_invariant ratLibm flagsOn skipAxon
      ⟨linksNodup_of_check skipAxon (by decide!), linksSymmetric_of_check skipAxon (by decide!)⟩
      (noSelfLinks_of_check skipAxon (by decide!))).1 (0, 1) (3, 1) 0,
    (link_symmetry_invariant ratLibm flagsOn skipAxon
      ⟨linksNodup_of_check skipAxon (by decide!), linksSymmetric_of_check skipAxon (by decide!)⟩
      (noSelfLinks_of_check skipAxon (by decide!))).2 selfRand 0⟩

/-- Outside the data model the invariant needs its third condition: in
`selfAxon`, a state with a node in its own link list that `Axon::link` cannot
produce, the link lists `X: [X, Y]`, `Y: [X]` are duplicate-free and symmetric;
`break_links` with a first successful draw removes `X` from its own list and
then reads slot 0 again, now `Y`, and removes it from the list of `X` only.
Afterwards `X` is in the list of `Y` and `Y` is not in the list of `X`. -/
theorem break_links_breaks_symmetry :
    selfAxon.LinksConsistent ∧
    selfAxon.linkListOf (0, 1) = [some (0, 1), some (1, 1)] ∧
    selfAxon.linkListOf (1, 1) = [some (0, 1)] ∧
    (selfAxon.break_links selfRand 0).1.linkListOf (0, 1) = [] ∧
    (selfAxon.break_links selfRand 0).1.linkListOf (1, 1) = [some (0, 1)] ∧
    ¬ (selfAxon.break_links selfRand 0).1.LinksConsistent := by
  refine ⟨⟨linksNodup_of_check selfAxon (by decide!),
    linksSymmetric_of_check selfAxon (by decide!)⟩, by decide!, by decide!, by decide!,
    by decide!, ?_⟩
  intro hc
  have h1 := hc.2 (1, 1) (0, 1) (by decide!)
  revert h1
  decide!

end InvariantFacts

section GrowthRun
variable {R : Type} [LinearOrderedField R] [FloorRing R]

theorem sqrt_of_exactAt_sq (M : Libm R) (z : R) (hz : 0 < z) (h : M.exactAt (z * z)) :
    M.sqrt (z * z) = z := by
  have h1 := h.1
  have h2 := h.2
  have h3 : (M.sqrt (z * z) - z) * (M.sqrt (z * z) + z) = 0 := by linear_combination h2
  rcases mul_eq_zero.mp h3 with h4 | h4
  · linarith
  · linarith

theorem sqrt_one_of_exactAt (M : Libm R) (h : M.exactAt 1) : M.sqrt 1 = 1 := by
  have := sqrt_of_exactAt_sq M 1 one_pos (by rw [mul_one]; exact h)
  rwa [mul_one] at this

theorem normalize_axis (M : Libm R) (z : R) (hz : 0 < z) (h : M.exactAt (z * z)) :
    (⟨0, 0, z⟩ : Point R).normalize M = ⟨0, 0, 1⟩ := by
  simp only [Point.normalize, Point.norm, Point.scale, mul_zero, zero_mul, zero_add,
    sqrt_of_exactAt_sq M z hz h, Point.mk.injEq, true_and]
  exact mul_one_div_cancel (ne_of_gt hz)

theorem rotate_sample_axis (M : Libm R) (h : M.exactAt 1) (z : R) (q1 q2 : Point R) :
    rotate_sample M ⟨0, 0, z⟩ q1 q2 ⟨0, 0, 1⟩ = ⟨0, 0, z⟩ := by
  simp only [rotate_sample, Point.normalize, Point.norm, Point.scale, Point.sum, mul_zero,
    zero_mul, zero_add, add_zero, mul_one, sqrt_one_of_exactAt M h, div_one, one_mul]

theorem delta_tip_straight (M : Libm R) (T : Trig R) (f : Filament R) (d : GrowDraws R) (n : Nat)
    (hsq : M.exactAt ((MEAN_LEN_GROWTH : R) * MEAN_LEN_GROWTH)) (hsq1 : M.exactAt 1)
    (hT : T.sin 0 = 0 ∧ T.cos 0 = 1)
    (hd : d.gauss_len = 0 ∧ d.gauss_theta = 0)
    (hlen : f.nodes.length = n + 1)
    (hpts : ∀ k, k ≤ n → ∃ nd : node R, f.nodes[k]? = some nd ∧
      nd.point = ⟨0, 0, (k : R) * MEAN_LEN_GROWTH⟩ ∧ nd.num_links = 0) :
    f.delta_tip M T d = ⟨0, 0, MEAN_LEN_GROWTH⟩ := by
  have hm : (0 : R) < MEAN_LEN_GROWTH := by unfold MEAN_LEN_GROWTH; norm_num
  unfold Filament.delta_tip Filament.num_nodes
  simp only [hd.1, hd.2, hT.1, hT.2, zero_add, mul_zero, zero_mul, mul_one, hlen]
  split_ifs with h2
  · have hn : 1 ≤ n := by omega
    obtain ⟨nd1, h11, h12, _⟩ := hpts n (le_refl _)
    obtain ⟨nd0, h01, h02, _⟩ := hpts (n - 1) (by omega)
    have e1 : n + 1 - 1 = n := by omega
    have e0 : n + 1 - 2 = n - 1 := by omega
    rw [e1, e0]
    simp only [List.getD_eq_getElem?_getD, h11, h01, Option.getD_some, h12, h02]
    have hdiff : Point.difference (⟨0, 0, (n : R) * MEAN_LEN_GROWTH⟩ : Point R)
        ⟨0, 0, ((n - 1 : Nat) : R) * MEAN_LEN_GROWTH⟩ = ⟨0, 0, MEAN_LEN_GROWTH⟩ := by
      simp only [Point.difference, sub_self, Point.mk.injEq, true_and]
      rw [Nat.cast_sub hn]
      push_cast
      ring
    rw [hdiff, normalize_axis M _ hm hsq]
    exact rotate_sample_axis M hsq1 _ _ _
  · rfl

theorem seeded_in_range (radius length0 : R) (fid : Int) (z : R) (hr : 0 < radius)
    (hz0 : 0 ≤ z) (hz : z < length0) (gid : GridId) :
    ((Axon.seeded radius length0 fid).grid gid).in_range
      (((Axon.seeded radius length0 fid).grid gid).point_to_indices ⟨0, 0, z⟩) = true := by
  have key : (Grid3D.init (-radius) radius (-radius) radius 0 length0 100 100 100).in_range
      ((Grid3D.init (-radius) radius (-radius) radius 0 length0 100 100
        100).point_to_indices ⟨0, 0, z⟩) = true := by
    simp only [Grid3D.in_range, Grid3D.point_to_indices, Grid3D.init, Bool.and_eq_true,
      decide_eq_true_eq, sub_neg_eq_add, zero_add, sub_zero, ge_iff_le]
    have h100 : (0 : R) < 100 := by norm_num
    have ht : 0 < radius / 100 := div_pos hr h100
    have hx : Int.floor (radius / 100) < Int.ceil ((radius + radius) / 100) := by
      rw [Int.lt_ceil]
      have := Int.floor_le (radius / 100)
      have e : (radius + radius) / 100 = radius / 100 + radius / 100 := by ring
      rw [e]
      linarith
    have hx0 : 0 ≤ Int.floor (radius / 100) := Int.floor_nonneg.mpr (le_of_lt ht)
    have hk : Int.floor (z / 100) < Int.ceil (length0 / 100) := by
      rw [Int.lt_ceil]
      have := Int.floor_le (z / 100)
      have : z / 100 < length0 / 100 := div_lt_div_of_pos_right hz h100
      linarith
    have hk0 : 0 ≤ Int.floor (z / 100) := Int.floor_nonneg.mpr (div_nonneg hz0 (le_of_lt h100))
    exact ⟨⟨⟨⟨⟨hx, hx0⟩, hx⟩, hx0⟩, hk⟩, hk0⟩
  cases gid
  · exact key
  · exact key

theorem seeded_in_cylinder_axis (radius length0 : R) (fid : Int) (z : R) :
    (Axon.seeded radius length0 fid).in_cylinder ⟨0, 0, z⟩ = true := by
  unfold Axon.in_cylinder
  simp only [mul_zero, add_zero]
  rw [if_neg]
  intro h
  nlinarith [h.1, mul_self_nonneg ((Axon.seeded radius length0 fid).r - LINK_INTERACTION_LEN)]

theorem grow_straight (f : Filament R) (n : Nat) (hcap : n + 1 < MAX_NODES)
    (hlen : f.nodes.length = n + 1)
    (hpts : ∀ k, k ≤ n → ∃ nd : node R, f.nodes[k]? = some nd ∧
      nd.point = ⟨0, 0, (k : R) * MEAN_LEN_GROWTH⟩ ∧ nd.num_links = 0) :
    (f.grow 0 ⟨0, 0, MEAN_LEN_GROWTH⟩).nodes.length = n + 2 ∧
    ∀ k, k ≤ n + 1 → ∃ nd : node R, (f.grow 0 ⟨0, 0, MEAN_LEN_GROWTH⟩).nodes[k]? = some nd ∧
      nd.point = ⟨0, 0, (k : R) * MEAN_LEN_GROWTH⟩ ∧ nd.num_links = 0 := by
  obtain ⟨ndn, hn1, hn2, _⟩ := hpts n (le_refl _)
  unfold Filament.grow Filament.num_nodes
  rw [if_neg (by rw [hlen]; omega), if_neg (by rw [hlen]; omega)]
  simp only [hlen, Nat.add_sub_cancel, List.getD_eq_getElem?_getD, hn1, Option.getD_some, hn2]
  refine ⟨by rw [List.length_append, List.length_modify, hlen]; rfl, ?_⟩
  intro k hk
  by_cases hkn : k ≤ n
  · obtain ⟨nd, h1, h2, h3⟩ := hpts k hkn
    rw [List.getElem?_append_left (by rw [List.length_modify, hlen]; omega),
      List.getElem?_modify, h1]
    simp only [Option.map_eq_map, Option.map_some']
    split_ifs
    · exact ⟨_, rfl, h2, h3⟩
    · exact ⟨_, rfl, h2, h3⟩
  · have e : k = n + 1 := by omega
    subst e
    rw [List.getElem?_append_right (by rw [List.length_modify, hlen]), List.length_modify, hlen,
      Nat.sub_self]
    refine ⟨_, rfl, ?_, rfl⟩
    simp only [node.init, Point.sum, zero_add, List.getElem_cons_zero, Point.mk.injEq, true_and]
    push_cast
    ring

theorem grow_filaments_straight (M : Libm R) (T : Trig R) (F : Flags) (rand : Nat → R)
    (draws : Nat → GrowDraws R) (radius length0 : R) (fid : Int) (A : Axon R) (n c : Nat)
    (hF : F.FORM_LINKS = false ∧ F.COLLISIONS = false) (hr : 0 < radius)
    (hz : ((n + 1 : Nat) : R) * MEAN_LEN_GROWTH < length0) (hcap : n + 1 < MAX_NODES)
    (hsq : M.exactAt ((MEAN_LEN_GROWTH : R) * MEAN_LEN_GROWTH)) (hsq1 : M.exactAt 1)
    (hT : T.sin 0 = 0 ∧ T.cos 0 = 1)
    (hd : ∀ i, (draws i).gauss_len = 0 ∧ (draws i).gauss_theta = 0 ∧
      0 ≤ (draws i).u_index ∧ (draws i).u_index < 1)
    (hS : Axon.Straight radius length0 fid A n) :
    Axon.Straight radius length0 fid (A.grow_filaments M T F rand draws c).1 (n + 1) := by
  obtain ⟨f, hfil, hlen, hpts, hframe⟩ := hS
  have hm : (0 : R) < MEAN_LEN_GROWTH := by unfold MEAN_LEN_GROWTH; norm_num
  obtain ⟨ndn, hn1, hn2, _⟩ := hpts n (le_refl _)
  have hidx : Int.floor ((draws 0).u_index) = 0 :=
    Int.floor_eq_zero_iff.mpr ⟨(hd 0).2.2.1, (hd 0).2.2.2⟩
  have hf0 : A.filaments[(0 : Nat)]? = some f := by rw [hfil]; rfl
  have htip : A.tipOf 0 = ⟨0, 0, (n : R) * MEAN_LEN_GROWTH⟩ := by
    unfold Axon.tipOf Filament.num_nodes
    rw [hf0]
    simp only [hlen, Nat.add_sub_cancel, List.getD_eq_getElem?_getD, hn1, Option.getD_some, hn2]
  have hnew : Point.sum (⟨0, 0, (n : R) * MEAN_LEN_GROWTH⟩ : Point R) ⟨0, 0, MEAN_LEN_GROWTH⟩
      = ⟨0, 0, ((n + 1 : Nat) : R) * MEAN_LEN_GROWTH⟩ := by
    simp only [Point.sum, zero_add, Point.mk.injEq, true_and]
    push_cast
    ring
  have hz0 : (0 : R) ≤ ((n + 1 : Nat) : R) * MEAN_LEN_GROWTH :=
    mul_nonneg (Nat.cast_nonneg _) (le_of_lt hm)
  have hmay : A.may_grow M F 0 ⟨0, 0, MEAN_LEN_GROWTH⟩ = true := by
    unfold Axon.may_grow
    rw [hf0]
    simp only [htip, hnew, hF.2, Bool.false_and, Bool.not_false, Bool.and_true,
      Bool.and_eq_true]
    have h1 := hframe.1 ⟨0, 0, ((n + 1 : Nat) : R) * MEAN_LEN_GROWTH⟩
    have h2 := seeded_in_range radius length0 fid _ hr hz0 hz GridId.link
    have h3 := seeded_in_range radius length0 fid _ hr hz0 hz GridId.collide
    rw [← hframe.2.1 GridId.link, ← hframe.2.2 GridId.link] at h2
    rw [← hframe.2.1 GridId.collide, ← hframe.2.2 GridId.collide] at h3
    rw [seeded_in_cylinder_axis] at h1
    exact ⟨⟨h1, h2⟩, h3⟩
  obtain ⟨hg1, hg2⟩ := grow_straight f n hcap hlen hpts
  have hnf : A.filaments.length = 1 := by rw [hfil]; rfl
  unfold Axon.grow_filaments Axon.num_filaments
  simp only [hnf, List.range_succ, List.range_zero, List.nil_append, List.foldl_cons,
    List.foldl_nil]
  unfold Axon.grow_pass Axon.num_filaments
  simp only [hnf, Nat.cast_one, one_mul, hidx, lt_self_iff_false, if_false, Int.toNat_zero, hf0]
  rw [delta_tip_straight M T f (draws 0) n hsq hsq1 hT ⟨(hd 0).1, (hd 0).2.1⟩ hlen hpts]
  unfold Axon.grow_attempt
  rw [if_pos hmay]
  simp only [hF.1, Bool.false_eq_true, if_false]
  refine ⟨f.grow 0 ⟨0, 0, MEAN_LEN_GROWTH⟩, ?_, hg1, hg2, ?_⟩
  · show A.filaments.modify _ 0 = _
    rw [hfil]
    rfl
  · refine ⟨fun p => hframe.1 p, fun gid p => ?_, fun gid c => ?_⟩
    · rw [← hframe.2.1 gid p]
      cases gid
      · dsimp only [Axon.grid]
        exact (add_node_frame A.link_grid _ _).1 p
      · dsimp only [Axon.grid]
        exact (add_node_frame A.collide_grid _ _).1 p
    · rw [← hframe.2.2 gid c]
      cases gid
      · dsimp only [Axon.grid]
        exact (add_node_frame A.link_grid _ _).2 c
      · dsimp only [Axon.grid]
        exact (add_node_frame A.collide_grid _ _).2 c

theorem seeded_straight (radius length0 : R) (fid : Int) :
    Axon.Straight radius length0 fid (Axon.seeded radius length0 fid) 0 := by
  refine ⟨⟨[node.init ⟨0, 0, 0⟩ fid], fid⟩, rfl, rfl, ?_, ?_⟩
  · intro k hk
    have e : k = 0 := by omega
    subst e
    refine ⟨node.init ⟨0, 0, 0⟩ fid, rfl, ?_, rfl⟩
    simp [node.init]
  · exact ⟨fun _ => rfl, fun _ _ => rfl, fun _ _ => rfl⟩

theorem grow_calls_straight (M : Libm R) (T : Trig R) (F : Flags) (rands : Nat → Nat → R)
    (draws : Nat → Nat → GrowDraws R) (radius length0 : R) (fid : Int)
    (hF : F.FORM_LINKS = false ∧ F.COLLISIONS = false) (hr : 0 < radius)
    (hsq : M.exactAt ((MEAN_LEN_GROWTH : R) * MEAN_LEN_GROWTH)) (hsq1 : M.exactAt 1)
    (hT : T.sin 0 = 0 ∧ T.cos 0 = 1)
    (hd : ∀ k i, (draws k i).gauss_len = 0 ∧ (draws k i).gauss_theta = 0 ∧
      0 ≤ (draws k i).u_index ∧ (draws k i).u_index < 1) :
    ∀ N : Nat, (N : R) * MEAN_LEN_GROWTH < length0 → N + 1 ≤ MAX_NODES →
      Axon.Straight radius length0 fid
        (Axon.grow_calls M T F rands draws N (Axon.seeded radius length0 fid)) N := by
  have hm : (0 : R) < MEAN_LEN_GROWTH := by unfold MEAN_LEN_GROWTH; norm_num
  intro N
  induction N with
  | zero =>
    intro _ _
    exact seeded_straight radius length0 fid
  | succ N ih =>
    intro hN hcap
    have hN1 : (N : R) * MEAN_LEN_GROWTH < length0 := by
      have : (N : R) * MEAN_LEN_GROWTH ≤ ((N + 1 : Nat) : R) * MEAN_LEN_GROWTH := by
        push_cast
        nlinarith
      linarith
    exact grow_filaments_straight M T F (rands N) (draws N) radius length0 fid _ N 0 hF hr hN
      (by omega) hsq hsq1 hT (hd N) (ih hN1 (by omega))

/-- C30 (amended). End-to-end straight growth: for an axon of positive radius
holding one filament seeded on the axis at `(0,0,0)`, with link formation and
collision checking off, step length fixed at `MEAN_LEN_GROWTH`, deviation
angle `θ = 0`, `N · MEAN_LEN_GROWTH` below the axon length and
`N + 1 ≤ MAX_NODES`, after `N` calls of `Axon::grow_filaments` the filament
has `N + 1` nodes, node `k` is at `(0, 0, k · MEAN_LEN_GROWTH)` for every `k`,
every node satisfies `in_cylinder`, and no node has a link (`sqrt` exact at
`MEAN_LEN_GROWTH²` and at 1, `sin 0 = 0`, `cos 0 = 1`). -/
theorem straight_growth (M : Libm R) (T : Trig R) (F : Flags) (rands : Nat → Nat → R)
    (draws : Nat → Nat → GrowDraws R) (radius length0 : R) (fid : Int) (N : Nat)
    (hF : F.FORM_LINKS = false ∧ F.COLLISIONS = false) (hr : 0 < radius)
    (hN : (N : R) * MEAN_LEN_GROWTH < length0) (hcap : N + 1 ≤ MAX_NODES)
    (hsq : M.exactAt ((MEAN_LEN_GROWTH : R) * MEAN_LEN_GROWTH)) (hsq1 : M.exactAt 1)
    (hT : T.sin 0 = 0 ∧ T.cos 0 = 1)
    (hd : ∀ k i, (draws k i).gauss_len = 0 ∧ (draws k i).gauss_theta = 0 ∧
      0 ≤ (draws k i).u_index ∧ (draws k i).u_index < 1) :
    ∃ f : Filament R,
      (Axon.grow_calls M T F rands draws N (Axon.seeded radius length0 fid)).filaments = [f] ∧
      f.num_nodes = N + 1 ∧
      ∀ k, k ≤ N → ∃ nd : node R, f.nodes[k]? = some nd ∧
        nd.point = ⟨0, 0, (k : R) * MEAN_LEN_GROWTH⟩ ∧
        (Axon.grow_calls M T F rands draws N (Axon.seeded radius length0 fid)).in_cylinder
          nd.point = true ∧
        nd.num_links = 0 ∧ nd.linkList = [] := by
  obtain ⟨f, h1, h2, h3, h4⟩ :=
    grow_calls_straight M T F rands draws radius length0 fid hF hr hsq hsq1 hT hd N hN hcap
  refine ⟨f, h1, h2, fun k hk => ?_⟩
  obtain ⟨nd, e1, e2, e3⟩ := h3 k hk
  refine ⟨nd, e1, e2, ?_, e3, ?_⟩
  · rw [h4.1, e2]
    exact seeded_in_cylinder_axis radius length0 fid _
  · simp [node.linkList, e3]

/-- Witness of C30 (amended): three calls on the axon of radius 2 and length
2 give the nodes `(0,0,0)`, `(0,0,1/10)`, `(0,0,2/10)`, `(0,0,3/10)`. -/
theorem straight_growth_witness :
    ((0 : ℚ) < 2 ∧ ((3 : Nat) : ℚ) * MEAN_LEN_GROWTH < 2 ∧ 3 + 1 ≤ MAX_NODES ∧
      ratLibm.sqrt ((MEAN_LEN_GROWTH : ℚ) * MEAN_LEN_GROWTH) = MEAN_LEN_GROWTH ∧
      ratLibm.sqrt 1 = 1 ∧ ratTrig.sin 0 = 0 ∧ ratTrig.cos 0 = 1) ∧
    ∃ f : Filament ℚ,
      (Axon.grow_calls ratLibm ratTrig flagsGrowOnly (fun _ _ => 0) straightDraws 3
        (Axon.seeded 2 2 0)).filaments = [f] ∧
      f.num_nodes = 3 + 1 ∧
      ∀ k : Nat, k ≤ 3 → ∃ nd : node ℚ, f.nodes[k]? = some nd ∧
        nd.point = ⟨0, 0, ((k : Nat) : ℚ) * MEAN_LEN_GROWTH⟩ ∧
        (Axon.grow_calls ratLibm ratTrig flagsGrowOnly (fun _ _ => 0) straightDraws 3
          (Axon.seeded 2 2 0)).in_cylinder nd.point = true ∧
        nd.num_links = 0 ∧ nd.linkList = [] :=
  ⟨by decide!,
    straight_growth ratLibm ratTrig flagsGrowOnly (fun _ _ => 0) straightDraws 2 2 0 3
      ⟨rfl, rfl⟩ (by decide!) (by decide!) (by decide) (by unfold Libm.exactAt; decide!)
      (by unfold Libm.exactAt; decide!) (by decide!)
      (fun _ _ => ⟨rfl, rfl, show (0 : ℚ) ≤ 1 / 2 by decide!, show (1 / 2 : ℚ) < 1 by decide!⟩)⟩

/-- C30 as stated fails for an axon of radius 0: its grids have no cell, the
test `link_grid.in_range` of `grow_filaments` fails for every point, and after
one call the filament still has its seed only, although
`1 · MEAN_LEN_GROWTH` is below the length 1. -/
theorem no_growth_in_thin_axon :
    ((1 : Nat) : ℚ) * MEAN_LEN_GROWTH < 1 ∧
    (Axon.seeded (0 : ℚ) 1 0).filaments.map Filament.num_nodes = [1] ∧
    (Axon.seeded (0 : ℚ) 1 0).link_grid.isize = 0 ∧
    (Axon.grow_calls ratLibm ratTrig flagsGrowOnly (fun _ _ => 0) straightDraws 1
      (Axon.seeded 0 1 0)).filaments.map Filament.num_nodes = [1] := by
  decide!

end GrowthRun

/-! ### Link array bounds, symmetry of the collision test, link probability -/

section LateFacts

/-- C39. On a node with `num_links = MAX_LINKS = 13` (reached through
`Axon::link` from 12 links), `node::remove_link` of a link the node holds
writes `links[num_links] = links[13]`, a slot outside `0..MAX_LINKS-1`: the
claim fails. -/
theorem remove_link_writes_past_array :
    fullNode.num_links ≤ MAX_LINKS ∧
    fullNode.contains_link (some (1, 1)) = true ∧
    13 ∈ fullNode.remove_link_slots (some (1, 1)) ∧
    ¬ (13 < MAX_LINKS) ∧
    (fullNode.remove_link (some (1, 1))).links 13 = none ∧
    fullNode.links 13 = some (14, 1) ∧
    (fullNode.remove_link (some (1, 1))).num_links = 12 := by
  decide!

/-- C38. `Axon::collision` depends on the order of its two segments: for
`[s,e]` from `(-2,-2,0)` to `(-2,-1,0)`, `[p,q]` from `(-2,1,0)` to
`(2,-2,0)` and `r = 9/10`, `collision(s,e,p,q,r)` is false (it measures the
distance 2) and `collision(p,q,s,e,r)` is true (it measures `8/5 < 2r`). All
square roots taken are exact. -/
theorem collision_not_symmetric :
    ratLibm.sqrt 1 = 1 ∧ ratLibm.sqrt 25 = 5 ∧ ratLibm.sqrt 4 = 2 ∧
    ratLibm.sqrt (64 / 25) = 8 / 5 ∧
    (Point.difference sym_e sym_s).norm ratLibm = 1 ∧
    (Point.difference sym_q sym_p).norm ratLibm = 5 ∧
    Axon.collision ratLibm sym_s sym_e sym_p sym_q (9 / 10) = false ∧
    Axon.collision ratLibm sym_p sym_q sym_s sym_e (9 / 10) = true := by
  decide!

/-- The body of `Axon::seek_links_for_node` does not read its `link_prob`
argument: called with `link_prob = 0`, a value no call in the program passes,
on the new node `(1,1)` of `freeAxon (1/20)` with every draw `0`, it links the
node to `(0,1)`: the trial is made against the constant `LINK_FORM_PROB` inside
`Axon::link`. -/
theorem seek_links_ignores_link_prob :
    (freeAxon (1 / 20)).linkListOf (1, 1) = [] ∧
    (freeAxon (1 / 20)).linkListOf (0, 1) = [] ∧
    ¬ ((0 : ℚ) < 0) ∧
    ((freeAxon (1 / 20)).seek_links_for_node ratLibm flagsOn (fun _ => 0) (1, 1)
      LINK_LEN 0 0).1.linkListOf (1, 1) = [some (0, 1)] ∧
    ((freeAxon (1 / 20)).seek_links_for_node ratLibm flagsOn (fun _ => 0) (1, 1)
      LINK_LEN 0 0).1.linkListOf (0, 1) = [some (1, 1)] := by
  decide!

end LateFacts

/-! ### The proposed displacement lies in the plane of the frame -/

section FrameFacts
variable {R : Type} [LinearOrderedField R] [FloorRing R]

theorem dot_scale_left (p v : Point R) (c : R) : Point.dot (p.scale c) v = c * Point.dot p v := by
  simp only [Point.dot, Point.scale]
  ring

theorem dot_sum_left (p q v : Point R) :
    Point.dot (Point.sum p q) v = Point.dot p v + Point.dot q v := by
  simp only [Point.dot, Point.sum]
  ring

theorem dot_cross_left (a b : Point R) : Point.dot (Point.cross a b) a = 0 := by
  simp only [Point.dot, Point.cross]
  ring

theorem dot_cross_right (a b : Point R) : Point.dot (Point.cross a b) b = 0 := by
  simp only [Point.dot, Point.cross]
  ring

theorem dot_rotate_sample_plane (M : Libm R) (a b : R) (q1 q2 q3 v : Point R)
    (h1 : Point.dot q1 v = 0) (h2 : Point.dot q2 v = 0) :
    Point.dot
      (rotate_sample M ⟨a, b, 0⟩ (q1.normalize M) (q2.normalize M) (q3.normalize M)) v = 0 := by
  simp only [rotate_sample, Point.normalize, dot_sum_left, dot_scale_left, h1, h2, mul_zero,
    zero_mul, add_zero]

/-- The displacement `fluct_proposed` has no component along the third axis
of the frame: for an interior node it is orthogonal to `up.point − down.point`,
for a tip node to `point − down.point`, for every 2D sample `(a, b)`. Where a
vector of the frame has norm 0 this is the zero displacement of the field
division `1/0 = 0`; `fluct_proposed_checked` follows the division there. -/
theorem fluct_proposed_orthogonal (M : Libm R) (A : Axon R) (this : node R) (xy : R × R) :
    (∀ up down : node R, this.up.bind A.deref = some up → this.down.bind A.deref = some down →
      ∃ proposed, fluct_proposed M A this xy = some proposed ∧
        Point.dot proposed (Point.difference up.point down.point) = 0) ∧
    (∀ down dd : node R, this.up.bind A.deref = none → this.down.bind A.deref = some down →
      down.down.bind A.deref = some dd →
      ∃ proposed, fluct_proposed M A this xy = some proposed ∧
        Point.dot proposed (Point.difference this.point down.point) = 0) := by
  constructor
  · intro up down hu hd
    unfold fluct_proposed fluct_frame
    rw [hu, hd]
    refine ⟨_, rfl, ?_⟩
    exact dot_rotate_sample_plane M xy.1 xy.2 _ _ _ _ (dot_cross_left _ _)
      (dot_cross_left _ _)
  · intro down dd hu hd hdd
    unfold fluct_proposed fluct_frame
    rw [hu, hd]
    simp only [hdd]
    refine ⟨_, rfl, ?_⟩
    exact dot_rotate_sample_plane M xy.1 xy.2 _ _ _ _ (dot_cross_right _ _)
      (dot_cross_right _ _)

/-- On the bent filament `fluctAxon 1`: the interior node
`(0, 1/2, 1)` between `(0,0,1)` and `(3/2, 1/2, 1)`, and the tip. -/
theorem fluct_proposed_orthogonal_witness :
    ((fluctAxon 1).deref (0, 1) = some bendMid ∧ (fluctAxon 1).deref (0, 2) = some bendTip ∧
      (fluctAxon 1).deref (0, 0) = some bendSeed) ∧
    (∃ proposed, fluct_proposed ratLibm (fluctAxon 1) bendMid (1, 2) = some proposed ∧
      Point.dot proposed (Point.difference bendTip.point bendSeed.point) = 0) ∧
    (∃ proposed, fluct_proposed ratLibm (fluctAxon 1) bendTip (1, 2) = some proposed ∧
      Point.dot proposed (Point.difference bendTip.point bendMid.point) = 0) :=
  ⟨⟨rfl, rfl, rfl⟩,
    (fluct_proposed_orthogonal ratLibm (fluctAxon 1) bendMid (1, 2)).1 bendTip bendSeed rfl rfl,
    (fluct_proposed_orthogonal ratLibm (fluctAxon 1) bendTip (1, 2)).2 bendMid bendSeed rfl rfl
      rfl⟩

/-! ### Neighbour search: nearby points are in adjacent cells -/

theorem floor_near (a b : R) (h : |a - b| ≤ 1) : |Int.floor a - Int.floor b| ≤ 1 := by
  have h1 := abs_le.mp h
  have ha := Int.floor_le a
  have hb := Int.floor_le b
  have ha1 := Int.lt_floor_add_one a
  have hb1 := Int.lt_floor_add_one b
  have e1 : ((Int.floor a : Int) : R) < ((Int.floor b + 2 : Int) : R) := by
    push_cast
    linarith [h1.1, h1.2]
  have e2 : ((Int.floor b : Int) : R) < ((Int.floor a + 2 : Int) : R) := by
    push_cast
    linarith [h1.1, h1.2]
  have f1 := Int.cast_lt.mp e1
  have f2 := Int.cast_lt.mp e2
  rw [abs_le]
  constructor <;> omega

theorem coord_near (m step L x y : R) (hL : 0 < L) (hs : L ≤ step) (h : (x - y) * (x - y) ≤ L * L) :
    |Int.floor ((x - m) / step) - Int.floor ((y - m) / step)| ≤ 1 := by
  apply floor_near
  have hstep : 0 < step := lt_of_lt_of_le hL hs
  have habs : |x - y| ≤ L :=
    abs_le.mpr (abs_le_of_sq_le_sq' (by nlinarith) (le_of_lt hL))
  have e : (x - m) / step - (y - m) / step = (x - y) / step := by
    field_simp
  rw [e, abs_div, abs_of_pos hstep, div_le_one hstep]
  linarith

theorem offset_of_near (a b : Int) (h : |b - a| ≤ 1) :
    ∃ o ∈ ([-1, 0, 1] : List Int), b = a + o := by
  have h1 := abs_le.mp h
  refine ⟨b - a, ?_, by omega⟩
  have : b - a = -1 ∨ b - a = 0 ∨ b - a = 1 := by omega
  rcases this with e | e | e <;> simp [e]

/-- In exact arithmetic (no rounding of the difference and of the quotient),
in a grid whose steps are all at least `L > 0`, two points at Euclidean
distance at most `L` (squared distance at most `L²`) have cells whose indices
differ by at most 1 on each axis, so the cell of the second is one of the
3×3×3 cells `(i+o_i, j+o_j, k+o_k)`, offsets in `-1..1`, that
`Axon::seek_links_for_node` scans around the cell `(i, j, k)` of the first. -/
theorem point_to_indices_near (g : Grid3D R) (L : R) (hL : 0 < L) (hx : L ≤ g.xstep)
    (hy : L ≤ g.ystep) (hz : L ≤ g.zstep) (p q : Point R) (hd : distSq p q ≤ L * L) :
    (|(g.point_to_indices q).i - (g.point_to_indices p).i| ≤ 1 ∧
      |(g.point_to_indices q).j - (g.point_to_indices p).j| ≤ 1 ∧
      |(g.point_to_indices q).k - (g.point_to_indices p).k| ≤ 1) ∧
    ∃ oi ∈ ([-1, 0, 1] : List Int), ∃ oj ∈ ([-1, 0, 1] : List Int),
      ∃ ok ∈ ([-1, 0, 1] : List Int),
        g.point_to_indices q = ⟨(g.point_to_indices p).i + oi, (g.point_to_indices p).j + oj,
          (g.point_to_indices p).k + ok⟩ := by
  simp only [distSq, Point.dot, Point.difference] at hd
  have h1 : (q.x - p.x) * (q.x - p.x) ≤ L * L := by
    nlinarith [mul_self_nonneg (p.y - q.y), mul_self_nonneg (p.z - q.z)]
  have h2 : (q.y - p.y) * (q.y - p.y) ≤ L * L := by
    nlinarith [mul_self_nonneg (p.x - q.x), mul_self_nonneg (p.z - q.z)]
  have h3 : (q.z - p.z) * (q.z - p.z) ≤ L * L := by
    nlinarith [mul_self_nonneg (p.x - q.x), mul_self_nonneg (p.y - q.y)]
  have k1 := coord_near g.minx g.xstep L q.x p.x hL hx h1
  have k2 := coord_near g.miny g.ystep L q.y p.y hL hy h2
  have k3 := coord_near g.minz g.zstep L q.z p.z hL hz h3
  refine ⟨⟨k1, k2, k3⟩, ?_⟩
  obtain ⟨oi, hoi, ei⟩ := offset_of_near _ _ k1
  obtain ⟨oj, hoj, ej⟩ := offset_of_near _ _ k2
  obtain ⟨ok, hok, ek⟩ := offset_of_near _ _ k3
  refine ⟨oi, hoi, oj, hoj, ok, hok, ?_⟩
  simp only [Grid3D.point_to_indices] at ei ej ek ⊢
  rw [← ei, ← ej, ← ek]

/-- On the link grid of `axon0` (steps 100) with `L = 1/10`: the points
`(0,0,1/10)` and `(1/20,0,1/10)`. -/
theorem point_to_indices_near_witness :
    ((0 : ℚ) < 1 / 10 ∧ (1 / 10 : ℚ) ≤ axon0.link_grid.xstep ∧
      (1 / 10 : ℚ) ≤ axon0.link_grid.ystep ∧ (1 / 10 : ℚ) ≤ axon0.link_grid.zstep ∧
      distSq (⟨0, 0, 1 / 10⟩ : Point ℚ) ⟨1 / 20, 0, 1 / 10⟩ ≤ 1 / 10 * (1 / 10)) ∧
    ∃ oi ∈ ([-1, 0, 1] : List Int), ∃ oj ∈ ([-1, 0, 1] : List Int),
      ∃ ok ∈ ([-1, 0, 1] : List Int),
        axon0.link_grid.point_to_indices ⟨1 / 20, 0, 1 / 10⟩
          = ⟨(axon0.link_grid.point_to_indices ⟨0, 0, 1 / 10⟩).i + oi,
            (axon0.link_grid.point_to_indices ⟨0, 0, 1 / 10⟩).j + oj,
            (axon0.link_grid.point_to_indices ⟨0, 0, 1 / 10⟩).k + ok⟩ :=
  ⟨by decide!,
    (point_to_indices_near axon0.link_grid (1 / 10) (by decide!) (by decide!) (by decide!)
      (by decide!) ⟨0, 0, 1 / 10⟩ ⟨1 / 20, 0, 1 / 10⟩ (by decide!)).2⟩

end FrameFacts

/-! ### `node::move` of `cylinder.cpp` on failure -/

section MoveCylinder
variable {R : Type} [LinearOrderedField R] [FloorRing R]

/-- C37 (amended). `node::move` of `cylinder.cpp` is atomic on failure when
the two grids agree on the target: for every axon and grid configuration,
every node and every target `p` whose cell is in range of both grids or of
neither, if `node::move(p)` returns false then the axon is as before the
call: the node's position and every bucket of both grids. -/
theorem move_cylinder_atomic (A : Axon R) (self : NodePtr) (p : Point R)
    (hsame : A.link_grid.in_range (A.link_grid.point_to_indices p)
      = A.collide_grid.in_range (A.collide_grid.point_to_indices p))
    (hfalse : (node.move_cylinder A self p).2 = false) :
    (node.move_cylinder A self p).1 = A := by
  unfold node.move_cylinder at hfalse ⊢
  simp only at hfalse ⊢
  obtain ⟨hf1, hd1, hiff1, hno1⟩ := move_within_grid_spec A self p GridId.link
  obtain ⟨_, _, hiff2, hno2⟩ :=
    move_within_grid_spec (node.move_within_grid A self p GridId.link).1 self p GridId.collide
  cases h1 : (node.move_within_grid A self p GridId.link).2 with
  | false =>
    have e1 := hno1 h1
    rw [e1] at hiff2 hno2 ⊢
    cases h2 : (node.move_within_grid A self p GridId.collide).2 with
    | false => exact hno2 h2
    | true =>
      exfalso
      obtain ⟨a1, a2, a3⟩ := hiff2.mp h2
      have : (node.move_within_grid A self p GridId.link).2 = true :=
        hiff1.mpr ⟨a1, by
          show A.link_grid.in_range (A.link_grid.point_to_indices p) = true
          rw [hsame]
          exact a2, a3⟩
      rw [h1] at this
      exact Bool.false_ne_true this
  | true =>
    exfalso
    obtain ⟨a1, a2, a3⟩ := hiff1.mp h1
    have h2 : (node.move_within_grid (node.move_within_grid A self p GridId.link).1 self p
        GridId.collide).2 = true := by
      apply hiff2.mpr
      refine ⟨?_, ?_, ?_⟩
      · rw [hd1 self, if_pos ⟨rfl, h1⟩]
        cases hA : A.deref self with
        | none => rw [hA] at a1; simp at a1
        | some n => rfl
      · rw [hf1.2.1 GridId.collide p, hf1.2.2 GridId.collide]
        show A.collide_grid.in_range (A.collide_grid.point_to_indices p) = true
        rw [← hsame]
        exact a2
      · rw [hf1.1 p]
        exact a3
    rw [h1, h2] at hfalse
    exact Bool.noConfusion hfalse

/-- Witness of C37 (amended): the target `(0, 0, 2)` is out of range of both
grids of `cylMoveAxon`; the move fails and changes nothing. -/
theorem move_cylinder_atomic_witness :
    (cylMoveAxon.link_grid.in_range (cylMoveAxon.link_grid.point_to_indices ⟨0, 0, 2⟩)
        = cylMoveAxon.collide_grid.in_range
          (cylMoveAxon.collide_grid.point_to_indices ⟨0, 0, 2⟩) ∧
      (node.move_cylinder cylMoveAxon (0, 1) ⟨0, 0, 2⟩).2 = false) ∧
    (node.move_cylinder cylMoveAxon (0, 1) ⟨0, 0, 2⟩).1 = cylMoveAxon :=
  ⟨by decide!, move_cylinder_atomic cylMoveAxon (0, 1) ⟨0, 0, 2⟩ (by decide!) (by decide!)⟩

/-- C37 as stated fails when the grids differ in range: in `cylMoveAxon` the
target `(0, 0, 1/2)`, in the cylinder at height `length`, is out of range of
the link grid and in range of the collision grid. `move` returns false, and
the node is at the target afterwards. -/
theorem move_cylinder_not_atomic :
    cylMoveAxon.in_cylinder ⟨0, 0, 1 / 2⟩ = true ∧
    cylMoveAxon.link_grid.in_range (cylMoveAxon.link_grid.point_to_indices ⟨0, 0, 1 / 2⟩)
      = false ∧
    cylMoveAxon.collide_grid.in_range
      (cylMoveAxon.collide_grid.point_to_indices ⟨0, 0, 1 / 2⟩) = true ∧
    cylMoveAxon.pointOf (0, 1) = ⟨0, 0, 1 / 10⟩ ∧
    (node.move_cylinder cylMoveAxon (0, 1) ⟨0, 0, 1 / 2⟩).2 = false ∧
    (node.move_cylinder cylMoveAxon (0, 1) ⟨0, 0, 1 / 2⟩).1.pointOf (0, 1) = ⟨0, 0, 1 / 2⟩ := by
  decide!

end MoveCylinder

/-! ### Energy locality -/

section Locality
variable {R : Type} [LinearOrderedField R] [FloorRing R]

theorem getElem?_append_add {α : Type} (L l2 : List α) (k : Nat) :
    (L ++ l2)[L.length + k]? = l2[k]? := by
  rw [List.getElem?_append_right (by omega)]
  congr 1
  omega

theorem curve_hamiltonian_loop_list (M : Libm R) :
    ∀ (rest pre : List (Point R)) (a b : Point R) (h : R),
      curve_hamiltonian_loop M (pre ++ a :: b :: rest) (pre.length + 2) rest.length
          ((Point.difference b a).normalize M) ((Point.difference b a).norm M) h
        = h + bendSum M (a :: b :: rest) := by
  intro rest
  induction rest with
  | nil =>
    intro pre a b h
    simp [curve_hamiltonian_loop, bendSum]
  | cons c rest ih =>
    intro pre a b h
    rw [List.length_cons, curve_hamiltonian_loop]
    have e1 : (pre ++ a :: b :: c :: rest).getD (pre.length + 2) origin = c := by
      rw [List.getD_eq_getElem?_getD, getElem?_append_add]
      simp
    have e2 : (pre ++ a :: b :: c :: rest).getD (pre.length + 2 - 1) origin = b := by
      have : pre.length + 2 - 1 = pre.length + 1 := by omega
      rw [this, List.getD_eq_getElem?_getD, getElem?_append_add]
      simp
    simp only [e1, e2]
    have e3 : pre ++ a :: b :: c :: rest = (pre ++ [a]) ++ b :: c :: rest := by simp
    have e4 : pre.length + 2 + 1 = (pre ++ [a]).length + 2 := by simp
    rw [e3, e4, ih (pre ++ [a]) b c]
    simp only [bendSum, bendTerm]
    ring

theorem curve_hamiltonian_eq_bendSum (M : Libm R) (pts : List (Point R)) :
    curve_hamiltonian M pts = bendSum M pts * PERSISTENCE_LEN := by
  unfold curve_hamiltonian
  match pts with
  | [] => simp [bendSum]
  | [a] => simp [bendSum]
  | [a, b] => simp [bendSum]
  | a :: b :: c :: rest =>
    rw [if_neg (by simp)]
    have h := curve_hamiltonian_loop_list M (c :: rest) [] a b 0
    simp only [List.nil_append, List.length_nil, Nat.zero_add, zero_add] at h
    have e : (a :: b :: c :: rest).length - 2 = (c :: rest).length := by simp
    simp only [List.getD_cons_zero, List.getD_cons_succ, e, h]

theorem bendSum_cons_window (M : Libm R) (x : Point R) (Rr : List (Point R)) :
    bendSum M (x :: Rr) = bendSum M (x :: Rr.take 2) + bendSum M Rr := by
  match Rr with
  | [] => simp [bendSum]
  | [r1] => simp [bendSum]
  | [r1, r2] => simp [bendSum]
  | r1 :: r2 :: r3 :: rest => simp [bendSum]

theorem bendSum_one_window (M : Libm R) (l x : Point R) (Rr : List (Point R)) :
    bendSum M (l :: x :: Rr) = bendSum M (l :: x :: Rr.take 2) + bendSum M Rr := by
  match Rr with
  | [] => simp [bendSum]
  | r1 :: rest =>
    have h := bendSum_cons_window M x (r1 :: rest)
    simp only [bendSum, List.take_succ_cons] at h ⊢
    rw [h]
    ring

theorem lastTwo_cons_cons_cons {α : Type} (a b c : α) (l : List α) :
    lastTwo (a :: b :: c :: l) = lastTwo (b :: c :: l) := by
  simp [lastTwo]

/-- Locality of the bend sum: the triples of `L ++ x :: Rr` that contain `x`
are those of the window of up to five points around `x`. -/
theorem bendSum_window (M : Libm R) (x : Point R) (Rr : List (Point R)) :
    ∀ L : List (Point R),
      bendSum M (L ++ x :: Rr)
        = bendSum M L + bendSum M (lastTwo L ++ x :: Rr.take 2) + bendSum M Rr := by
  intro L
  induction L with
  | nil =>
    simp only [List.nil_append, lastTwo, List.length_nil, List.drop_nil, bendSum, zero_add]
    exact bendSum_cons_window M x Rr
  | cons l1 L ih =>
    match L, ih with
    | [], _ =>
      simp only [List.cons_append, List.nil_append, lastTwo, List.length_singleton,
        List.drop_zero, bendSum, zero_add]
      exact bendSum_one_window M l1 x Rr
    | [l2], ih =>
      have ih' : bendSum M (l2 :: x :: Rr)
          = bendSum M (l2 :: x :: Rr.take 2) + bendSum M Rr := bendSum_one_window M l2 x Rr
      simp only [List.cons_append, List.nil_append, lastTwo, List.length_cons, List.length_nil,
        List.drop_zero, bendSum, zero_add, ih']
      ring
    | l2 :: l3 :: L2, ih =>
      rw [lastTwo_cons_cons_cons]
      simp only [List.cons_append] at ih ⊢
      simp only [bendSum]
      rw [ih]
      ring

theorem chained_of_check (slot : Nat) (f : Filament R) (h : f.chainedB slot = true) :
    f.Chained slot := by
  intro k nd hk
  simp only [Filament.chainedB, List.all_eq_true, List.mem_range] at h
  have hlt : k < f.nodes.length := (List.getElem?_eq_some.mp hk).1
  have := h k hlt
  simp only [hk, Bool.and_eq_true, decide_eq_true_eq] at this
  exact this

theorem deref_of_filament (A : Axon R) (i k : Nat) (f : Filament R)
    (hf : A.filaments[i]? = some f) : A.deref (i, k) = f.nodes[k]? := by
  simp [Axon.deref, hf]

theorem getElem?_mid {α : Type} (L : List α) (x : α) (Rr : List α) :
    (L ++ x :: Rr)[L.length]? = some x := by
  have := getElem?_append_add L (x :: Rr) 0
  simpa using this

theorem fluct_chain_below (A : Axon R) (i : Nat) (f : Filament R) (it : node R)
    (Ln Rn : List (node R)) (hf : A.filaments[i]? = some f) (hnodes : f.nodes = Ln ++ it :: Rn)
    (hch : f.Chained i) :
    (match it.down.bind A.deref with
      | none => []
      | some down =>
        match down.down.bind A.deref with
        | some dd => [dd.point, down.point]
        | none => [down.point])
      = lastTwo (Ln.map (fun n => n.point)) := by
  have hit := hch Ln.length it (by rw [hnodes]; exact getElem?_mid Ln it Rn)
  rcases List.eq_nil_or_concat Ln with e | ⟨L1, b, e⟩
  · subst e
    simp only [List.length_nil, if_true] at hit
    rw [hit.1]
    simp [lastTwo]
  · rw [List.concat_eq_append] at e
    subst e
    have hlen : (L1 ++ [b]).length = L1.length + 1 := by simp
    rw [hlen] at hit
    simp only [Nat.add_one_ne_zero, if_false, Nat.add_sub_cancel] at hit
    have hb : f.nodes[L1.length]? = some b := by
      rw [hnodes, List.append_assoc]
      exact getElem?_mid L1 b _
    have hbc := hch L1.length b hb
    rw [hit.1]
    simp only [Option.some_bind, deref_of_filament A i _ f hf, hb]
    rcases List.eq_nil_or_concat L1 with e1 | ⟨L2, a, e1⟩
    · subst e1
      simp only [List.length_nil, if_true] at hbc
      rw [hbc.1]
      simp [lastTwo]
    · rw [List.concat_eq_append] at e1
      subst e1
      have hlen1 : (L2 ++ [a]).length = L2.length + 1 := by simp
      rw [hlen1] at hbc
      simp only [Nat.add_one_ne_zero, if_false, Nat.add_sub_cancel] at hbc
      have ha : f.nodes[L2.length]? = some a := by
        rw [hnodes, List.append_assoc, List.append_assoc]
        exact getElem?_mid L2 a _
      rw [hbc.1]
      simp only [Option.some_bind, deref_of_filament A i _ f hf, ha]
      simp [lastTwo]

theorem fluct_chain_above (A : Axon R) (i : Nat) (f : Filament R) (it : node R)
    (Ln Rn : List (node R)) (hf : A.filaments[i]? = some f) (hnodes : f.nodes = Ln ++ it :: Rn)
    (hch : f.Chained i) :
    (match it.up.bind A.deref with
      | none => []
      | some up =>
        match up.up.bind A.deref with
        | some uu => [up.point, uu.point]
        | none => [up.point])
      = (Rn.map (fun n => n.point)).take 2 := by
  have hit := (hch Ln.length it (by rw [hnodes]; exact getElem?_mid Ln it Rn)).2
  cases Rn with
  | nil =>
    have hlen : f.nodes.length = Ln.length + 1 := by rw [hnodes]; simp
    rw [hlen, if_neg (Nat.lt_irrefl _)] at hit
    rw [hit]
    simp
  | cons c R1 =>
    have hlen : f.nodes.length = Ln.length + 1 + (R1.length + 1) := by
      rw [hnodes]
      simp
      omega
    rw [hlen, if_pos (by omega)] at hit
    have hc : f.nodes[Ln.length + 1]? = some c := by
      rw [hnodes, getElem?_append_add]
      simp
    have hcc := (hch (Ln.length + 1) c hc).2
    rw [hit]
    simp only [Option.some_bind, deref_of_filament A i _ f hf, hc]
    cases R1 with
    | nil =>
      rw [hlen] at hcc
      simp only [List.length_nil, Nat.zero_add, Nat.lt_irrefl, if_false] at hcc
      rw [hcc]
      simp
    | cons d R2 =>
      rw [hlen, if_pos (by simp)] at hcc
      have hd : f.nodes[Ln.length + 1 + 1]? = some d := by
        rw [hnodes, Nat.add_assoc, getElem?_append_add]
        simp
      rw [hcc]
      simp only [Option.some_bind, deref_of_filament A i _ f hf, hd]
      simp

theorem fluct_chain_eq_window (A : Axon R) (i : Nat) (f : Filament R) (it : node R)
    (Ln Rn : List (node R)) (centre : Point R) (hf : A.filaments[i]? = some f)
    (hnodes : f.nodes = Ln ++ it :: Rn) (hch : f.Chained i) :
    fluct_chain A it centre
      = lastTwo (Ln.map (fun n => n.point)) ++ centre :: (Rn.map (fun n => n.point)).take 2 := by
  unfold fluct_chain
  simp only
  rw [fluct_chain_below A i f it Ln Rn hf hnodes hch,
    fluct_chain_above A i f it Ln Rn hf hnodes hch]
  simp

theorem neighbors_unlinked (A : Axon R) (self : NodePtr) (nd : node R)
    (hd : A.deref self = some nd) (h0 : nd.num_links = 0) :
    node.neighbors A self [] = some [some self] := by
  have hcount : 1 ≤ A.node_count := by
    rw [← allPtrs_length]
    exact List.length_pos_of_mem (mem_allPtrs_of_deref A self nd hd)
  unfold node.neighbors node.neighbors_fuel
  obtain ⟨m, hm⟩ : ∃ m, A.node_count = m + 1 := ⟨A.node_count - 1, by omega⟩
  rw [hm]
  have hl : A.linksOf (some self) = [] := by
    simp [Axon.linksOf, hd, node.linkList, h0]
  simp [neighbors_loop, hl, neighbors_scan]

/-- C36. Energy locality: for a node with no links (its bundle is the node
alone) on a filament with the chain pointers `Filament::grow` sets, the
difference `energy_new − energy_old` that `node::fluctuate` computes from the
window of up to 5 points equals `curve_hamiltonian` of the whole filament
with that node displaced minus `curve_hamiltonian` of the whole filament as
it is. (In exact arithmetic this needs no distinctness of consecutive
nodes.) -/
theorem fluct_energy_local (M : Libm R) (A : Axon R) (i : Nat) (f : Filament R) (it : node R)
    (Ln Rn : List (node R)) (proposed : Point R)
    (hf : A.filaments[i]? = some f) (hnodes : f.nodes = Ln ++ it :: Rn)
    (hch : f.Chained i) (h0 : it.num_links = 0) :
    node.neighbors A (i, Ln.length) [] = some [some (i, Ln.length)] ∧
    (fluct_energies (curve_hamiltonian M) A proposed [some (i, Ln.length)]).2
        - (fluct_energies (curve_hamiltonian M) A proposed [some (i, Ln.length)]).1
      = curve_hamiltonian M
          ((Ln ++ { it with point := Point.sum proposed it.point } :: Rn).map (fun n => n.point))
        - curve_hamiltonian M (f.nodes.map (fun n => n.point)) := by
  have hd : A.deref (i, Ln.length) = some it := by
    rw [deref_of_filament A i _ f hf, hnodes]
    exact getElem?_mid Ln it Rn
  refine ⟨neighbors_unlinked A _ it hd h0, ?_⟩
  unfold fluct_energies
  simp only [List.foldl_cons, List.foldl_nil, Option.some_bind, hd, zero_add]
  rw [fluct_chain_eq_window A i f it Ln Rn _ hf hnodes hch,
    fluct_chain_eq_window A i f it Ln Rn _ hf hnodes hch, hnodes]
  simp only [List.map_append, List.map_cons, curve_hamiltonian_eq_bendSum]
  rw [bendSum_window M _ _ (Ln.map (fun n => n.point)),
    bendSum_window M it.point _ (Ln.map (fun n => n.point))]
  ring

/-- Witness of C36: the interior node of the bent filament `fluctAxon 1`,
displaced by `(0, 0, 1/10)`. -/
theorem fluct_energy_local_witness :
    ((fluctAxon 1).filaments[(0 : Nat)]? = some ⟨[bendSeed, bendMid, bendTip], 0⟩ ∧
      Filament.chainedB 0 (⟨[bendSeed, bendMid, bendTip], 0⟩ : Filament ℚ) = true ∧
      bendMid.num_links = 0) ∧
    (fluct_energies (curve_hamiltonian ratLibm) (fluctAxon 1) ⟨0, 0, 1 / 10⟩ [some (0, 1)]).2
        - (fluct_energies (curve_hamiltonian ratLibm) (fluctAxon 1) ⟨0, 0, 1 / 10⟩
            [some (0, 1)]).1
      = curve_hamiltonian ratLibm
          (([bendSeed] ++ { bendMid with point := Point.sum ⟨0, 0, 1 / 10⟩ bendMid.point }
            :: [bendTip]).map (fun n => n.point))
        - curve_hamiltonian ratLibm
            ((⟨[bendSeed, bendMid, bendTip], 0⟩ : Filament ℚ).nodes.map (fun n => n.point)) :=
  ⟨⟨rfl, by decide!, rfl⟩,
    (fluct_energy_local ratLibm (fluctAxon 1) 0 ⟨[bendSeed, bendMid, bendTip], 0⟩ bendMid
      [bendSeed] [bendTip] ⟨0, 0, 1 / 10⟩ rfl rfl (chained_of_check 0 _ (by decide!)) rfl).2⟩

end Locality

/-! ### Invariants of the engine -/

section EngineInv
variable {R : Type} [LinearOrderedField R] [FloorRing R]
variable {M : Libm R} {F : Flags} {ops : List (Op R)} {P : Axon R → Prop} {Tch : NodePtr → Prop}

theorem grow_attempt_eq (M : Libm R) (F : Flags) (rand : Nat → R) (A : Axon R) (index : Nat)
    (d : Point R) (c : Nat) :
    A.grow_attempt M F rand index d c
      = if A.may_grow M F index d then
          (if F.FORM_LINKS then
            (A.grown index d).seek_links_for_node M F rand (A.grown_ptr index d) LINK_LEN
              LINK_FORM_PROB c
          else (A.grown index d, c))
        else (A, c) := rfl

theorem move_pres (E : EngineInvariant M F ops P Tch) (A : Axon R) (p : NodePtr) (t : Point R)
    (hP : P A) (hp : Tch p) : P (node.move F A p t).1 := by
  unfold node.move
  simp only
  by_cases h1 : F.FORM_LINKS = true
  · by_cases h2 : F.COLLISIONS = true
    · simp only [h1, h2, if_true]
      exact E.move _ p t GridId.collide (E.move A p t GridId.link hP hp) hp
    · simp only [h1, h2, if_true, if_false]
      exact E.move A p t GridId.link hP hp
  · by_cases h2 : F.COLLISIONS = true
    · simp only [h1, h2, if_true, if_false]
      exact E.move A p t GridId.collide hP hp
    · simp only [h1, h2, if_false]
      exact hP

theorem link_moved_pres (E : EngineInvariant M F ops P Tch) (A : Axon R) (a b : NodePtr)
    (n m : node R) (hP : P A) (ha : Tch a) (hb : Tch b) : P (link_moved M F A a b n m).1 := by
  unfold link_moved
  split_ifs
  · exact move_pres E _ b _ (move_pres E A a _ hP ha) hb
  · exact move_pres E A b _ hP hb
  · exact move_pres E A a _ hP ha
  · exact hP

theorem link_pres (E : EngineInvariant M F ops P Tch) (A : Axon R) (a b : NodePtr) (u : R)
    (hP : P A) (ha : Tch a) (hb : Tch b) : P (A.link M F a b u).1 := by
  cases hda : A.deref a with
  | none =>
    have e : A.link M F a b u = (A, false) := by
      unfold Axon.link
      rw [hda]
    rw [e]
    exact hP
  | some n =>
    cases hdb : A.deref b with
    | none =>
      have e : A.link M F a b u = (A, false) := by
        unfold Axon.link
        rw [hda, hdb]
      rw [e]
      exact hP
    | some m =>
      rcases link_eq M F A a b n m hda hdb u with ⟨_, e⟩ | ⟨_, e⟩
      · rw [e]
        exact hP
      · rw [e]
        exact E.add _ b a (E.add _ a b (link_moved_pres E A a b n m hP ha hb) ha hb) hb ha

theorem seek_cell_pres (E : EngineInvariant M F ops P Tch) (rand : Nat → R) (new : NodePtr)
    (hnew : Tch new) :
    ∀ (l : List (Option NodePtr)) (c : Nat) (A : Axon R), P A →
      (∀ it, some it ∈ l → Tch it) → P (seek_cell M F rand new l c A).1 := by
  intro l
  induction l with
  | nil => intro c A hP _; exact hP
  | cons e rest ih =>
    intro c A hP hl
    cases e with
    | none =>
      rw [seek_cell]
      exact ih c A hP (fun it hit => hl it (List.mem_cons_of_mem _ hit))
    | some it =>
      rw [seek_cell]
      have hlink := link_pres E A it new (rand c) hP (hl it (List.mem_cons_self _ _)) hnew
      split_ifs
      · exact hlink
      · exact hlink
      · exact ih _ _ hlink (fun it hit => hl it (List.mem_cons_of_mem _ hit))
      · exact ih _ _ hlink (fun it hit => hl it (List.mem_cons_of_mem _ hit))

theorem seek_links_pres (E : EngineInvariant M F ops P Tch) (rand : Nat → R) (A : Axon R)
    (new : NodePtr) (l1 l2 : R) (c : Nat) (hP : P A) (hnew : Tch new) :
    P (A.seek_links_for_node M F rand new l1 l2 c).1 := by
  unfold Axon.seek_links_for_node
  simp only
  refine foldl_preserves (fun Ac : Axon R × Nat => P Ac.1) _ (fun s x hs => ?_) _ _ hP
  refine foldl_preserves (fun Ac : Axon R × Nat => P Ac.1) _ (fun s x hs => ?_) _ _ hs
  refine foldl_preserves (fun Ac : Axon R × Nat => P Ac.1) _ (fun s x hs => ?_) _ _ hs
  split_ifs
  · exact seek_cell_pres E rand new hnew _ _ _ hs (fun it hit => E.of_grid _ _ it hs hit)
  · exact hs

theorem grow_attempt_pres (E : EngineInvariant M F ops P Tch) (rand : Nat → R) (A : Axon R)
    (index : Nat) (d : Point R) (c : Nat) (hP : P A) :
    P (A.grow_attempt M F rand index d c).1 := by
  rw [grow_attempt_eq]
  by_cases hm : A.may_grow M F index d = true
  · rw [if_pos hm]
    obtain ⟨h1, h2⟩ := E.grow A index d hP hm
    split_ifs
    · exact seek_links_pres E rand _ _ _ _ c h1 h2
    · exact h1
  · rw [if_neg hm]
    exact hP

theorem grow_filaments_pres (E : EngineInvariant M F ops P Tch) (T : Trig R) (rand : Nat → R)
    (draws : Nat → GrowDraws R) (A : Axon R) (c : Nat) (hP : P A) :
    P (A.grow_filaments M T F rand draws c).1 := by
  unfold Axon.grow_filaments
  refine foldl_preserves (fun Ac : Axon R × Nat => P Ac.1) _ (fun s x hs => ?_) _ _ hP
  unfold Axon.grow_pass
  simp only
  split_ifs
  · exact hs
  · split
    · exact hs
    · exact grow_attempt_pres E rand _ _ _ _ hs

theorem neighbors_loop_closed (A : Axon R) (S : Option NodePtr → Prop)
    (hclosed : ∀ n l, l ∈ A.linksOf n → S l) :
    ∀ (fuel : Nat) (Q Rs B : List (Option NodePtr)), (∀ x ∈ Rs, S x) →
      neighbors_loop A fuel Q Rs = some B → ∀ x ∈ B, S x := by
  intro fuel
  induction fuel with
  | zero =>
    intro Q Rs B hR h
    cases Q with
    | nil => simp only [neighbors_loop, Option.some.injEq] at h; rw [← h]; exact hR
    | cons n Q => simp [neighbors_loop] at h
  | succ fuel ih =>
    intro Q Rs B hR h
    cases Q with
    | nil => simp only [neighbors_loop, Option.some.injEq] at h; rw [← h]; exact hR
    | cons n Q =>
      simp only [neighbors_loop] at h
      refine ih _ _ B ?_ h
      intro x hx
      rcases (neighbors_scan_mem_R _ _ _ x).mp hx with h1 | h1
      · exact hR x h1
      · exact hclosed n x h1

theorem fluct_commit_pres (E : EngineInvariant M F ops P Tch) (proposed : Point R) :
    ∀ (bundle : List (Option NodePtr)) (A : Axon R), P A →
      (∀ p, some p ∈ bundle → Tch p) → P (fluct_commit F A proposed bundle) := by
  intro bundle
  induction bundle with
  | nil => intro A hP _; exact hP
  | cons e rest ih =>
    intro A hP hb
    unfold fluct_commit
    rw [List.foldl_cons]
    cases e with
    | none =>
      exact ih A hP (fun p hp => hb p (List.mem_cons_of_mem _ hp))
    | some p =>
      exact ih _ (move_pres E A p _ hP (hb p (List.mem_cons_self _ _)))
        (fun p hp => hb p (List.mem_cons_of_mem _ hp))

theorem fluctuate_pres (E : EngineInvariant M F ops P Tch) (ham : List (Point R) → R)
    (A : Axon R) (self : NodePtr) (xy : R × R) (u : R) (hP : P A) (hs : Tch self) :
    P (node.fluctuate M F ham A self xy u).1 := by
  unfold node.fluctuate
  cases A.deref self with
  | none => exact hP
  | some this =>
    simp only
    cases fluct_proposed M A this xy with
    | none => exact hP
    | some proposed =>
      simp only
      cases hb : node.neighbors A self [] with
      | none => exact hP
      | some bundle =>
        simp only
        split_ifs
        · refine fluct_commit_pres E proposed bundle A hP ?_
          intro p hp
          unfold node.neighbors node.neighbors_fuel at hb
          simp only [List.not_mem_nil, if_false, List.nil_append] at hb
          have := neighbors_loop_closed A (fun e => ∀ q, e = some q → Tch q)
            (fun n l hl q hq => by
              subst hq
              cases n with
              | none => simp [Axon.linksOf] at hl
              | some x =>
                rw [linksOf_some] at hl
                exact E.of_links A x q hP hl)
            _ _ _ bundle
            (fun x hx q hq => by
              simp only [List.mem_singleton] at hx
              rw [hx] at hq
              cases hq
              exact hs) hb
          exact this (some p) hp p rfl
        · exact hP
        · exact hP
        · exact hP

theorem fluctuate_filaments_pres (E : EngineInvariant M F ops P Tch)
    (draws : Nat → FluctDraws R) (A : Axon R) (hP : P A) :
    P (A.fluctuate_filaments M F draws) := by
  unfold Axon.fluctuate_filaments
  refine foldl_preserves P _ (fun s m hs => ?_) _ _ hP
  unfold Axon.fluctuate_pass
  simp only
  split
  · exact hs
  · split
    · exact hs
    · split
      · rename_i hn
        split
        · exact hs
        · split
          · split
            · exact seek_links_pres E _ _ _ _ _ _
                (fluctuate_pres E _ s _ _ _ hs (E.of_index _ _ (by omega)))
                (E.of_index _ _ (by omega))
            · exact fluctuate_pres E _ s _ _ _ hs (E.of_index _ _ (by omega))
          · exact hs
      · exact hs

theorem break_links_pres (E : EngineInvariant M F ops P Tch) (rand : Nat → R) (c : Nat)
    (A : Axon R) (hP : P A) : P (A.break_links rand c).1 := by
  have hstep : ∀ (A : Axon R) i j k u, P A → P (break_links_step A i j k u) := by
    intro A i j k u hA
    unfold break_links_step
    split_ifs
    · refine E.remove _ _ _ ?_
      split
      · exact hA
      · exact E.remove _ _ _ hA
    · exact hA
  have hk : ∀ i j (fuel k c : Nat) (A : Axon R), P A →
      P (break_links_k rand i j fuel k c A).1 := by
    intro i j fuel
    induction fuel with
    | zero => intro k c A hA; exact hA
    | succ fuel ih =>
      intro k c A hA
      unfold break_links_k
      split
      · exact hA
      · split_ifs
        · exact ih _ _ _ (hstep A i j k _ hA)
        · exact hA
  unfold Axon.break_links
  refine foldl_preserves (fun Ac : Axon R × Nat => P Ac.1) _ (fun s i hs => ?_) _ _ hP
  split
  · exact hs
  · unfold break_links_j
    refine foldl_preserves (fun Ac : Axon R × Nat => P Ac.1) _ (fun s1 j hs1 => ?_) _ _ hs
    exact hk i j _ _ _ _ hs1

/-- A property that survives the elementary changes survives every sequence
of calls of the engine. -/
theorem run_pres (E : EngineInvariant M F ops P Tch) (T : Trig R) :
    ∀ (done todo : List (Op R)) (A : Axon R), ops = done ++ todo → P A →
      P (Axon.run M T F todo A) := by
  intro done todo
  induction todo generalizing done with
  | nil => intro A _ hP; exact hP
  | cons op rest ih =>
    intro A hops hP
    unfold Axon.run
    rw [List.foldl_cons]
    refine ih (done ++ [op]) _ (by rw [hops]; simp) ?_
    cases op with
    | new_filament u disk fid =>
      exact E.birth A u disk fid hP (by rw [hops]; simp)
    | grow_filaments rand draws => exact grow_filaments_pres E T rand draws A 0 hP
    | fluctuate_filaments draws => exact fluctuate_filaments_pres E draws A hP
    | break_links rand => exact break_links_pres E rand 0 A hP

end EngineInv

/-! ### Boundary invariant -/

section Boundary2
variable {R : Type} [LinearOrderedField R] [FloorRing R]

theorem remove_link_point (n : node R) (l : Option NodePtr) :
    (n.remove_link l).point = n.point := by
  unfold node.remove_link
  split <;> rfl

theorem grow_nodes (f : Filament R) (slot : Nat) (d : Point R) (k : Nat) (nd1 : node R)
    (h : (f.grow slot d).nodes[k]? = some nd1) :
    (∃ nd, f.nodes[k]? = some nd ∧ nd1.point = nd.point ∧ nd1.num_links = nd.num_links ∧
      nd1.links = nd.links) ∨
    (k = f.nodes.length ∧
      nd1.point = Point.sum (f.nodes.getD (f.num_nodes - 1) (node.init origin f.id)).point d ∧
      nd1.num_links = 0 ∧ nd1.links = fun _ => none) := by
  unfold Filament.grow at h
  split_ifs at h with h1 h2
  · exact Or.inl ⟨nd1, h, rfl, rfl, rfl⟩
  · by_cases hk : k < f.nodes.length
    · rw [List.getElem?_append_left hk] at h
      exact Or.inl ⟨nd1, h, rfl, rfl, rfl⟩
    · rw [List.getElem?_append_right (by omega)] at h
      have hk0 : k - f.nodes.length = 0 := by
        by_contra hne
        rw [List.getElem?_eq_none (by simp; omega)] at h
        exact Option.noConfusion h
      rw [hk0] at h
      simp only [List.getElem?_cons_zero, Option.some.injEq] at h
      subst h
      exact Or.inr ⟨by omega, rfl, rfl, rfl⟩
  · by_cases hk : k < f.nodes.length
    · rw [List.getElem?_append_left (by rw [List.length_modify]; exact hk),
        List.getElem?_modify] at h
      cases hn : f.nodes[k]? with
      | none => rw [hn] at h; exact Option.noConfusion h
      | some nd =>
        rw [hn] at h
        simp only [Option.map_eq_map, Option.map_some', Option.some.injEq] at h
        subst h
        refine Or.inl ⟨nd, rfl, ?_, ?_, ?_⟩ <;> split <;> rfl
    · rw [List.getElem?_append_right (by rw [List.length_modify]; omega),
        List.length_modify] at h
      have hk0 : k - f.nodes.length = 0 := by
        by_contra hne
        rw [List.getElem?_eq_none (by simp; omega)] at h
        exact Option.noConfusion h
      rw [hk0] at h
      simp only [List.getElem?_cons_zero, Option.some.injEq] at h
      subst h
      exact Or.inr ⟨by omega, rfl, rfl, rfl⟩

theorem grown_deref (A : Axon R) (index : Nat) (d : Point R) (q : NodePtr) (nd1 : node R)
    (h : (A.grown index d).deref q = some nd1) :
    (∃ nd, A.deref q = some nd ∧ nd1.point = nd.point ∧ nd1.num_links = nd.num_links ∧
      nd1.links = nd.links) ∨
    (q.1 = index ∧ (∃ f, A.filaments[index]? = some f ∧ q.2 = f.nodes.length) ∧
      nd1.point = Point.sum (A.tipOf index) d ∧ nd1.num_links = 0 ∧
      nd1.links = fun _ => none) := by
  have h1 : (A.filaments.modify (fun f => f.grow index d) index)[q.1]?.bind
      (fun f => f.nodes[q.2]?) = some nd1 := by
    unfold Axon.grown Axon.deref at h
    simp only at h
    cases hm : (A.filaments.modify (fun f => f.grow index d) index)[q.1]? with
    | none => rw [hm] at h; exact Option.noConfusion h
    | some f => rw [hm] at h; exact h
  rw [List.getElem?_modify] at h1
  cases hf : A.filaments[q.1]? with
  | none => rw [hf] at h1; exact Option.noConfusion h1
  | some f =>
    rw [hf] at h1
    simp only [Option.map_eq_map, Option.map_some', Option.some_bind] at h1
    by_cases hi : index = q.1
    · rw [if_pos hi] at h1
      rcases grow_nodes f index d q.2 nd1 h1 with ⟨nd, e1, e2⟩ | ⟨e1, e2, e3⟩
      · refine Or.inl ⟨nd, ?_, e2⟩
        unfold Axon.deref
        rw [hf]
        exact e1
      · refine Or.inr ⟨hi.symm, ⟨f, by rw [hi]; exact hf, e1⟩, ?_, e3⟩
        unfold Axon.tipOf
        rw [hi, hf]
        exact e2
    · rw [if_neg hi] at h1
      refine Or.inl ⟨nd1, ?_, rfl, rfl, rfl⟩
      unfold Axon.deref
      rw [hf]
      exact h1

theorem grown_frame (A : Axon R) (index : Nat) (d : Point R) : A.sameFrame (A.grown index d) := by
  unfold Axon.grown
  refine ⟨fun _ => rfl, fun gid p => ?_, fun gid c => ?_⟩
  · cases gid
    · dsimp only [Axon.grid]
      exact (add_node_frame A.link_grid _ _).1 p
    · dsimp only [Axon.grid]
      exact (add_node_frame A.collide_grid _ _).1 p
  · cases gid
    · dsimp only [Axon.grid]
      exact (add_node_frame A.link_grid _ _).2 c
    · dsimp only [Axon.grid]
      exact (add_node_frame A.collide_grid _ _).2 c

theorem add_filament_deref (A : Axon R) (f : Filament R) (q : NodePtr) (nd : node R)
    (h : (A.add_filament f).deref q = some nd) :
    A.deref q = some nd ∨ (q.1 = A.filaments.length ∧ f.nodes[q.2]? = some nd) := by
  unfold Axon.add_filament at h
  split_ifs at h
  · unfold Axon.deref at h ⊢
    simp only at h
    by_cases hq : q.1 < A.filaments.length
    · rw [List.getElem?_append_left hq] at h
      exact Or.inl h
    · rw [List.getElem?_append_right (by omega)] at h
      have h0 : q.1 - A.filaments.length = 0 := by
        by_contra hne
        rw [List.getElem?_eq_none (by simp; omega)] at h
        exact Option.noConfusion h
      rw [h0] at h
      exact Or.inr ⟨by omega, h⟩
  · exact Or.inl h

theorem new_filament_deref (M : Libm R) (A : Axon R) (u : R) (disk : R × R) (fid : Int)
    (q : NodePtr) (nd : node R) (h : (A.new_filament M u disk fid).deref q = some nd) :
    A.deref q = some nd ∨
    (q = (A.filaments.length, 0) ∧ nd = node.init (seed_point (2 / 10) disk) fid) := by
  unfold Axon.new_filament at h
  simp only at h
  split_ifs at h
  · exact Or.inl h
  · rcases add_filament_deref A _ q nd h with h1 | ⟨h1, h2⟩
    · exact Or.inl h1
    · right
      have h0 : q.2 = 0 := by
        by_contra hne
        rw [List.getElem?_eq_none (by simp; omega)] at h2
        exact Option.noConfusion h2
      rw [h0] at h2
      simp only [List.getElem?_cons_zero, Option.some.injEq] at h2
      exact ⟨Prod.ext h1 h0, h2.symm⟩
  · exact Or.inl h

theorem new_filament_frame (M : Libm R) (A : Axon R) (u : R) (disk : R × R) (fid : Int) :
    A.sameFrame (A.new_filament M u disk fid) := by
  unfold Axon.new_filament Axon.add_filament
  simp only
  split_ifs <;> exact ⟨fun _ => rfl, fun gid _ => by cases gid <;> rfl,
    fun gid _ => by cases gid <;> rfl⟩

theorem init_in_range_height (radius xs ys zs : R) (k : Nat) (t : Point R) (gid : GridId)
    (h : ((Axon.init radius (100 * (k : R)) xs ys zs).grid gid).in_range
      (((Axon.init radius (100 * (k : R)) xs ys zs).grid gid).point_to_indices t) = true) :
    0 ≤ t.z ∧ t.z ≤ 100 * (k : R) := by
  have key : (Grid3D.init (-radius) radius (-radius) radius 0 (100 * (k : R)) 100 100
      100).in_range ((Grid3D.init (-radius) radius (-radius) radius 0 (100 * (k : R)) 100 100
        100).point_to_indices t) = true := by
    cases gid
    · exact h
    · exact h
  simp only [Grid3D.in_range, Grid3D.point_to_indices, Grid3D.init, Bool.and_eq_true,
    decide_eq_true_eq, sub_zero, ge_iff_le] at key
  obtain ⟨⟨_, hk1⟩, hk0⟩ := key
  have h100 : (0 : R) < 100 := by norm_num
  have e : (100 * (k : R)) / 100 = ((k : Int) : R) := by
    push_cast
    field_simp
  rw [e, Int.ceil_intCast, Int.floor_lt] at hk1
  rw [Int.floor_nonneg] at hk0
  constructor
  · by_contra hneg
    have : t.z / 100 < 0 := div_neg_of_neg_of_pos (not_le.mp hneg) h100
    linarith
  · have := (div_lt_iff₀ h100).mp hk1
    push_cast at this
    linarith

theorem seed_inside (radius xs ys zs : R) (k : Nat) (disk : R × R)
    (hr : 2 / 10 ≤ radius) (hd : disk.1 * disk.1 + disk.2 * disk.2 ≤ 1) :
    (Axon.init radius (100 * (k : R)) xs ys zs).in_cylinder (seed_point (2 / 10) disk) = true ∧
    0 ≤ (seed_point (2 / 10 : R) disk).z ∧
    (seed_point (2 / 10 : R) disk).z ≤ (Axon.init radius (100 * (k : R)) xs ys zs).length := by
  refine ⟨?_, le_refl _, ?_⟩
  · unfold Axon.in_cylinder
    simp only
    rw [if_neg]
    intro h
    have h1 := h.1
    simp only [seed_point, Axon.init] at h1
    have he : (LINK_INTERACTION_LEN : R) = 1 / 10 := rfl
    rw [he] at h1
    nlinarith [mul_self_nonneg disk.1, mul_self_nonneg disk.2]
  · show (0 : R) ≤ 100 * (k : R)
    have : (0 : R) ≤ (k : R) := Nat.cast_nonneg k
    linarith

/-- The boundary invariant is an invariant of the engine (for births whose
disk sample lies in the unit disk, in an axon of radius at least 0.2 and
length `100 k`). -/
theorem inside_invariant (M : Libm R) (F : Flags) (ops : List (Op R)) (radius xs ys zs : R)
    (k : Nat) (hr : 2 / 10 ≤ radius)
    (hdisk : ∀ u disk fid, Op.new_filament u disk fid ∈ ops →
      disk.1 * disk.1 + disk.2 * disk.2 ≤ 1) :
    EngineInvariant M F ops (Axon.Inside (Axon.init radius (100 * (k : R)) xs ys zs))
      (fun _ => True) where
  of_grid := fun _ _ _ _ _ => trivial
  of_links := fun _ _ _ _ _ => trivial
  of_index := fun _ _ _ => trivial
  move := by
    intro A p t gid hP _
    obtain ⟨hframe, hnodes⟩ := hP
    obtain ⟨s1, s2, s3, _⟩ := move_within_grid_spec A p t gid
    refine ⟨sameFrame_trans hframe s1, ?_⟩
    intro q nd hq
    rw [s2 q] at hq
    split_ifs at hq with hc
    · obtain ⟨a1, a2, a3⟩ := s3.mp hc.2
      cases hA : A.deref q with
      | none => rw [hA] at hq; exact Option.noConfusion hq
      | some n =>
        rw [hA] at hq
        simp only [Option.map_some', Option.some.injEq] at hq
        subst hq
        rw [hframe.1 t] at a3
        rw [hframe.2.1 gid t, hframe.2.2 gid] at a2
        exact ⟨a3, init_in_range_height radius xs ys zs k t gid a2⟩
    · exact hnodes q nd hq
  add := by
    intro A p q hP _ _
    refine ⟨sameFrame_trans hP.1 (sameFrame_update A p _), ?_⟩
    intro x nd hx
    rw [deref_update] at hx
    split_ifs at hx
    · cases hA : A.deref x with
      | none => rw [hA] at hx; exact Option.noConfusion hx
      | some n =>
        rw [hA] at hx
        simp only [Option.map_some', Option.some.injEq] at hx
        subst hx
        rw [add_link_point]
        exact hP.2 x n hA
    · exact hP.2 x nd hx
  remove := by
    intro A p l hP
    refine ⟨sameFrame_trans hP.1 (sameFrame_update A p _), ?_⟩
    intro x nd hx
    rw [deref_update] at hx
    split_ifs at hx
    · cases hA : A.deref x with
      | none => rw [hA] at hx; exact Option.noConfusion hx
      | some n =>
        rw [hA] at hx
        simp only [Option.map_some', Option.some.injEq] at hx
        subst hx
        rw [remove_link_point]
        exact hP.2 x n hA
    · exact hP.2 x nd hx
  grow := by
    intro A index d hP hm
    refine ⟨⟨sameFrame_trans hP.1 (grown_frame A index d), ?_⟩, trivial⟩
    intro q nd1 hq
    rcases grown_deref A index d q nd1 hq with ⟨nd, e1, e2, _⟩ | ⟨_, _, e2, _⟩
    · rw [e2]
      exact hP.2 q nd e1
    · rw [e2]
      unfold Axon.may_grow at hm
      cases hf : A.filaments[index]? with
      | none => rw [hf] at hm; exact Bool.noConfusion hm
      | some f =>
        rw [hf] at hm
        simp only [Bool.and_eq_true] at hm
        obtain ⟨⟨⟨a1, a2⟩, _⟩, _⟩ := hm
        rw [hP.1.1] at a1
        have a2' : (A.grid GridId.link).in_range ((A.grid GridId.link).point_to_indices
            (Point.sum (A.tipOf index) d)) = true := a2
        rw [hP.1.2.1 GridId.link, hP.1.2.2 GridId.link] at a2'
        exact ⟨a1, init_in_range_height radius xs ys zs k _ GridId.link a2'⟩
  birth := by
    intro A u disk fid hP hop
    refine ⟨sameFrame_trans hP.1 (new_filament_frame M A u disk fid), ?_⟩
    intro q nd hq
    rcases new_filament_deref M A u disk fid q nd hq with h1 | ⟨_, h1⟩
    · exact hP.2 q nd h1
    · rw [h1]
      exact seed_inside radius xs ys zs k disk hr (hdisk u disk fid hop)

/-- C31 (amended). Boundary invariant: for every axon built by `Axon::init`
with radius `r ≥ 0.2` (the radius `new_filament` seeds for), length a
multiple `100 k` of the cell side of its grids, and any grid-step arguments,
after any sequence of `new_filament`, `grow_filaments`, `fluctuate_filaments`
and `break_links` calls (disk samples in the unit disk), every node of every
filament has `x² + y² ≤ (r − ε)²`, that is radial distance
`sqrt(x² + y²) ≤ r − ε`, and height `0 ≤ z ≤ length`. -/
theorem boundary_invariant (M : Libm R) (T : Trig R) (F : Flags) (ops : List (Op R))
    (radius xs ys zs : R) (k : Nat) (hr : 2 / 10 ≤ radius)
    (hdisk : ∀ u disk fid, Op.new_filament u disk fid ∈ ops →
      disk.1 * disk.1 + disk.2 * disk.2 ≤ 1) :
    ∀ p nd, (Axon.run M T F ops (Axon.init radius (100 * (k : R)) xs ys zs)).deref p = some nd →
      nd.point.x * nd.point.x + nd.point.y * nd.point.y
        ≤ (radius - LINK_INTERACTION_LEN) * (radius - LINK_INTERACTION_LEN) ∧
      (M.exactAt (nd.point.x * nd.point.x + nd.point.y * nd.point.y) →
        M.sqrt (nd.point.x * nd.point.x + nd.point.y * nd.point.y)
          ≤ radius - LINK_INTERACTION_LEN) ∧
      0 ≤ nd.point.z ∧ nd.point.z ≤ 100 * (k : R) := by
  intro p nd hp
  have hbase : Axon.Inside (Axon.init radius (100 * (k : R)) xs ys zs)
      (Axon.init radius (100 * (k : R)) xs ys zs) :=
    ⟨sameFrame_refl _, fun q n hq => by simp [Axon.deref, Axon.init] at hq⟩
  have hfin := run_pres (inside_invariant M F ops radius xs ys zs k hr hdisk) T [] ops _ rfl hbase
  obtain ⟨hc, hz0, hz1⟩ := hfin.2 p nd hp
  have hsq : nd.point.x * nd.point.x + nd.point.y * nd.point.y
      ≤ (radius - LINK_INTERACTION_LEN) * (radius - LINK_INTERACTION_LEN) := by
    unfold Axon.in_cylinder at hc
    simp only at hc
    by_contra hgt
    rw [if_pos ⟨by
      show nd.point.y * nd.point.y + nd.point.x * nd.point.x
        > (radius - LINK_INTERACTION_LEN) * (radius - LINK_INTERACTION_LEN)
      linarith [not_le.mp hgt], hz0, hz1⟩] at hc
    exact Bool.noConfusion hc
  refine ⟨hsq, ?_, hz0, hz1⟩
  intro hex
  have he : (LINK_INTERACTION_LEN : R) = 1 / 10 := rfl
  rw [he] at hsq ⊢
  have h1 := hex.1
  have h2 := hex.2
  nlinarith

/-- Witness of C31 (amended): a birth and a growth call in the axon of
radius 200 and length 200. -/
theorem boundary_invariant_witness :
    ((2 / 10 : ℚ) ≤ 200 ∧ (0 : ℚ) * 0 + 0 * 0 ≤ 1 ∧
      (Axon.run ratLibm ratTrig flagsOn shortOps
        (Axon.init 200 (100 * ((2 : Nat) : ℚ)) (1 / 10) (1 / 10) (1 / 10))).pointOf (0, 1)
        = ⟨0, 0, 1 / 10⟩) ∧
    ∀ p nd, (Axon.run ratLibm ratTrig flagsOn shortOps
        (Axon.init 200 (100 * ((2 : Nat) : ℚ)) (1 / 10) (1 / 10) (1 / 10))).deref p = some nd →
      nd.point.x * nd.point.x + nd.point.y * nd.point.y
        ≤ (200 - LINK_INTERACTION_LEN) * (200 - LINK_INTERACTION_LEN) ∧
      (ratLibm.exactAt (nd.point.x * nd.point.x + nd.point.y * nd.point.y) →
        ratLibm.sqrt (nd.point.x * nd.point.x + nd.point.y * nd.point.y)
          ≤ 200 - LINK_INTERACTION_LEN) ∧
      0 ≤ nd.point.z ∧ nd.point.z ≤ 100 * ((2 : Nat) : ℚ) :=
  ⟨by decide!,
    boundary_invariant ratLibm ratTrig flagsOn shortOps 200 (1 / 10) (1 / 10) (1 / 10) 2
      (by decide!)
      (fun u disk fid h => by
        simp only [shortOps, List.mem_cons, Op.new_filament.injEq, List.mem_singleton,
          List.not_mem_nil, or_false, false_or] at h
        rcases h with ⟨_, h2, _⟩ | h
        · rw [h2]; decide!
        · exact absurd h (by simp))⟩

/-- C31 as stated fails in two ways. (a) In an axon of radius `3/20 ≥ ε` and
length 100, `new_filament` with disk sample `(4/5, 0)` seeds at `(2/25, 0, 0)`:
radial distance `2/25 > r − ε = 1/20`; the seeding radius is the constant
`0.2`, not the radius of the axon. (b) In an axon of radius 200 and length
`1/20`, whose grids of cell side 100 reach up to height 100, a birth on the
axis and one growth step give a node at height `1/10 > length`:
`in_cylinder` accepts every point outside the height range. -/
theorem boundary_invariant_fails :
    ((LINK_INTERACTION_LEN : ℚ) ≤ 3 / 20 ∧
      (Axon.run ratLibm ratTrig flagsOn thinOps
        (Axon.init (3 / 20) 100 (1 / 10) (1 / 10) (1 / 10))).pointOf (0, 0) = ⟨2 / 25, 0, 0⟩ ∧
      ((Axon.run ratLibm ratTrig flagsOn thinOps
        (Axon.init (3 / 20) 100 (1 / 10) (1 / 10) (1 / 10))).deref (0, 0)).isSome = true ∧
      ratLibm.sqrt ((2 / 25) * (2 / 25) + 0 * 0) = 2 / 25 ∧
      ¬ ((2 / 25 : ℚ) ≤ 3 / 20 - LINK_INTERACTION_LEN)) ∧
    ((LINK_INTERACTION_LEN : ℚ) ≤ 200 ∧
      ((Axon.run ratLibm ratTrig flagsOn shortOps
        (Axon.init 200 (1 / 20) (1 / 10) (1 / 10) (1 / 10))).deref (0, 1)).isSome = true ∧
      (Axon.run ratLibm ratTrig flagsOn shortOps
        (Axon.init 200 (1 / 20) (1 / 10) (1 / 10) (1 / 10))).pointOf (0, 1) = ⟨0, 0, 1 / 10⟩ ∧
      ¬ ((1 / 10 : ℚ) ≤ (Axon.init (200 : ℚ) (1 / 20) (1 / 10) (1 / 10) (1 / 10)).length)) := by
  decide!

end Boundary2

/-! ### The seed never moves and never links -/

section Seeds
variable {R : Type} [LinearOrderedField R] [FloorRing R]

theorem update_filaments_len (A : Axon R) (p : NodePtr) (g : node R → node R) (i : Nat)
    (f1 : Filament R) (h : (A.update p g).filaments[i]? = some f1) :
    ∃ f, A.filaments[i]? = some f ∧ f1.nodes.length = f.nodes.length := by
  unfold Axon.update at h
  simp only [List.getElem?_modify] at h
  cases hf : A.filaments[i]? with
  | none => rw [hf] at h; exact Option.noConfusion h
  | some f =>
    rw [hf] at h
    simp only [Option.map_eq_map, Option.map_some', Option.some.injEq] at h
    refine ⟨f, rfl, ?_⟩
    rw [← h]
    split
    · simp
    · rfl

theorem setGrid_filaments (A : Axon R) (gid : GridId) (g : Grid3D R) :
    (A.setGrid gid g).filaments = A.filaments := by
  cases gid <;> rfl

theorem add_node_cells_mem (g : Grid3D R) (n : Option NodePtr) (pt : Point R) (c : triple)
    (e : Option NodePtr) (h : e ∈ (g.add_node n pt).cells c) : e ∈ g.cells c ∨ e = n := by
  unfold Grid3D.add_node at h
  cases n with
  | none => exact Or.inl h
  | some ptr =>
    simp only at h
    split_ifs at h
    · by_cases hc : c = g.point_to_indices pt
      · subst hc
        simp only [Function.update_same, List.mem_append, List.mem_singleton] at h
        exact h
      · simp only [Function.update_noteq hc] at h
        exact Or.inl h
    · exact Or.inl h

theorem move_node_cells_mem (g : Grid3D R) (n : NodePtr) (pt : Point R) (old c : triple)
    (e : Option NodePtr) (h : e ∈ (g.move_node n pt old).cells c) :
    e ∈ g.cells c ∨ e = some n := by
  unfold Grid3D.move_node at h
  rcases add_node_cells_mem _ _ _ _ _ h with h1 | h1
  · left
    simp only at h1
    by_cases hc : c = old
    · subst hc
      simp only [Function.update_same] at h1
      exact (List.mem_filter.mp h1).1
    · simp only [Function.update_noteq hc] at h1
      exact h1
  · exact Or.inr h1

/-- The three shapes of the axon after `move_within_grid`. -/
theorem move_within_grid_cases (A : Axon R) (p : NodePtr) (t : Point R) (gid : GridId) :
    (node.move_within_grid A p t gid).1 = A ∨
    (node.move_within_grid A p t gid).1 = A.update p (fun n => { n with point := t }) ∨
    ∃ old, (node.move_within_grid A p t gid).1
      = (A.update p (fun n => { n with point := t })).setGrid gid
          ((A.grid gid).move_node p t old) := by
  unfold node.move_within_grid
  cases A.deref p with
  | none => exact Or.inl rfl
  | some this =>
    simp only
    split_ifs
    all_goals first
      | exact Or.inr (Or.inl rfl)
      | exact Or.inr (Or.inr ⟨_, rfl⟩)
      | exact Or.inl rfl

theorem move_within_grid_filaments (A : Axon R) (p : NodePtr) (t : Point R) (gid : GridId)
    (i : Nat) (f1 : Filament R)
    (h : (node.move_within_grid A p t gid).1.filaments[i]? = some f1) :
    ∃ f, A.filaments[i]? = some f ∧ f1.nodes.length = f.nodes.length := by
  rcases move_within_grid_cases A p t gid with e | e | ⟨old, e⟩
  · rw [e] at h
    exact ⟨f1, h, rfl⟩
  · rw [e] at h
    exact update_filaments_len A p _ i f1 h
  · rw [e, setGrid_filaments] at h
    exact update_filaments_len A p _ i f1 h

theorem move_within_grid_link_cells (A : Axon R) (p : NodePtr) (t : Point R) (gid : GridId)
    (c : triple) (e : Option NodePtr)
    (h : e ∈ (node.move_within_grid A p t gid).1.link_grid.cells c) :
    e ∈ A.link_grid.cells c ∨ e = some p := by
  rcases move_within_grid_cases A p t gid with e1 | e1 | ⟨old, e1⟩
  · rw [e1] at h
    exact Or.inl h
  · rw [e1] at h
    exact Or.inl h
  · rw [e1] at h
    cases gid with
    | link => exact move_node_cells_mem _ _ _ _ _ _ h
    | collide => exact Or.inl h

theorem add_link_links (n : node R) (l : Option NodePtr) (k : Nat) :
    (n.add_link l).links k = n.links k ∨ (n.add_link l).links k = l := by
  unfold node.add_link
  simp only
  split_ifs
  · by_cases hk : k = n.num_links
    · subst hk
      right
      simp
    · left
      simp [Function.update_noteq hk]
  · exact Or.inl rfl

theorem remove_link_links (n : node R) (l : Option NodePtr) (k : Nat) :
    (n.remove_link l).links k = none ∨ ∃ k1, (n.remove_link l).links k = n.links k1 := by
  unfold node.remove_link
  split
  · exact Or.inr ⟨k, rfl⟩
  · simp only
    by_cases hk : k = n.num_links
    · subst hk
      left
      simp
    · right
      rw [Function.update_noteq hk, shiftSlots_apply]
      split_ifs
      · exact ⟨_, rfl⟩
      · exact ⟨_, rfl⟩

theorem remove_link_num_links (n : node R) (l : Option NodePtr) :
    (n.remove_link l).num_links ≤ n.num_links := by
  unfold node.remove_link
  split
  · exact le_refl _
  · exact Nat.sub_le _ _

theorem grow_length (f : Filament R) (slot : Nat) (d : Point R) :
    (f.grow slot d).nodes.length
      = if f.num_nodes ≥ MAX_NODES then f.nodes.length else f.nodes.length + 1 := by
  unfold Filament.grow
  split_ifs
  · rfl
  · simp
  · simp

theorem grow_nodes_fwd (f : Filament R) (slot : Nat) (d : Point R) (k : Nat) (nd : node R)
    (h : f.nodes[k]? = some nd) :
    ∃ nd1, (f.grow slot d).nodes[k]? = some nd1 ∧ nd1.point = nd.point := by
  have hk : k < f.nodes.length := (List.getElem?_eq_some.mp h).1
  unfold Filament.grow
  split_ifs
  · exact ⟨nd, h, rfl⟩
  · rw [List.getElem?_append_left hk]
    exact ⟨nd, h, rfl⟩
  · rw [List.getElem?_append_left (by rw [List.length_modify]; exact hk),
      List.getElem?_modify, h]
    simp only [Option.map_eq_map, Option.map_some']
    split_ifs
    · exact ⟨_, rfl, rfl⟩
    · exact ⟨_, rfl, rfl⟩

theorem grown_filaments (A : Axon R) (index : Nat) (d : Point R) (i : Nat) (f1 : Filament R)
    (h : (A.grown index d).filaments[i]? = some f1) :
    ∃ f, A.filaments[i]? = some f ∧ f.nodes.length ≤ f1.nodes.length := by
  have h1 : (A.filaments.modify (fun f => f.grow index d) index)[i]? = some f1 := h
  rw [List.getElem?_modify] at h1
  cases hf : A.filaments[i]? with
  | none => rw [hf] at h1; exact Option.noConfusion h1
  | some f =>
    rw [hf] at h1
    simp only [Option.map_eq_map, Option.map_some', Option.some.injEq] at h1
    refine ⟨f, rfl, ?_⟩
    rw [← h1]
    split
    · rw [grow_length]
      split_ifs <;> omega
    · exact le_refl _

theorem grown_deref_fwd (A : Axon R) (index : Nat) (d : Point R) (q : NodePtr) (nd : node R)
    (h : A.deref q = some nd) :
    ∃ nd1, (A.grown index d).deref q = some nd1 ∧ nd1.point = nd.point := by
  unfold Axon.deref at h
  cases hf : A.filaments[q.1]? with
  | none => rw [hf] at h; exact Option.noConfusion h
  | some f =>
    rw [hf] at h
    simp only at h
    have e : (A.grown index d).deref q
        = ((A.filaments.modify (fun f => f.grow index d) index)[q.1]?).bind
            (fun f => f.nodes[q.2]?) := by
      unfold Axon.deref Axon.grown
      simp only
      cases (A.filaments.modify (fun f => f.grow index d) index)[q.1]? <;> rfl
    rw [e, List.getElem?_modify, hf]
    simp only [Option.map_eq_map, Option.map_some', Option.some_bind]
    split_ifs
    · exact grow_nodes_fwd f index d q.2 nd h
    · exact ⟨nd, h, rfl⟩

theorem grown_link_cells (A : Axon R) (index : Nat) (d : Point R) (c : triple)
    (e : Option NodePtr) (h : e ∈ (A.grown index d).link_grid.cells c) :
    e ∈ A.link_grid.cells c ∨ e = some (A.grown_ptr index d) :=
  add_node_cells_mem A.link_grid _ _ c e h

theorem grown_ptr_index (A : Axon R) (index : Nat) (d : Point R) (f : Filament R)
    (hf : A.filaments[index]? = some f) (hne : 0 < f.nodes.length) :
    (A.grown_ptr index d).2 ≠ 0 := by
  unfold Axon.grown_ptr
  simp only [List.getElem?_modify, hf, Option.map_eq_map, Option.map_some', if_true]
  unfold Filament.num_nodes
  rw [grow_length]
  have hmax : (MAX_NODES : Nat) = 2000 := rfl
  unfold Filament.num_nodes
  split_ifs <;> omega

theorem new_filament_filaments (M : Libm R) (A : Axon R) (u : R) (disk : R × R) (fid : Int)
    (i : Nat) (f1 : Filament R) (h : (A.new_filament M u disk fid).filaments[i]? = some f1) :
    A.filaments[i]? = some f1 ∨ f1.nodes.length = 1 := by
  unfold Axon.new_filament Axon.add_filament at h
  simp only at h
  split_ifs at h
  · exact Or.inl h
  · by_cases hi : i < A.filaments.length
    · rw [List.getElem?_append_left hi] at h
      exact Or.inl h
    · rw [List.getElem?_append_right (by omega)] at h
      have h0 : i - A.filaments.length = 0 := by
        by_contra hne
        rw [List.getElem?_eq_none (by simp; omega)] at h
        exact Option.noConfusion h
      rw [h0] at h
      simp only [List.getElem?_cons_zero, Option.some.injEq] at h
      right
      rw [← h]
      rfl
  · exact Or.inl h
  · exact Or.inl h

theorem new_filament_deref_fwd (M : Libm R) (A : Axon R) (u : R) (disk : R × R) (fid : Int)
    (q : NodePtr) (nd : node R) (h : A.deref q = some nd) :
    (A.new_filament M u disk fid).deref q = some nd := by
  unfold Axon.new_filament Axon.add_filament
  simp only
  split_ifs
  · exact h
  · unfold Axon.deref at h ⊢
    simp only
    cases hf : A.filaments[q.1]? with
    | none => rw [hf] at h; exact Option.noConfusion h
    | some f =>
      have hq : q.1 < A.filaments.length := (List.getElem?_eq_some.mp hf).1
      rw [List.getElem?_append_left hq, hf]
      rw [hf] at h
      exact h
  · exact h
  · exact h

theorem new_filament_link_grid (M : Libm R) (A : Axon R) (u : R) (disk : R × R) (fid : Int) :
    (A.new_filament M u disk fid).link_grid = A.link_grid := by
  unfold Axon.new_filament Axon.add_filament
  simp only
  split_ifs <;> rfl

/-- The seeds stay clean and where they are under every elementary change
made to nodes of index at least 1. -/
theorem seeds_invariant (M : Libm R) (F : Flags) (ops : List (Op R)) (S : Axon R) :
    EngineInvariant M F ops (fun A => A.SeedsClean ∧ S.KeepsSeeds A) (fun p => p.2 ≠ 0) where
  of_grid := by
    intro A c p hP hp h0
    obtain ⟨⟨_, _, c3, _⟩, _⟩ := hP
    have e : p = (p.1, 0) := Prod.ext rfl h0
    rw [e] at hp
    exact c3 c p.1 hp
  of_links := by
    intro A p q hP hq h0
    obtain ⟨⟨_, _, _, c4⟩, _⟩ := hP
    have e : q = (q.1, 0) := Prod.ext rfl h0
    cases hd : A.deref p with
    | none => simp [Axon.linkListOf, hd] at hq
    | some nd =>
      simp only [Axon.linkListOf, hd, node.linkList, List.mem_map, List.mem_range] at hq
      obtain ⟨k, _, hk⟩ := hq
      rw [e] at hk
      exact c4 p nd q.1 k hd hk
  of_index := fun i j hj => by
    show j ≠ 0
    omega
  move := by
    intro A p t gid hP hp
    obtain ⟨⟨c1, c2, c3, c4⟩, hk⟩ := hP
    obtain ⟨_, s2, _, _⟩ := move_within_grid_spec A p t gid
    have hseed : ∀ i, (node.move_within_grid A p t gid).1.deref (i, 0) = A.deref (i, 0) := by
      intro i
      rw [s2, if_neg]
      rintro ⟨e, _⟩
      rw [← e] at hp
      exact hp rfl
    refine ⟨⟨?_, ?_, ?_, ?_⟩, ?_⟩
    · intro i f1 h1
      obtain ⟨f, e1, e2⟩ := move_within_grid_filaments A p t gid i f1 h1
      rw [e2]
      exact c1 i f e1
    · intro i nd h1
      rw [hseed] at h1
      exact c2 i nd h1
    · intro c i h1
      rcases move_within_grid_link_cells A p t gid c _ h1 with h2 | h2
      · exact c3 c i h2
      · simp only [Option.some.injEq] at h2
        rw [← h2] at hp
        exact hp rfl
    · intro q nd i k h1
      rw [s2] at h1
      split_ifs at h1
      · cases hA : A.deref q with
        | none => rw [hA] at h1; exact Option.noConfusion h1
        | some n =>
          rw [hA] at h1
          simp only [Option.map_some', Option.some.injEq] at h1
          rw [← h1]
          exact c4 q n i k hA
      · exact c4 q nd i k h1
    · intro i nd h1
      rw [hseed]
      exact hk i nd h1
  add := by
    intro A p q hP hp hq
    obtain ⟨⟨c1, c2, c3, c4⟩, hk⟩ := hP
    have hseed : ∀ i, (A.update p (fun x => x.add_link (some q))).deref (i, 0)
        = A.deref (i, 0) := by
      intro i
      rw [deref_update, if_neg]
      intro e
      rw [← e] at hp
      exact hp rfl
    refine ⟨⟨?_, ?_, c3, ?_⟩, ?_⟩
    · intro i f1 h1
      obtain ⟨f, e1, e2⟩ := update_filaments_len A p _ i f1 h1
      rw [e2]
      exact c1 i f e1
    · intro i nd h1
      rw [hseed] at h1
      exact c2 i nd h1
    · intro x nd i k h1
      rw [deref_update] at h1
      split_ifs at h1
      · cases hA : A.deref x with
        | none => rw [hA] at h1; exact Option.noConfusion h1
        | some n =>
          rw [hA] at h1
          simp only [Option.map_some', Option.some.injEq] at h1
          rw [← h1]
          rcases add_link_links n (some q) k with e | e
          · rw [e]
            exact c4 x n i k hA
          · rw [e]
            intro e2
            simp only [Option.some.injEq] at e2
            rw [e2] at hq
            exact hq rfl
      · exact c4 x nd i k h1
    · intro i nd h1
      rw [hseed]
      exact hk i nd h1
  remove := by
    intro A p l hP
    obtain ⟨⟨c1, c2, c3, c4⟩, hk⟩ := hP
    refine ⟨⟨?_, ?_, c3, ?_⟩, ?_⟩
    · intro i f1 h1
      obtain ⟨f, e1, e2⟩ := update_filaments_len A p _ i f1 h1
      rw [e2]
      exact c1 i f e1
    · intro i nd h1
      rw [deref_update] at h1
      split_ifs at h1
      · cases hA : A.deref (i, 0) with
        | none => rw [hA] at h1; exact Option.noConfusion h1
        | some n =>
          rw [hA] at h1
          simp only [Option.map_some', Option.some.injEq] at h1
          rw [← h1]
          have := remove_link_num_links n l
          have := c2 i n hA
          omega
      · exact c2 i nd h1
    · intro x nd i k h1
      rw [deref_update] at h1
      split_ifs at h1
      · cases hA : A.deref x with
        | none => rw [hA] at h1; exact Option.noConfusion h1
        | some n =>
          rw [hA] at h1
          simp only [Option.map_some', Option.some.injEq] at h1
          rw [← h1]
          rcases remove_link_links n l k with e | ⟨k1, e⟩
          · rw [e]
            exact fun e2 => Option.noConfusion e2
          · rw [e]
            exact c4 x n i k1 hA
      · exact c4 x nd i k h1
    · intro i nd h1
      obtain ⟨nd1, e1, e2⟩ := hk i nd h1
      rw [deref_update]
      split_ifs
      · rw [e1]
        exact ⟨_, rfl, by rw [remove_link_point]; exact e2⟩
      · exact ⟨nd1, e1, e2⟩
  grow := by
    intro A index d hP hm
    obtain ⟨⟨c1, c2, c3, c4⟩, hk⟩ := hP
    have hf : ∃ f, A.filaments[index]? = some f := by
      unfold Axon.may_grow at hm
      cases hf : A.filaments[index]? with
      | none => rw [hf] at hm; exact Bool.noConfusion hm
      | some f => exact ⟨f, rfl⟩
    obtain ⟨f, hf⟩ := hf
    have hptr := grown_ptr_index A index d f hf (c1 index f hf)
    refine ⟨⟨⟨?_, ?_, ?_, ?_⟩, ?_⟩, hptr⟩
    · intro i f1 h1
      obtain ⟨f0, e1, e2⟩ := grown_filaments A index d i f1 h1
      exact lt_of_lt_of_le (c1 i f0 e1) e2
    · intro i nd h1
      rcases grown_deref A index d (i, 0) nd h1 with ⟨n, e1, _, e3, _⟩ | ⟨_, ⟨f0, e1, e2⟩, _⟩
      · rw [e3]
        exact c2 i n e1
      · have := c1 index f0 e1
        simp only at e2
        omega
    · intro c i h1
      rcases grown_link_cells A index d c _ h1 with h2 | h2
      · exact c3 c i h2
      · simp only [Option.some.injEq] at h2
        rw [← h2] at hptr
        exact hptr rfl
    · intro q nd i k h1
      rcases grown_deref A index d q nd h1 with ⟨n, e1, _, _, e4⟩ | ⟨_, _, _, _, e4⟩
      · rw [e4]
        exact c4 q n i k e1
      · rw [e4]
        exact fun e2 => Option.noConfusion e2
    · intro i nd h1
      obtain ⟨nd1, e1, e2⟩ := hk i nd h1
      obtain ⟨nd2, e3, e4⟩ := grown_deref_fwd A index d (i, 0) nd1 e1
      exact ⟨nd2, e3, e4.trans e2⟩
  birth := by
    intro A u disk fid hP _
    obtain ⟨⟨c1, c2, c3, c4⟩, hk⟩ := hP
    refine ⟨⟨?_, ?_, ?_, ?_⟩, ?_⟩
    · intro i f1 h1
      rcases new_filament_filaments M A u disk fid i f1 h1 with h2 | h2
      · exact c1 i f1 h2
      · omega
    · intro i nd h1
      rcases new_filament_deref M A u disk fid (i, 0) nd h1 with h2 | ⟨_, h2⟩
      · exact c2 i nd h2
      · rw [h2]
        rfl
    · intro c i
      rw [new_filament_link_grid]
      exact c3 c i
    · intro q nd i k h1
      rcases new_filament_deref M A u disk fid q nd h1 with h2 | ⟨_, h2⟩
      · exact c4 q nd i k h2
      · rw [h2]
        exact fun e2 => Option.noConfusion e2
    · intro i nd h1
      obtain ⟨nd1, e1, e2⟩ := hk i nd h1
      exact ⟨nd1, new_filament_deref_fwd M A u disk fid (i, 0) nd1 e1, e2⟩

theorem init_seedsClean (radius length0 xs ys zs : R) :
    (Axon.init radius length0 xs ys zs).SeedsClean := by
  refine ⟨?_, ?_, ?_, ?_⟩
  · intro i f h
    simp [Axon.init] at h
  · intro i nd h
    simp [Axon.deref, Axon.init] at h
  · intro c i h
    simp [Axon.init, Grid3D.init] at h
  · intro p nd i k h
    simp [Axon.deref, Axon.init] at h

/-- C32. The seed node (index 0) of every filament never moves and never
acquires a link: in every state `S` reached from an axon built by
`Axon::init` by a sequence of `new_filament`, `grow_filaments`,
`fluctuate_filaments` and `break_links` calls, every filament slot `i` that has
a seed has it with zero links, and after any further sequence of such calls
slot `i` still has its seed, at the same position, with zero links
(`MAX_NODES = 2000 ≥ 2`). -/
theorem seed_never_moves (M : Libm R) (T : Trig R) (F : Flags) (ops1 ops2 : List (Op R))
    (radius length0 xs ys zs : R) (i : Nat)
    (h : ((Axon.run M T F ops1 (Axon.init radius length0 xs ys zs)).deref (i, 0)).isSome
      = true) :
    ((Axon.run M T F ops1 (Axon.init radius length0 xs ys zs)).deref (i, 0)).map
        (fun n => n.num_links) = some 0 ∧
    ((Axon.run M T F ops2
        (Axon.run M T F ops1 (Axon.init radius length0 xs ys zs))).deref (i, 0)).map
        (fun n => n.point)
      = ((Axon.run M T F ops1 (Axon.init radius length0 xs ys zs)).deref (i, 0)).map
        (fun n => n.point) ∧
    ((Axon.run M T F ops2
        (Axon.run M T F ops1 (Axon.init radius length0 xs ys zs))).deref (i, 0)).map
        (fun n => n.num_links) = some 0 := by
  obtain ⟨nd, h⟩ := Option.isSome_iff_exists.mp h
  obtain ⟨h1, _⟩ := run_pres
    (seeds_invariant M F ops1 (Axon.init radius length0 xs ys zs)) T [] ops1 _
    rfl ⟨init_seedsClean radius length0 xs ys zs, fun j n hn => ⟨n, hn, rfl⟩⟩
  obtain ⟨h2, h3⟩ := run_pres
    (seeds_invariant M F ops2 (Axon.run M T F ops1 (Axon.init radius length0 xs ys zs))) T []
    ops2 _ rfl ⟨h1, fun j n hn => ⟨n, hn, rfl⟩⟩
  obtain ⟨nd1, e1, e2⟩ := h3 i nd h
  obtain ⟨_, a2, _, _⟩ := h1
  obtain ⟨_, b2, _, _⟩ := h2
  rw [h, e1]
  simp only [Option.map_some', Option.some.injEq]
  exact ⟨a2 i nd h, e2, b2 i nd1 e1⟩

/-- Witness of C32: two births in the axon of radius 200 and length 200, then
two growth calls, a fluctuation call and a dissociation call with all
switches on; the seed of filament 1 was created at `(1/20, 0, 0)`. -/
theorem seed_never_moves_witness :
    (((Axon.run ratLibm ratTrig flagsOn seedOps1
        (Axon.init 200 200 (1 / 10) (1 / 10) (1 / 10))).deref (1, 0)).isSome = true ∧
      ((Axon.run ratLibm ratTrig flagsOn seedOps1
        (Axon.init 200 200 (1 / 10) (1 / 10) (1 / 10))).deref (1, 0)).map (fun n => n.point)
        = some ⟨1 / 20, 0, 0⟩ ∧
      ((Axon.run ratLibm ratTrig flagsOn seedOps2
        (Axon.run ratLibm ratTrig flagsOn seedOps1
          (Axon.init 200 200 (1 / 10) (1 / 10) (1 / 10)))).deref (1, 2)).isSome = true) ∧
    ((Axon.run ratLibm ratTrig flagsOn seedOps1
        (Axon.init 200 200 (1 / 10) (1 / 10) (1 / 10))).deref (1, 0)).map
        (fun n => n.num_links) = some 0 ∧
    ((Axon.run ratLibm ratTrig flagsOn seedOps2
        (Axon.run ratLibm ratTrig flagsOn seedOps1
          (Axon.init 200 200 (1 / 10) (1 / 10) (1 / 10)))).deref (1, 0)).map
        (fun n => n.point)
      = ((Axon.run ratLibm ratTrig flagsOn seedOps1
        (Axon.init 200 200 (1 / 10) (1 / 10) (1 / 10))).deref (1, 0)).map
        (fun n => n.point) ∧
    ((Axon.run ratLibm ratTrig flagsOn seedOps2
        (Axon.run ratLibm ratTrig flagsOn seedOps1
          (Axon.init 200 200 (1 / 10) (1 / 10) (1 / 10)))).deref (1, 0)).map
        (fun n => n.num_links) = some 0 :=
  ⟨by decide!,
    seed_never_moves ratLibm ratTrig flagsOn seedOps1 seedOps2 200 200 (1 / 10) (1 / 10)
      (1 / 10) 1 (by decide!)⟩

end Seeds

/-! ### The grid index in binary64 arithmetic -/

namespace Double

theorem pow2_eq (k : Int) : pow2 k = (2 : ℚ) ^ k := by
  rcases le_or_lt 0 k with h | h
  · obtain ⟨n, rfl⟩ := Int.eq_ofNat_of_zero_le h
    unfold pow2
    rw [if_pos h]
    simp
  · obtain ⟨n, rfl⟩ : ∃ n : Nat, k = -(n : Int) := ⟨(-k).toNat, by omega⟩
    unfold pow2
    rw [if_neg (not_le.mpr h)]
    simp

theorem pow2_pos (k : Int) : 0 < pow2 k := by
  rw [pow2_eq]
  exact zpow_pos (by norm_num) k

theorem pow2_add (a b : Int) : pow2 (a + b) = pow2 a * pow2 b := by
  rw [pow2_eq, pow2_eq, pow2_eq, zpow_add₀ (by norm_num)]

theorem pow2_zero : pow2 0 = 1 := by
  rw [pow2_eq, zpow_zero]

theorem pow2_ofNat (n : Nat) : pow2 (n : Int) = ((2 ^ n : Nat) : ℚ) := by
  rw [pow2_eq]
  simp

theorem log2Aux_spec : ∀ (fuel n : Nat), n ≤ fuel → n ≠ 0 →
    2 ^ log2Aux fuel n ≤ n ∧ n < 2 ^ (log2Aux fuel n + 1)
  | 0, n, h, h0 => absurd (Nat.le_zero.mp h) h0
  | fuel + 1, n, h, h0 => by
    unfold log2Aux
    split_ifs with h2
    · have ih := log2Aux_spec fuel (n / 2) (by omega) (by omega)
      rw [pow_succ, pow_succ]
      omega
    · simp only [pow_zero, zero_add, pow_one]
      omega

theorem ilog2_spec (n : Nat) (h : n ≠ 0) : 2 ^ ilog2 n ≤ n ∧ n < 2 ^ (ilog2 n + 1) :=
  log2Aux_spec n n (le_refl n) h

theorem abs_eq_div (x : ℚ) : |x| = (x.num.natAbs : ℚ) / (x.den : ℚ) := by
  conv_lhs => rw [← Rat.num_div_den x]
  rw [abs_div, Nat.abs_cast, Nat.cast_natAbs, Int.cast_abs]

theorem binade_spec (x : ℚ) (hx : x ≠ 0) :
    pow2 (binade x) ≤ |x| ∧ |x| < pow2 (binade x + 1) := by
  have hn : x.num.natAbs ≠ 0 := by
    rw [Ne, Int.natAbs_eq_zero]
    exact Rat.num_ne_zero.mpr hx
  obtain ⟨a1, a2⟩ := ilog2_spec x.num.natAbs hn
  obtain ⟨b1, b2⟩ := ilog2_spec x.den x.den_nz
  have hd : (0 : ℚ) < x.den := by exact_mod_cast x.den_pos
  have a1q : ((2 : ℚ) ^ ilog2 x.num.natAbs) ≤ (x.num.natAbs : ℚ) := by exact_mod_cast a1
  have a2q : (x.num.natAbs : ℚ) < (2 : ℚ) ^ (ilog2 x.num.natAbs + 1) := by exact_mod_cast a2
  have b1q : ((2 : ℚ) ^ ilog2 x.den) ≤ (x.den : ℚ) := by exact_mod_cast b1
  have b2q : (x.den : ℚ) < (2 : ℚ) ^ (ilog2 x.den + 1) := by exact_mod_cast b2
  have hA : (0 : ℚ) < (2 : ℚ) ^ ilog2 x.num.natAbs := pow_pos (by norm_num) _
  have hB : (0 : ℚ) < (2 : ℚ) ^ ilog2 x.den := pow_pos (by norm_num) _
  have e0 : pow2 ((ilog2 x.num.natAbs : Int) - (ilog2 x.den : Int))
      = (2 : ℚ) ^ ilog2 x.num.natAbs / (2 : ℚ) ^ ilog2 x.den := by
    rw [pow2_eq, zpow_sub₀ (by norm_num), zpow_natCast, zpow_natCast]
  have hlo : pow2 ((ilog2 x.num.natAbs : Int) - (ilog2 x.den : Int) - 1) ≤ |x| := by
    rw [sub_eq_add_neg, pow2_add, e0, abs_eq_div, pow2_eq]
    rw [div_mul_eq_mul_div, div_le_div_iff₀ hB hd]
    have h2 : ((2 : ℚ) ^ (-1 : Int)) = 1 / 2 := by norm_num
    rw [h2]
    rw [pow_succ] at b2q
    nlinarith
  have hhi : |x| < pow2 ((ilog2 x.num.natAbs : Int) - (ilog2 x.den : Int) + 1) := by
    rw [pow2_add, e0, abs_eq_div, pow2_eq]
    rw [div_mul_eq_mul_div, div_lt_div_iff₀ hd hB]
    have h2 : ((2 : ℚ) ^ (1 : Int)) = 2 := by norm_num
    rw [h2]
    rw [pow_succ] at a2q
    nlinarith
  unfold binade
  simp only
  split_ifs with h
  · exact ⟨h, hhi⟩
  · refine ⟨hlo, ?_⟩
    rw [sub_add_cancel]
    exact not_le.mp h

theorem roundEven_err (m : ℚ) : |(roundEven m : ℚ) - m| ≤ 1 / 2 := by
  have h1 := Int.floor_le m
  have h2 := Int.lt_floor_add_one m
  unfold roundEven
  rw [abs_le]
  split_ifs with a b c
  · constructor <;> linarith
  · push_cast
    constructor <;> linarith
  · constructor <;> linarith
  · push_cast
    constructor <;> linarith

theorem roundEven_intCast (z : Int) : roundEven (z : ℚ) = z := by
  unfold roundEven
  simp

/-- The relative error of rounding is at most `2^-53`. -/
theorem rnd_err (x : ℚ) : |rnd x - x| ≤ |x| * pow2 (-53) := by
  unfold rnd
  split_ifs with h0
  · rw [h0]
    simp
  · obtain ⟨b1, _⟩ := binade_spec x h0
    have hr := roundEven_err (x * pow2 (52 - binade x))
    have hp := pow2_pos (binade x - 52)
    have hx : x * pow2 (52 - binade x) * pow2 (binade x - 52) = x := by
      rw [mul_assoc, ← pow2_add]
      have : 52 - binade x + (binade x - 52) = 0 := by ring
      rw [this, pow2_zero, mul_one]
    have e : (roundEven (x * pow2 (52 - binade x)) : ℚ) * pow2 (binade x - 52) - x
        = ((roundEven (x * pow2 (52 - binade x)) : ℚ) - x * pow2 (52 - binade x))
          * pow2 (binade x - 52) := by
      rw [sub_mul, hx]
    rw [e, abs_mul, abs_of_pos hp]
    have hs : pow2 (binade x - 52) = pow2 (binade x) * pow2 (-53) * 2 := by
      have : binade x - 52 = binade x + -53 + 1 := by ring
      rw [this, pow2_add, pow2_add]
      have : pow2 1 = 2 := by rw [pow2_eq]; norm_num
      rw [this]
    have hq := pow2_pos (-53)
    have hb := pow2_pos (binade x)
    rw [hs]
    nlinarith [mul_le_mul_of_nonneg_right b1 (le_of_lt hq),
      mul_le_mul_of_nonneg_right hr (le_of_lt (mul_pos (mul_pos hb hq) (by norm_num : (0:ℚ) < 2)))]

theorem pow2_neg53 : pow2 (-53) = 1 / 9007199254740992 := by
  rw [pow2_eq]
  norm_num

theorem pow2_mono (a b : Int) (h : a ≤ b) : pow2 a ≤ pow2 b := by
  obtain ⟨n, hn⟩ := Int.eq_ofNat_of_zero_le (sub_nonneg.mpr h)
  have e : b = a + (n : Int) := by omega
  rw [e, pow2_add, pow2_ofNat]
  have h1 : (1 : ℚ) ≤ ((2 ^ n : Nat) : ℚ) := by exact_mod_cast Nat.one_le_two_pow
  have h2 := pow2_pos a
  nlinarith

/-- Integers below `2^53` are binary64 numbers. -/
theorem rnd_natCast (n : Nat) (h : n < 2 ^ 53) : rnd (n : ℚ) = n := by
  unfold rnd
  split_ifs with h0
  · exact h0.symm
  · obtain ⟨b1, _⟩ := binade_spec (n : ℚ) h0
    have hlt : binade (n : ℚ) < 53 := by
      by_contra hge
      have h1 := pow2_mono 53 (binade (n : ℚ)) (by omega)
      have h2 : pow2 53 = ((2 ^ 53 : Nat) : ℚ) := pow2_ofNat 53
      have h3 : |(n : ℚ)| = n := abs_of_nonneg (Nat.cast_nonneg n)
      have h4 : ((2 ^ 53 : Nat) : ℚ) ≤ (n : ℚ) := by
        rw [← h2, ← h3]
        exact le_trans h1 b1
      have h5 : 2 ^ 53 ≤ n := by exact_mod_cast h4
      omega
    obtain ⟨k, hk⟩ := Int.eq_ofNat_of_zero_le (show 0 ≤ 52 - binade (n : ℚ) by omega)
    have e1 : (n : ℚ) * pow2 (52 - binade (n : ℚ)) = (((n * 2 ^ k : Nat) : Int) : ℚ) := by
      rw [hk, pow2_ofNat]
      push_cast
      ring
    have e2 : pow2 (52 - binade (n : ℚ)) * pow2 (binade (n : ℚ) - 52) = 1 := by
      rw [← pow2_add]
      have : 52 - binade (n : ℚ) + (binade (n : ℚ) - 52) = 0 := by ring
      rw [this, pow2_zero]
    rw [e1, roundEven_intCast, ← e1, mul_assoc, e2, mul_one]

theorem cell_lattice (p lo step : ℚ) (hs : 0 < step) (a : Nat) (ha : a < 2 ^ 31)
    (e : rnd (p - lo) = a * step) : cell p lo step = some (a : Int) := by
  unfold cell
  rw [e, mul_div_assoc, div_self (ne_of_gt hs), mul_one, rnd_natCast a (by omega)]
  rw [Int.floor_natCast]
  unfold toInt
  rw [if_pos (by omega)]

/-- The exact lattice point `lo + a·s` gets the cell `a` or the cell below. -/
theorem cell_lattice_near (lo s : ℚ) (hs : 0 < s) (a : Nat) (ha : a < 2 ^ 31) :
    cell (lo + a * s) lo s = some (a : Int) ∨ cell (lo + a * s) lo s = some ((a : Int) - 1) := by
  unfold cell
  have ey : lo + a * s - lo = a * s := by ring
  rw [ey]
  have e1 := rnd_err (a * s)
  have e2 := rnd_err (rnd (a * s) / s)
  rw [pow2_neg53] at e1 e2
  have ha0 : (0 : ℚ) ≤ a := Nat.cast_nonneg a
  have haq : (a : ℚ) ≤ 2147483648 := by
    have : a ≤ 2147483648 := by omega
    exact_mod_cast this
  have h1 : |(a : ℚ) * s| = a * s := abs_of_nonneg (mul_nonneg ha0 (le_of_lt hs))
  rw [h1] at e1
  have m : rnd (a * s) = rnd (a * s) / s * s := by field_simp
  have hz : |rnd (a * s) / s - a| ≤ a * (1 / 9007199254740992) := by
    have e : rnd (a * s) / s - a = (rnd (a * s) - a * s) / s := by
      field_simp
      ring
    rw [e, abs_div, abs_of_pos hs, div_le_iff₀ hs]
    linarith
  have hz1 := abs_le.mp hz
  have hza : |rnd (a * s) / s| ≤ 2 * a := by
    rw [abs_le]
    constructor <;> nlinarith
  have e3 := abs_le.mp e2
  have hq1 : (a : ℚ) - 1 < rnd (rnd (a * s) / s) := by nlinarith [abs_nonneg (rnd (a * s) / s)]
  have hq2 : rnd (rnd (a * s) / s) < (a : ℚ) + 1 := by nlinarith [abs_nonneg (rnd (a * s) / s)]
  have f1 : (a : Int) - 1 ≤ ⌊rnd (rnd (a * s) / s)⌋ := by
    rw [Int.le_floor]
    push_cast
    exact le_of_lt hq1
  have f2 : ⌊rnd (rnd (a * s) / s)⌋ < (a : Int) + 1 := by
    rw [Int.floor_lt]
    push_cast
    exact hq2
  have hcases : ⌊rnd (rnd (a * s) / s)⌋ = (a : Int) ∨ ⌊rnd (rnd (a * s) / s)⌋ = (a : Int) - 1 := by
    omega
  unfold toInt
  rcases hcases with h | h
  · left
    rw [h, if_pos (by omega)]
  · right
    rw [h, if_pos (by omega)]

end Double

namespace Double

/-- A coordinate within a quarter of a step of the lattice value `lo + a·s`
gets the cell `a` or the cell below. -/
theorem cell_lattice_about (lo s : ℚ) (hs : 0 < s) (a : Nat) (ha : a < 2 ^ 31) (p : ℚ)
    (hp : |p - (lo + a * s)| ≤ s / 4) :
    cell p lo s = some (a : Int) ∨ cell p lo s = some ((a : Int) - 1) := by
  unfold cell
  have e1 := rnd_err (p - lo)
  have e2 := rnd_err (rnd (p - lo) / s)
  rw [pow2_neg53] at e1 e2
  have ha0 : (0 : ℚ) ≤ a := Nat.cast_nonneg a
  have haq : (a : ℚ) ≤ 2147483648 := by
    have : a ≤ 2147483648 := by omega
    exact_mod_cast this
  have hp1 := abs_le.mp hp
  have hy : |p - lo| ≤ a * s + s / 4 := by
    rw [abs_le]
    constructor <;> nlinarith
  have hd := abs_le.mp e1
  have hy1 := abs_le.mp hy
  have hz : |rnd (p - lo) / s - a| ≤ 1 / 4 + (a + 1 / 4) * (1 / 9007199254740992) := by
    have e : rnd (p - lo) / s - a = (rnd (p - lo) - a * s) / s := by
      field_simp
      ring
    have hu : |p - lo| * (1 / 9007199254740992)
        ≤ (a * s + s / 4) * (1 / 9007199254740992) :=
      mul_le_mul_of_nonneg_right hy (by norm_num)
    rw [e, abs_div, abs_of_pos hs, div_le_iff₀ hs, abs_le]
    constructor
    · linarith [hd.1, hp1.1]
    · linarith [hd.2, hp1.2]
  have hz1 := abs_le.mp hz
  have hza : |rnd (p - lo) / s| ≤ a + 1 := by
    rw [abs_le]
    constructor <;> linarith [hz1.1, hz1.2]
  have e3 := abs_le.mp e2
  have hu2 : |rnd (p - lo) / s| * (1 / 9007199254740992)
      ≤ (a + 1) * (1 / 9007199254740992) :=
    mul_le_mul_of_nonneg_right hza (by norm_num)
  have hq1 : (a : ℚ) - 1 < rnd (rnd (p - lo) / s) := by
    linarith [hz1.1, e3.1]
  have hq2 : rnd (rnd (p - lo) / s) < (a : ℚ) + 1 := by
    linarith [hz1.2, e3.2]
  have f1 : (a : Int) - 1 ≤ ⌊rnd (rnd (p - lo) / s)⌋ := by
    rw [Int.le_floor]
    push_cast
    exact le_of_lt hq1
  have f2 : ⌊rnd (rnd (p - lo) / s)⌋ < (a : Int) + 1 := by
    rw [Int.floor_lt]
    push_cast
    exact hq2
  have hcases : ⌊rnd (rnd (p - lo) / s)⌋ = (a : Int) ∨
      ⌊rnd (rnd (p - lo) / s)⌋ = (a : Int) - 1 := by
    omega
  unfold toInt
  rcases hcases with h | h
  · left
    rw [h, if_pos (by omega)]
  · right
    rw [h, if_pos (by omega)]

/-- The lattice value computed in doubles as `lo + a*s` is within a quarter
of a step of `lo + a·s`, for a minimum at most `2^31` steps from 0. -/
theorem computed_lattice_about (lo s : ℚ) (hs : 0 < s) (a : Nat) (ha : a < 2 ^ 31)
    (hlo : |lo| ≤ 2147483648 * s) : |rnd (lo + rnd (a * s)) - (lo + a * s)| ≤ s / 4 := by
  have e1 := rnd_err (a * s)
  have e2 := rnd_err (lo + rnd (a * s))
  rw [pow2_neg53] at e1 e2
  have ha0 : (0 : ℚ) ≤ a := Nat.cast_nonneg a
  have haq : (a : ℚ) ≤ 2147483648 := by
    have : a ≤ 2147483648 := by omega
    exact_mod_cast this
  have h1 : |(a : ℚ) * s| = a * s := abs_of_nonneg (mul_nonneg ha0 (le_of_lt hs))
  rw [h1] at e1
  have has : (a : ℚ) * s ≤ 2147483648 * s := mul_le_mul_of_nonneg_right haq (le_of_lt hs)
  have has0 : (0 : ℚ) ≤ a * s := mul_nonneg ha0 (le_of_lt hs)
  have d1 := abs_le.mp e1
  have l1 := abs_le.mp hlo
  have hw : |lo + rnd (a * s)| ≤ 4 * 2147483648 * s := by
    rw [abs_le]
    constructor <;> linarith [d1.1, d1.2, l1.1, l1.2]
  have d2 := abs_le.mp e2
  have hu : |lo + rnd (a * s)| * (1 / 9007199254740992)
      ≤ 4 * 2147483648 * s * (1 / 9007199254740992) :=
    mul_le_mul_of_nonneg_right hw (by norm_num)
  rw [abs_le]
  constructor <;> linarith [d1.1, d1.2, d2.1, d2.2]

end Double

/-- C27 (amended). `Grid3D::point_to_indices` in binary64 arithmetic, for a
grid with positive steps and natural numbers `a`, `b`, `c` below `2^31`. (1)
The point `(minx + a·xstep, miny + b·ystep, minz + c·zstep)` is mapped to a
cell whose indices are `a` or `a - 1`, `b` or `b - 1`, `c` or `c - 1`. (2) So
is the point with these coordinates computed in doubles, when the minimum of
the grid is at most `2^31` steps from 0 on each axis. (3) A point `p` whose
rounded differences `p.x - minx`, `p.y - miny`, `p.z - minz` are exactly
`a·xstep`, `b·ystep`, `c·zstep` is mapped to the cell `(a, b, c)`. (4) In
particular the grid minimum maps to `(0,0,0)`. -/
theorem double_lattice_index (g : Grid3D ℚ) (hx : 0 < g.xstep) (hy : 0 < g.ystep)
    (hz : 0 < g.zstep) (a b c : Nat) (ha : a < 2 ^ 31) (hb : b < 2 ^ 31) (hc : c < 2 ^ 31) :
    (∃ i j k : Int,
      Double.point_to_indices g
          ⟨g.minx + a * g.xstep, g.miny + b * g.ystep, g.minz + c * g.zstep⟩ = some ⟨i, j, k⟩ ∧
        (i = a ∨ i = a - 1) ∧ (j = b ∨ j = b - 1) ∧ (k = c ∨ k = c - 1)) ∧
    (|g.minx| ≤ 2147483648 * g.xstep → |g.miny| ≤ 2147483648 * g.ystep →
      |g.minz| ≤ 2147483648 * g.zstep →
      ∃ i j k : Int,
        Double.point_to_indices g
            ⟨Double.rnd (g.minx + Double.rnd (a * g.xstep)),
              Double.rnd (g.miny + Double.rnd (b * g.ystep)),
              Double.rnd (g.minz + Double.rnd (c * g.zstep))⟩ = some ⟨i, j, k⟩ ∧
          (i = a ∨ i = a - 1) ∧ (j = b ∨ j = b - 1) ∧ (k = c ∨ k = c - 1)) ∧
    (∀ p : Point ℚ, Double.rnd (p.x - g.minx) = a * g.xstep →
      Double.rnd (p.y - g.miny) = b * g.ystep → Double.rnd (p.z - g.minz) = c * g.zstep →
      Double.point_to_indices g p = some ⟨a, b, c⟩) ∧
    Double.point_to_indices g ⟨g.minx, g.miny, g.minz⟩ = some ⟨0, 0, 0⟩ := by
  have key : ∀ p : Point ℚ,
      (Double.cell p.x g.minx g.xstep = some (a : Int) ∨
        Double.cell p.x g.minx g.xstep = some ((a : Int) - 1)) →
      (Double.cell p.y g.miny g.ystep = some (b : Int) ∨
        Double.cell p.y g.miny g.ystep = some ((b : Int) - 1)) →
      (Double.cell p.z g.minz g.zstep = some (c : Int) ∨
        Double.cell p.z g.minz g.zstep = some ((c : Int) - 1)) →
      ∃ i j k : Int, Double.point_to_indices g p = some ⟨i, j, k⟩ ∧
        (i = a ∨ i = a - 1) ∧ (j = b ∨ j = b - 1) ∧ (k = c ∨ k = c - 1) := by
    intro p h1 h2 h3
    unfold Double.point_to_indices
    rcases h1 with h1 | h1 <;> rcases h2 with h2 | h2 <;> rcases h3 with h3 | h3 <;>
    · simp only [h1, h2, h3]
      exact ⟨_, _, _, rfl, by simp, by simp, by simp⟩
  refine ⟨?_, ?_, ?_, ?_⟩
  · exact key _ (Double.cell_lattice_near g.minx g.xstep hx a ha)
      (Double.cell_lattice_near g.miny g.ystep hy b hb)
      (Double.cell_lattice_near g.minz g.zstep hz c hc)
  · intro lx ly lz
    exact key _
      (Double.cell_lattice_about g.minx g.xstep hx a ha _
        (Double.computed_lattice_about g.minx g.xstep hx a ha lx))
      (Double.cell_lattice_about g.miny g.ystep hy b hb _
        (Double.computed_lattice_about g.miny g.ystep hy b hb ly))
      (Double.cell_lattice_about g.minz g.zstep hz c hc _
        (Double.computed_lattice_about g.minz g.zstep hz c hc lz))
  · intro p ex ey ez
    unfold Double.point_to_indices
    rw [Double.cell_lattice p.x g.minx g.xstep hx a ha ex,
      Double.cell_lattice p.y g.miny g.ystep hy b hb ey,
      Double.cell_lattice p.z g.minz g.zstep hz c hc ez]
  · have h0 : ∀ m s : ℚ, 0 < s → Double.cell m m s = some 0 := by
      intro m s hs
      have := Double.cell_lattice m m s hs 0 (by norm_num) (by
        rw [sub_self]
        simp [Double.rnd])
      simpa using this
    unfold Double.point_to_indices
    simp only [h0 _ _ hx, h0 _ _ hy, h0 _ _ hz]

/-- Witness of C27 (amended): in the grid with minimum `(-d, -d, 0)` and steps
`d`, `d` the double nearest to `0.7`, the lattice point for `(3, 1, 0)` is in
cell `(2, 1, 0)`; in the grid with minimum `(-2, -2, 0)` and steps `0.1` the
lattice point for `(2, 3, 1)` computed in doubles is in cell `(1, 3, 1)`; the
point `(d, 0, 0)`, whose differences `2d`, `d`, `0` from the minimum of the
first grid are doubles, is in its cell `(2, 1, 0)`. -/
theorem double_lattice_index_witness :
    ((0 : ℚ) < Double.grid07.xstep ∧ (0 : ℚ) < Double.grid07.ystep ∧
      (0 : ℚ) < Double.grid07.zstep ∧
      Double.point_to_indices Double.grid07
        ⟨Double.grid07.minx + (3 : Nat) * Double.grid07.xstep,
          Double.grid07.miny + (1 : Nat) * Double.grid07.ystep,
          Double.grid07.minz + (0 : Nat) * Double.grid07.zstep⟩ = some ⟨2, 1, 0⟩ ∧
      Double.point_to_indices Double.grid01
        ⟨Double.rnd (Double.grid01.minx + Double.rnd ((2 : Nat) * Double.grid01.xstep)),
          Double.rnd (Double.grid01.miny + Double.rnd ((3 : Nat) * Double.grid01.ystep)),
          Double.rnd (Double.grid01.minz + Double.rnd ((1 : Nat) * Double.grid01.zstep))⟩
        = some ⟨1, 3, 1⟩ ∧
      Double.rnd (Double.d07 - Double.grid07.minx) = (2 : Nat) * Double.grid07.xstep) ∧
    (∃ i j k : Int,
      Double.point_to_indices Double.grid07
          ⟨Double.grid07.minx + (3 : Nat) * Double.grid07.xstep,
            Double.grid07.miny + (1 : Nat) * Double.grid07.ystep,
            Double.grid07.minz + (0 : Nat) * Double.grid07.zstep⟩ = some ⟨i, j, k⟩ ∧
        (i = (3 : Nat) ∨ i = (3 : Nat) - 1) ∧ (j = (1 : Nat) ∨ j = (1 : Nat) - 1) ∧
        (k = (0 : Nat) ∨ k = (0 : Nat) - 1)) ∧
    (∃ i j k : Int,
      Double.point_to_indices Double.grid01
          ⟨Double.rnd (Double.grid01.minx + Double.rnd ((2 : Nat) * Double.grid01.xstep)),
            Double.rnd (Double.grid01.miny + Double.rnd ((3 : Nat) * Double.grid01.ystep)),
            Double.rnd (Double.grid01.minz + Double.rnd ((1 : Nat) * Double.grid01.zstep))⟩
          = some ⟨i, j, k⟩ ∧
        (i = (2 : Nat) ∨ i = (2 : Nat) - 1) ∧ (j = (3 : Nat) ∨ j = (3 : Nat) - 1) ∧
        (k = (1 : Nat) ∨ k = (1 : Nat) - 1)) ∧
    Double.point_to_indices Double.grid07 ⟨Double.d07, 0, 0⟩
      = some ⟨(2 : Nat), (1 : Nat), (0 : Nat)⟩ ∧
    Double.point_to_indices Double.grid07
      ⟨Double.grid07.minx, Double.grid07.miny, Double.grid07.minz⟩ = some ⟨0, 0, 0⟩ :=
  ⟨by decide!,
    (double_lattice_index Double.grid07 (by decide!) (by decide!) (by decide!) 3 1 0
      (by decide) (by decide) (by decide)).1,
    (double_lattice_index Double.grid01 (by decide!) (by decide!) (by decide!) 2 3 1
      (by decide) (by decide) (by decide)).2.1 (by decide!) (by decide!) (by decide!),
    (double_lattice_index Double.grid07 (by decide!) (by decide!) (by decide!) 2 1 0
      (by decide) (by decide) (by decide)).2.2.1 ⟨Double.d07, 0, 0⟩
      (by decide!) (by decide!) (by decide!),
    (double_lattice_index Double.grid07 (by decide!) (by decide!) (by decide!) 3 1 0
      (by decide) (by decide) (by decide)).2.2.2⟩

/-- C27 as stated fails in binary64 arithmetic. (a) In the grid with minimum
`(-d, -d, 0)` and steps `d`, `d` the double nearest to `0.7`, the point
`(2d, 2d, 2d)` has doubles for coordinates and is exactly the lattice point
`(minx + 3·xstep, miny + 3·ystep, minz + 2·zstep)`; the difference
`2d - (-d) = 3d` is not a double and rounds down, the quotient rounds to the
double below 3, and the cell is `(2, 2, 2)`, not `(3, 3, 2)`. (b) In the grid
with minimum `(-2, -2, 0)` and steps the double nearest to `0.1`, the lattice
point computed as `min + 2·step` in doubles is in cell `(1, 1, 2)`, not
`(2, 2, 2)`. -/
theorem double_lattice_point_one_low :
    ((0 : ℚ) < Double.grid07.xstep ∧
      (2 * Double.d07 : ℚ) = Double.grid07.minx + (3 : Nat) * Double.grid07.xstep ∧
      (2 * Double.d07 : ℚ) = Double.grid07.miny + (3 : Nat) * Double.grid07.ystep ∧
      (2 * Double.d07 : ℚ) = Double.grid07.minz + (2 : Nat) * Double.grid07.zstep ∧
      Double.rnd (2 * Double.d07) = 2 * Double.d07 ∧
      Double.rnd Double.grid07.minx = Double.grid07.minx ∧
      Double.rnd Double.grid07.xstep = Double.grid07.xstep ∧
      Double.point_to_indices Double.grid07 ⟨2 * Double.d07, 2 * Double.d07, 2 * Double.d07⟩
        = some ⟨2, 2, 2⟩) ∧
    ((0 : ℚ) < Double.grid01.xstep ∧
      Double.point_to_indices Double.grid01
        ⟨Double.rnd (Double.grid01.minx + Double.rnd ((2 : Nat) * Double.grid01.xstep)),
          Double.rnd (Double.grid01.miny + Double.rnd ((2 : Nat) * Double.grid01.ystep)),
          Double.rnd (Double.grid01.minz + Double.rnd ((2 : Nat) * Double.grid01.zstep))⟩
        = some ⟨1, 1, 2⟩) := by
  decide!

section CheckedFrameFacts
variable {R : Type} [LinearOrderedField R] [FloorRing R]

/-- Where the checked proposal is a vector, it is the proposal of
`fluct_proposed`. -/
theorem fluct_proposed_checked_eq (M : Libm R) (A : Axon R) (this : node R) (xy : R × R)
    (d : Point R) (h : fluct_proposed_checked M A this xy = some (some d)) :
    fluct_proposed M A this xy = some d := by
  unfold fluct_proposed_checked at h
  unfold fluct_proposed
  cases hf : fluct_frame A this with
  | none => rw [hf] at h; exact Option.noConfusion h
  | some q =>
    obtain ⟨q1, q2, q3⟩ := q
    rw [hf] at h
    simp only [Option.some.injEq] at h ⊢
    unfold rotate_sample_checked Point.normalize_checked at h
    by_cases h1 : q1.norm M = 0
    · simp [h1] at h
    · by_cases h2 : q2.norm M = 0
      · simp [h2] at h
      · by_cases h3 : q3.norm M = 0
        · simp [h3] at h
        · simp only [h1, h2, h3, if_false, Option.some_bind] at h
          split_ifs at h
          all_goals first
            | exact Option.noConfusion h
            | (simp only [Option.some.injEq] at h
               rw [← h]
               rfl)

/-- A frame whose first vector has norm 0 gives a proposal that holds NaN. -/
theorem fluct_proposed_checked_nan (M : Libm R) (A : Axon R) (this : node R) (xy : R × R)
    (q1 q2 q3 : Point R) (hf : fluct_frame A this = some (q1, q2, q3)) (h1 : q1.norm M = 0) :
    fluct_proposed_checked M A this xy = some none := by
  unfold fluct_proposed_checked
  rw [hf]
  simp only [Option.some.injEq]
  unfold rotate_sample_checked Point.normalize_checked
  rw [if_pos h1]
  simp only [Option.none_bind]
  split <;> first | rfl | simp_all

end CheckedFrameFacts

/-- C34 (code defect). On the straight chain `(0,0,0)`, `(0,0,1/10)`,
`(0,0,1/5)` that two noise-free growth calls build, the frame of
`node::fluctuate` is degenerate: for the interior node `cross(pr, rq)` is the
zero vector, for the tip `cross(pq, qr)` is, and `normalize` divides by its
norm 0. For every 2D sample the proposal holds NaN, so it is not a vector
orthogonal to the chord. -/
theorem fluct_straight_chain_nan :
    (straightAxon.deref (0, 0)).map (fun n => n.point) = some ⟨0, 0, 0⟩ ∧
    (straightAxon.deref (0, 1)).map (fun n => n.point) = some ⟨0, 0, 1 / 10⟩ ∧
    (straightAxon.deref (0, 2)).map (fun n => n.point) = some ⟨0, 0, 1 / 5⟩ ∧
    (straightAxon.deref (0, 1)).bind (fluct_frame straightAxon)
      = some (⟨0, 0, 0⟩, ⟨0, 0, 0⟩, ⟨0, 0, 1 / 5⟩) ∧
    (straightAxon.deref (0, 2)).bind (fluct_frame straightAxon)
      = some (⟨0, 0, 0⟩, ⟨0, 0, 0⟩, ⟨0, 0, 1 / 10⟩) ∧
    Point.norm ratLibm (⟨0, 0, 0⟩ : Point ℚ) = 0 ∧
    (∀ xy : ℚ × ℚ, (straightAxon.deref (0, 1)).bind
      (fun this => fluct_proposed_checked ratLibm straightAxon this xy) = some none) ∧
    (∀ xy : ℚ × ℚ, (straightAxon.deref (0, 2)).bind
      (fun this => fluct_proposed_checked ratLibm straightAxon this xy) = some none) := by
  have f1 : (straightAxon.deref (0, 1)).bind (fluct_frame straightAxon)
      = some (⟨0, 0, 0⟩, ⟨0, 0, 0⟩, ⟨0, 0, 1 / 5⟩) := by decide!
  have f2 : (straightAxon.deref (0, 2)).bind (fluct_frame straightAxon)
      = some (⟨0, 0, 0⟩, ⟨0, 0, 0⟩, ⟨0, 0, 1 / 10⟩) := by decide!
  have h0 : Point.norm ratLibm (⟨0, 0, 0⟩ : Point ℚ) = 0 := by decide!
  refine ⟨by decide!, by decide!, by decide!, f1, f2, h0, ?_, ?_⟩
  · intro xy
    cases hd : straightAxon.deref (0, 1) with
    | none => rw [hd] at f1; exact Option.noConfusion f1
    | some this =>
      rw [hd] at f1
      exact fluct_proposed_checked_nan ratLibm straightAxon this xy _ _ _ f1 h0
  · intro xy
    cases hd : straightAxon.deref (0, 2) with
    | none => rw [hd] at f2; exact Option.noConfusion f2
    | some this =>
      rw [hd] at f2
      exact fluct_proposed_checked_nan ratLibm straightAxon this xy _ _ _ f2 h0

/-! ### One growth attempt, with and without the link search -/

section GrowContract
variable {R : Type} [LinearOrderedField R] [FloorRing R]

theorem sameChains_refl (B : Axon R) : B.sameChains B :=
  ⟨rfl, rfl, fun _ => rfl, fun _ => rfl⟩

theorem sameChains_update (B A : Axon R) (p : NodePtr) (g : node R → node R)
    (hg : ∀ n, (g n).chain = n.chain) (h : B.sameChains A) : B.sameChains (A.update p g) := by
  obtain ⟨h1, h2, h3, h4⟩ := h
  refine ⟨h1, ?_, ?_, ?_⟩
  · rw [← h2]
    unfold Axon.update
    simp
  · intro i
    rw [← h3 i]
    unfold Axon.update
    simp only [List.getElem?_modify]
    cases A.filaments[i]? with
    | none => rfl
    | some f =>
      simp only [Option.map_eq_map, Option.map_some', Option.some.injEq]
      split
      · simp [Filament.num_nodes]
      · rfl
  · intro q
    rw [deref_update, ← h4 q]
    split
    · cases A.deref q with
      | none => rfl
      | some n => simp [hg n]
    · rfl

theorem sameChains_setGrid (B A : Axon R) (gid : GridId) (g : Grid3D R)
    (h : B.sameChains A) : B.sameChains (A.setGrid gid g) := by
  obtain ⟨h1, h2, h3, h4⟩ := h
  cases gid
  · exact ⟨h1, h2, h3, h4⟩
  · exact ⟨h1, h2, h3, h4⟩

theorem sameChains_move_within_grid (B A : Axon R) (p : NodePtr) (t : Point R) (gid : GridId)
    (h : B.sameChains A) : B.sameChains (node.move_within_grid A p t gid).1 := by
  rcases move_within_grid_cases A p t gid with e | e | ⟨old, e⟩
  · rw [e]
    exact h
  · rw [e]
    exact sameChains_update B A p _ (fun _ => rfl) h
  · rw [e]
    exact sameChains_setGrid B _ gid _ (sameChains_update B A p _ (fun _ => rfl) h)

theorem sameChains_move (F : Flags) (B A : Axon R) (p : NodePtr) (t : Point R)
    (h : B.sameChains A) : B.sameChains (node.move F A p t).1 := by
  unfold node.move
  simp only
  by_cases h1 : F.FORM_LINKS = true
  · by_cases h2 : F.COLLISIONS = true
    · simp only [h1, h2, if_true]
      exact sameChains_move_within_grid B _ p t _ (sameChains_move_within_grid B A p t _ h)
    · simp only [h1, h2, if_true, if_false]
      exact sameChains_move_within_grid B A p t _ h
  · by_cases h2 : F.COLLISIONS = true
    · simp only [h1, h2, if_true, if_false]
      exact sameChains_move_within_grid B A p t _ h
    · simp only [h1, h2, if_false]
      exact h

theorem sameChains_link (M : Libm R) (F : Flags) (B A : Axon R) (a b : NodePtr) (u : R)
    (h : B.sameChains A) : B.sameChains (A.link M F a b u).1 := by
  cases hda : A.deref a with
  | none =>
    have e : A.link M F a b u = (A, false) := by
      unfold Axon.link
      rw [hda]
    rw [e]
    exact h
  | some n =>
    cases hdb : A.deref b with
    | none =>
      have e : A.link M F a b u = (A, false) := by
        unfold Axon.link
        rw [hda, hdb]
      rw [e]
      exact h
    | some m =>
      rcases link_eq M F A a b n m hda hdb u with ⟨_, e⟩ | ⟨_, e⟩
      · rw [e]
        exact h
      · rw [e]
        have hm : B.sameChains (link_moved M F A a b n m).1 := by
          unfold link_moved
          split_ifs
          · exact sameChains_move F B _ b _ (sameChains_move F B A a _ h)
          · exact sameChains_move F B A b _ h
          · exact sameChains_move F B A a _ h
          · exact h
        have hadd : ∀ (l : Option NodePtr) (x : node R), (x.add_link l).chain = x.chain := by
          intro l x
          unfold node.add_link node.chain
          simp only
          split_ifs <;> rfl
        exact sameChains_update B _ b _ (hadd _) (sameChains_update B _ a _ (hadd _) hm)

theorem sameChains_seek_cell (M : Libm R) (F : Flags) (rand : Nat → R) (new : NodePtr)
    (B : Axon R) :
    ∀ (l : List (Option NodePtr)) (c : Nat) (A : Axon R), B.sameChains A →
      B.sameChains (seek_cell M F rand new l c A).1 := by
  intro l
  induction l with
  | nil => intro c A h; exact h
  | cons e rest ih =>
    intro c A h
    cases e with
    | none =>
      rw [seek_cell]
      exact ih c A h
    | some it =>
      rw [seek_cell]
      have hlink := sameChains_link M F B A it new (rand c) h
      split_ifs
      · exact hlink
      · exact hlink
      · exact ih _ _ hlink
      · exact ih _ _ hlink

/-- The link search changes no node counter, no node count and no chain
neighbour. -/
theorem sameChains_seek_links (M : Libm R) (F : Flags) (rand : Nat → R) (B : Axon R)
    (new : NodePtr) (l1 l2 : R) (c : Nat) :
    B.sameChains (B.seek_links_for_node M F rand new l1 l2 c).1 := by
  unfold Axon.seek_links_for_node
  simp only
  refine foldl_preserves (fun Ac : Axon R × Nat => B.sameChains Ac.1) _ (fun s x hs => ?_) _ _
    (sameChains_refl B)
  refine foldl_preserves (fun Ac : Axon R × Nat => B.sameChains Ac.1) _ (fun s x hs => ?_) _ _ hs
  refine foldl_preserves (fun Ac : Axon R × Nat => B.sameChains Ac.1) _ (fun s x hs => ?_) _ _ hs
  split_ifs
  · exact sameChains_seek_cell M F rand new B _ _ _ hs
  · exact hs

theorem grown_deref_eq (A : Axon R) (index : Nat) (d : Point R) (q : NodePtr) :
    (A.grown index d).deref q
      = ((A.filaments.modify (fun f => f.grow index d) index)[q.1]?).bind
          (fun f => f.nodes[q.2]?) := by
  unfold Axon.deref Axon.grown
  simp only
  cases (A.filaments.modify (fun f => f.grow index d) index)[q.1]? <;> rfl

theorem grow_eq (f : Filament R) (slot : Nat) (d : Point R) (hpos : 0 < f.num_nodes)
    (hnum : f.num_nodes < MAX_NODES) :
    f.grow slot d =
      ⟨f.nodes.modify (fun x => { x with up := some (slot, f.num_nodes) }) (f.num_nodes - 1)
        ++ [{ node.init (Point.sum (f.nodes.getD (f.num_nodes - 1) (node.init origin f.id)).point
              d) f.id with down := some (slot, f.num_nodes - 1) }], f.id⟩ := by
  unfold Filament.grow
  rw [if_neg (by omega), if_neg (by omega)]

/-- The axon after `f->grow(delta_tip)` and the registration in the grids. -/
theorem grown_spec (A : Axon R) (index : Nat) (d : Point R) (f : Filament R)
    (hf : A.filaments[index]? = some f) (hpos : 0 < f.num_nodes)
    (hnum : f.num_nodes < MAX_NODES)
    (h2 : A.link_grid.in_range (A.link_grid.point_to_indices (Point.sum (A.tipOf index) d))
      = true)
    (h3 : A.collide_grid.in_range
      (A.collide_grid.point_to_indices (Point.sum (A.tipOf index) d)) = true) :
    A.grown_ptr index d = (index, f.num_nodes) ∧
    (A.grown index d).deref (index, f.num_nodes)
      = some { node.init (Point.sum (A.tipOf index) d) f.id with
          down := some (index, f.num_nodes - 1) } ∧
    (∀ (q : NodePtr) (nd0 : node R), A.deref q = some nd0 →
      (A.grown index d).deref q
        = some (if q = (index, f.num_nodes - 1)
            then { nd0 with up := some (index, f.num_nodes) } else nd0)) ∧
    (∀ i : Nat, ((A.grown index d).filaments[i]?).map (fun g => (g.id, g.num_nodes))
      = (A.filaments[i]?).map
          (fun g => (g.id, if i = index then g.num_nodes + 1 else g.num_nodes))) ∧
    (A.grown index d).filaments.length = A.filaments.length ∧
    (∀ cell, (A.grown index d).link_grid.cells cell
      = if cell = A.link_grid.point_to_indices (Point.sum (A.tipOf index) d)
        then A.link_grid.cells cell ++ [some (index, f.num_nodes)]
        else A.link_grid.cells cell) ∧
    (∀ cell, (A.grown index d).collide_grid.cells cell
      = if cell = A.collide_grid.point_to_indices (Point.sum (A.tipOf index) d)
        then A.collide_grid.cells cell ++ [some (index, f.num_nodes)]
        else A.collide_grid.cells cell) ∧
    (A.grown index d).total_nodes = A.total_nodes + 1 := by
  have hgrow := grow_eq f index d hpos hnum
  have htip : (f.nodes.getD (f.num_nodes - 1) (node.init origin f.id)).point = A.tipOf index := by
    simp only [Axon.tipOf, hf]
  rw [htip] at hgrow
  have hlen : (f.nodes.modify (fun x => { x with up := some (index, f.num_nodes) })
      (f.num_nodes - 1)).length = f.num_nodes := by
    rw [List.length_modify]; rfl
  have hA1 : (A.filaments.modify (fun f => f.grow index d) index)[index]?
      = some (f.grow index d) := by
    rw [List.getElem?_modify_eq, hf]; rfl
  have hnn : (f.grow index d).num_nodes = f.num_nodes + 1 := by
    rw [hgrow]
    unfold Filament.num_nodes
    rw [List.length_append, List.length_modify]
    rfl
  have hnew : (f.grow index d).nodes[f.num_nodes]?
      = some { node.init (Point.sum (A.tipOf index) d) f.id with
          down := some (index, f.num_nodes - 1) } := by
    rw [hgrow]
    simp only
    rw [List.getElem?_append_right (by rw [hlen]), hlen]
    simp
  have hptr : A.grown_ptr index d = (index, f.num_nodes) := by
    unfold Axon.grown_ptr
    simp only [hA1, hnn, Nat.add_sub_cancel]
  have hder : (A.grown index d).deref (index, f.num_nodes)
      = some { node.init (Point.sum (A.tipOf index) d) f.id with
          down := some (index, f.num_nodes - 1) } := by
    rw [grown_deref_eq, hA1]
    exact hnew
  have hpt : ({ A with filaments := A.filaments.modify (fun f => f.grow index d) index } :
      Axon R).pointOf (index, f.num_nodes) = Point.sum (A.tipOf index) d := by
    have hder1 : ({ A with filaments := A.filaments.modify (fun f => f.grow index d) index } :
        Axon R).deref (index, f.num_nodes)
        = some { node.init (Point.sum (A.tipOf index) d) f.id with
            down := some (index, f.num_nodes - 1) } := by
      unfold Axon.deref
      simp only [hA1, hnew]
    exact pointOf_some _ _ _ hder1
  refine ⟨hptr, hder, ?_, ?_, ?_, ?_, ?_, rfl⟩
  · intro q nd0 hq
    rw [grown_deref_eq, List.getElem?_modify]
    unfold Axon.deref at hq
    cases hfq : A.filaments[q.1]? with
    | none => rw [hfq] at hq; exact Option.noConfusion hq
    | some fq =>
      rw [hfq] at hq
      simp only at hq
      simp only [Option.map_eq_map, Option.map_some', Option.some_bind]
      by_cases hi : index = q.1
      · rw [if_pos hi]
        have e : fq = f := by
          rw [← hi, hf] at hfq
          exact (Option.some.inj hfq).symm
        subst e
        have hk : q.2 < fq.nodes.length := (List.getElem?_eq_some.mp hq).1
        rw [hgrow]
        simp only
        rw [List.getElem?_append_left (by rw [hlen]; exact hk), List.getElem?_modify, hq]
        simp only [Option.map_eq_map, Option.map_some', Option.some.injEq]
        by_cases hk2 : fq.num_nodes - 1 = q.2
        · rw [if_pos hk2, if_pos (Prod.ext hi.symm hk2.symm)]
        · rw [if_neg hk2, if_neg (fun e => hk2 (congrArg Prod.snd e).symm)]
      · rw [if_neg hi, if_neg (fun e => hi (congrArg Prod.fst e).symm)]
        exact hq
  · intro i
    have e : (A.grown index d).filaments = A.filaments.modify (fun f => f.grow index d) index :=
      rfl
    rw [e, List.getElem?_modify]
    cases hfi : A.filaments[i]? with
    | none => rfl
    | some fi =>
      simp only [Option.map_eq_map, Option.map_some', Option.some.injEq]
      by_cases hi : index = i
      · rw [if_pos hi, if_pos hi.symm]
        have e2 : fi = f := by
          rw [← hi, hf] at hfi
          exact (Option.some.inj hfi).symm
        subst e2
        rw [hnn, hgrow]
      · rw [if_neg hi, if_neg (fun e => hi e.symm)]
  · have e : (A.grown index d).filaments = A.filaments.modify (fun f => f.grow index d) index :=
      rfl
    rw [e, List.length_modify]
  · intro cell
    unfold Axon.grown
    simp only [hA1, hnn, Nat.add_sub_cancel, hpt]
    exact add_node_cells A.link_grid _ _ h2 cell
  · intro cell
    unfold Axon.grown
    simp only [hA1, hnn, Nat.add_sub_cancel, hpt]
    exact add_node_cells A.collide_grid _ _ h3 cell

/-- C11 (amended). One growth attempt of `Axon::grow_filaments` on filament
`index` (with at least one and fewer than `MAX_NODES` nodes), tip `t` and
proposed displacement `d`. If `in_cylinder(t+d)`, `t+d` is in range of both
grids and no collision is reported, then `f->grow` and the registration give
the axon `grown`: the filament has one node more, created at `t+d` with the
filament's id, no links and the old tip as down neighbour; every existing node
is as it was, but for the up neighbour of the old tip; the new node is appended
to bucket `point_to_indices(t+d)` of both grids, every other bucket is
unchanged, and `total_nodes` is one higher. With `FORM_LINKS` off that is the
result of the attempt; with `FORM_LINKS` on the result is that of
`seek_links_for_node` for the new node on `grown`, in which the filament still
has exactly one node more (every other filament its old count), `total_nodes`
is one higher, the new node has the old tip as down neighbour and every
existing node its chain neighbours. Otherwise the axon is unchanged. -/
theorem grow_attempt_contract (M : Libm R) (F : Flags) (rand : Nat → R) (A : Axon R)
    (index : Nat) (d : Point R) (c : Nat) (f : Filament R)
    (hf : A.filaments[index]? = some f) (hpos : 0 < f.num_nodes)
    (hnum : f.num_nodes < MAX_NODES) :
    (A.in_cylinder (Point.sum (A.tipOf index) d) = true →
      A.link_grid.in_range (A.link_grid.point_to_indices (Point.sum (A.tipOf index) d)) = true →
      A.collide_grid.in_range
        (A.collide_grid.point_to_indices (Point.sum (A.tipOf index) d)) = true →
      (F.COLLISIONS && A.check_collisions M (A.tipOf index) (Point.sum (A.tipOf index) d) f.id)
        = false →
      ((A.grown index d).deref (index, f.num_nodes)
          = some { node.init (Point.sum (A.tipOf index) d) f.id with
              down := some (index, f.num_nodes - 1) } ∧
        (∀ (q : NodePtr) (nd0 : node R), A.deref q = some nd0 →
          (A.grown index d).deref q
            = some (if q = (index, f.num_nodes - 1)
                then { nd0 with up := some (index, f.num_nodes) } else nd0)) ∧
        (∀ cell, (A.grown index d).link_grid.cells cell
          = if cell = A.link_grid.point_to_indices (Point.sum (A.tipOf index) d)
            then A.link_grid.cells cell ++ [some (index, f.num_nodes)]
            else A.link_grid.cells cell) ∧
        (∀ cell, (A.grown index d).collide_grid.cells cell
          = if cell = A.collide_grid.point_to_indices (Point.sum (A.tipOf index) d)
            then A.collide_grid.cells cell ++ [some (index, f.num_nodes)]
            else A.collide_grid.cells cell)) ∧
      (Axon.grow_attempt M F rand A index d c).1
        = (if F.FORM_LINKS then
            ((A.grown index d).seek_links_for_node M F rand (index, f.num_nodes) LINK_LEN
              LINK_FORM_PROB c).1
          else A.grown index d) ∧
      (∀ i : Nat, ((Axon.grow_attempt M F rand A index d c).1.filaments[i]?).map
          (fun g => (g.id, g.num_nodes))
        = (A.filaments[i]?).map
          (fun g => (g.id, if i = index then g.num_nodes + 1 else g.num_nodes))) ∧
      (Axon.grow_attempt M F rand A index d c).1.filaments.length = A.filaments.length ∧
      (Axon.grow_attempt M F rand A index d c).1.total_nodes = A.total_nodes + 1 ∧
      ((Axon.grow_attempt M F rand A index d c).1.deref (index, f.num_nodes)).map node.chain
        = some (none, some (index, f.num_nodes - 1), f.id) ∧
      (∀ (q : NodePtr) (nd0 : node R), A.deref q = some nd0 →
        ((Axon.grow_attempt M F rand A index d c).1.deref q).map node.chain
          = some (if q = (index, f.num_nodes - 1) then some (index, f.num_nodes) else nd0.up,
              nd0.down, nd0.filament_id))) ∧
    (A.may_grow M F index d = false → (Axon.grow_attempt M F rand A index d c).1 = A) := by
  constructor
  · intro h1 h2 h3 h4
    have hmay : A.may_grow M F index d = true := by
      unfold Axon.may_grow
      simp only [hf, h1, h2, h3, h4]
      rfl
    obtain ⟨g1, g2, g3, g4, g5, g6, g7, g8⟩ := grown_spec A index d f hf hpos hnum h2 h3
    have hres : (Axon.grow_attempt M F rand A index d c).1
        = (if F.FORM_LINKS then
            ((A.grown index d).seek_links_for_node M F rand (index, f.num_nodes) LINK_LEN
              LINK_FORM_PROB c).1
          else A.grown index d) := by
      rw [grow_attempt_eq, if_pos hmay, g1]
      split <;> rfl
    have hsame : (A.grown index d).sameChains (Axon.grow_attempt M F rand A index d c).1 := by
      rw [hres]
      split
      · exact sameChains_seek_links M F rand _ _ _ _ _
      · exact sameChains_refl _
    obtain ⟨s1, s2, s3, s4⟩ := hsame
    refine ⟨⟨g2, g3, g6, g7⟩, hres, ?_, ?_, ?_, ?_, ?_⟩
    · intro i
      rw [s3 i, g4 i]
    · rw [s2, g5]
    · rw [s1, g8]
    · rw [s4, g2]
      rfl
    · intro q nd0 hq
      rw [s4, g3 q nd0 hq]
      simp only [Option.map_some', Option.some.injEq]
      split <;> rfl
  · intro h
    unfold Axon.grow_attempt
    rw [h]
    rfl

/-- Witness of C11 (amended): the seed-only filament 1 of `growAxon` grows by
`(0, 0, 1/10)` with all switches on; the link search then links the new node
to a node of filament 0. -/
theorem grow_attempt_contract_witness :
    (growAxon.filaments[1]? = some ⟨[node.init ⟨1 / 10, 0, 0⟩ 1], 1⟩ ∧
      growAxon.in_cylinder (Point.sum (growAxon.tipOf 1) ⟨0, 0, 1 / 10⟩) = true ∧
      (flagsOn.COLLISIONS && growAxon.check_collisions ratLibm (growAxon.tipOf 1)
        (Point.sum (growAxon.tipOf 1) ⟨0, 0, 1 / 10⟩) 1) = false ∧
      (Axon.grow_attempt ratLibm flagsOn (fun _ => 1 / 2) growAxon 1
        ⟨0, 0, 1 / 10⟩ 0).1.linkListOf (1, 1) = [some (0, 1)]) ∧
    (Axon.grow_attempt ratLibm flagsOn (fun _ => 1 / 2) growAxon 1 ⟨0, 0, 1 / 10⟩ 0).1.total_nodes
      = growAxon.total_nodes + 1 ∧
    ((Axon.grow_attempt ratLibm flagsOn (fun _ => 1 / 2) growAxon 1
        ⟨0, 0, 1 / 10⟩ 0).1.deref (1, 1)).map node.chain = some (none, some (1, 1 - 1), 1) :=
  ⟨⟨rfl, by decide!, by decide!, by decide!⟩,
    ((grow_attempt_contract ratLibm flagsOn (fun _ => 1 / 2) growAxon 1 ⟨0, 0, 1 / 10⟩ 0
      ⟨[node.init ⟨1 / 10, 0, 0⟩ 1], 1⟩ rfl (by decide) (by decide)).1
      (by decide!) (by decide!) (by decide!) (by decide!)).2.2.2.2.1,
    ((grow_attempt_contract ratLibm flagsOn (fun _ => 1 / 2) growAxon 1 ⟨0, 0, 1 / 10⟩ 0
      ⟨[node.init ⟨1 / 10, 0, 0⟩ 1], 1⟩ rfl (by decide) (by decide)).1
      (by decide!) (by decide!) (by decide!) (by decide!)).2.2.2.2.2.1⟩

end GrowContract

/-! ### Link capacity -/

section Capacity
variable {R : Type} [LinearOrderedField R] [FloorRing R]

end Capacity

/-! ### The Bernoulli trial of the link search -/

section Trial
variable {R : Type} [LinearOrderedField R] [FloorRing R]

end Trial

section AcrossFacts
variable {R : Type} [LinearOrderedField R] [FloorRing R]

/-- In a state of the data model no node is in its own link list. -/
theorem noSelfLinks_of_linksAcross (A : Axon R) (h : A.LinksAcross) : A.NoSelfLinks := by
  intro x hx
  cases hd : A.deref x with
  | none =>
    rw [linkListOf_eq_nil_of_dead A x hd] at hx
    exact List.not_mem_nil _ hx
  | some nx => exact h x x nx nx hd hd hx rfl

end AcrossFacts

/-! ### Link symmetry in the data model -/

section AcrossInv
variable {R : Type} [LinearOrderedField R] [FloorRing R]

theorem linksAcross_of (A B : Axon R)
    (hfid : ∀ p, (B.deref p).map (fun n => n.filament_id)
      = (A.deref p).map (fun n => n.filament_id))
    (hmem : ∀ x y, some y ∈ B.linkListOf x → some y ∈ A.linkListOf x ∨
      ∃ nx ny, A.deref x = some nx ∧ A.deref y = some ny ∧ nx.filament_id ≠ ny.filament_id)
    (h : A.LinksAcross) : B.LinksAcross := by
  intro x y nx ny hx hy hxy
  have fx := hfid x
  have fy := hfid y
  rw [hx] at fx
  rw [hy] at fy
  cases hax : A.deref x with
  | none => rw [hax] at fx; exact Option.noConfusion fx
  | some ax =>
    cases hay : A.deref y with
    | none => rw [hay] at fy; exact Option.noConfusion fy
    | some ay =>
      rw [hax] at fx
      rw [hay] at fy
      simp only [Option.map_some', Option.some.injEq] at fx fy
      rw [fx, fy]
      rcases hmem x y hxy with h1 | ⟨px, py, e1, e2, e3⟩
      · exact h x y ax ay hax hay h1
      · rw [hax] at e1
        rw [hay] at e2
        cases e1
        cases e2
        exact e3

theorem chain_fid (A B : Axon R) (p : NodePtr)
    (h : (B.deref p).map node.chain = (A.deref p).map node.chain) :
    (B.deref p).map (fun n => n.filament_id) = (A.deref p).map (fun n => n.filament_id) := by
  have := congrArg (Option.map (fun c : Option NodePtr × Option NodePtr × Int => c.2.2)) h
  simpa [Option.map_map, Function.comp, node.chain] using this

/-- The link lists after a call of `Axon::link` that changed the axon. -/
theorem link_linkListOf (M : Libm R) (F : Flags) (A : Axon R) (a b : NodePtr) (u : R) :
    (A.link M F a b u).1 = A ∨
    ∃ n m, A.deref a = some n ∧ A.deref b = some m ∧ link_guards M a b n m u ∧
      ∀ q, (A.link M F a b u).1.linkListOf q
        = if q = b then A.linkListOf q ++ [some a]
          else if q = a then A.linkListOf q ++ [some b] else A.linkListOf q := by
  cases hda : A.deref a with
  | none =>
    left
    unfold Axon.link
    rw [hda]
  | some n =>
    cases hdb : A.deref b with
    | none =>
      left
      unfold Axon.link
      rw [hda, hdb]
    | some m =>
      rcases link_eq M F A a b n m hda hdb u with ⟨_, e⟩ | ⟨hg, e⟩
      · left
        rw [e]
      · right
        refine ⟨n, m, rfl, rfl, hg, ?_⟩
        rw [e]
        simp only
        have hab : a ≠ b := hg.1.1
        have hmax : (MAX_LINKS : Nat) = 13 := rfl
        have hcn : n.num_links ≤ MAX_LINKS := by
          have := hg.2.2.2.1.1
          omega
        have hcm : m.num_links ≤ MAX_LINKS := by
          have := hg.2.2.2.1.2
          omega
        have hLa : A.linkListOf a = n.linkList := linkListOf_some A a n hda
        have hLb : A.linkListOf b = m.linkList := linkListOf_some A b m hdb
        have hX := linkListOf_link_moved M F A a b n m
        have hXl := link_moved_live M F A a b n m
        have h3 := update_add_spec (link_moved M F A a b n m).1 a (some b)
          (by rw [hXl, hda]; rfl) (by rw [hX, hLa]; simpa [node.linkList] using hcn)
        have h4 := update_add_spec
          ((link_moved M F A a b n m).1.update a (fun x => x.add_link (some b))) b (some a)
          (by rw [deref_update, if_neg (Ne.symm hab), hXl, hdb]; rfl)
          (by rw [h3, if_neg (Ne.symm hab), hX, hLb]; simpa [node.linkList] using hcm)
        intro q
        rw [h4, h3, hX]
        by_cases hqb : q = b
        · rw [if_pos hqb, if_pos hqb, if_neg (by rw [hqb]; exact Ne.symm hab)]
        · rw [if_neg hqb, if_neg hqb]

theorem link_across (M : Libm R) (F : Flags) (A : Axon R) (a b : NodePtr) (u : R)
    (h : A.LinksAcross) : (A.link M F a b u).1.LinksAcross := by
  rcases link_linkListOf M F A a b u with e | ⟨n, m, hn, hm, hg, hL⟩
  · rw [e]
    exact h
  · refine linksAcross_of A _ (fun p => chain_fid A _ p
      ((sameChains_link M F A A a b u (sameChains_refl A)).2.2.2 p)) ?_ h
    intro x y hxy
    rw [hL] at hxy
    by_cases hxb : x = b
    · rw [if_pos hxb, List.mem_append, List.mem_singleton] at hxy
      rcases hxy with h1 | h1
      · exact Or.inl h1
      · simp only [Option.some.injEq] at h1
        right
        rw [hxb, h1]
        exact ⟨m, n, hm, hn, fun e => hg.1.2 e.symm⟩
    · rw [if_neg hxb] at hxy
      by_cases hxa : x = a
      · rw [if_pos hxa, List.mem_append, List.mem_singleton] at hxy
        rcases hxy with h1 | h1
        · exact Or.inl h1
        · simp only [Option.some.injEq] at h1
          right
          rw [hxa, h1]
          exact ⟨n, m, hn, hm, hg.1.2⟩
      · rw [if_neg hxa] at hxy
        exact Or.inl hxy

theorem remove_link_fid (x : node R) (l : Option NodePtr) :
    (x.remove_link l).filament_id = x.filament_id := by
  unfold node.remove_link
  split <;> rfl

theorem update_remove_across (A : Axon R) (p : NodePtr) (l : Option NodePtr)
    (hnd : ∀ q, (A.linkListOf q).Nodup) (h : A.LinksAcross) :
    (A.update p (fun x => x.remove_link l)).LinksAcross := by
  refine linksAcross_of A _ (fun q => ?_) (fun x y hxy => ?_) h
  · rw [deref_update]
    split
    · cases A.deref q with
      | none => rfl
      | some n => simp [remove_link_fid]
    · rfl
  · exact Or.inl (((update_remove_spec A p l hnd).2 x (some y)).mp hxy).1

theorem break_links_step_across (A : Axon R) (i j k : Nat) (u : R)
    (hnd : ∀ q, (A.linkListOf q).Nodup) (h : A.LinksAcross) :
    (break_links_step A i j k u).LinksAcross := by
  unfold break_links_step
  split_ifs with hu
  swap
  · exact h
  cases A.linkSlot (i, j) k with
  | none =>
    simp only
    exact update_remove_across A _ _ hnd h
  | some t =>
    simp only
    exact update_remove_across _ _ _ (update_remove_spec A t (some (i, j)) hnd).1
      (update_remove_across A _ _ hnd h)

theorem break_links_k_across (rand : Nat → R) (i j : Nat) :
    ∀ (fuel k c : Nat) (A : Axon R), A.LinksConsistent → A.LinksAcross →
      (break_links_k rand i j fuel k c A).1.LinksConsistent ∧
      (break_links_k rand i j fuel k c A).1.LinksAcross := by
  intro fuel
  induction fuel with
  | zero =>
    intro k c A h hx
    exact ⟨h, hx⟩
  | succ fuel ih =>
    intro k c A h hx
    unfold break_links_k
    cases hd : A.deref (i, j) with
    | none => exact ⟨h, hx⟩
    | some nd =>
      simp only
      split_ifs with hk
      · obtain ⟨h1, _⟩ := break_links_step_inv A i j k (rand c) nd hd hk h
          (noSelfLinks_of_linksAcross A hx)
        exact ih _ _ _ h1 (break_links_step_across A i j k (rand c) h.1 hx)
      · exact ⟨h, hx⟩

theorem break_links_across (rand : Nat → R) (c : Nat) (A : Axon R)
    (h : A.LinksConsistent) (hx : A.LinksAcross) :
    (A.break_links rand c).1.LinksConsistent ∧ (A.break_links rand c).1.LinksAcross := by
  unfold Axon.break_links
  apply foldl_preserves (fun Ac : Axon R × Nat => Ac.1.LinksConsistent ∧ Ac.1.LinksAcross)
  · intro s i hP
    cases s.1.filaments[i]? with
    | none => exact hP
    | some f =>
      simp only
      unfold break_links_j
      apply foldl_preserves (fun Ac : Axon R × Nat => Ac.1.LinksConsistent ∧ Ac.1.LinksAcross)
      · intro s1 j hP1
        exact break_links_k_across rand i j _ _ _ _ hP1.1 hP1.2
      · exact hP
  · exact ⟨h, hx⟩

/-- Executable form of `LinksAcross`. -/
theorem linksAcross_of_check (A : Axon ℚ)
    (h : (A.allPtrs.all fun x => (A.linkListOf x).all fun l =>
      match l with
      | none => true
      | some y => decide ((A.deref x).map (fun n => n.filament_id)
          ≠ (A.deref y).map (fun n => n.filament_id))) = true) : A.LinksAcross := by
  intro x y nx ny hx hy hxy
  simp only [List.all_eq_true] at h
  have h1 := h x (mem_allPtrs_of_deref A x nx hx) (some y) hxy
  simp only [hx, hy, Option.map_some', ne_eq, Option.some.injEq, decide_eq_true_eq] at h1
  exact h1

/-- C6. Link symmetry is an invariant of the engine: starting from a state of
the data model (every link goes to a node of another chain) in which every
node's link list is duplicate-free and `b` is in `links(a)` exactly when `a` is
in `links(b)`, the same holds, in a state of the data model again, after any
call of `Axon::link` and after any call of `Axon::break_links`, for every
sequence of random draws. -/
theorem link_symmetry_data_model (M : Libm R) (F : Flags) (A : Axon R)
    (h : A.LinksConsistent) (hx : A.LinksAcross) :
    (∀ (a b : NodePtr) (u : R),
      (A.link M F a b u).1.LinksConsistent ∧ (A.link M F a b u).1.LinksAcross) ∧
    (∀ (rand : Nat → R) (c : Nat),
      (A.break_links rand c).1.LinksConsistent ∧ (A.break_links rand c).1.LinksAcross) :=
  ⟨fun a b u => ⟨(link_inv M F A a b u h (noSelfLinks_of_linksAcross A hx)).1,
      link_across M F A a b u hx⟩,
    fun rand c => break_links_across rand c A h hx⟩

/-- Witness of C6: the four-filament axon with links `X–P`, `X–Y`, `Y–Q`; a
`link` call on `Y` and `P`, which adds the link `Y–P`, and one pass of
`break_links` whose first draw succeeds, which removes the link `X–P`. -/
theorem link_symmetry_data_model_witness :
    (skipAxon.linksNodupB = true ∧ skipAxon.linksSymmetricB = true ∧
      skipAxon.linkListOf (1, 1) = [some (3, 1), some (0, 1)] ∧
      (skipAxon.link ratLibm flagsOn (1, 1) (2, 1) 0).1.linkListOf (1, 1)
        = [some (3, 1), some (0, 1), some (2, 1)] ∧
      (skipAxon.link ratLibm flagsOn (1, 1) (2, 1) 0).1.linkListOf (2, 1)
        = [some (0, 1), some (1, 1)] ∧
      (skipAxon.break_links selfRand 0).1.linkListOf (0, 1) = [some (1, 1)] ∧
      (skipAxon.break_links selfRand 0).1.linkListOf (2, 1) = []) ∧
    ((skipAxon.link ratLibm flagsOn (1, 1) (2, 1) 0).1.LinksConsistent ∧
      (skipAxon.link ratLibm flagsOn (1, 1) (2, 1) 0).1.LinksAcross) ∧
    ((skipAxon.break_links selfRand 0).1.LinksConsistent ∧
      (skipAxon.break_links selfRand 0).1.LinksAcross) :=
  ⟨by decide!,
    (link_symmetry_data_model ratLibm flagsOn skipAxon
      ⟨linksNodup_of_check skipAxon (by decide!), linksSymmetric_of_check skipAxon (by decide!)⟩
      (linksAcross_of_check skipAxon (by decide!))).1 (1, 1) (2, 1) 0,
    (link_symmetry_data_model ratLibm flagsOn skipAxon
      ⟨linksNodup_of_check skipAxon (by decide!), linksSymmetric_of_check skipAxon (by decide!)⟩
      (linksAcross_of_check skipAxon (by decide!))).2 selfRand 0⟩

end AcrossInv

section CheckedOrthogonal
variable {R : Type} [LinearOrderedField R] [FloorRing R]

/-- Where the checked proposal is a vector (no norm of the frame is 0), it has
no component along the third axis of the frame: for an interior node it is
orthogonal to `up.point − down.point`, for a tip node to `point − down.point`. -/
theorem fluct_proposed_checked_orthogonal (M : Libm R) (A : Axon R) (this : node R)
    (xy : R × R) (d : Point R) (h : fluct_proposed_checked M A this xy = some (some d)) :
    (∀ up down : node R, this.up.bind A.deref = some up → this.down.bind A.deref = some down →
      Point.dot d (Point.difference up.point down.point) = 0) ∧
    (∀ down dd : node R, this.up.bind A.deref = none → this.down.bind A.deref = some down →
      down.down.bind A.deref = some dd →
      Point.dot d (Point.difference this.point down.point) = 0) := by
  have e := fluct_proposed_checked_eq M A this xy d h
  constructor
  · intro up down hu hd
    obtain ⟨p, h1, h2⟩ := (fluct_proposed_orthogonal M A this xy).1 up down hu hd
    rw [e] at h1
    cases h1
    exact h2
  · intro down dd hu hd hdd
    obtain ⟨p, h1, h2⟩ := (fluct_proposed_orthogonal M A this xy).2 down dd hu hd hdd
    rw [e] at h1
    cases h1
    exact h2

end CheckedOrthogonal

end MTCylinder
